import Mathlib

/-!
# ParseXnb: a shallow embedding of the example XNB parser

Source: `Samples/XNA_XNB_Format/Example XNB Parser/ParseXnb`.

Conventions of the embedding.

* `wstring` is a list of UTF-16 code units (`wchar_t` is 16 bits wide), each a `Nat`.
* A `TypeReader*` is the index of the reader in `TypeReaderManager::typeReaders`
  (the manager owns every reader, the vector is append-only); `nullptr` and a
  pointer member that was never assigned are `none`.
* C++ exceptions, a failed `assert` and operations without defined behaviour
  (a vector subscript out of range, a shift by 32 or more) are all outcomes of
  type `Error`; every fallible function returns `Except Error _`.
* Non-const member functions return the object they may have changed.
* `printf` is not executed: the log is the list of `printf` calls made.
-/

namespace ParseXnb

/-! ## Strings -/

/-- A `std::wstring`: the sequence of its 16-bit code units. -/
abbrev wstring := List Nat

/-- The wide string literal `L"..."` (used for ASCII literals only). -/
def L (s : String) : wstring := s.toList.map Char.toNat

/-- `s.find(c, pos)`: the first index `>= pos` holding `c`; `none` is `npos`. -/
def find (s : wstring) (c : Nat) (pos : Nat) : Option Nat :=
  match s, pos with
  | [], _ => none
  | x :: xs, 0 => if x = c then some 0 else (find xs c 0).map (· + 1)
  | _ :: xs, pos + 1 => (find xs c pos).map (· + 1)

/-- `s[i]`; at `i == s.size()` the terminating `L'\0'` is read. -/
def charAt (s : wstring) (i : Nat) : Nat := s.getD i 0

/-- `s.substr(pos, n)`. -/
def substr (s : wstring) (pos n : Nat) : wstring := (s.drop pos).take n

/-- `s.erase(pos, n)`. -/
def erase (s : wstring) (pos n : Nat) : wstring := s.take pos ++ s.drop (pos + n)

/-- `s.erase(pos)`: erase to the end. -/
def eraseToEnd (s : wstring) (pos : Nat) : wstring := s.take pos

/-- `iswdigit` (the decimal digits `0`..`9`). -/
def iswdigit (c : Nat) : Bool := decide (48 ≤ c) && decide (c ≤ 57)

/-- `iswprint` in the "C" locale (only used to pick a log format). -/
def iswprint (c : Nat) : Bool := decide (32 ≤ c) && decide (c ≤ 126)

/-- The decimal digits printed by `%d` / `%u` for a natural number. -/
def decimal (n : Nat) : wstring := L (Nat.repr n)

/-! ## Outcomes -/

/-- How a call can fail.  The first group are the `throw exception(...)`
statements of the source, named after their messages. -/
inductive Error
  /-- "Error reading file." (`BinaryReader::ReadByte`) -/
  | errorReadingFile
  /-- "Not an XNB file." -/
  | notAnXnbFile
  /-- "XNB file has been truncated." -/
  | truncated
  /-- "Don't support reading the contents of compressed XNB files." -/
  | compressedNotSupported
  /-- "End position does not match XNB header: unexpected amount of data was read." -/
  | endPositionMismatch
  /-- "Invalid XNB file: typeId is out of range." -/
  | typeIdOutOfRange
  /-- "Invalid XNB file: got an unexpected typeId." -/
  | unexpectedTypeId
  /-- "Can't find type reader '%S'." -/
  | cantFindTypeReader (wanted : wstring)
  /-- "Can't find reader for target type '%S'." -/
  | cantFindTargetType (wanted : wstring)
  /-- "ObjectReader should never be invoked directly." -/
  | objectReaderInvoked
  /-- "TextureReader should never be invoked directly." -/
  | textureReaderInvoked
  /-- "Cannot parse XNB files that use automatic serialization." -/
  | reflectiveReader
  /-- The `assert` in `TypeReaderManager::GetByReaderName` failed (in a build
  without `NDEBUG`): the program is aborted. -/
  | assertionFailed
  /-- The invalid parameter handler of the C runtime, which `sprintf_s` calls when
  the text does not fit the buffer: the program ends there, and the `throw` that
  follows the call is not reached. -/
  | invalidParameter
  /-- An operation whose behaviour C++ leaves undefined. -/
  | undefinedBehavior
  /-- The embedding ran out of recursion fuel (never a behaviour of the program). -/
  | outOfFuel
  deriving DecidableEq, Repr

deriving instance DecidableEq for Except

/-- A member function of an object of type `σ`: from the object before the call
to the value returned, or the failure, and the object after the call.  The object
survives a failure, as it does a C++ exception. -/
def Method (σ α : Type) : Type := σ → Except Error α × σ

/-- `return a;` -/
def Method.pure {σ α : Type} (a : α) : Method σ α := fun s => (.ok a, s)

/-- Sequencing: a failure of the first call ends the function. -/
def Method.bind {σ α β : Type} (x : Method σ α) (f : α → Method σ β) : Method σ β :=
  fun s =>
    match x s with
    | (.ok a, s) => f a s
    | (.error e, s) => (.error e, s)

instance {σ : Type} : Monad (Method σ) where
  pure := Method.pure
  bind := Method.bind

/-- `throw` (or any other failure). -/
def Method.fail {σ α : Type} (e : Error) : Method σ α := fun s => (.error e, s)

/-- The object itself (`*this`). -/
def Method.get {σ : Type} : Method σ σ := fun s => (.ok s, s)

/-- An update of the object. -/
def Method.modify {σ : Type} (f : σ → σ) : Method σ Unit := fun s => (.ok (), f s)

/-- The result of a const member function that may fail. -/
def Method.ofExcept {σ α : Type} (x : Except Error α) : Method σ α := fun s => (x, s)

/-- A call of a member function of a sub-object (a base class or a member),
reached through `get` and stored back with `set`. -/
def Method.lift {σ τ α : Type} (get : σ → τ) (set : σ → τ → σ) (x : Method τ α) :
    Method σ α :=
  fun s =>
    match x (get s) with
    | (result, t) => (result, set s t)

/-- `for (uint32_t i = start; i < start + count; i++) body(i);` -/
def forLoop.go {σ : Type} (body : Nat → Method σ Unit) : Nat → Nat → Method σ Unit
  | 0, _ => pure ()
  | count + 1, i => do
    body i
    forLoop.go body count (i + 1)

/-- `for (uint32_t i = 0; i < count; i++) body(i);` -/
def forLoop {σ : Type} (count : Nat) (body : Nat → Method σ Unit) : Method σ Unit :=
  forLoop.go body count 0

/-- `for each (T x in xs) body(x);` -/
def forEach {σ α : Type} (body : α → Method σ Unit) : List α → Method σ Unit
  | [] => pure ()
  | x :: xs => do
    body x
    forEach body xs

/-! ## TypeNameParser: `StripAssemblyVersion` and `SplitGenericTypeName` -/

/-- The `while` loop of `TypeReaderManager::StripAssemblyVersion`, one iteration per
unit of fuel; `none` only when the fuel runs out.  The guard
`commaIndex + 1 < typeName.npos` compares with `npos` (not with the size) and is
true for every index into a string, so only the character test remains; reading
`typeName[commaIndex + 1]` at the end of the string yields the terminator. -/
def StripAssemblyVersion.loop : Nat → wstring → Nat → Option wstring
  | 0, _, _ => none
  | fuel + 1, typeName, commaIndex =>
    match find typeName 44 commaIndex with
    | none => some typeName
    | some commaIndex =>
      if charAt typeName (commaIndex + 1) = 91 then
        -- Skip past the comma in the ],[ part of a generic type argument list.
        StripAssemblyVersion.loop fuel typeName (commaIndex + 1)
      else
        -- Strip trailing assembly version information after other commas.
        match find typeName 93 commaIndex with
        | some closeBracket =>
          StripAssemblyVersion.loop fuel
            (erase typeName commaIndex (closeBracket - commaIndex)) commaIndex
        | none =>
          StripAssemblyVersion.loop fuel (eraseToEnd typeName commaIndex) commaIndex

/-- `TypeReaderManager::StripAssemblyVersion`.  Every iteration of the loop makes
`typeName.size() - commaIndex` smaller, so `size + 1` iterations are enough
(`StripAssemblyVersion_loop_eq`). -/
def StripAssemblyVersion (typeName : wstring) : wstring :=
  (StripAssemblyVersion.loop (typeName.length + 1) typeName 0).getD typeName

/-- `while (pos < typeName.size() && p(typeName[pos])) pos++;` -/
def skipWhile (p : Nat → Bool) (typeName : wstring) (pos : Nat) : Nat :=
  pos + ((typeName.drop pos).takeWhile p).length

/-- The `for (end = pos; end < typeName.size(); end++)` loop of
`SplitGenericTypeName` over the characters from `end` on: the value of `end` when
the loop stops (at a `]` met with `nesting == 0`, or at the end of the string). -/
def findArgumentEnd : List Nat → Nat → Nat → Nat
  | [], _, endIndex => endIndex
  | c :: rest, nesting, endIndex =>
    if c = 91 then findArgumentEnd rest (nesting + 1) (endIndex + 1)
    else if c = 93 then
      if nesting > 0 then findArgumentEnd rest (nesting - 1) (endIndex + 1) else endIndex
    else findArgumentEnd rest nesting (endIndex + 1)

/-- The argument-splitting `while` loop of `SplitGenericTypeName`, one iteration
per unit of fuel; `none` only when the fuel runs out. -/
def SplitGenericTypeName.loop : Nat → wstring → Nat → List wstring → Option (List wstring)
  | 0, _, _, _ => none
  | fuel + 1, typeName, pos, genericArguments =>
    if pos < typeName.length ∧ charAt typeName pos ≠ 93 then
      -- Locate the end of the current type name argument.
      let endIndex := findArgumentEnd (typeName.drop pos) 0 pos
      -- Extract the type name argument.
      let genericArguments := genericArguments ++ [substr typeName pos (endIndex - pos)]
      -- Skip past the type name, plus any subsequent "],[" goo.
      let pos := endIndex
      let pos := if pos < typeName.length ∧ charAt typeName pos = 93 then pos + 1 else pos
      let pos := if pos < typeName.length ∧ charAt typeName pos = 44 then pos + 1 else pos
      let pos := if pos < typeName.length ∧ charAt typeName pos = 91 then pos + 1 else pos
      SplitGenericTypeName.loop fuel typeName pos genericArguments
    else some genericArguments

/-- `TypeReaderManager::SplitGenericTypeName`: `none` is `return false`, and
`some (genericName, genericArguments)` is `return true` with the two out
parameters (the caller passes an empty argument vector).  An iteration of the
argument loop moves `pos` forward, so `size + 1` iterations are enough. -/
def SplitGenericTypeName (typeName : wstring) : Option (wstring × List wstring) :=
  -- Look for the ` generic marker character.
  match find typeName 96 0 with
  | none => none
  | some pos =>
    -- Everything to the left of ` is the generic type name.
    let genericName := substr typeName 0 pos
    -- Advance to the start of the generic argument list.
    let pos := pos + 1
    let pos := skipWhile iswdigit typeName pos
    let pos := skipWhile (fun c => decide (c = 91)) typeName pos
    some (genericName,
      (SplitGenericTypeName.loop (typeName.length + 1) typeName pos []).getD [])

/-! ## Type readers -/

/-- The reader classes registered with `RegisterTypeReader<T>` (not generic). -/
inductive ReaderClass
  | ByteReader | SByteReader | Int16Reader | UInt16Reader | Int32Reader | UInt32Reader
  | Int64Reader | UInt64Reader | SingleReader | DoubleReader | BooleanReader | CharReader
  | StringReader | ObjectReader
  | TimeSpanReader | DateTimeReader | DecimalReader | ExternalReferenceReader
  | Vector2Reader | Vector3Reader | Vector4Reader | MatrixReader | QuaternionReader
  | ColorReader | PlaneReader | PointReader | RectangleReader | BoundingBoxReader
  | BoundingSphereReader | BoundingFrustumReader | RayReader | CurveReader
  | TextureReader | Texture2DReader | Texture3DReader | TextureCubeReader
  | IndexBufferReader | VertexBufferReader | VertexDeclarationReader | EffectReader
  | EffectMaterialReader | BasicEffectReader | AlphaTestEffectReader
  | DualTextureEffectReader | EnvironmentMapEffectReader | SkinnedEffectReader
  | SpriteFontReader | ModelReader
  | SoundEffectReader | SongReader | VideoReader
  deriving DecidableEq, Repr

/-- The classes derived from `GenericTypeReader`, registered with
`RegisterGenericReader<T>`; a value also stands for the factory
`GenericTypeReaderFactoryT<T>`. -/
inductive GenericReaderClass
  | EnumReader | NullableReader | ArrayReader | ListReader | DictionaryReader
  | ReflectiveReader
  deriving DecidableEq, Repr

/-- `T::TargetType()` of the non-generic reader classes. -/
def ReaderClass.TargetType : ReaderClass → wstring
  | .ByteReader => L "System.Byte"
  | .SByteReader => L "System.SByte"
  | .Int16Reader => L "System.Int16"
  | .UInt16Reader => L "System.UInt16"
  | .Int32Reader => L "System.Int32"
  | .UInt32Reader => L "System.UInt32"
  | .Int64Reader => L "System.Int64"
  | .UInt64Reader => L "System.UInt64"
  | .SingleReader => L "System.Single"
  | .DoubleReader => L "System.Double"
  | .BooleanReader => L "System.Boolean"
  | .CharReader => L "System.Char"
  | .StringReader => L "System.String"
  | .ObjectReader => L "System.Object"
  | .TimeSpanReader => L "System.TimeSpan"
  | .DateTimeReader => L "System.DateTime"
  | .DecimalReader => L "System.Decimal"
  | .ExternalReferenceReader => L "ExternalReference"
  | .Vector2Reader => L "Microsoft.Xna.Framework.Vector2"
  | .Vector3Reader => L "Microsoft.Xna.Framework.Vector3"
  | .Vector4Reader => L "Microsoft.Xna.Framework.Vector4"
  | .MatrixReader => L "Microsoft.Xna.Framework.Matrix"
  | .QuaternionReader => L "Microsoft.Xna.Framework.Quaternion"
  | .ColorReader => L "Microsoft.Xna.Framework.Color"
  | .PlaneReader => L "Microsoft.Xna.Framework.Plane"
  | .PointReader => L "Microsoft.Xna.Framework.Point"
  | .RectangleReader => L "Microsoft.Xna.Framework.Rectangle"
  | .BoundingBoxReader => L "Microsoft.Xna.Framework.BoundingBox"
  | .BoundingSphereReader => L "Microsoft.Xna.Framework.BoundingSphere"
  | .BoundingFrustumReader => L "Microsoft.Xna.Framework.BoundingFrustum"
  | .RayReader => L "Microsoft.Xna.Framework.Ray"
  | .CurveReader => L "Microsoft.Xna.Framework.Curve"
  | .TextureReader => L "Microsoft.Xna.Framework.Graphics.Texture"
  | .Texture2DReader => L "Microsoft.Xna.Framework.Graphics.Texture2D"
  | .Texture3DReader => L "Microsoft.Xna.Framework.Graphics.Texture3D"
  | .TextureCubeReader => L "Microsoft.Xna.Framework.Graphics.TextureCube"
  | .IndexBufferReader => L "Microsoft.Xna.Framework.Graphics.IndexBuffer"
  | .VertexBufferReader => L "Microsoft.Xna.Framework.Graphics.VertexBuffer"
  | .VertexDeclarationReader => L "Microsoft.Xna.Framework.Graphics.VertexDeclaration"
  | .EffectReader => L "Microsoft.Xna.Framework.Graphics.Effect"
  | .EffectMaterialReader => L "Microsoft.Xna.Framework.Graphics.EffectMaterial"
  | .BasicEffectReader => L "Microsoft.Xna.Framework.Graphics.BasicEffect"
  | .AlphaTestEffectReader => L "Microsoft.Xna.Framework.Graphics.AlphaTestEffect"
  | .DualTextureEffectReader => L "Microsoft.Xna.Framework.Graphics.DualTextureEffect"
  | .EnvironmentMapEffectReader => L "Microsoft.Xna.Framework.Graphics.EnvironmentMapEffect"
  | .SkinnedEffectReader => L "Microsoft.Xna.Framework.Graphics.SkinnedEffect"
  | .SpriteFontReader => L "Microsoft.Xna.Framework.Graphics.SpriteFont"
  | .ModelReader => L "Microsoft.Xna.Framework.Graphics.Model"
  | .SoundEffectReader => L "Microsoft.Xna.Framework.Audio.SoundEffect"
  | .SongReader => L "Microsoft.Xna.Framework.Media.Song"
  | .VideoReader => L "Microsoft.Xna.Framework.Media.Video"

/-- `T::ReaderName()` of the non-generic reader classes. -/
def ReaderClass.ReaderName : ReaderClass → wstring
  | .ByteReader => L "Microsoft.Xna.Framework.Content.ByteReader"
  | .SByteReader => L "Microsoft.Xna.Framework.Content.SByteReader"
  | .Int16Reader => L "Microsoft.Xna.Framework.Content.Int16Reader"
  | .UInt16Reader => L "Microsoft.Xna.Framework.Content.UInt16Reader"
  | .Int32Reader => L "Microsoft.Xna.Framework.Content.Int32Reader"
  | .UInt32Reader => L "Microsoft.Xna.Framework.Content.UInt32Reader"
  | .Int64Reader => L "Microsoft.Xna.Framework.Content.Int64Reader"
  | .UInt64Reader => L "Microsoft.Xna.Framework.Content.UInt64Reader"
  | .SingleReader => L "Microsoft.Xna.Framework.Content.SingleReader"
  | .DoubleReader => L "Microsoft.Xna.Framework.Content.DoubleReader"
  | .BooleanReader => L "Microsoft.Xna.Framework.Content.BooleanReader"
  | .CharReader => L "Microsoft.Xna.Framework.Content.CharReader"
  | .StringReader => L "Microsoft.Xna.Framework.Content.StringReader"
  | .ObjectReader => L "Microsoft.Xna.Framework.Content.ObjectReader"
  | .TimeSpanReader => L "Microsoft.Xna.Framework.Content.TimeSpanReader"
  | .DateTimeReader => L "Microsoft.Xna.Framework.Content.DateTimeReader"
  | .DecimalReader => L "Microsoft.Xna.Framework.Content.DecimalReader"
  | .ExternalReferenceReader => L "Microsoft.Xna.Framework.Content.ExternalReferenceReader"
  | .Vector2Reader => L "Microsoft.Xna.Framework.Content.Vector2Reader"
  | .Vector3Reader => L "Microsoft.Xna.Framework.Content.Vector3Reader"
  | .Vector4Reader => L "Microsoft.Xna.Framework.Content.Vector4Reader"
  | .MatrixReader => L "Microsoft.Xna.Framework.Content.MatrixReader"
  | .QuaternionReader => L "Microsoft.Xna.Framework.Content.QuaternionReader"
  | .ColorReader => L "Microsoft.Xna.Framework.Content.ColorReader"
  | .PlaneReader => L "Microsoft.Xna.Framework.Content.PlaneReader"
  | .PointReader => L "Microsoft.Xna.Framework.Content.PointReader"
  | .RectangleReader => L "Microsoft.Xna.Framework.Content.RectangleReader"
  | .BoundingBoxReader => L "Microsoft.Xna.Framework.Content.BoundingBoxReader"
  | .BoundingSphereReader => L "Microsoft.Xna.Framework.Content.BoundingSphereReader"
  | .BoundingFrustumReader => L "Microsoft.Xna.Framework.Content.BoundingFrustumReader"
  | .RayReader => L "Microsoft.Xna.Framework.Content.RayReader"
  | .CurveReader => L "Microsoft.Xna.Framework.Content.CurveReader"
  | .TextureReader => L "Microsoft.Xna.Framework.Content.TextureReader"
  | .Texture2DReader => L "Microsoft.Xna.Framework.Content.Texture2DReader"
  | .Texture3DReader => L "Microsoft.Xna.Framework.Content.Texture3DReader"
  | .TextureCubeReader => L "Microsoft.Xna.Framework.Content.TextureCubeReader"
  | .IndexBufferReader => L "Microsoft.Xna.Framework.Content.IndexBufferReader"
  | .VertexBufferReader => L "Microsoft.Xna.Framework.Content.VertexBufferReader"
  | .VertexDeclarationReader => L "Microsoft.Xna.Framework.Content.VertexDeclarationReader"
  | .EffectReader => L "Microsoft.Xna.Framework.Content.EffectReader"
  | .EffectMaterialReader => L "Microsoft.Xna.Framework.Content.EffectMaterialReader"
  | .BasicEffectReader => L "Microsoft.Xna.Framework.Content.BasicEffectReader"
  | .AlphaTestEffectReader => L "Microsoft.Xna.Framework.Content.AlphaTestEffectReader"
  | .DualTextureEffectReader => L "Microsoft.Xna.Framework.Content.DualTextureEffectReader"
  | .EnvironmentMapEffectReader => L "Microsoft.Xna.Framework.Content.EnvironmentMapEffectReader"
  | .SkinnedEffectReader => L "Microsoft.Xna.Framework.Content.SkinnedEffectReader"
  | .SpriteFontReader => L "Microsoft.Xna.Framework.Content.SpriteFontReader"
  | .ModelReader => L "Microsoft.Xna.Framework.Content.ModelReader"
  | .SoundEffectReader => L "Microsoft.Xna.Framework.Content.SoundEffectReader"
  | .SongReader => L "Microsoft.Xna.Framework.Content.SongReader"
  | .VideoReader => L "Microsoft.Xna.Framework.Content.VideoReader"

/-- `T::IsValueType()` of the non-generic reader classes (`false` unless the
class overrides it). -/
def ReaderClass.IsValueType : ReaderClass → Bool
  | .ByteReader | .SByteReader | .Int16Reader | .UInt16Reader | .Int32Reader
  | .UInt32Reader | .Int64Reader | .UInt64Reader | .SingleReader | .DoubleReader
  | .BooleanReader | .CharReader => true
  | .TimeSpanReader | .DateTimeReader | .DecimalReader => true
  | .Vector2Reader | .Vector3Reader | .Vector4Reader | .MatrixReader
  | .QuaternionReader | .ColorReader | .PlaneReader | .PointReader | .RectangleReader
  | .BoundingBoxReader | .BoundingSphereReader | .RayReader => true
  | _ => false

/-- `T::GenericTargetType()`. -/
def GenericReaderClass.GenericTargetType : GenericReaderClass → wstring
  | .EnumReader => L "System.Enum"
  | .NullableReader => L "System.Nullable"
  | .ArrayReader => L "System.Array"
  | .ListReader => L "System.Collections.Generic.List"
  | .DictionaryReader => L "System.Collections.Generic.Dictionary"
  | .ReflectiveReader => L "System.Object"

/-- `T::GenericReaderName()`. -/
def GenericReaderClass.GenericReaderName : GenericReaderClass → wstring
  | .EnumReader => L "Microsoft.Xna.Framework.Content.EnumReader"
  | .NullableReader => L "Microsoft.Xna.Framework.Content.NullableReader"
  | .ArrayReader => L "Microsoft.Xna.Framework.Content.ArrayReader"
  | .ListReader => L "Microsoft.Xna.Framework.Content.ListReader"
  | .DictionaryReader => L "Microsoft.Xna.Framework.Content.DictionaryReader"
  | .ReflectiveReader => L "Microsoft.Xna.Framework.Content.ReflectiveReader"

/-- An object of a class derived from `GenericTypeReader`: the three members set
by `Specialize`, and the reader pointers of the derived classes
(`NullableReader::valueReader`, `ArrayReader::elementReader`,
`ListReader::elementReader`, `DictionaryReader::keyReader` and `valueReader`),
which are `none` until `Initialize` assigns them. -/
structure GenericTypeReader where
  cls : GenericReaderClass
  targetType : wstring
  readerName : wstring
  genericArguments : List wstring
  elementReader : Option Nat
  keyReader : Option Nat
  valueReader : Option Nat
  deriving DecidableEq, Repr

/-- A reader object owned by the manager. -/
inductive TypeReader
  | plain (cls : ReaderClass)
  | generic (reader : GenericTypeReader)
  deriving DecidableEq, Repr

/-- `GenericTypeReader::GenericArgument(i)`: `genericArguments[i]`, which has no
defined behaviour when `i` is not an index of the vector. -/
def GenericTypeReader.GenericArgument (reader : GenericTypeReader) (i : Nat) :
    Except Error wstring :=
  match reader.genericArguments.get? i with
  | some argument => .ok argument
  | none => .error .undefinedBehavior

/-- The virtual `TargetType()`: `EnumReader` and `ReflectiveReader` return
`GenericArgument(0)`, `ArrayReader` returns `GenericArgument(0) + L"[]"`, the other
generic readers return the `targetType` member. -/
def TypeReader.TargetType : TypeReader → Except Error wstring
  | .plain cls => .ok cls.TargetType
  | .generic reader =>
    match reader.cls with
    | .EnumReader | .ReflectiveReader => reader.GenericArgument 0
    | .ArrayReader => do
      let argument ← reader.GenericArgument 0
      pure (argument ++ L "[]")
    | .NullableReader | .ListReader | .DictionaryReader => .ok reader.targetType

/-- The virtual `ReaderName()`; no generic reader overrides
`GenericTypeReader::ReaderName`. -/
def TypeReader.ReaderName : TypeReader → wstring
  | .plain cls => cls.ReaderName
  | .generic reader => reader.readerName

/-- The virtual `IsValueType()`. -/
def TypeReader.IsValueType : TypeReader → Bool
  | .plain cls => cls.IsValueType
  | .generic reader =>
    match reader.cls with
    | .EnumReader | .NullableReader => true
    | .ArrayReader | .ListReader | .DictionaryReader | .ReflectiveReader => false

/-- The loop of `CreateTypeReader` that appends the arguments to the suffix; the
test `&genericArgument != &genericArguments.back()` compares addresses, so the
separator follows every element but the last one. -/
def appendGenericArguments (genericSuffix : wstring) : List wstring → wstring
  | [] => genericSuffix
  | [genericArgument] => genericSuffix ++ genericArgument
  | genericArgument :: rest =>
    appendGenericArguments (genericSuffix ++ genericArgument ++ L "],[") rest

/-- `GenericTypeReaderFactory::CreateTypeReader(genericArguments)` followed by
`Specialize`: the new reader object. -/
def GenericReaderClass.CreateTypeReader (factory : GenericReaderClass)
    (genericArguments : List wstring) : GenericTypeReader :=
  -- Build up a .NET format generic type name suffix, eg. "Foo`2[[ArgType1],[ArgType2]]".
  let genericArgumentCount := [96] ++ decimal genericArguments.length ++ L "[["
  let genericSuffix := appendGenericArguments genericArgumentCount genericArguments
  let genericSuffix := genericSuffix ++ L "]]"
  { cls := factory
    targetType := factory.GenericTargetType ++ genericSuffix
    readerName := factory.GenericReaderName ++ genericSuffix
    genericArguments := genericArguments
    elementReader := none
    keyReader := none
    valueReader := none }

/-! ## TypeReaderManager -/

/-- `TypeReaderManager`: the readers it owns, in registration order, and the
generic reader factories.  `NDEBUG` is not a member of the class: it says whether
the program was built with `NDEBUG` defined, in which case `assert` expands to
nothing.  The macro comes from `<cassert>`, which is not part of the sources, so
the build is a parameter of the model; no member function changes it. -/
structure TypeReaderManager where
  typeReaders : List TypeReader
  genericReaders : List GenericReaderClass
  NDEBUG : Bool
  deriving DecidableEq, Repr

/-- `RegisterTypeReader<T>()`. -/
def TypeReaderManager.RegisterTypeReader (m : TypeReaderManager) (T : ReaderClass) :
    TypeReaderManager :=
  { m with typeReaders := m.typeReaders ++ [.plain T] }

/-- `RegisterGenericReader<T>()`. -/
def TypeReaderManager.RegisterGenericReader (m : TypeReaderManager)
    (T : GenericReaderClass) : TypeReaderManager :=
  { m with genericReaders := m.genericReaders ++ [T] }

/-- A manager as constructed: both vectors empty; in a build without `NDEBUG`,
where `assert` is checked. -/
def TypeReaderManager.empty : TypeReaderManager :=
  { typeReaders := [], genericReaders := [], NDEBUG := false }

/-- `TypeReaderManager::RegisterStandardTypes`. -/
def TypeReaderManager.RegisterStandardTypes (m : TypeReaderManager) :
    TypeReaderManager :=
  -- Primitive types.
  let m := m.RegisterTypeReader .ByteReader
  let m := m.RegisterTypeReader .SByteReader
  let m := m.RegisterTypeReader .Int16Reader
  let m := m.RegisterTypeReader .UInt16Reader
  let m := m.RegisterTypeReader .Int32Reader
  let m := m.RegisterTypeReader .UInt32Reader
  let m := m.RegisterTypeReader .Int64Reader
  let m := m.RegisterTypeReader .UInt64Reader
  let m := m.RegisterTypeReader .SingleReader
  let m := m.RegisterTypeReader .DoubleReader
  let m := m.RegisterTypeReader .BooleanReader
  let m := m.RegisterTypeReader .CharReader
  let m := m.RegisterTypeReader .StringReader
  let m := m.RegisterTypeReader .ObjectReader
  -- System types.
  let m := m.RegisterGenericReader .EnumReader
  let m := m.RegisterGenericReader .NullableReader
  let m := m.RegisterGenericReader .ArrayReader
  let m := m.RegisterGenericReader .ListReader
  let m := m.RegisterGenericReader .DictionaryReader
  let m := m.RegisterTypeReader .TimeSpanReader
  let m := m.RegisterTypeReader .DateTimeReader
  let m := m.RegisterTypeReader .DecimalReader
  let m := m.RegisterTypeReader .ExternalReferenceReader
  let m := m.RegisterGenericReader .ReflectiveReader
  -- Math types.
  let m := m.RegisterTypeReader .Vector2Reader
  let m := m.RegisterTypeReader .Vector3Reader
  let m := m.RegisterTypeReader .Vector4Reader
  let m := m.RegisterTypeReader .MatrixReader
  let m := m.RegisterTypeReader .QuaternionReader
  let m := m.RegisterTypeReader .ColorReader
  let m := m.RegisterTypeReader .PlaneReader
  let m := m.RegisterTypeReader .PointReader
  let m := m.RegisterTypeReader .RectangleReader
  let m := m.RegisterTypeReader .BoundingBoxReader
  let m := m.RegisterTypeReader .BoundingSphereReader
  let m := m.RegisterTypeReader .BoundingFrustumReader
  let m := m.RegisterTypeReader .RayReader
  let m := m.RegisterTypeReader .CurveReader
  -- Graphics types.
  let m := m.RegisterTypeReader .TextureReader
  let m := m.RegisterTypeReader .Texture2DReader
  let m := m.RegisterTypeReader .Texture3DReader
  let m := m.RegisterTypeReader .TextureCubeReader
  let m := m.RegisterTypeReader .IndexBufferReader
  let m := m.RegisterTypeReader .VertexBufferReader
  let m := m.RegisterTypeReader .VertexDeclarationReader
  let m := m.RegisterTypeReader .EffectReader
  let m := m.RegisterTypeReader .EffectMaterialReader
  let m := m.RegisterTypeReader .BasicEffectReader
  let m := m.RegisterTypeReader .AlphaTestEffectReader
  let m := m.RegisterTypeReader .DualTextureEffectReader
  let m := m.RegisterTypeReader .EnvironmentMapEffectReader
  let m := m.RegisterTypeReader .SkinnedEffectReader
  let m := m.RegisterTypeReader .SpriteFontReader
  let m := m.RegisterTypeReader .ModelReader
  -- Media types.
  let m := m.RegisterTypeReader .SoundEffectReader
  let m := m.RegisterTypeReader .SongReader
  let m := m.RegisterTypeReader .VideoReader
  m

/-- The first loop of `GetByReaderName`: the index of the first reader whose
`ReaderName()` equals `wanted`, counting from `index`. -/
def findByReaderName (wanted : wstring) : List TypeReader → Nat → Option Nat
  | [], _ => none
  | reader :: rest, index =>
    if reader.ReaderName = wanted then some index
    else findByReaderName wanted rest (index + 1)

/-- The second loop of `GetByReaderName`: the first factory whose
`GenericReaderName()` equals `genericReaderName`. -/
def findFactory (genericReaderName : wstring) :
    List GenericReaderClass → Option GenericReaderClass
  | [] => none
  | factory :: rest =>
    if factory.GenericReaderName = genericReaderName then some factory
    else findFactory genericReaderName rest

/-- `sprintf_s(message, format, text.c_str())` for a buffer `char message[size]`
and a format that holds one `%S`, with `before` characters in front of it and
`after` characters behind it.  `%S` writes the wide C string: it ends at the first
`L'\0'`, and each character is converted to one `char`; the program never calls
`setlocale`, and in the "C" locale a character above 255 has no `char`: the
formatting stops there with an error, the message is left empty and the call
returns.  When the text written, and for a complete text its terminating null, do
not fit the buffer, the C runtime calls the invalid parameter handler, which ends
the program. -/
def sprintf_s (size before after : Nat) (text : wstring) : Except Error Unit :=
  let text := text.takeWhile (· ≠ 0)
  let converted := text.takeWhile (· ≤ 255)
  if converted.length = text.length then
    if before + text.length + after + 1 ≤ size then .ok () else .error .invalidParameter
  else
    if before + converted.length ≤ size then .ok () else .error .invalidParameter

/-- `char message[256]; sprintf_s(message, format, wanted.c_str());
throw exception(message);`: the failure that ends the call, which is the
exception `thrown` when `sprintf_s` returns. -/
def fatalError (before after : Nat) (wanted : wstring) (thrown : Error) : Error :=
  match sprintf_s 256 before after wanted with
  | .ok _ => thrown
  | .error e => e

/-- `TypeReaderManager::GetByReaderName`; the value returned is the reader found
or created. -/
def TypeReaderManager.GetByReaderName (readerName : wstring) :
    Method TypeReaderManager Nat := fun m =>
  let wanted := StripAssemblyVersion readerName
  -- Look for a type reader with this name.
  match findByReaderName wanted m.typeReaders 0 with
  | some reader => (.ok reader, m)
  | none =>
    -- Could this be a specialization of a generic reader?
    match SplitGenericTypeName wanted with
    | some (genericReaderName, genericArguments) =>
      -- Look for a generic reader factory with this name.
      match findFactory genericReaderName m.genericReaders with
      | some factory =>
        -- Create a specialized generic reader instance.
        let reader := factory.CreateTypeReader genericArguments
        -- `assert(reader->ReaderName() == wanted);` aborts the program in a build
        -- without `NDEBUG` and is no statement at all in a build with it.
        if m.NDEBUG = false ∧ reader.readerName ≠ wanted then (.error .assertionFailed, m)
        else
          (.ok m.typeReaders.length,
            { m with typeReaders := m.typeReaders ++ [.generic reader] })
      -- Fatal error if we cannot find a suitable reader: the format is
      -- "Can't find type reader '%S'.", 24 characters, `%S` and 2 characters.
      | none => (.error (fatalError 24 2 wanted (.cantFindTypeReader wanted)), m)
    | none => (.error (fatalError 24 2 wanted (.cantFindTypeReader wanted)), m)

/-- The loop of `GetByTargetType`: the index of the first reader whose
`TargetType()` equals `wanted`, counting from `index`; every reader up to the
match has its `TargetType()` called. -/
def findByTargetType (wanted : wstring) : List TypeReader → Nat → Except Error (Option Nat)
  | [], _ => .ok none
  | reader :: rest, index =>
    match reader.TargetType with
    | .ok targetType =>
      if targetType = wanted then .ok (some index)
      else findByTargetType wanted rest (index + 1)
    | .error e => .error e

/-- `TypeReaderManager::GetByTargetType`; the value returned is the reader found. -/
def TypeReaderManager.GetByTargetType (targetType : wstring) :
    Method TypeReaderManager Nat := fun m =>
  let wanted := StripAssemblyVersion targetType
  -- Look for a reader with this target type name.
  match findByTargetType wanted m.typeReaders 0 with
  | .ok (some reader) => (.ok reader, m)
  -- Fatal error if we cannot find a suitable reader: the format is
  -- "Can't find reader for target type '%S'.", 35 characters, `%S` and 2 characters.
  | .ok none => (.error (fatalError 35 2 wanted (.cantFindTargetType wanted)), m)
  | .error e => (.error e, m)

/-- The registry of `main`: a new manager after `RegisterStandardTypes`, in a
build without `NDEBUG`. -/
def standardManager : TypeReaderManager := TypeReaderManager.empty.RegisterStandardTypes

/-- The registry of `main` in a build with `NDEBUG`. -/
def releaseManager : TypeReaderManager := { standardManager with NDEBUG := true }

/-- The reader object a `TypeReader*` points to. -/
def TypeReaderManager.deref (m : TypeReaderManager) (reader : Nat) : Except Error TypeReader :=
  match m.typeReaders.get? reader with
  | some object => .ok object
  | none => .error .undefinedBehavior

/-- An assignment to the members of the generic reader object `reader` points to. -/
def TypeReaderManager.assign (reader : Nat) (f : GenericTypeReader → GenericTypeReader) :
    Method TypeReaderManager Unit :=
  Method.modify fun m =>
    match m.typeReaders.get? reader with
    | some (.generic g) => { m with typeReaders := m.typeReaders.set reader (.generic (f g)) }
    | _ => m

/-- The virtual `reader->Initialize(typeReaderManager)`: `NullableReader`,
`ArrayReader`, `ListReader` and `DictionaryReader` override the empty
`TypeReader::Initialize`. -/
def TypeReaderManager.Initialize (reader : Nat) : Method TypeReaderManager Unit := do
  let m ← Method.get
  match ← Method.ofExcept (m.deref reader) with
  | .plain _ => pure ()
  | .generic g =>
    match g.cls with
    | .NullableReader => do
      -- look up how to read our specific value type T.
      let valueReader ← TypeReaderManager.GetByTargetType (← Method.ofExcept (g.GenericArgument 0))
      TypeReaderManager.assign reader fun g => { g with valueReader := some valueReader }
    | .ArrayReader | .ListReader => do
      -- look up how to read our specific element type T.
      let elementReader ← TypeReaderManager.GetByTargetType (← Method.ofExcept (g.GenericArgument 0))
      TypeReaderManager.assign reader fun g => { g with elementReader := some elementReader }
    | .DictionaryReader => do
      -- look up how to read our specific types K and V.
      let keyReader ← TypeReaderManager.GetByTargetType (← Method.ofExcept (g.GenericArgument 0))
      TypeReaderManager.assign reader fun g => { g with keyReader := some keyReader }
      let valueReader ← TypeReaderManager.GetByTargetType (← Method.ofExcept (g.GenericArgument 1))
      TypeReaderManager.assign reader fun g => { g with valueReader := some valueReader }
    | .EnumReader | .ReflectiveReader => pure ()

/-- A call that a client makes on the manager. -/
inductive ManagerCall
  | GetByReaderName (readerName : wstring)
  | GetByTargetType (targetType : wstring)
  | Initialize (reader : Nat)
  deriving DecidableEq, Repr

/-- The manager after a call, whether the call returned or failed. -/
def ManagerCall.run : ManagerCall → TypeReaderManager → TypeReaderManager
  | .GetByReaderName readerName, m => (TypeReaderManager.GetByReaderName readerName m).2
  | .GetByTargetType targetType, m => (TypeReaderManager.GetByTargetType targetType m).2
  | .Initialize reader, m => (TypeReaderManager.Initialize reader m).2

/-- The manager after a sequence of calls. -/
def runCalls (calls : List ManagerCall) (m : TypeReaderManager) : TypeReaderManager :=
  calls.foldl (fun m call => call.run m) m

/-! ## BinaryReader -/

/-- `BinaryReader`: the `FILE*` opened in binary mode, as the bytes of the file
and the current file position. -/
structure BinaryReader where
  file : List Nat
  position : Nat
  deriving DecidableEq, Repr

namespace BinaryReader

/-- `BinaryReader::ReadByte`: `fgetc`, which fails at the end of the file. -/
def ReadByte : Method BinaryReader Nat := fun r =>
  match r.file.get? r.position with
  | some value => (.ok (value % 256), { r with position := r.position + 1 })
  | none => (.error .errorReadingFile, r)

/-- `BinaryReader::ReadUInt16`. -/
def ReadUInt16 : Method BinaryReader Nat := do
  let b1 ← ReadByte
  let b2 ← ReadByte
  return b1 ||| (b2 <<< 8)

/-- `BinaryReader::ReadUInt32`. -/
def ReadUInt32 : Method BinaryReader Nat := do
  let b1 ← ReadByte
  let b2 ← ReadByte
  let b3 ← ReadByte
  let b4 ← ReadByte
  return b1 ||| (b2 <<< 8) ||| (b3 <<< 16) ||| (b4 <<< 24)

/-- `BinaryReader::ReadUInt64`. -/
def ReadUInt64 : Method BinaryReader Nat := do
  let b1 ← ReadByte
  let b2 ← ReadByte
  let b3 ← ReadByte
  let b4 ← ReadByte
  let b5 ← ReadByte
  let b6 ← ReadByte
  let b7 ← ReadByte
  let b8 ← ReadByte
  return b1 ||| (b2 <<< 8) ||| (b3 <<< 16) ||| (b4 <<< 24) |||
    (b5 <<< 32) ||| (b6 <<< 40) ||| (b7 <<< 48) ||| (b8 <<< 56)

/-- The conversion of a `w`-bit unsigned value to the signed type of the same
width (`(int32_t)value` and the like): two's complement. -/
def toSigned (w : Nat) (value : Nat) : Int :=
  if value < 2 ^ (w - 1) then (value : Int) else (value : Int) - 2 ^ w

/-- `BinaryReader::ReadSByte`. -/
def ReadSByte : Method BinaryReader Int := do
  return toSigned 8 (← ReadByte)

/-- `BinaryReader::ReadInt16`. -/
def ReadInt16 : Method BinaryReader Int := do
  return toSigned 16 (← ReadUInt16)

/-- `BinaryReader::ReadInt32`. -/
def ReadInt32 : Method BinaryReader Int := do
  return toSigned 32 (← ReadUInt32)

/-- `BinaryReader::ReadInt64`. -/
def ReadInt64 : Method BinaryReader Int := do
  return toSigned 64 (← ReadUInt64)

end BinaryReader

/-- A `float`, kept as the 32 bits read from the file. -/
structure Single where
  bits : Nat
  deriving DecidableEq, Repr

/-- A `double`, kept as the 64 bits read from the file. -/
structure Double where
  bits : Nat
  deriving DecidableEq, Repr

namespace BinaryReader

/-- `BinaryReader::ReadSingle`: the bits of `ReadUInt32` reinterpreted. -/
def ReadSingle : Method BinaryReader Single := do
  let value ← ReadUInt32
  return ⟨value⟩

/-- `BinaryReader::ReadDouble`: the bits of `ReadUInt64` reinterpreted. -/
def ReadDouble : Method BinaryReader Double := do
  let value ← ReadUInt64
  return ⟨value⟩

/-- `BinaryReader::ReadBoolean`. -/
def ReadBoolean : Method BinaryReader Bool := do
  return (← ReadByte) != 0

/-- The loop `while (result & (0x80 >> byteCount)) byteCount++;` of `ReadChar`;
it stops at `byteCount == 8` at the latest, where the mask is zero. -/
def ReadChar.countBytes (result : Nat) : Nat → Nat → Nat
  | 0, byteCount => byteCount
  | fuel + 1, byteCount =>
    if result &&& (0x80 >>> byteCount) ≠ 0 then
      ReadChar.countBytes result fuel (byteCount + 1)
    else byteCount

/-- The loop `while (--byteCount) { result <<= 6; result |= ReadByte() & 0x3F; }`
of `ReadChar`, entered with `byteCount = n + 1`; `result` is a 16-bit `wchar_t`. -/
def ReadChar.continuation : Nat → Nat → Method BinaryReader Nat
  | 0, result => pure result
  | n + 1, result => do
    let result := (result <<< 6) % 2 ^ 16
    let b ← ReadByte
    ReadChar.continuation n (result ||| (b &&& 0x3F))

/-- `BinaryReader::ReadChar`. -/
def ReadChar : Method BinaryReader Nat := do
  let result ← ReadByte
  -- Decode UTF-8.
  if result &&& 0x80 ≠ 0 then
    let byteCount := ReadChar.countBytes result 8 1
    let result := result &&& ((1 <<< (8 - byteCount)) - 1)
    ReadChar.continuation (byteCount - 1) result
  else return result

/-- The `do ... while (value & 0x80)` loop of `Read7BitEncodedInt`.  A sixth
iteration would shift a 32-bit value by 35, which has no defined behaviour, so
six units of fuel are never used up. -/
def Read7BitEncodedInt.loop : Nat → Nat → Nat → Method BinaryReader Nat
  | 0, _, _ => Method.fail .outOfFuel
  | fuel + 1, result, bitsRead => do
    let value ← ReadByte
    if bitsRead ≥ 32 then Method.fail .undefinedBehavior
    else
      let result := result ||| (((value &&& 0x7f) <<< bitsRead) % 2 ^ 32)
      let bitsRead := bitsRead + 7
      if value &&& 0x80 ≠ 0 then Read7BitEncodedInt.loop fuel result bitsRead
      else return result

/-- `BinaryReader::Read7BitEncodedInt`. -/
def Read7BitEncodedInt : Method BinaryReader Nat :=
  Read7BitEncodedInt.loop 6 0 0

/-- `BinaryReader::ReadBytes`: `while (count--) result.push_back(ReadByte());`. -/
def ReadBytes : Nat → Method BinaryReader (List Nat)
  | 0 => pure []
  | count + 1 => do
    let b ← ReadByte
    let rest ← ReadBytes count
    return b :: rest

/-- `BinaryReader::FilePosition`: `ftell` converted to `uint32_t`. -/
def FilePosition (r : BinaryReader) : Nat := r.position % 2 ^ 32

/-- `BinaryReader::FileSize`: the position at the end of the file as a
`uint32_t`; the position is restored (seeking in a file does not fail). -/
def FileSize (r : BinaryReader) : Nat := r.file.length % 2 ^ 32

/-- The loop `while (FilePosition() < endOfString) result += ReadChar();` of
`ReadString`, one iteration per unit of fuel. -/
def ReadString.loop (endOfString : Nat) : Nat → wstring → Method BinaryReader wstring
  | 0, _ => Method.fail .outOfFuel
  | fuel + 1, result => do
    if (← Method.get).FilePosition < endOfString then
      let c ← ReadChar
      ReadString.loop endOfString fuel (result ++ [c])
    else return result

/-- `BinaryReader::ReadString`.  Every iteration reads at least one byte or
throws, so the loop runs at most once per byte left in the file. -/
def ReadString : Method BinaryReader wstring := do
  let stringLength ← Read7BitEncodedInt
  let r ← Method.get
  let endOfString := (r.FilePosition + stringLength) % 2 ^ 32
  ReadString.loop endOfString (r.file.length - r.position + 1) []

end BinaryReader

/-! ## Logger -/

/-- An argument of a `printf` call. -/
inductive PrintfArg
  /-- An integer (`%d`, `%u`, `%hd`, `%hu`, `%lld`, `%llu`, `%X`). -/
  | int (value : Int)
  /-- A `float` (`%g`). -/
  | single (value : Single)
  /-- A `double` (`%g`). -/
  | double (value : Double)
  /-- A `char const*` (`%s`); `none` is `nullptr`. -/
  | str (value : Option String)
  /-- A `wchar_t const*` (`%S`). -/
  | wstr (value : wstring)
  /-- A `wchar_t` (`%C`). -/
  | wchar (value : Nat)
  deriving DecidableEq, Repr

/-- An unsigned integer argument. -/
def PrintfArg.nat (value : Nat) : PrintfArg := .int (Int.ofNat value)

/-- One call that writes to the standard output. -/
inductive Output
  /-- `printf(format, args...)`. -/
  | printf (format : String) (args : List PrintfArg)
  /-- `printf(strchr(formattedTicks, '.'))` of `TimeSpanReader::Read`, where
  `formattedTicks` holds `(double)ticks / ticksPerSecond` printed with `"%.7f"`. -/
  | printfFraction (ticks : Int)
  deriving DecidableEq, Repr

/-- `Logger`, with the output written so far (oldest first). -/
structure Logger where
  indentation : Int
  isNewLine : Bool
  output : List Output
  deriving DecidableEq, Repr

namespace Logger

/-- `Logger::Logger()`. -/
def new : Logger := { indentation := 0, isNewLine := false, output := [] }

/-- `Logger::Indent`. -/
def Indent (log : Logger) : Logger := { log with indentation := log.indentation + 1 }

/-- `Logger::Unindent`. -/
def Unindent (log : Logger) : Logger := { log with indentation := log.indentation - 1 }

/-- The private `Logger::Write(format, va_list)`, for any one output call. -/
def WriteOutput (log : Logger) (text : Output) : Logger :=
  -- Indent if this is the first text on a new line.
  let log :=
    if log.isNewLine then
      { log with
        isNewLine := false
        output := log.output ++ List.replicate log.indentation.toNat (.printf "    " []) }
    else log
  -- Write the string.
  { log with output := log.output ++ [text] }

/-- `Logger::Write(format, ...)`. -/
def Write (log : Logger) (format : String) (args : List PrintfArg) : Logger :=
  log.WriteOutput (.printf format args)

/-- `Logger::WriteLine(format, ...)`. -/
def WriteLine (log : Logger) (format : String) (args : List PrintfArg) : Logger :=
  let log := log.Write format args
  -- Write the carriage return.
  { log with output := log.output ++ [.printf "\n" []], isNewLine := true }

/-- The loop of `Logger::WriteBytes` over the bytes from index `i` on; `size` is
`bytes.size()`. -/
def WriteBytes.loop (size : Nat) : List Nat → Nat → Logger → Logger
  | [], _, log => log
  | b :: rest, i, log =>
    if i % 16 = 15 ∨ i = size - 1 then
      let log := log.WriteLine "%02X" [.nat b]
      if i ≥ 1024 ∧ size > 2048 then
        log.WriteLine "\x7bsnip: not bothering to print the remaining %d bytes\x7d"
          [.nat (size - i)]
      else WriteBytes.loop size rest (i + 1) log
    else WriteBytes.loop size rest (i + 1) (log.Write "%02X, " [.nat b])

/-- `Logger::WriteBytes`. -/
def WriteBytes (log : Logger) (name : String) (bytes : List Nat) : Logger :=
  let log := log.WriteLine "%s: %u bytes" [.str (some name), .nat bytes.length]
  let log := log.Indent
  let log := WriteBytes.loop bytes.length bytes 0 log
  log.Unindent

/-- `Logger::WriteEnum`; `enumValues` lists the names of the table, which in the
source are followed by a `nullptr`.  `find(enumValues, enumValues + value, nullptr)`
stops at the first `nullptr`, so it equals `enumValues + value` exactly when none
of the first `value` entries of the table is the `nullptr`. -/
def WriteEnum (log : Logger) (name : String) (value : Int) (enumValues : List String) :
    Logger :=
  let table : List (Option String) := enumValues.map some ++ [none]
  if value ≥ 0 ∧ none ∉ table.take value.toNat then
    log.WriteLine "%s: %s" [.str (some name), .str ((table.get? value.toNat).join)]
  else
    log.WriteLine "%s: unknown enum value %d" [.str (some name), .int value]

end Logger

/-! ## ContentReader -/

/-- `ContentReader`: the `BinaryReader` base, the logger, the manager it points to
and the table of the readers used by this file. -/
structure ContentReader extends BinaryReader where
  Log : Logger
  typeReaderManager : TypeReaderManager
  typeReaders : List Nat
  deriving DecidableEq, Repr

namespace ContentReader

/-- `ContentReader::ContentReader(file, typeReaderManager)`. -/
def new (file : List Nat) (typeReaderManager : TypeReaderManager) : ContentReader :=
  { file := file, position := 0, Log := Logger.new,
    typeReaderManager := typeReaderManager, typeReaders := [] }

/-- A call of a member function inherited from `BinaryReader`. -/
def base {α : Type} (x : Method BinaryReader α) : Method ContentReader α :=
  Method.lift (fun r => r.toBinaryReader) (fun r b => { r with toBinaryReader := b }) x

/-- A call of a member function through the pointer `typeReaderManager`. -/
def manager {α : Type} (x : Method TypeReaderManager α) : Method ContentReader α :=
  Method.lift (fun r => r.typeReaderManager) (fun r m => { r with typeReaderManager := m }) x

/-- A call of a member function of `Log`. -/
def log (f : Logger → Logger) : Method ContentReader Unit :=
  Method.modify fun r => { r with Log := f r.Log }

/-- The inherited `ReadByte`. -/
def ReadByte : Method ContentReader Nat := base BinaryReader.ReadByte
/-- The inherited `ReadUInt16`. -/
def ReadUInt16 : Method ContentReader Nat := base BinaryReader.ReadUInt16
/-- The inherited `ReadUInt32`. -/
def ReadUInt32 : Method ContentReader Nat := base BinaryReader.ReadUInt32
/-- The inherited `ReadUInt64`. -/
def ReadUInt64 : Method ContentReader Nat := base BinaryReader.ReadUInt64
/-- The inherited `ReadSByte`. -/
def ReadSByte : Method ContentReader Int := base BinaryReader.ReadSByte
/-- The inherited `ReadInt16`. -/
def ReadInt16 : Method ContentReader Int := base BinaryReader.ReadInt16
/-- The inherited `ReadInt32`. -/
def ReadInt32 : Method ContentReader Int := base BinaryReader.ReadInt32
/-- The inherited `ReadInt64`. -/
def ReadInt64 : Method ContentReader Int := base BinaryReader.ReadInt64
/-- The inherited `ReadSingle`. -/
def ReadSingle : Method ContentReader Single := base BinaryReader.ReadSingle
/-- The inherited `ReadDouble`. -/
def ReadDouble : Method ContentReader Double := base BinaryReader.ReadDouble
/-- The inherited `ReadBoolean`. -/
def ReadBoolean : Method ContentReader Bool := base BinaryReader.ReadBoolean
/-- The inherited `ReadChar`. -/
def ReadChar : Method ContentReader Nat := base BinaryReader.ReadChar
/-- The inherited `ReadString`. -/
def ReadString : Method ContentReader wstring := base BinaryReader.ReadString
/-- The inherited `Read7BitEncodedInt`. -/
def Read7BitEncodedInt : Method ContentReader Nat := base BinaryReader.Read7BitEncodedInt
/-- The inherited `ReadBytes`. -/
def ReadBytes (count : Nat) : Method ContentReader (List Nat) :=
  base (BinaryReader.ReadBytes count)

/-- `Log.Indent()`. -/
def Indent : Method ContentReader Unit := log Logger.Indent
/-- `Log.Unindent()`. -/
def Unindent : Method ContentReader Unit := log Logger.Unindent
/-- `Log.Write(format, ...)`. -/
def Write (format : String) (args : List PrintfArg) : Method ContentReader Unit :=
  log fun l => l.Write format args
/-- `Log.WriteLine(format, ...)`. -/
def WriteLine (format : String) (args : List PrintfArg) : Method ContentReader Unit :=
  log fun l => l.WriteLine format args
/-- `Log.WriteBytes(name, bytes)`. -/
def WriteBytes (name : String) (bytes : List Nat) : Method ContentReader Unit :=
  log fun l => l.WriteBytes name bytes
/-- `Log.WriteEnum(name, value, enumValues)`. -/
def WriteEnum (name : String) (value : Int) (enumValues : List String) :
    Method ContentReader Unit :=
  log fun l => l.WriteEnum name value enumValues

/-- `reader->TargetType()` through a reader pointer. -/
def TargetType (typeReader : Nat) : Method ContentReader wstring := do
  let r ← Method.get
  let object ← Method.ofExcept (r.typeReaderManager.deref typeReader)
  Method.ofExcept object.TargetType

/-- `reader->IsValueType()` through a reader pointer. -/
def IsValueType (typeReader : Nat) : Method ContentReader Bool := do
  let r ← Method.get
  let object ← Method.ofExcept (r.typeReaderManager.deref typeReader)
  return object.IsValueType

/-- `ContentReader::ReadHeader`. -/
def ReadHeader : Method ContentReader Nat := do
  let startPosition := (← Method.get).FilePosition
  -- Magic number.
  let magic1 ← ReadByte
  let magic2 ← ReadByte
  let magic3 ← ReadByte
  if magic1 ≠ 88 ∨ magic2 ≠ 78 ∨ magic3 ≠ 66 then
    Method.fail .notAnXnbFile
  else
    -- Target platform.
    let targetPlatform ← ReadByte
    (if targetPlatform = 119 then WriteLine "Target platform: Windows" []
     else if targetPlatform = 109 then WriteLine "Target platform: Windows Phone" []
     else if targetPlatform = 120 then WriteLine "Target platform: Xbox 360" []
     else WriteLine "Unknown target platform %d" [.nat targetPlatform])
    -- Format version.
    let formatVersion ← ReadByte
    (if formatVersion ≠ 5 then
       WriteLine ("Warning: not an XNA Game Studio version 4.0 XNB file. " ++
         "Parsing may fail unexpectedly.") []
     else pure ())
    -- Flags.
    let flags ← ReadByte
    (if flags &&& 1 ≠ 0 then WriteLine "Graphics profile: HiDef" []
     else WriteLine "Graphics profile: Reach" [])
    let isCompressed := flags &&& 0x80 ≠ 0
    -- File size.
    let sizeOnDisk ← ReadUInt32
    if (startPosition + sizeOnDisk) % 2 ^ 32 > (← Method.get).FileSize then
      Method.fail .truncated
    else if isCompressed then
      let decompressedSize ← ReadUInt32
      let compressedSize :=
        ((startPosition + sizeOnDisk) % 2 ^ 32 + 2 ^ 32 - (← Method.get).FilePosition) % 2 ^ 32
      WriteLine "%d bytes of asset data are compressed into %d"
        [.nat decompressedSize, .nat compressedSize]
      Method.fail .compressedNotSupported
    else
      return (startPosition + sizeOnDisk) % 2 ^ 32

/-- The body of the first `for` loop of `ReadTypeManifest`: one manifest entry. -/
def ReadTypeManifest.entry : Method ContentReader Unit := do
  -- Read the type reader metadata.
  let readerName ← ReadString
  let readerVersion ← ReadInt32
  WriteLine "%S (version %d)" [.wstr readerName, .int readerVersion]
  -- Look up and store this type reader implementation class.
  let reader ← manager (TypeReaderManager.GetByReaderName readerName)
  Method.modify fun r => { r with typeReaders := r.typeReaders ++ [reader] }

/-- `ContentReader::ReadTypeManifest`. -/
def ReadTypeManifest : Method ContentReader Unit := do
  WriteLine "Type readers:" []
  Indent
  -- How many type readers does this .xnb use?
  let typeReaderCount ← Read7BitEncodedInt
  Method.modify fun r => { r with typeReaders := [] }
  forLoop typeReaderCount fun _ => ReadTypeManifest.entry
  -- Initialize the readers in a separate pass after they are all registered, in case there are
  -- circular dependencies between them (eg. an array of classes which themselves contain arrays).
  forEach (fun reader => manager (TypeReaderManager.Initialize reader)) (← Method.get).typeReaders
  Unindent

/-- `ContentReader::ReadTypeId`; `none` is `nullptr`. -/
def ReadTypeId : Method ContentReader (Option Nat) := do
  let typeId ← Read7BitEncodedInt
  if typeId > 0 then
    -- Look up the reader for this type of object.
    let typeId := typeId - 1
    let r ← Method.get
    if typeId ≥ r.typeReaders.length then
      Method.fail .typeIdOutOfRange
    else
      return r.typeReaders.get? typeId
  else
    -- A zero typeId indicates a null object.
    return none

/-- `ContentReader::ReadObject`; `Read typeReader` is the virtual call
`typeReader->Read(this)`. -/
def ReadObject (Read : Nat → Method ContentReader Unit) : Method ContentReader Unit := do
  Indent
  -- What type of object is this?
  let typeReader ← ReadTypeId
  (match typeReader with
   | some typeReader => do
     WriteLine "Type: %S" [.wstr (← TargetType typeReader)]
     -- Call into the appropriate TypeReader to parse the object data.
     Read typeReader
   | none =>
     WriteLine "null" [])
  Unindent

/-- `ContentReader::ReadValueOrObject`; a pointer member that was never assigned
is not a reader that can be asked `IsValueType()`. -/
def ReadValueOrObject (Read : Nat → Method ContentReader Unit) (typeReader : Option Nat) :
    Method ContentReader Unit := do
  match typeReader with
  | none => Method.fail .undefinedBehavior
  | some typeReader =>
    if ← IsValueType typeReader then
      -- Read a value type.
      Indent
      Read typeReader
      Unindent
    else
      -- Read a reference type.
      ReadObject Read

/-- `ContentReader::ValidateTypeId`. -/
def ValidateTypeId (expectedType : wstring) : Method ContentReader Unit := do
  match ← ReadTypeId with
  | none => Method.fail .unexpectedTypeId
  | some reader =>
    if (← TargetType reader) ≠ expectedType then Method.fail .unexpectedTypeId

/-- `ContentReader::ReadSharedResource`. -/
def ReadSharedResource : Method ContentReader Unit := do
  let resourceId ← Read7BitEncodedInt
  if resourceId ≠ 0 then
    WriteLine "shared resource #%u" [.nat (resourceId - 1)]
  else
    WriteLine "null" []

end ContentReader

/-! ## Primitive type readers (`PrimitiveTypeReaders.cpp`) -/

open ContentReader in
/-- `ByteReader::Read`. -/
def ByteReader.Read : Method ContentReader Unit := do
  WriteLine "%u" [.nat (← ReadByte)]

open ContentReader in
/-- `SByteReader::Read`. -/
def SByteReader.Read : Method ContentReader Unit := do
  WriteLine "%d" [.int (← ReadSByte)]

open ContentReader in
/-- `Int16Reader::Read`. -/
def Int16Reader.Read : Method ContentReader Unit := do
  WriteLine "%hd" [.int (← ReadInt16)]

open ContentReader in
/-- `UInt16Reader::Read`. -/
def UInt16Reader.Read : Method ContentReader Unit := do
  WriteLine "%hu" [.nat (← ReadUInt16)]

open ContentReader in
/-- `Int32Reader::Read`. -/
def Int32Reader.Read : Method ContentReader Unit := do
  WriteLine "%d" [.int (← ReadInt32)]

open ContentReader in
/-- `UInt32Reader::Read`. -/
def UInt32Reader.Read : Method ContentReader Unit := do
  WriteLine "%u" [.nat (← ReadUInt32)]

open ContentReader in
/-- `Int64Reader::Read`. -/
def Int64Reader.Read : Method ContentReader Unit := do
  WriteLine "%lld" [.int (← ReadInt64)]

open ContentReader in
/-- `UInt64Reader::Read`. -/
def UInt64Reader.Read : Method ContentReader Unit := do
  WriteLine "%llu" [.nat (← ReadUInt64)]

open ContentReader in
/-- `SingleReader::Read`. -/
def SingleReader.Read : Method ContentReader Unit := do
  WriteLine "%g" [.single (← ReadSingle)]

open ContentReader in
/-- `DoubleReader::Read`. -/
def DoubleReader.Read : Method ContentReader Unit := do
  WriteLine "%g" [.double (← ReadDouble)]

open ContentReader in
/-- `BooleanReader::Read`. -/
def BooleanReader.Read : Method ContentReader Unit := do
  if ← ReadBoolean then WriteLine "true" [] else WriteLine "false" []

open ContentReader in
/-- `CharReader::Read`. -/
def CharReader.Read : Method ContentReader Unit := do
  let value ← ReadChar
  -- Take care not to accidentally print out control character codes!
  if iswprint value then
    WriteLine "U+%04hX '%C'" [.nat value, .wchar value]
  else
    WriteLine "U+%04hX" [.nat value]

open ContentReader in
/-- `StringReader::Read`. -/
def StringReader.Read : Method ContentReader Unit := do
  let value ← ReadString
  Write "'" []
  forEach (fun ch =>
    -- Take care not to accidentally print out control character codes!
    if iswprint ch then Write "%C" [.wchar ch]
    else Write "\\U+%04hX" [.nat ch]) value
  WriteLine "'" []

/-- `ObjectReader::Read`. -/
def ObjectReader.Read : Method ContentReader Unit :=
  Method.fail .objectReaderInvoked

/-! ## Math type readers (`MathTypeReaders.cpp`) -/

open ContentReader in
/-- `Vector2Reader::Read`. -/
def Vector2Reader.Read : Method ContentReader Unit := do
  let x ← ReadSingle
  let y ← ReadSingle
  WriteLine "\x7b %g, %g \x7d" [.single x, .single y]

open ContentReader in
/-- `Vector3Reader::Read`. -/
def Vector3Reader.Read : Method ContentReader Unit := do
  let x ← ReadSingle
  let y ← ReadSingle
  let z ← ReadSingle
  WriteLine "\x7b %g, %g, %g \x7d" [.single x, .single y, .single z]

open ContentReader in
/-- `Vector4Reader::Read`. -/
def Vector4Reader.Read : Method ContentReader Unit := do
  let x ← ReadSingle
  let y ← ReadSingle
  let z ← ReadSingle
  let w ← ReadSingle
  WriteLine "\x7b %g, %g, %g, %g \x7d" [.single x, .single y, .single z, .single w]

/-- The loop `for (int i = 0; i < 16; i++) m[i] = reader->ReadSingle();` and its
like: `count` floats in the order read. -/
def readSingles : Nat → Method ContentReader (List Single)
  | 0 => pure []
  | count + 1 => do
    let value ← ContentReader.ReadSingle
    let rest ← readSingles count
    return value :: rest

open ContentReader in
/-- `MatrixReader::Read`; `m i` is `m[i]`. -/
def MatrixReader.Read : Method ContentReader Unit := do
  let values ← readSingles 16
  let m := fun i => PrintfArg.single (values.getD i ⟨0⟩)
  WriteLine "\x7b %g, %g, %g, %g \x7d" [m 0, m 1, m 2, m 3]
  WriteLine "\x7b %g, %g, %g, %g \x7d" [m 4, m 5, m 6, m 7]
  WriteLine "\x7b %g, %g, %g, %g \x7d" [m 8, m 9, m 10, m 11]
  WriteLine "\x7b %g, %g, %g, %g \x7d" [m 12, m 13, m 14, m 15]

open ContentReader in
/-- `QuaternionReader::Read`. -/
def QuaternionReader.Read : Method ContentReader Unit := do
  let x ← ReadSingle
  let y ← ReadSingle
  let z ← ReadSingle
  let w ← ReadSingle
  WriteLine "\x7b %g, %g, %g, %g \x7d" [.single x, .single y, .single z, .single w]

open ContentReader in
/-- `ColorReader::Read`. -/
def ColorReader.Read : Method ContentReader Unit := do
  let r ← ReadByte
  let g ← ReadByte
  let b ← ReadByte
  let a ← ReadByte
  WriteLine "\x7b R:%d, G:%d, B:%d, A:%d \x7d" [.nat r, .nat g, .nat b, .nat a]

open ContentReader in
/-- `PlaneReader::Read`. -/
def PlaneReader.Read : Method ContentReader Unit := do
  Write "Normal: " []
  Vector3Reader.Read
  WriteLine "D: %g" [.single (← ReadSingle)]

open ContentReader in
/-- `PointReader::Read`. -/
def PointReader.Read : Method ContentReader Unit := do
  WriteLine "X: %d" [.int (← ReadInt32)]
  WriteLine "Y: %d" [.int (← ReadInt32)]

open ContentReader in
/-- `RectangleReader::Read`. -/
def RectangleReader.Read : Method ContentReader Unit := do
  WriteLine "X: %d" [.int (← ReadInt32)]
  WriteLine "Y: %d" [.int (← ReadInt32)]
  WriteLine "Width: %d" [.int (← ReadInt32)]
  WriteLine "Height: %d" [.int (← ReadInt32)]

open ContentReader in
/-- `BoundingBoxReader::Read`. -/
def BoundingBoxReader.Read : Method ContentReader Unit := do
  Write "Min: " []
  Vector3Reader.Read
  Write "Max: " []
  Vector3Reader.Read

open ContentReader in
/-- `BoundingSphereReader::Read`. -/
def BoundingSphereReader.Read : Method ContentReader Unit := do
  Write "Center: " []
  Vector3Reader.Read
  WriteLine "Radius: %g" [.single (← ReadSingle)]

open ContentReader in
/-- `BoundingFrustumReader::Read`. -/
def BoundingFrustumReader.Read : Method ContentReader Unit := do
  WriteLine "Bounding frustum matrix:" []
  Indent
  MatrixReader.Read
  Unindent

open ContentReader in
/-- `RayReader::Read`. -/
def RayReader.Read : Method ContentReader Unit := do
  Write "Position: " []
  Vector3Reader.Read
  Write "Direction: " []
  Vector3Reader.Read

/-- `LoopEnumValues` of `CurveReader::Read`. -/
def LoopEnumValues : List String :=
  ["Constant", "Cycle", "Cycle Offset", "Oscillate", "Linear"]

/-- `ContinuityEnumValues` of `CurveReader::Read`. -/
def ContinuityEnumValues : List String := ["Smooth", "Step"]

open ContentReader in
/-- `CurveReader::Read`. -/
def CurveReader.Read : Method ContentReader Unit := do
  WriteEnum "Pre loop" (← ReadInt32) LoopEnumValues
  WriteEnum "Post loop" (← ReadInt32) LoopEnumValues
  let keyCount ← ReadUInt32
  WriteLine "Key count: %u" [.nat keyCount]
  forLoop keyCount fun i => do
    WriteLine "Key %u:" [.nat i]
    Indent
    WriteLine "Position: %g" [.single (← ReadSingle)]
    WriteLine "Value: %g" [.single (← ReadSingle)]
    WriteLine "Tangent in: %g" [.single (← ReadSingle)]
    WriteLine "Tangent out: %g" [.single (← ReadSingle)]
    WriteEnum "Continuity" (← ReadInt32) ContinuityEnumValues
    Unindent

/-! ## Graphics type readers (`GraphicsTypeReaders.cpp`) -/

/-- `SurfaceFormatEnumValues`. -/
def SurfaceFormatEnumValues : List String :=
  ["Color", "Bgr565", "Bgra5551", "Bgra4444", "Dxt1", "Dxt3", "Dxt5", "NormalizedByte2",
   "NormalizedByte4", "Rgba1010102", "Rg32", "Rgba64", "Alpha8", "Single", "Vector2",
   "Vector4", "HalfSingle", "HalfVector2", "HalfVector4", "HdrBlendable"]

/-- `VertexElementFormatEnumValues`. -/
def VertexElementFormatEnumValues : List String :=
  ["Single", "Vector2", "Vector3", "Vector4", "Color", "Byte4", "Short2", "Short4",
   "NormalizedShort2", "NormalizedShort4", "HalfVector2", "HalfVector4"]

/-- `VertexElementUsageEnumValues`. -/
def VertexElementUsageEnumValues : List String :=
  ["Position", "Color", "TextureCoordinate", "Normal", "Binormal", "Tangent",
   "BlendIndices", "BlendWeight", "Depth", "Fog", "PointSize", "Sample",
   "TessellateFactor"]

/-- `CompareFunctionEnumValues`. -/
def CompareFunctionEnumValues : List String :=
  ["Always", "Never", "Less", "LessEqual", "Equal", "GreaterEqual", "Greater", "NotEqual"]

/-- `TextureReader::Read`. -/
def TextureReader.Read : Method ContentReader Unit :=
  Method.fail .textureReaderInvoked

open ContentReader in
/-- `Texture2DReader::Read`. -/
def Texture2DReader.Read : Method ContentReader Unit := do
  WriteEnum "Format" (← ReadInt32) SurfaceFormatEnumValues
  WriteLine "Width: %u" [.nat (← ReadUInt32)]
  WriteLine "Height: %u" [.nat (← ReadUInt32)]
  let mipCount ← ReadUInt32
  WriteLine "Mip count: %u" [.nat mipCount]
  forLoop mipCount fun i => do
    Write "Mip %u" [.nat i]
    let dataSize ← ReadUInt32
    WriteBytes "" (← ReadBytes dataSize)

open ContentReader in
/-- `Texture3DReader::Read`. -/
def Texture3DReader.Read : Method ContentReader Unit := do
  WriteEnum "Format" (← ReadInt32) SurfaceFormatEnumValues
  WriteLine "Width: %u" [.nat (← ReadUInt32)]
  WriteLine "Height: %u" [.nat (← ReadUInt32)]
  WriteLine "Depth: %u" [.nat (← ReadUInt32)]
  let mipCount ← ReadUInt32
  WriteLine "Mip count: %u" [.nat mipCount]
  forLoop mipCount fun i => do
    Write "Mip %u" [.nat i]
    let dataSize ← ReadUInt32
    WriteBytes "" (← ReadBytes dataSize)

open ContentReader in
/-- `TextureCubeReader::Read`. -/
def TextureCubeReader.Read : Method ContentReader Unit := do
  WriteEnum "Format" (← ReadInt32) SurfaceFormatEnumValues
  WriteLine "Size: %u" [.nat (← ReadUInt32)]
  let mipCount ← ReadUInt32
  WriteLine "Mip count: %u" [.nat mipCount]
  forLoop 6 fun face =>
    forLoop mipCount fun i => do
      Write "Face %d mip %u" [.nat face, .nat i]
      let dataSize ← ReadUInt32
      WriteBytes "" (← ReadBytes dataSize)

open ContentReader in
/-- `IndexBufferReader::Read`. -/
def IndexBufferReader.Read : Method ContentReader Unit := do
  WriteLine "Index format: %s" [.str (some (if ← ReadBoolean then "16 bit" else "32 bit"))]
  let dataSize ← ReadUInt32
  WriteBytes "Index data" (← ReadBytes dataSize)

open ContentReader in
/-- The static function `ReadVertexDeclaration`. -/
def ReadVertexDeclaration : Method ContentReader Nat := do
  let vertexStride ← ReadUInt32
  WriteLine "Vertex stride: %u" [.nat vertexStride]
  let elementCount ← ReadUInt32
  WriteLine "Element count: %u" [.nat elementCount]
  forLoop elementCount fun i => do
    WriteLine "Element %u:" [.nat i]
    Indent
    WriteLine "Offset: %u" [.nat (← ReadUInt32)]
    WriteEnum "Element format" (← ReadInt32) VertexElementFormatEnumValues
    WriteEnum "Element usage" (← ReadInt32) VertexElementUsageEnumValues
    WriteLine "Usage index: %u" [.nat (← ReadUInt32)]
    Unindent
  return vertexStride

open ContentReader in
/-- `VertexBufferReader::Read`; the product is computed in `uint32_t`. -/
def VertexBufferReader.Read : Method ContentReader Unit := do
  WriteLine "Vertex declaration:" []
  Indent
  let vertexStride ← ReadVertexDeclaration
  Unindent
  let vertexCount ← ReadUInt32
  WriteLine "Vertex count: %u" [.nat vertexCount]
  WriteBytes "Vertex data" (← ReadBytes ((vertexCount * vertexStride) % 2 ^ 32))

/-- `VertexDeclarationReader::Read`. -/
def VertexDeclarationReader.Read : Method ContentReader Unit := do
  let _ ← ReadVertexDeclaration

open ContentReader in
/-- `EffectReader::Read`. -/
def EffectReader.Read : Method ContentReader Unit := do
  let size ← ReadUInt32
  WriteBytes "Effect bytecode" (← ReadBytes size)

open ContentReader in
/-- `EffectMaterialReader::Read`. -/
def EffectMaterialReader.Read (Read : Nat → Method ContentReader Unit) :
    Method ContentReader Unit := do
  WriteLine "Effect reference: '%S'" [.wstr (← ReadString)]
  WriteLine "Parameters:" []
  ReadObject Read

open ContentReader in
/-- `BasicEffectReader::Read`. -/
def BasicEffectReader.Read : Method ContentReader Unit := do
  WriteLine "Texture reference: '%S'" [.wstr (← ReadString)]
  Write "Diffuse color: " []
  Vector3Reader.Read
  Write "Emissive color: " []
  Vector3Reader.Read
  Write "Specular color: " []
  Vector3Reader.Read
  WriteLine "Specular power: %g" [.single (← ReadSingle)]
  WriteLine "Alpha: %g" [.single (← ReadSingle)]
  WriteLine "Vertex color enabled: %s" [.str (some (if ← ReadBoolean then "true" else "false"))]

open ContentReader in
/-- `AlphaTestEffectReader::Read`. -/
def AlphaTestEffectReader.Read : Method ContentReader Unit := do
  WriteLine "Texture reference: '%S'" [.wstr (← ReadString)]
  WriteEnum "Compare function" (← ReadInt32) CompareFunctionEnumValues
  WriteLine "Reference alpha: %u" [.nat (← ReadUInt32)]
  Write "Diffuse color: " []
  Vector3Reader.Read
  WriteLine "Alpha: %g" [.single (← ReadSingle)]
  WriteLine "Vertex color enabled: %s" [.str (some (if ← ReadBoolean then "true" else "false"))]

open ContentReader in
/-- `DualTextureEffectReader::Read`. -/
def DualTextureEffectReader.Read : Method ContentReader Unit := do
  WriteLine "Texture 1 reference: '%S'" [.wstr (← ReadString)]
  WriteLine "Texture 2 reference: '%S'" [.wstr (← ReadString)]
  Write "Diffuse color: " []
  Vector3Reader.Read
  WriteLine "Alpha: %g" [.single (← ReadSingle)]
  WriteLine "Vertex color enabled: %s" [.str (some (if ← ReadBoolean then "true" else "false"))]

open ContentReader in
/-- `EnvironmentMapEffectReader::Read`. -/
def EnvironmentMapEffectReader.Read : Method ContentReader Unit := do
  WriteLine "Texture reference: '%S'" [.wstr (← ReadString)]
  WriteLine "Environment map reference: '%S'" [.wstr (← ReadString)]
  WriteLine "Environment map amount: %g" [.single (← ReadSingle)]
  Write "Environment map specular: " []
  Vector3Reader.Read
  WriteLine "Fresnel factor: %g" [.single (← ReadSingle)]
  Write "Diffuse color: " []
  Vector3Reader.Read
  Write "Emissive color: " []
  Vector3Reader.Read
  WriteLine "Alpha: %g" [.single (← ReadSingle)]

open ContentReader in
/-- `SkinnedEffectReader::Read`. -/
def SkinnedEffectReader.Read : Method ContentReader Unit := do
  WriteLine "Texture reference: '%S'" [.wstr (← ReadString)]
  WriteLine "Weights per vertex: %u" [.nat (← ReadUInt32)]
  Write "Diffuse color: " []
  Vector3Reader.Read
  Write "Emissive color: " []
  Vector3Reader.Read
  Write "Specular color: " []
  Vector3Reader.Read
  WriteLine "Specular power: %g" [.single (← ReadSingle)]
  WriteLine "Alpha: %g" [.single (← ReadSingle)]

open ContentReader in
/-- `SpriteFontReader::Read`. -/
def SpriteFontReader.Read (Read : Nat → Method ContentReader Unit) :
    Method ContentReader Unit := do
  WriteLine "Texture:" []
  ReadObject Read
  WriteLine "Glyphs:" []
  ReadObject Read
  WriteLine "Cropping:" []
  ReadObject Read
  WriteLine "Character map:" []
  ReadObject Read
  WriteLine "Vertical line spacing: %d" [.int (← ReadInt32)]
  WriteLine "Horizontal spacing: %g" [.single (← ReadSingle)]
  WriteLine "Kerning:" []
  ReadObject Read
  Write "Default character: " []
  if ← ReadBoolean then
    WriteLine "U+%04hX" [.nat (← ReadChar)]
  else
    WriteLine "null" []

open ContentReader in
/-- The static function `ReadBoneReference`. -/
def ReadBoneReference (boneCount : Nat) : Method ContentReader Unit := do
  -- Read the bone ID, which may be encoded as either an 8 or 32 bit value.
  let boneId ← (if boneCount < 255 then ReadByte else ReadUInt32)
  -- Print out the bone ID.
  if boneId ≠ 0 then
    WriteLine "bone #%u" [.nat (boneId - 1)]
  else
    WriteLine "null" []

open ContentReader in
/-- `ModelReader::Read`. -/
def ModelReader.Read (Read : Nat → Method ContentReader Unit) :
    Method ContentReader Unit := do
  -- Read the bone names and transforms.
  let boneCount ← ReadUInt32
  WriteLine "Bone count: %u" [.nat boneCount]
  forLoop boneCount fun i => do
    WriteLine "Bone %u:" [.nat i]
    Indent
    WriteLine "Name:" []
    ReadObject Read
    WriteLine "Transform:" []
    Indent
    MatrixReader.Read
    Unindent
    Unindent
  -- Read the bone hierarchy.
  forLoop boneCount fun i => do
    WriteLine "Bone %u hierarchy:" [.nat i]
    Indent
    -- Read the parent bone reference.
    Write "Parent: " []
    ReadBoneReference boneCount
    -- Read the child bone references.
    let childCount ← ReadUInt32
    (if childCount ≠ 0 then do
       WriteLine "Children:" []
       Indent
       forLoop childCount fun _ => ReadBoneReference boneCount
       Unindent
     else pure ())
    Unindent
  -- Read the mesh data.
  let meshCount ← ReadUInt32
  WriteLine "Mesh count: %u" [.nat meshCount]
  forLoop meshCount fun i => do
    WriteLine "Mesh %u" [.nat i]
    Indent
    WriteLine "Mesh name:" []
    ReadObject Read
    Write "Mesh parent: " []
    ReadBoneReference boneCount
    WriteLine "Mesh bounds:" []
    Indent
    BoundingSphereReader.Read
    Unindent
    WriteLine "Mesh tag:" []
    ReadObject Read
    -- Read the mesh part data.
    let partCount ← ReadUInt32
    WriteLine "Mesh part count: %u" [.nat partCount]
    forLoop partCount fun j => do
      WriteLine "Mesh part %u" [.nat j]
      Indent
      WriteLine "Vertex offset: %d" [.int (← ReadInt32)]
      WriteLine "Num vertices: %d" [.int (← ReadInt32)]
      WriteLine "Start index: %d" [.int (← ReadInt32)]
      WriteLine "Primitive count: %d" [.int (← ReadInt32)]
      WriteLine "Mesh part tag:" []
      ReadObject Read
      Write "Vertex buffer: " []
      ReadSharedResource
      Write "Index buffer: " []
      ReadSharedResource
      Write "Effect: " []
      ReadSharedResource
      Unindent
    Unindent
  -- Read the final pieces of model data.
  Write "Model root: " []
  ReadBoneReference boneCount
  WriteLine "Model tag:" []
  ReadObject Read

/-! ## Media type readers (`MediaTypeReaders.cpp`) -/

open ContentReader in
/-- `SoundEffectReader::Read`. -/
def SoundEffectReader.Read : Method ContentReader Unit := do
  let formatSize ← ReadUInt32
  WriteBytes "Format" (← ReadBytes formatSize)
  let dataSize ← ReadUInt32
  WriteBytes "Data" (← ReadBytes dataSize)
  WriteLine "Loop start: %d" [.int (← ReadInt32)]
  WriteLine "Loop length: %d" [.int (← ReadInt32)]
  WriteLine "Duration: %d ms" [.int (← ReadInt32)]

open ContentReader in
/-- `SongReader::Read`. -/
def SongReader.Read : Method ContentReader Unit := do
  WriteLine "Streaming filename: '%S'" [.wstr (← ReadString)]
  ValidateTypeId (L "System.Int32")
  WriteLine "Duration: %d ms" [.int (← ReadInt32)]

/-- `SoundtrackTypeEnumValues` of `VideoReader::Read`. -/
def SoundtrackTypeEnumValues : List String := ["Music", "Dialog", "Music and Dialog"]

open ContentReader in
/-- `VideoReader::Read`. -/
def VideoReader.Read : Method ContentReader Unit := do
  ValidateTypeId (L "System.String")
  WriteLine "Streaming filename: '%S'" [.wstr (← ReadString)]
  ValidateTypeId (L "System.Int32")
  WriteLine "Duration: %d ms" [.int (← ReadInt32)]
  ValidateTypeId (L "System.Int32")
  WriteLine "Width: %d ms" [.int (← ReadInt32)]
  ValidateTypeId (L "System.Int32")
  WriteLine "Height: %d ms" [.int (← ReadInt32)]
  ValidateTypeId (L "System.Single")
  WriteLine "Frames per second: %g ms" [.single (← ReadSingle)]
  ValidateTypeId (L "System.Int32")
  WriteEnum "Soundtrack type" (← ReadInt32) SoundtrackTypeEnumValues

/-! ## System type readers (`SystemTypeReaders.cpp`) -/

open ContentReader in
/-- `EnumReader::Read`. -/
def EnumReader.Read : Method ContentReader Unit := do
  WriteLine "Enum value: %d" [.int (← ReadInt32)]

open ContentReader in
/-- `NullableReader::Read`; `this` is the reader object `self`. -/
def NullableReader.Read (Read : Nat → Method ContentReader Unit) (self : GenericTypeReader) :
    Method ContentReader Unit := do
  if ← ReadBoolean then
    match self.valueReader with
    | some valueReader => Read valueReader
    | none => Method.fail .undefinedBehavior
  else
    WriteLine "null" []

open ContentReader in
/-- `ArrayReader::Read`. -/
def ArrayReader.Read (Read : Nat → Method ContentReader Unit) (self : GenericTypeReader) :
    Method ContentReader Unit := do
  let elementCount ← ReadUInt32
  WriteLine "Element count: %u" [.nat elementCount]
  forLoop elementCount fun i => do
    WriteLine "Element %u:" [.nat i]
    ReadValueOrObject Read self.elementReader

open ContentReader in
/-- `ListReader::Read`. -/
def ListReader.Read (Read : Nat → Method ContentReader Unit) (self : GenericTypeReader) :
    Method ContentReader Unit := do
  let elementCount ← ReadUInt32
  WriteLine "Element count: %u" [.nat elementCount]
  forLoop elementCount fun i => do
    WriteLine "Element %u:" [.nat i]
    ReadValueOrObject Read self.elementReader

open ContentReader in
/-- `DictionaryReader::Read`. -/
def DictionaryReader.Read (Read : Nat → Method ContentReader Unit) (self : GenericTypeReader) :
    Method ContentReader Unit := do
  let elementCount ← ReadUInt32
  WriteLine "Element count: %u" [.nat elementCount]
  forLoop elementCount fun i => do
    WriteLine "Element %u:" [.nat i]
    Indent
    WriteLine "Key:" []
    ReadValueOrObject Read self.keyReader
    WriteLine "Value:" []
    ReadValueOrObject Read self.valueReader
    Unindent

open ContentReader in
/-- `TimeSpanReader::Read`; negating the least `int64_t` has no defined behaviour. -/
def TimeSpanReader.Read : Method ContentReader Unit := do
  let ticks ← ReadInt64
  if ticks = -(2 ^ 63) then Method.fail .undefinedBehavior
  else
    -- Handle negative tick counts.
    let ticks ← (if ticks < 0 then do Write "-" []; pure (-ticks) else pure ticks)
    -- Split into days, hours, minutes, seconds, and remaining fractional ticks.
    let ticksPerSecond : Int := 10000000
    let ticksPerMinute : Int := ticksPerSecond * 60
    let ticksPerHour : Int := ticksPerMinute * 60
    let ticksPerDay : Int := ticksPerHour * 24
    let days := ticks / ticksPerDay
    let hours := (ticks % ticksPerDay) / ticksPerHour
    let minutes := (ticks % ticksPerHour) / ticksPerMinute
    let seconds := (ticks % ticksPerMinute) / ticksPerSecond
    let ticks := ticks % ticksPerSecond
    -- Only write the day count if non-zero.
    (if days ≠ 0 then Write "%lld." [.int days] else pure ())
    -- Write hours, minutes, and seconds.
    Write "%d:%d:%d" [.int hours, .int minutes, .int seconds]
    -- Only write the fractional ticks if non-zero.
    (if ticks ≠ 0 then log fun l => l.WriteOutput (.printfFraction ticks) else pure ())
    WriteLine "" []

open ContentReader in
/-- `DateTimeReader::Read`. -/
def DateTimeReader.Read : Method ContentReader Unit := do
  let value ← ReadUInt64
  let kind := value >>> 62
  let ticks := value &&& (2 ^ 62 - 1)
  WriteLine "DateTimeKind: %d" [.nat kind]
  WriteLine "Ticks: %llu" [.nat ticks]

open ContentReader in
/-- `DecimalReader::Read`. -/
def DecimalReader.Read : Method ContentReader Unit := do
  let a ← ReadUInt32
  let b ← ReadUInt32
  let c ← ReadUInt32
  let d ← ReadUInt32
  WriteLine "%08X:%08X.%08X.%08X" [.nat d, .nat c, .nat b, .nat a]

open ContentReader in
/-- `ExternalReferenceReader::Read`. -/
def ExternalReferenceReader.Read : Method ContentReader Unit := do
  WriteLine "'%S'" [.wstr (← ReadString)]

/-- `ReflectiveReader::Read` (its explanation is printed with `printf`, not
through the logger, and is left out). -/
def ReflectiveReader.Read : Method ContentReader Unit :=
  Method.fail .reflectiveReader

/-! ## Virtual dispatch of `Read` -/

/-- The `Read` of an object of a non-generic reader class; `Read` is the virtual
call through a reader pointer. -/
def ReaderClass.Read (Read : Nat → Method ContentReader Unit) :
    ReaderClass → Method ContentReader Unit
  | .ByteReader => ByteReader.Read
  | .SByteReader => SByteReader.Read
  | .Int16Reader => Int16Reader.Read
  | .UInt16Reader => UInt16Reader.Read
  | .Int32Reader => Int32Reader.Read
  | .UInt32Reader => UInt32Reader.Read
  | .Int64Reader => Int64Reader.Read
  | .UInt64Reader => UInt64Reader.Read
  | .SingleReader => SingleReader.Read
  | .DoubleReader => DoubleReader.Read
  | .BooleanReader => BooleanReader.Read
  | .CharReader => CharReader.Read
  | .StringReader => StringReader.Read
  | .ObjectReader => ObjectReader.Read
  | .TimeSpanReader => TimeSpanReader.Read
  | .DateTimeReader => DateTimeReader.Read
  | .DecimalReader => DecimalReader.Read
  | .ExternalReferenceReader => ExternalReferenceReader.Read
  | .Vector2Reader => Vector2Reader.Read
  | .Vector3Reader => Vector3Reader.Read
  | .Vector4Reader => Vector4Reader.Read
  | .MatrixReader => MatrixReader.Read
  | .QuaternionReader => QuaternionReader.Read
  | .ColorReader => ColorReader.Read
  | .PlaneReader => PlaneReader.Read
  | .PointReader => PointReader.Read
  | .RectangleReader => RectangleReader.Read
  | .BoundingBoxReader => BoundingBoxReader.Read
  | .BoundingSphereReader => BoundingSphereReader.Read
  | .BoundingFrustumReader => BoundingFrustumReader.Read
  | .RayReader => RayReader.Read
  | .CurveReader => CurveReader.Read
  | .TextureReader => TextureReader.Read
  | .Texture2DReader => Texture2DReader.Read
  | .Texture3DReader => Texture3DReader.Read
  | .TextureCubeReader => TextureCubeReader.Read
  | .IndexBufferReader => IndexBufferReader.Read
  | .VertexBufferReader => VertexBufferReader.Read
  | .VertexDeclarationReader => VertexDeclarationReader.Read
  | .EffectReader => EffectReader.Read
  | .EffectMaterialReader => EffectMaterialReader.Read Read
  | .BasicEffectReader => BasicEffectReader.Read
  | .AlphaTestEffectReader => AlphaTestEffectReader.Read
  | .DualTextureEffectReader => DualTextureEffectReader.Read
  | .EnvironmentMapEffectReader => EnvironmentMapEffectReader.Read
  | .SkinnedEffectReader => SkinnedEffectReader.Read
  | .SpriteFontReader => SpriteFontReader.Read Read
  | .ModelReader => ModelReader.Read Read
  | .SoundEffectReader => SoundEffectReader.Read
  | .SongReader => SongReader.Read
  | .VideoReader => VideoReader.Read

/-- The `Read` of an object of a generic reader class. -/
def GenericTypeReader.Read (Read : Nat → Method ContentReader Unit)
    (self : GenericTypeReader) : Method ContentReader Unit :=
  match self.cls with
  | .EnumReader => EnumReader.Read
  | .NullableReader => NullableReader.Read Read self
  | .ArrayReader => ArrayReader.Read Read self
  | .ListReader => ListReader.Read Read self
  | .DictionaryReader => DictionaryReader.Read Read self
  | .ReflectiveReader => ReflectiveReader.Read

/-- The virtual call `typeReader->Read(reader)` through a reader pointer.  The
fuel bounds the depth of nested virtual calls (not the number of loop
iterations); `outOfFuel` is the outcome when it does not suffice. -/
def TypeReader.Read : Nat → Nat → Method ContentReader Unit
  | 0, _ => Method.fail .outOfFuel
  | fuel + 1, typeReader => do
    let r ← Method.get
    match ← Method.ofExcept (r.typeReaderManager.deref typeReader) with
    | .plain cls => cls.Read (TypeReader.Read fuel)
    | .generic self => self.Read (TypeReader.Read fuel)

namespace ContentReader

/-- `ContentReader::ReadXnb`, with fuel for the depth of nested `Read` calls. -/
def ReadXnb (fuel : Nat) : Method ContentReader Unit := do
  -- Read the XNB header.
  let endPosition ← ReadHeader
  ReadTypeManifest
  let sharedResourceCount ← Read7BitEncodedInt
  -- Read the primary asset data.
  WriteLine "Asset:" []
  ReadObject (TypeReader.Read fuel)
  -- Read any shared resource instances.
  forLoop sharedResourceCount fun i => do
    WriteLine "Shared resource %d:" [.nat i]
    ReadObject (TypeReader.Read fuel)
  -- Make sure we read the amount of data that the file header said we should.
  if (← Method.get).FilePosition ≠ endPosition then
    Method.fail .endPositionMismatch

end ContentReader

/-- The parse done by `main` on a file with the given bytes: a manager with the
standard types, a `ContentReader` over the file, and `ReadXnb`. -/
def parse (fuel : Nat) (file : List Nat) : Except Error Unit × ContentReader :=
  ContentReader.ReadXnb fuel (ContentReader.new file standardManager)


/-! ## The manifest as laid out in the file -/

/-- The reader names of a manifest of `count` entries as the file format lays them
out (each entry a string, then a 32-bit version), read without looking any reader
up.  Used to name "the i-th manifest name" in statements about
`ReadTypeManifest`. -/
def readManifestNames : Nat → Method BinaryReader (List wstring)
  | 0 => pure []
  | count + 1 => do
    let readerName ← BinaryReader.ReadString
    let _ ← BinaryReader.ReadInt32
    let rest ← readManifestNames count
    return readerName :: rest

/-- The reader names of the registry, in registry order. -/
def TypeReaderManager.readerNames (m : TypeReaderManager) : List wstring :=
  m.typeReaders.map TypeReader.ReaderName

/-- A string as the file format lays it out, for a string of fewer than 128 ASCII
characters: the length in one byte, then the characters. -/
def asciiString (s : String) : List Nat := [s.length] ++ L s

/-- An example manifest: two entries, `Int32Reader` and a `ListReader` of `Int32`
with assembly metadata, both of version 0. -/
def exampleManifest : List Nat :=
  [2] ++
  asciiString "Microsoft.Xna.Framework.Content.Int32Reader" ++ [0, 0, 0, 0] ++
  asciiString "Microsoft.Xna.Framework.Content.ListReader`1[[System.Int32, mscorlib]]" ++
    [0, 0, 0, 0]

/-! ## Relations between states used in the statements -/

/-- Every call of `x` takes the object from a state to an `R`-related state,
whether it returns or fails. -/
def Method.Preserves {σ α : Type} (R : σ → σ → Prop) (x : Method σ α) : Prop :=
  ∀ s, R s (x s).2

/-- A relation between states that is reflexive and transitive. -/
structure Method.Frame {σ : Type} (R : σ → σ → Prop) : Prop where
  refl : ∀ s, R s s
  trans : ∀ {a b c}, R a b → R b c → R a c

/-- No two readers of the manager have the same `ReaderName()`. -/
def TypeReaderManager.NoDuplicateReaderNames (m : TypeReaderManager) : Prop :=
  (m.typeReaders.map TypeReader.ReaderName).Nodup

/-- The managers with the same reader names, in the same order. -/
def sameReaderNames (m m' : TypeReaderManager) : Prop :=
  m'.typeReaders.map TypeReader.ReaderName = m.typeReaders.map TypeReader.ReaderName

/-- The reader names of `m'` are those of `m`, in the same order, followed by
further names. -/
def readerNamesExtend (m m' : TypeReaderManager) : Prop :=
  ∃ extra, m'.typeReaders.map TypeReader.ReaderName =
    m.typeReaders.map TypeReader.ReaderName ++ extra

/-- The `ContentReader`s with the same reader table whose managers have the same
reader names. -/
def sameTable (r r' : ContentReader) : Prop :=
  r'.typeReaders = r.typeReaders ∧
  r'.typeReaderManager.readerNames = r.typeReaderManager.readerNames ∧
  r'.toBinaryReader = r.toBinaryReader

/-- The file is the same, the position has not moved back, and it is still within
the file if it was. -/
def BinaryReader.advances (b b' : BinaryReader) : Prop :=
  b'.file = b.file ∧ b.position ≤ b'.position ∧
    (b.position ≤ b.file.length → b'.position ≤ b'.file.length)

/-- The same of the `BinaryReader` base of a `ContentReader`. -/
def ContentReader.advances (r r' : ContentReader) : Prop :=
  BinaryReader.advances r.toBinaryReader r'.toBinaryReader

/-- A member function of `ContentReader` that only moves the file position
forward, whether it returns or fails. -/
class Advancing {α : Type} (x : Method ContentReader α) : Prop where
  out : Method.Preserves ContentReader.advances x

/-- The byte of the file at an offset, as `fgetc` returns it (0 past the end). -/
def byteAt (file : List Nat) (offset : Nat) : Nat := file.getD offset 0 % 256

/-- The declared size of the header that starts at `start`: the 32-bit
little-endian number at offset 6 of the header. -/
def declaredSize (file : List Nat) (start : Nat) : Nat :=
  byteAt file (start + 6) + 256 * byteAt file (start + 7) +
    65536 * byteAt file (start + 8) + 16777216 * byteAt file (start + 9)

/-- An example file: the header, a manifest of one `Int32Reader`, no shared
resources, and the 32-bit integer 42 as the primary asset; 65 bytes, as
declared at offset 6. -/
def exampleXnb : List Nat :=
  [88, 78, 66, 119, 5, 0] ++ [65, 0, 0, 0] ++
  [1] ++ asciiString "Microsoft.Xna.Framework.Content.Int32Reader" ++ [0, 0, 0, 0] ++
  [0] ++
  [1] ++ [42, 0, 0, 0]

/-- Whether the call `reader->TargetType()` has defined behaviour. -/
def TypeReader.hasTargetType (reader : TypeReader) : Bool :=
  match reader.TargetType with
  | .ok _ => true
  | .error _ => false

/-- The standard registry after `GetByReaderName` has created an `EnumReader`
from a name with an empty argument list and then a `ListReader` of `Int32`:
readers 51 and 52. -/
def malformedManager : TypeReaderManager :=
  runCalls
    [.GetByReaderName (L "Microsoft.Xna.Framework.Content.EnumReader`0[[]]"),
     .GetByReaderName (L "Microsoft.Xna.Framework.Content.ListReader`1[[System.Int32]]")]
    standardManager

/-- The first loop of `ReadTypeManifest` as seen by the manager: the lookups of
the manifest names in order; the value is the per-file table. -/
def resolveNames : List wstring → Method TypeReaderManager (List Nat)
  | [] => pure []
  | readerName :: rest => do
    let reader ← TypeReaderManager.GetByReaderName readerName
    let readers ← resolveNames rest
    return reader :: readers

/-- Both loops of `ReadTypeManifest` as seen by the manager: the lookups of the
names, then `Initialize` of every reader of the table. -/
def loadManifest (names : List wstring) : Method TypeReaderManager (List Nat) := do
  let table ← resolveNames names
  forEach TypeReaderManager.Initialize table
  return table

/-- The specialization that `GetByReaderName` creates for the normalized name
`wanted` when no reader has that name: the name splits, a factory has the open
name, and the assertion on the name of the new reader holds. -/
def specialization (factories : List GenericReaderClass) (wanted : wstring) :
    Option GenericTypeReader :=
  match SplitGenericTypeName wanted with
  | some (genericReaderName, genericArguments) =>
    match findFactory genericReaderName factories with
    | some factory =>
      if (factory.CreateTypeReader genericArguments).readerName = wanted then
        some (factory.CreateTypeReader genericArguments)
      else none
    | none => none
  | none => none

/-- The reader object that a normalized reader name denotes in a registry seeded
by `RegisterStandardTypes`, before any `Initialize`: the standard reader of that
name, or else the specialization created for the name. -/
def canonical (wanted : wstring) : Option TypeReader :=
  match findByReaderName wanted standardManager.typeReaders 0 with
  | some reader => standardManager.typeReaders.get? reader
  | none => (specialization standardManager.genericReaders wanted).map .generic

/-- A registry that grew from the standard one by `GetByReaderName` calls only,
in a build that checks `assert`: the standard factories, the standard readers,
and every reader is the one its name denotes. -/
def Registered (m : TypeReaderManager) : Prop :=
  m.genericReaders = standardManager.genericReaders ∧
  (∀ reader ∈ standardManager.typeReaders, reader ∈ m.typeReaders) ∧
  (∀ reader ∈ m.typeReaders, canonical reader.ReaderName = some reader) ∧
  m.NDEBUG = false

/-- A reader object without the reader pointers that `Initialize` assigns: what
`TargetType()`, `ReaderName()` and `GenericArgument(i)` depend on. -/
def TypeReader.static : TypeReader → TypeReader
  | .plain cls => .plain cls
  | .generic g =>
    .generic { g with elementReader := none, keyReader := none, valueReader := none }

/-- The managers whose readers are the same up to the reader pointers that
`Initialize` assigns. -/
def sameStatics (m m' : TypeReaderManager) : Prop :=
  m'.typeReaders.map TypeReader.static = m.typeReaders.map TypeReader.static

/-- Some reader has the target type `StripAssemblyVersion(targetType)`, given the
results of `TargetType()` of the readers. -/
def hasTarget (targetTypes : List (Except Error wstring)) (targetType : wstring) : Prop :=
  .ok (StripAssemblyVersion targetType) ∈ targetTypes

/-- The reader object has the generic arguments that its `Initialize` reads, and
readers for them are registered. -/
def initializable (targetTypes : List (Except Error wstring)) : TypeReader → Prop
  | .plain _ => True
  | .generic g =>
    match g.cls with
    | .NullableReader | .ArrayReader | .ListReader =>
      ∃ a, g.GenericArgument 0 = .ok a ∧ hasTarget targetTypes a
    | .DictionaryReader =>
      ∃ a b, g.GenericArgument 0 = .ok a ∧ g.GenericArgument 1 = .ok b ∧
        hasTarget targetTypes a ∧ hasTarget targetTypes b
    | .EnumReader | .ReflectiveReader => True

/-- The member `elementReader` of an `ArrayReader` or `ListReader` object. -/
def TypeReader.elementReader : TypeReader → Option Nat
  | .plain _ => none
  | .generic g => g.elementReader

/-- A manifest that lists the `ListReader` of lists of `Int32` before the
`ListReader` of `Int32`. -/
def nestedManifest : List Nat :=
  [2] ++
  asciiString ("Microsoft.Xna.Framework.Content.ListReader`1" ++
    "[[System.Collections.Generic.List`1[[System.Int32]]]]") ++ [0, 0, 0, 0] ++
  asciiString "Microsoft.Xna.Framework.Content.ListReader`1[[System.Int32]]" ++ [0, 0, 0, 0]

/-- The entries of `nestedManifest` in the other order. -/
def nestedManifestSwapped : List Nat :=
  [2] ++
  asciiString "Microsoft.Xna.Framework.Content.ListReader`1[[System.Int32]]" ++ [0, 0, 0, 0] ++
  asciiString ("Microsoft.Xna.Framework.Content.ListReader`1" ++
    "[[System.Collections.Generic.List`1[[System.Int32]]]]") ++ [0, 0, 0, 0]

/-- A manifest of three entries: an `EnumReader` name with an empty argument
list, the `ListReader` of `Int32`, and the `ListReader` of lists of `Int32`. -/
def malformedManifest : List Nat :=
  [3] ++
  asciiString "Microsoft.Xna.Framework.Content.EnumReader`0[[]]" ++ [0, 0, 0, 0] ++
  asciiString "Microsoft.Xna.Framework.Content.ListReader`1[[System.Int32]]" ++ [0, 0, 0, 0] ++
  asciiString ("Microsoft.Xna.Framework.Content.ListReader`1" ++
    "[[System.Collections.Generic.List`1[[System.Int32]]]]") ++ [0, 0, 0, 0]

/-- The entries of `malformedManifest` with the first two exchanged. -/
def malformedManifestSwapped : List Nat :=
  [3] ++
  asciiString "Microsoft.Xna.Framework.Content.ListReader`1[[System.Int32]]" ++ [0, 0, 0, 0] ++
  asciiString "Microsoft.Xna.Framework.Content.EnumReader`0[[]]" ++ [0, 0, 0, 0] ++
  asciiString ("Microsoft.Xna.Framework.Content.ListReader`1" ++
    "[[System.Collections.Generic.List`1[[System.Int32]]]]") ++ [0, 0, 0, 0]

/-- What `StripAssemblyVersion` keeps of a string, read from left to right.  When
not `skipping`, a comma followed by `[` is kept and any other comma starts a
stretch that is skipped; when `skipping`, everything is dropped up to the next
`]`, which is kept. -/
def stripFrom : Bool → wstring → wstring
  | _, [] => []
  | true, c :: rest => if c = 93 then c :: stripFrom false rest else stripFrom true rest
  | false, c :: rest =>
    if c = 44 then
      if rest.head? = some 91 then c :: stripFrom false rest else stripFrom true rest
    else c :: stripFrom false rest

/-- The number of positions of a string at which `pattern` occurs. -/
def occurrences (pattern : wstring) : wstring → Nat
  | [] => 0
  | c :: rest => (if pattern.isPrefixOf (c :: rest) then 1 else 0) + occurrences pattern rest

/-- Assembly metadata as it follows a comma: a text without `]` that does not
start with `[`. -/
def isMetadata (metadata : wstring) : Prop := 93 ∉ metadata ∧ metadata.head? ≠ some 91

/-- `WellFormedName full stripped`: `full` is a type name with assembly metadata
and `stripped` is the name without it.  A name is a text without a comma, or
``G`k[[A1,M1],...,[Ak,Mk]]`` where `G` is a text without a comma, every `Mi` is
metadata and every `Ai` is a name; an argument is given as `(Ai, Mi, Ai')` with
`Ai'` the argument without its metadata. -/
inductive WellFormedName : wstring → wstring → Prop
  | simple (name : wstring) (hname : 44 ∉ name) : WellFormedName name name
  | generic (name : wstring) (arguments : List (wstring × wstring × wstring))
      (hname : 44 ∉ name)
      (hargument : ∀ a ∈ arguments, WellFormedName a.1 a.2.2)
      (hmetadata : ∀ a ∈ arguments, isMetadata a.2.1) :
      WellFormedName
        (name ++ [96] ++ decimal arguments.length ++ L "[[" ++
          (L "],[").intercalate (arguments.map fun a => a.1 ++ [44] ++ a.2.1) ++ L "]]")
        (name ++ [96] ++ decimal arguments.length ++ L "[[" ++
          (L "],[").intercalate (arguments.map fun a => a.2.2) ++ L "]]")

/-- The nesting depth of brackets after the characters of a text, starting from
`depth`; `none` when a `]` occurs at depth 0. -/
def nestingDepth : wstring → Nat → Option Nat
  | [], depth => some depth
  | c :: rest, depth =>
    if c = 91 then nestingDepth rest (depth + 1)
    else if c = 93 then
      if depth > 0 then nestingDepth rest (depth - 1) else none
    else nestingDepth rest depth

/-- A bracket-balanced text: no `]` at nesting depth 0, and every `[` is closed. -/
def isBalanced (a : wstring) : Prop := nestingDepth a 0 = some 0

instance (a : wstring) : Decidable (isBalanced a) :=
  inferInstanceAs (Decidable (nestingDepth a 0 = some 0))

/-- What `ReadHeader` does on a file read from its start, as a function of the
bytes: the value returned or the failure, and the file position afterwards. -/
def headerOutcome (file : List Nat) : Except Error Nat × Nat :=
  if file.length < 3 then (.error .errorReadingFile, file.length)
  else if ¬ (byteAt file 0 = 88 ∧ byteAt file 1 = 78 ∧ byteAt file 2 = 66) then
    (.error .notAnXnbFile, 3)
  else if file.length < 10 then (.error .errorReadingFile, file.length)
  else if declaredSize file 0 > file.length % 2 ^ 32 then (.error .truncated, 10)
  else if 128 ≤ byteAt file 5 then
    if file.length < 14 then (.error .errorReadingFile, file.length)
    else (.error .compressedNotSupported, 14)
  else (.ok (declaredSize file 0), 10)

/-- A file of 100 bytes whose header declares 1000 bytes and has the compressed
flag set. -/
def truncatedXnb : List Nat :=
  [88, 78, 66, 119, 5, 128] ++ [232, 3, 0, 0] ++ List.replicate 90 0

/-- Two runs of `x` from `R`-related states return the same value or fail with
the same error, in `R`-related states. -/
def Method.Respects {σ α : Type} (R : σ → σ → Prop) (x : Method σ α) : Prop :=
  ∀ s s', R s s' → (x s).1 = (x s').1 ∧ R (x s).2 (x s').2

/-- Two readers at the same position in files of the same length that hold the
same bytes from that position on. -/
def BinaryReader.agrees (b b' : BinaryReader) : Prop :=
  b.position = b'.position ∧ b.file.length = b'.file.length ∧
    ∀ i, b.position ≤ i → b.file.get? i = b'.file.get? i

/-- Two content readers whose files agree from the current position on, with the
same registry and the same reader table; the logs may differ. -/
def ContentReader.agrees (r r' : ContentReader) : Prop :=
  BinaryReader.agrees r.toBinaryReader r'.toBinaryReader ∧
    r.typeReaderManager = r'.typeReaderManager ∧ r.typeReaders = r'.typeReaders

/-- A member function of `ContentReader` whose outcome depends on the bytes from
the current position on, the registry and the reader table only. -/
class Respecting {α : Type} (x : Method ContentReader α) : Prop where
  out : Method.Respects ContentReader.agrees x

/-- The example file with the platform byte of Xbox 360, format version 4 and the
HiDef bit of the flags set: it differs from `exampleXnb` in bytes 3, 4 and 5 only. -/
def exampleXnbXbox : List Nat :=
  [88, 78, 66, 120, 4, 1] ++ [65, 0, 0, 0] ++
  [1] ++ asciiString "Microsoft.Xna.Framework.Content.Int32Reader" ++ [0, 0, 0, 0] ++
  [0] ++
  [1] ++ [42, 0, 0, 0]

/-- The order of the payload phase as the specification words it, for comparison
with `ContentReader.ReadXnb`: the primary asset is decoded first, then the
shared-resource count is read, then the shared resources.  The header, the
manifest and the final check are those of `ReadXnb`. -/
def ContentReader.specifiedReadXnb (fuel : Nat) : Method ContentReader Unit := do
  let endPosition ← ReadHeader
  ReadTypeManifest
  WriteLine "Asset:" []
  ReadObject (TypeReader.Read fuel)
  let sharedResourceCount ← Read7BitEncodedInt
  forLoop sharedResourceCount fun i => do
    WriteLine "Shared resource %d:" [.nat i]
    ReadObject (TypeReader.Read fuel)
  if (← Method.get).FilePosition ≠ endPosition then
    Method.fail .endPositionMismatch

/-- The 13-byte file `58 4E 42 77 05 00 0A 00 00 00 00 00 00`: a header that
declares 10 bytes, a manifest of no entry, no shared resource and a null primary
asset. -/
def minimalFrame : List Nat :=
  [0x58, 0x4E, 0x42, 0x77, 0x05, 0x00] ++ [0x0A, 0x00, 0x00, 0x00] ++ [0x00] ++ [0x00] ++ [0x00]

/-- The same 13 bytes with the declared size 13 (`0D`) at offset 6. -/
def minimalFrameSized : List Nat :=
  [0x58, 0x4E, 0x42, 0x77, 0x05, 0x00] ++ [0x0D, 0x00, 0x00, 0x00] ++ [0x00] ++ [0x00] ++ [0x00]

/-- What the parse of the minimal frame prints: the platform, the profile, the
empty manifest and the null asset. -/
def minimalFrameOutput : List Output :=
  [.printf "Target platform: Windows" [], .printf "\n" [],
   .printf "Graphics profile: Reach" [], .printf "\n" [],
   .printf "Type readers:" [], .printf "\n" [],
   .printf "Asset:" [], .printf "\n" [],
   .printf "    " [], .printf "null" [], .printf "\n" []]

/-- The `k` little-endian bytes of `n`: the low byte first. -/
def littleEndian : Nat → Nat → List Nat
  | 0, _ => []
  | k + 1, n => n % 256 :: littleEndian k (n / 256)

/-- The canonical 7-bit encoding of `n`, with fuel for the number of bytes: the
low 7 bits first, the high bit set on every byte but the last. -/
def encode7Bit.go : Nat → Nat → List Nat
  | 0, n => [n]
  | fuel + 1, n => if n < 128 then [n] else (n % 128 + 128) :: encode7Bit.go fuel (n / 128)

/-- The canonical 7-bit little-endian continuation encoding of `n`. -/
def encode7Bit (n : Nat) : List Nat := encode7Bit.go n n

/-- The UTF-8 encoding of the code point `c` (below `0x110000`): one byte below
`0x80`, two below `0x800`, three below `0x10000`, four from there on. -/
def utf8 (c : Nat) : List Nat :=
  if c < 0x80 then [c]
  else if c < 0x800 then [0xC0 + c / 64, 0x80 + c % 64]
  else if c < 0x10000 then [0xE0 + c / 4096, 0x80 + c / 64 % 64, 0x80 + c % 64]
  else [0xF0 + c / 262144, 0x80 + c / 4096 % 64, 0x80 + c / 64 % 64, 0x80 + c % 64]

/-- The UTF-8 encoding of a string of code points. -/
def utf8String : List Nat → List Nat
  | [] => []
  | c :: cs => utf8 c ++ utf8String cs


/-- The 32-bit little-endian unsigned integer at an offset of the file. -/
def uint32At (file : List Nat) (offset : Nat) : Nat :=
  byteAt file offset + 256 * byteAt file (offset + 1) + 65536 * byteAt file (offset + 2) +
    16777216 * byteAt file (offset + 3)

/-- A member function that reads exactly `k` bytes: from a position within the
file it returns when `k` bytes are left, `k` bytes further, with the registry and
the reader table as they were, and it fails when fewer than `k` bytes are left. -/
def ContentReader.Consumes {α : Type} (k : Nat) (x : Method ContentReader α) : Prop :=
  ∀ (file : List Nat) (position : Nat) (log : Logger) (m : TypeReaderManager)
    (table : List Nat), position ≤ file.length →
    (position + k ≤ file.length →
      ∃ a log', x ⟨⟨file, position⟩, log, m, table⟩ =
        (.ok a, ⟨⟨file, position + k⟩, log', m, table⟩)) ∧
    (file.length < position + k →
      ∃ e r', x ⟨⟨file, position⟩, log, m, table⟩ = (.error e, r'))

/-- The order of `CurveReader::Read` as the specification words it, for comparison
with `CurveReader.Read`: the key count is read as a 7-bit encoded integer. -/
def CurveReader.specifiedRead : Method ContentReader Unit := do
  ContentReader.WriteEnum "Pre loop" (← ContentReader.ReadInt32) LoopEnumValues
  ContentReader.WriteEnum "Post loop" (← ContentReader.ReadInt32) LoopEnumValues
  let keyCount ← ContentReader.Read7BitEncodedInt
  ContentReader.WriteLine "Key count: %u" [.nat keyCount]
  forLoop keyCount fun i => do
    ContentReader.WriteLine "Key %u:" [.nat i]
    ContentReader.Indent
    ContentReader.WriteLine "Position: %g" [.single (← ContentReader.ReadSingle)]
    ContentReader.WriteLine "Value: %g" [.single (← ContentReader.ReadSingle)]
    ContentReader.WriteLine "Tangent in: %g" [.single (← ContentReader.ReadSingle)]
    ContentReader.WriteLine "Tangent out: %g" [.single (← ContentReader.ReadSingle)]
    ContentReader.WriteEnum "Continuity" (← ContentReader.ReadInt32) ContinuityEnumValues
    ContentReader.Unindent

/-- A curve of one key: the loop enums 0 and 1, the key count 1 in four bytes, and
a key record of four floats and the continuity 1; 32 bytes. -/
def exampleCurve : List Nat :=
  [0, 0, 0, 0] ++ [1, 0, 0, 0] ++ [1, 0, 0, 0] ++
  ([0, 0, 128, 63] ++ [0, 0, 0, 64] ++ [0, 0, 0, 0] ++ [0, 0, 0, 0] ++ [1, 0, 0, 0])

/-- The elements for which `forEach body xs` calls `body` when run from the state
`s`, in the order of the calls: the loop ends at the first call that fails. -/
def forEach.calls {σ α : Type} (body : α → Method σ Unit) : List α → σ → List α
  | [], _ => []
  | x :: xs, s =>
    x :: match body x s with
      | (.ok _, s') => forEach.calls body xs s'
      | (.error _, _) => []

/-- The first pass of `ContentReader::ReadTypeManifest`: the count and the loop
over the manifest entries. -/
def ContentReader.ReadTypeManifest.firstPass : Method ContentReader Unit := do
  ContentReader.WriteLine "Type readers:" []
  ContentReader.Indent
  let typeReaderCount ← ContentReader.Read7BitEncodedInt
  Method.modify fun r => { r with typeReaders := [] }
  forLoop typeReaderCount fun _ => ContentReader.ReadTypeManifest.entry

/-- The second pass of `ContentReader::ReadTypeManifest`: the loop that calls
`Initialize`, and the end of the function. -/
def ContentReader.ReadTypeManifest.secondPass : Method ContentReader Unit := do
  forEach (fun reader => ContentReader.manager (TypeReaderManager.Initialize reader))
    (← Method.get).typeReaders
  ContentReader.Unindent

/-- A manifest that lists `Int32Reader` twice. -/
def repeatedManifest : List Nat :=
  [2] ++
  asciiString "Microsoft.Xna.Framework.Content.Int32Reader" ++ [0, 0, 0, 0] ++
  asciiString "Microsoft.Xna.Framework.Content.Int32Reader" ++ [0, 0, 0, 0]

/-- The reader name of a manifest entry for the `ReflectiveReader` of the type
`T`. -/
def reflectiveReaderName (T : wstring) : wstring :=
  L "Microsoft.Xna.Framework.Content.ReflectiveReader`1[[" ++ T ++ L "]]"

/-- The four little-endian bytes of a 32-bit integer in two's complement. -/
def int32Bytes (v : Int) : List Nat := littleEndian 4 (v % 2 ^ 32).toNat

/-- The values of a list of 32-bit integers as laid out in a file: four bytes
each, with no tag. -/
def int32ListPayload : List Int → List Nat
  | [] => []
  | v :: vs => int32Bytes v ++ int32ListPayload vs

/-- What the loop of `ListReader::Read` does to the log for the values from index
`i` on, each read as a value of `Int32Reader`. -/
def int32ElementsLog : Nat → List Int → Logger → Logger
  | _, [], log => log
  | i, v :: vs, log =>
    int32ElementsLog (i + 1) vs
      ((((log.WriteLine "Element %u:" [.nat i]).Indent).WriteLine "%d" [.int v]).Unindent)

/-- Everything after the header in the frame of a list of 32-bit integers: the
manifest of `Int32Reader` and the `ListReader` of `Int32` (both of version 0),
no shared resource, the tag 2 of the primary asset, the 32-bit count and the
values. -/
def int32ListBody (values : List Int) : List Nat :=
  [2] ++
  asciiString "Microsoft.Xna.Framework.Content.Int32Reader" ++ [0, 0, 0, 0] ++
  asciiString "Microsoft.Xna.Framework.Content.ListReader`1[[System.Int32]]" ++ [0, 0, 0, 0] ++
  [0] ++
  [2] ++ littleEndian 4 values.length ++ int32ListPayload values

/-- The frame of a list of 32-bit integers: the Windows header of version 5 with
no flag, the total length as the declared size, and the body. -/
def int32ListFrame (values : List Int) : List Nat :=
  [88, 78, 66, 119, 5, 0] ++ littleEndian 4 (10 + (int32ListBody values).length) ++
    int32ListBody values

/-- What is printed for the values of a list of `Int32` from index `i` on. -/
def int32ElementsOutput : Nat → List Int → List Output
  | _, [] => []
  | i, v :: vs =>
    [.printf "    " [], .printf "Element %u:" [.nat i], .printf "\n" [],
     .printf "    " [], .printf "    " [], .printf "%d" [.int v], .printf "\n" []] ++
    int32ElementsOutput (i + 1) vs

/-- What is printed for the frame of a list of 32-bit integers. -/
def int32ListOutput (values : List Int) : List Output :=
  [.printf "Target platform: Windows" [], .printf "\n" [],
   .printf "Graphics profile: Reach" [], .printf "\n" [],
   .printf "Type readers:" [], .printf "\n" [],
   .printf "    " [],
   .printf "%S (version %d)" [.wstr (L "Microsoft.Xna.Framework.Content.Int32Reader"), .int 0],
   .printf "\n" [],
   .printf "    " [],
   .printf "%S (version %d)"
     [.wstr (L "Microsoft.Xna.Framework.Content.ListReader`1[[System.Int32]]"), .int 0],
   .printf "\n" [],
   .printf "Asset:" [], .printf "\n" [],
   .printf "    " [],
   .printf "Type: %S" [.wstr (L "System.Collections.Generic.List`1[[System.Int32]]")],
   .printf "\n" [],
   .printf "    " [], .printf "Element count: %u" [.nat values.length], .printf "\n" []] ++
  int32ElementsOutput 0 values

/-- A model with one bone and one mesh: the bone count 1, the bone (null name,
a matrix of zeros), its hierarchy entry (parent null, one child, bone #0), the
mesh count 1, the mesh (null name, parent bone #0, bounds of zeros, null tag, no
part), the root bone #0 and the null tag of the model; 104 bytes. -/
def exampleModel : List Nat :=
  [1, 0, 0, 0] ++
  [0] ++ List.replicate 64 0 ++
  [0] ++ [1, 0, 0, 0] ++ [1] ++
  [1, 0, 0, 0] ++
  [0] ++ [1] ++ List.replicate 16 0 ++ [0] ++ [0, 0, 0, 0] ++
  [1] ++ [0]

/-- A member function that never fails for lack of fuel. -/
def Method.Fueled {σ α : Type} (x : Method σ α) : Prop :=
  ∀ s, (x s).1 ≠ .error .outOfFuel

/-- A member function of `ContentReader` that never fails for lack of fuel. -/
class Fueled {α : Type} (x : Method ContentReader α) : Prop where
  out : Method.Fueled x

/-- A member function of `ContentReader` that reads at least one byte whenever it
returns. -/
class Strict {α : Type} (x : Method ContentReader α) : Prop where
  out : ∀ r a r', x r = (.ok a, r') → r.position < r'.position

/-- A member function of `ContentReader` that does not fail for lack of fuel when
it is called on the file `file` at a position from `start` on (and within the
file). -/
class SafeFrom (file : List Nat) (start : Nat) {α : Type} (x : Method ContentReader α) :
    Prop where
  out : ∀ r : ContentReader, r.file = file → start ≤ r.position → r.position ≤ file.length →
    (x r).1 ≠ .error .outOfFuel

/-- The method `y` returns what `x` returns wherever `x` does not run out of
fuel. -/
def Method.Extends {σ α : Type} (x y : Method σ α) : Prop :=
  ∀ s, (x s).1 ≠ .error .outOfFuel → y s = x s

/-- A `ListReader` of `Int32` as `Initialize` leaves it: the element reader is
reader 4 of the standard registry, `Int32Reader`. -/
def exampleListReader : GenericTypeReader :=
  { cls := .ListReader
    targetType := L "System.Collections.Generic.List`1[[System.Int32]]"
    readerName := L "Microsoft.Xna.Framework.Content.ListReader`1[[System.Int32]]"
    genericArguments := [L "System.Int32"]
    elementReader := some 4
    keyReader := none
    valueReader := none }

/-- A manifest of one entry whose name says two arguments and holds one:
``ListReader`2[[System.Int32]]``. -/
def mismatchedManifest : List Nat :=
  [1] ++
  asciiString "Microsoft.Xna.Framework.Content.ListReader`2[[System.Int32]]" ++ [0, 0, 0, 0]

/-- A reader object whose name is the one `CreateTypeReader` gives to a reader of
its class with its generic arguments; every reader that is not generic counts. -/
def TypeReader.Created : TypeReader → Prop
  | .plain _ => True
  | .generic g => g.readerName = (g.cls.CreateTypeReader g.genericArguments).readerName

/-- A bone reference as it is laid out in a model of `boneCount` bones: the one
byte `k` when there are fewer than 255 bones, the four little-endian bytes of `k`
otherwise. -/
def boneReference (boneCount k : Nat) : List Nat :=
  if boneCount < 255 then [k] else littleEndian 4 k

/-- The number of bytes of a bone reference in a model of `boneCount` bones. -/
def boneReferenceWidth (boneCount : Nat) : Nat := if boneCount < 255 then 1 else 4

/-- The values that a bone reference of a model of `boneCount` bones can hold
lie below this bound: what fits in one byte, or in four. -/
def boneReferenceBound (boneCount : Nat) : Nat := if boneCount < 255 then 2 ^ 8 else 2 ^ 32

/-- What a bone reference of value `k` adds to the log: null for 0, and the bone
`k - 1` otherwise. -/
def boneReferenceLog (k : Nat) (log : Logger) : Logger :=
  if k ≠ 0 then log.WriteLine "bone #%u" [.nat (k - 1)] else log.WriteLine "null" []

/-- What a null object adds to the log. -/
def nullObjectLog (log : Logger) : Logger := ((log.Indent).WriteLine "null" []).Unindent

/-- What a matrix of sixteen floats of bits 0 adds to the log. -/
def zeroMatrixLog (log : Logger) : Logger :=
  (((log.WriteLine "\x7b %g, %g, %g, %g \x7d" [.single ⟨0⟩, .single ⟨0⟩, .single ⟨0⟩, .single ⟨0⟩]
    ).WriteLine "\x7b %g, %g, %g, %g \x7d" [.single ⟨0⟩, .single ⟨0⟩, .single ⟨0⟩, .single ⟨0⟩]
    ).WriteLine "\x7b %g, %g, %g, %g \x7d" [.single ⟨0⟩, .single ⟨0⟩, .single ⟨0⟩, .single ⟨0⟩]
    ).WriteLine "\x7b %g, %g, %g, %g \x7d" [.single ⟨0⟩, .single ⟨0⟩, .single ⟨0⟩, .single ⟨0⟩]

/-- What a bounding sphere of four floats of bits 0 adds to the log. -/
def zeroSphereLog (log : Logger) : Logger :=
  ((log.Write "Center: " []).WriteLine "\x7b %g, %g, %g \x7d"
    [.single ⟨0⟩, .single ⟨0⟩, .single ⟨0⟩]).WriteLine "Radius: %g" [.single ⟨0⟩]

/-- The bones of a skeleton model as laid out in a file: each has a null name
(the tag 0) and a transform of sixteen floats of bits 0. -/
def bonesPayload : Nat → List Nat
  | 0 => []
  | count + 1 => ([0] ++ List.replicate 64 0) ++ bonesPayload count

/-- What the first loop of `ModelReader::Read` adds to the log for `count` such
bones from index `i` on. -/
def bonesLog : Nat → Nat → Logger → Logger
  | 0, _, log => log
  | count + 1, i, log =>
    bonesLog count (i + 1)
      ((zeroMatrixLog
        ((nullObjectLog (((log.WriteLine "Bone %u:" [.nat i]).Indent).WriteLine "Name:" [])
          ).WriteLine "Transform:" []).Indent).Unindent).Unindent

/-- The child references of one bone as laid out in a file. -/
def childrenPayload (boneCount : Nat) : List Nat → List Nat
  | [] => []
  | k :: ks => boneReference boneCount k ++ childrenPayload boneCount ks

/-- What the loop over the child references adds to the log. -/
def childrenLog : List Nat → Logger → Logger
  | [], log => log
  | k :: ks, log => childrenLog ks (boneReferenceLog k log)

/-- The hierarchy of a model as laid out in a file: for each bone the parent
reference, the 32-bit number of children and the child references. -/
def hierarchyPayload (boneCount : Nat) : List (Nat × List Nat) → List Nat
  | [] => []
  | (parent, children) :: rest =>
    (boneReference boneCount parent ++
      (littleEndian 4 children.length ++ childrenPayload boneCount children)) ++
    hierarchyPayload boneCount rest

/-- What the second loop of `ModelReader::Read` adds to the log for the bones of
a hierarchy from index `i` on. -/
def hierarchyLog : List (Nat × List Nat) → Nat → Logger → Logger
  | [], _, log => log
  | (parent, children) :: rest, i, log =>
    let log := boneReferenceLog parent
      ((((log.WriteLine "Bone %u hierarchy:" [.nat i]).Indent).Write "Parent: " []))
    let log :=
      if children.length ≠ 0 then
        (childrenLog children ((log.WriteLine "Children:" []).Indent)).Unindent
      else log
    hierarchyLog rest (i + 1) log.Unindent

/-- The meshes of a skeleton model as laid out in a file, one for each mesh
parent reference: a null name, the reference, a bounding sphere of four floats of
bits 0, a null tag and the part count 0. -/
def meshesPayload (boneCount : Nat) : List Nat → List Nat
  | [] => []
  | k :: ks =>
    ([0] ++ (boneReference boneCount k ++ (List.replicate 16 0 ++ ([0] ++ littleEndian 4 0)))) ++
    meshesPayload boneCount ks

/-- What the third loop of `ModelReader::Read` adds to the log for such meshes
from index `i` on. -/
def meshesLog : List Nat → Nat → Logger → Logger
  | [], _, log => log
  | k :: ks, i, log =>
    meshesLog ks (i + 1)
      (((nullObjectLog
        (((zeroSphereLog
          (((boneReferenceLog k
            ((nullObjectLog
              (((log.WriteLine "Mesh %u" [.nat i]).Indent).WriteLine "Mesh name:" [])
              ).Write "Mesh parent: " [])
            ).WriteLine "Mesh bounds:" []).Indent)).Unindent).WriteLine "Mesh tag:" [])
        ).WriteLine "Mesh part count: %u" [.nat 0]).Unindent)

/-- A model that is a skeleton only, as laid out in a file: the bone count, the
bones, the hierarchy (for each bone its parent reference and its child
references), the mesh count, one mesh without parts for each mesh parent
reference, the reference to the model root and a null model tag.  The bone count
is the number of entries of the hierarchy. -/
def skeletonModel (hierarchy : List (Nat × List Nat)) (meshParents : List Nat) (root : Nat) :
    List Nat :=
  littleEndian 4 hierarchy.length ++
    (bonesPayload hierarchy.length ++
      (hierarchyPayload hierarchy.length hierarchy ++
        (littleEndian 4 meshParents.length ++
          (meshesPayload hierarchy.length meshParents ++
            (boneReference hierarchy.length root ++ [0])))))

/-- What `ModelReader::Read` prints for a skeleton model. -/
def skeletonLog (hierarchy : List (Nat × List Nat)) (meshParents : List Nat) (root : Nat)
    (log : Logger) : Logger :=
  nullObjectLog
    ((boneReferenceLog root
      ((meshesLog meshParents 0
        ((hierarchyLog hierarchy 0
          (bonesLog hierarchy.length 0
            (log.WriteLine "Bone count: %u" [.nat hierarchy.length]))
          ).WriteLine "Mesh count: %u" [.nat meshParents.length])).Write "Model root: " [])
      ).WriteLine "Model tag:" [])

/-- The number of bytes of the hierarchy of a model. -/
def hierarchySize (boneCount : Nat) : List (Nat × List Nat) → Nat
  | [] => 0
  | (_, children) :: rest =>
    boneReferenceWidth boneCount + 4 + boneReferenceWidth boneCount * children.length +
      hierarchySize boneCount rest

/-! ## Lemmas: the registry -/

theorem findByReaderName_eq_none (wanted : wstring) (readers : List TypeReader) (index : Nat) :
    findByReaderName wanted readers index = none ↔
      ∀ reader ∈ readers, reader.ReaderName ≠ wanted := by
  induction readers generalizing index with
  | nil => simp [findByReaderName]
  | cons reader rest ih =>
    by_cases h : reader.ReaderName = wanted
    · simp [findByReaderName, h]
    · simp [findByReaderName, h, ih]

theorem findByReaderName_eq_some (wanted : wstring) (readers : List TypeReader)
    (index found : Nat) (h : findByReaderName wanted readers index = some found) :
    ∃ k reader, found = index + k ∧ readers.get? k = some reader ∧
      reader.ReaderName = wanted ∧
      ∀ j reader', j < k → readers.get? j = some reader' → reader'.ReaderName ≠ wanted := by
  induction readers generalizing index with
  | nil => simp [findByReaderName] at h
  | cons reader rest ih =>
    by_cases hn : reader.ReaderName = wanted
    · simp [findByReaderName, hn] at h
      exact ⟨0, reader, by omega, rfl, hn, by intro j _ hj; omega⟩
    · simp [findByReaderName, hn] at h
      obtain ⟨k, reader', hk, hget, hname, hfirst⟩ := ih (index + 1) h
      refine ⟨k + 1, reader', by omega, by simpa using hget, hname, ?_⟩
      intro j r' hj hr'
      cases j with
      | zero => simp at hr'; subst hr'; exact hn
      | succ j => exact hfirst j r' (by omega) (by simpa using hr')

theorem findFactory_eq_none (name : wstring) (factories : List GenericReaderClass) :
    findFactory name factories = none ↔
      ∀ factory ∈ factories, factory.GenericReaderName ≠ name := by
  induction factories with
  | nil => simp [findFactory]
  | cons factory rest ih =>
    by_cases h : factory.GenericReaderName = name
    · simp [findFactory, h]
    · simp [findFactory, h, ih]

theorem findFactory_eq_some (name : wstring) (factories : List GenericReaderClass)
    (factory : GenericReaderClass) (h : findFactory name factories = some factory) :
    factory ∈ factories ∧ factory.GenericReaderName = name := by
  induction factories with
  | nil => simp [findFactory] at h
  | cons f rest ih =>
    by_cases hn : f.GenericReaderName = name
    · simp [findFactory, hn] at h
      subst h; exact ⟨by simp, hn⟩
    · simp [findFactory, hn] at h
      exact ⟨by simp [(ih h).1], (ih h).2⟩

theorem GetByReaderName_found (m : TypeReaderManager) (name : wstring) (reader : Nat)
    (h : findByReaderName (StripAssemblyVersion name) m.typeReaders 0 = some reader) :
    TypeReaderManager.GetByReaderName name m = (.ok reader, m) := by
  simp [TypeReaderManager.GetByReaderName, h]

theorem GetByReaderName_notGeneric (m : TypeReaderManager) (name : wstring)
    (h : findByReaderName (StripAssemblyVersion name) m.typeReaders 0 = none)
    (hs : SplitGenericTypeName (StripAssemblyVersion name) = none) :
    TypeReaderManager.GetByReaderName name m =
      (.error (fatalError 24 2 (StripAssemblyVersion name)
        (.cantFindTypeReader (StripAssemblyVersion name))), m) := by
  simp [TypeReaderManager.GetByReaderName, h, hs]

theorem GetByReaderName_noFactory (m : TypeReaderManager) (name : wstring)
    (genericName : wstring) (genericArguments : List wstring)
    (h : findByReaderName (StripAssemblyVersion name) m.typeReaders 0 = none)
    (hs : SplitGenericTypeName (StripAssemblyVersion name) =
      some (genericName, genericArguments))
    (hf : findFactory genericName m.genericReaders = none) :
    TypeReaderManager.GetByReaderName name m =
      (.error (fatalError 24 2 (StripAssemblyVersion name)
        (.cantFindTypeReader (StripAssemblyVersion name))), m) := by
  simp [TypeReaderManager.GetByReaderName, h, hs, hf]

theorem GetByReaderName_created (m : TypeReaderManager) (name : wstring)
    (genericName : wstring) (genericArguments : List wstring) (factory : GenericReaderClass)
    (h : findByReaderName (StripAssemblyVersion name) m.typeReaders 0 = none)
    (hs : SplitGenericTypeName (StripAssemblyVersion name) =
      some (genericName, genericArguments))
    (hf : findFactory genericName m.genericReaders = some factory)
    (ha : (factory.CreateTypeReader genericArguments).readerName =
      StripAssemblyVersion name) :
    TypeReaderManager.GetByReaderName name m =
      (.ok m.typeReaders.length,
        { m with typeReaders :=
            m.typeReaders ++ [.generic (factory.CreateTypeReader genericArguments)] }) := by
  simp [TypeReaderManager.GetByReaderName, h, hs, hf, ha]

theorem GetByReaderName_assertionFailed (m : TypeReaderManager) (name : wstring)
    (genericName : wstring) (genericArguments : List wstring) (factory : GenericReaderClass)
    (h : findByReaderName (StripAssemblyVersion name) m.typeReaders 0 = none)
    (hs : SplitGenericTypeName (StripAssemblyVersion name) =
      some (genericName, genericArguments))
    (hf : findFactory genericName m.genericReaders = some factory)
    (ha : (factory.CreateTypeReader genericArguments).readerName ≠
      StripAssemblyVersion name) (hdebug : m.NDEBUG = false) :
    TypeReaderManager.GetByReaderName name m = (.error .assertionFailed, m) := by
  simp [TypeReaderManager.GetByReaderName, h, hs, hf, ha, hdebug]

theorem GetByReaderName_unchecked (m : TypeReaderManager) (name : wstring)
    (genericName : wstring) (genericArguments : List wstring) (factory : GenericReaderClass)
    (h : findByReaderName (StripAssemblyVersion name) m.typeReaders 0 = none)
    (hs : SplitGenericTypeName (StripAssemblyVersion name) =
      some (genericName, genericArguments))
    (hf : findFactory genericName m.genericReaders = some factory)
    (hrelease : m.NDEBUG = true) :
    TypeReaderManager.GetByReaderName name m =
      (.ok m.typeReaders.length,
        { m with typeReaders :=
            m.typeReaders ++ [.generic (factory.CreateTypeReader genericArguments)] }) := by
  simp [TypeReaderManager.GetByReaderName, h, hs, hf, hrelease]

theorem GetByReaderName_factory (m : TypeReaderManager) (name : wstring)
    (genericName : wstring) (genericArguments : List wstring) (factory : GenericReaderClass)
    (h : findByReaderName (StripAssemblyVersion name) m.typeReaders 0 = none)
    (hs : SplitGenericTypeName (StripAssemblyVersion name) =
      some (genericName, genericArguments))
    (hf : findFactory genericName m.genericReaders = some factory) :
    (m.NDEBUG = false ∧
        (factory.CreateTypeReader genericArguments).readerName ≠ StripAssemblyVersion name ∧
        TypeReaderManager.GetByReaderName name m = (.error .assertionFailed, m)) ∨
      ((m.NDEBUG = true ∨
          (factory.CreateTypeReader genericArguments).readerName =
            StripAssemblyVersion name) ∧
        TypeReaderManager.GetByReaderName name m =
          (.ok m.typeReaders.length,
            { m with typeReaders :=
                m.typeReaders ++ [.generic (factory.CreateTypeReader genericArguments)] })) := by
  by_cases ha : (factory.CreateTypeReader genericArguments).readerName =
      StripAssemblyVersion name
  · exact Or.inr ⟨Or.inr ha, GetByReaderName_created m name _ _ _ h hs hf ha⟩
  · by_cases hd : m.NDEBUG = true
    · exact Or.inr ⟨Or.inl hd, GetByReaderName_unchecked m name _ _ _ h hs hf hd⟩
    · have hd : m.NDEBUG = false := by simpa using hd
      exact Or.inl ⟨hd, ha, GetByReaderName_assertionFailed m name _ _ _ h hs hf ha hd⟩

theorem GetByReaderName_NDEBUG (m : TypeReaderManager) (name : wstring) :
    (TypeReaderManager.GetByReaderName name m).2.NDEBUG = m.NDEBUG := by
  unfold TypeReaderManager.GetByReaderName
  simp only
  split
  · rfl
  · split
    · split
      · split <;> rfl
      · rfl
    · rfl

theorem fatalError_cases (before after : Nat) (wanted : wstring) (thrown : Error) :
    (sprintf_s 256 before after wanted = .ok () ∧
        fatalError before after wanted thrown = thrown) ∨
      (sprintf_s 256 before after wanted = .error .invalidParameter ∧
        fatalError before after wanted thrown = .invalidParameter) := by
  unfold fatalError sprintf_s
  simp only
  split <;> split <;> simp

theorem GetByReaderName_outcome (m : TypeReaderManager) (name : wstring) :
    (((∀ reader ∈ m.typeReaders, reader.ReaderName ≠ StripAssemblyVersion name) ∧
      (SplitGenericTypeName (StripAssemblyVersion name) = none ∨
        ∃ genericName genericArguments,
          SplitGenericTypeName (StripAssemblyVersion name) =
            some (genericName, genericArguments) ∧
          ∀ factory ∈ m.genericReaders, factory.GenericReaderName ≠ genericName)) ∧
      TypeReaderManager.GetByReaderName name m =
        (.error (fatalError 24 2 (StripAssemblyVersion name)
          (.cantFindTypeReader (StripAssemblyVersion name))), m)) ∨
    (¬ ((∀ reader ∈ m.typeReaders, reader.ReaderName ≠ StripAssemblyVersion name) ∧
      (SplitGenericTypeName (StripAssemblyVersion name) = none ∨
        ∃ genericName genericArguments,
          SplitGenericTypeName (StripAssemblyVersion name) =
            some (genericName, genericArguments) ∧
          ∀ factory ∈ m.genericReaders, factory.GenericReaderName ≠ genericName)) ∧
      ((∃ reader m', TypeReaderManager.GetByReaderName name m = (.ok reader, m')) ∨
        TypeReaderManager.GetByReaderName name m = (.error .assertionFailed, m))) := by
  cases hfind : findByReaderName (StripAssemblyVersion name) m.typeReaders 0 with
  | some reader =>
    have hex := (findByReaderName_eq_none (StripAssemblyVersion name) m.typeReaders 0).not.mp
      (by simp [hfind])
    exact Or.inr ⟨fun h => hex h.1, Or.inl ⟨_, _, GetByReaderName_found m name reader hfind⟩⟩
  | none =>
    have hnone := (findByReaderName_eq_none _ _ _).mp hfind
    cases hsplit : SplitGenericTypeName (StripAssemblyVersion name) with
    | none =>
      exact Or.inl ⟨⟨hnone, Or.inl rfl⟩, GetByReaderName_notGeneric m name hfind hsplit⟩
    | some split =>
      obtain ⟨genericName, genericArguments⟩ := split
      cases hfac : findFactory genericName m.genericReaders with
      | none =>
        have hno := (findFactory_eq_none _ _).mp hfac
        exact Or.inl ⟨⟨hnone, Or.inr ⟨genericName, genericArguments, rfl, hno⟩⟩,
          GetByReaderName_noFactory m name _ _ hfind hsplit hfac⟩
      | some factory =>
        have hf := findFactory_eq_some _ _ _ hfac
        refine Or.inr ⟨?_, ?_⟩
        · rintro ⟨-, h | ⟨g, a, hga, hall⟩⟩
          · cases h
          · cases hga
            exact hall factory hf.1 hf.2
        · by_cases ha : m.NDEBUG = false ∧
              (factory.CreateTypeReader genericArguments).readerName ≠
                StripAssemblyVersion name
          · exact Or.inr
              (GetByReaderName_assertionFailed m name _ _ _ hfind hsplit hfac ha.2 ha.1)
          · refine Or.inl ⟨m.typeReaders.length, { m with typeReaders :=
              m.typeReaders ++ [.generic (factory.CreateTypeReader genericArguments)] }, ?_⟩
            simp only [TypeReaderManager.GetByReaderName, hfind, hsplit, hfac, if_neg ha]

/-- The failures of `GetByReaderName(name)`.  With `w = StripAssemblyVersion(name)`,
the call reaches its last statements if and only if no reader of the registry has
`ReaderName() == w` and either `SplitGenericTypeName(w)` returns false or no
registered factory has `GenericReaderName()` equal to the open name it split off.
It then fails with the unknown-reader exception when `sprintf_s` can format the
message into its 256 characters, and in the invalid parameter handler of
`sprintf_s` when it cannot; whenever the call fails, the registry is left as it
was. -/
theorem GetByReaderName_fails_unknown_iff (m : TypeReaderManager) (name : wstring) :
    ((TypeReaderManager.GetByReaderName name m).1 =
        .error (.cantFindTypeReader (StripAssemblyVersion name)) ↔
      ((∀ reader ∈ m.typeReaders, reader.ReaderName ≠ StripAssemblyVersion name) ∧
      (SplitGenericTypeName (StripAssemblyVersion name) = none ∨
        ∃ genericName genericArguments,
          SplitGenericTypeName (StripAssemblyVersion name) =
            some (genericName, genericArguments) ∧
          ∀ factory ∈ m.genericReaders, factory.GenericReaderName ≠ genericName)) ∧
      sprintf_s 256 24 2 (StripAssemblyVersion name) = .ok ()) ∧
    ((TypeReaderManager.GetByReaderName name m).1 = .error .invalidParameter ↔
      ((∀ reader ∈ m.typeReaders, reader.ReaderName ≠ StripAssemblyVersion name) ∧
      (SplitGenericTypeName (StripAssemblyVersion name) = none ∨
        ∃ genericName genericArguments,
          SplitGenericTypeName (StripAssemblyVersion name) =
            some (genericName, genericArguments) ∧
          ∀ factory ∈ m.genericReaders, factory.GenericReaderName ≠ genericName)) ∧
      sprintf_s 256 24 2 (StripAssemblyVersion name) = .error .invalidParameter) ∧
    (∀ wanted, (TypeReaderManager.GetByReaderName name m).1 =
        .error (.cantFindTypeReader wanted) → wanted = StripAssemblyVersion name) ∧
    (∀ e, (TypeReaderManager.GetByReaderName name m).1 = .error e →
      (TypeReaderManager.GetByReaderName name m).2 = m) := by
  have hcases := fatalError_cases 24 2 (StripAssemblyVersion name)
    (.cantFindTypeReader (StripAssemblyVersion name))
  rcases GetByReaderName_outcome m name with ⟨hcond, hG⟩ | ⟨hcond, ⟨reader, m', hG⟩ | hG⟩
  · rw [hG]
    rcases hcases with ⟨hs, he⟩ | ⟨hs, he⟩
    · rw [he, hs]
      refine ⟨⟨fun _ => ⟨hcond, rfl⟩, fun _ => rfl⟩,
        ⟨fun h => (by cases h), fun h => (by cases h.2)⟩, fun w h => ?_, fun _ _ => rfl⟩
      cases h
      rfl
    · rw [he, hs]
      refine ⟨⟨fun h => (by cases h), fun h => (by cases h.2)⟩,
        ⟨fun _ => ⟨hcond, rfl⟩, fun _ => rfl⟩, fun w h => (by cases h), fun _ _ => rfl⟩
  · rw [hG]
    exact ⟨⟨fun h => (by cases h), fun h => absurd h.1 hcond⟩,
      ⟨fun h => (by cases h), fun h => absurd h.1 hcond⟩, fun w h => (by cases h),
      fun e h => (by cases h)⟩
  · rw [hG]
    exact ⟨⟨fun h => (by cases h), fun h => absurd h.1 hcond⟩,
      ⟨fun h => (by cases h), fun h => absurd h.1 hcond⟩, fun w h => (by cases h),
      fun _ _ => rfl⟩

theorem findByTargetType_eq_some (wanted : wstring) (readers : List TypeReader)
    (index found : Nat) (h : findByTargetType wanted readers index = .ok (some found)) :
    ∃ k reader, found = index + k ∧ readers.get? k = some reader ∧
      reader.TargetType = .ok wanted ∧
      ∀ j reader', j < k → readers.get? j = some reader' →
        reader'.TargetType ≠ .ok wanted := by
  induction readers generalizing index with
  | nil => simp [findByTargetType] at h
  | cons reader rest ih =>
    unfold findByTargetType at h
    cases ht : reader.TargetType with
    | error e => simp [ht] at h
    | ok t =>
      simp only [ht] at h
      by_cases hw : t = wanted
      · simp [hw] at h
        exact ⟨0, reader, by omega, rfl, by rw [ht, hw], by intro j _ hj; omega⟩
      · simp only [hw, if_false] at h
        obtain ⟨k, reader', hk, hget, htt, hfirst⟩ := ih (index + 1) h
        refine ⟨k + 1, reader', by omega, by simpa using hget, htt, ?_⟩
        intro j r' hj hr'
        cases j with
        | zero =>
          simp at hr'; subst hr'
          rw [ht]; intro hc; exact hw (Except.ok.inj hc)
        | succ j => exact hfirst j r' (by omega) (by simpa using hr')

theorem findByTargetType_eq_none (wanted : wstring) (readers : List TypeReader)
    (index : Nat) (h : findByTargetType wanted readers index = .ok none) :
    ∀ reader ∈ readers, reader.TargetType ≠ .ok wanted := by
  induction readers generalizing index with
  | nil => simp
  | cons reader rest ih =>
    unfold findByTargetType at h
    cases ht : reader.TargetType with
    | error e => simp [ht] at h
    | ok t =>
      simp only [ht] at h
      by_cases hw : t = wanted
      · simp [hw] at h
      · simp only [hw, if_false] at h
        intro r hr
        rcases List.mem_cons.mp hr with rfl | hr
        · rw [ht]; intro hc; exact hw (Except.ok.inj hc)
        · exact ih (index + 1) h r hr

theorem findByTargetType_defined (wanted : wstring) (readers : List TypeReader)
    (index : Nat) (hT : ∀ reader ∈ readers, ∃ t, reader.TargetType = .ok t) :
    ∃ found, findByTargetType wanted readers index = .ok found := by
  induction readers generalizing index with
  | nil => exact ⟨none, rfl⟩
  | cons reader rest ih =>
    obtain ⟨t, ht⟩ := hT reader (by simp)
    unfold findByTargetType
    simp only [ht]
    by_cases hw : t = wanted
    · exact ⟨some index, by simp [hw]⟩
    · simp only [hw, if_false]
      exact ih (index + 1) (fun r hr => hT r (by simp [hr]))

theorem GetByTargetType_manager (m : TypeReaderManager) (targetType : wstring) :
    (TypeReaderManager.GetByTargetType targetType m).2 = m := by
  unfold TypeReaderManager.GetByTargetType
  simp only []
  split <;> rfl

theorem GetByTargetType_result (m : TypeReaderManager) (targetType : wstring) :
    (TypeReaderManager.GetByTargetType targetType m).1 =
      match findByTargetType (StripAssemblyVersion targetType) m.typeReaders 0 with
      | .ok (some reader) => .ok reader
      | .ok none => .error (fatalError 35 2 (StripAssemblyVersion targetType)
          (.cantFindTargetType (StripAssemblyVersion targetType)))
      | .error e => .error e := by
  unfold TypeReaderManager.GetByTargetType
  simp only []
  split <;> simp_all

/-- In a registry whose readers all have a `TargetType()` (no generic reader that
reads an argument it does not have), `GetByTargetType(name)` leaves the registry
as it was (so it never instantiates a specialization), returns reader `i` exactly
when `i` is the first reader in registry order whose `TargetType()` equals
`StripAssemblyVersion(name)`, and fails exactly when no reader has that target
type: with the unknown-target-type exception when `sprintf_s` can format the
message into its 256 characters, and in the invalid parameter handler of
`sprintf_s` when it cannot. -/
theorem GetByTargetType_spec (m : TypeReaderManager) (targetType : wstring)
    (hT : ∀ reader ∈ m.typeReaders, ∃ t, reader.TargetType = .ok t) :
    (TypeReaderManager.GetByTargetType targetType m).2 = m ∧
    (∀ i, (TypeReaderManager.GetByTargetType targetType m).1 = .ok i ↔
      ∃ reader, m.typeReaders.get? i = some reader ∧
        reader.TargetType = .ok (StripAssemblyVersion targetType) ∧
        ∀ j reader', j < i → m.typeReaders.get? j = some reader' →
          reader'.TargetType ≠ .ok (StripAssemblyVersion targetType)) ∧
    ((TypeReaderManager.GetByTargetType targetType m).1 =
        .error (.cantFindTargetType (StripAssemblyVersion targetType)) ↔
      (∀ reader ∈ m.typeReaders,
        reader.TargetType ≠ .ok (StripAssemblyVersion targetType)) ∧
      sprintf_s 256 35 2 (StripAssemblyVersion targetType) = .ok ()) ∧
    ((TypeReaderManager.GetByTargetType targetType m).1 = .error .invalidParameter ↔
      (∀ reader ∈ m.typeReaders,
        reader.TargetType ≠ .ok (StripAssemblyVersion targetType)) ∧
      sprintf_s 256 35 2 (StripAssemblyVersion targetType) = .error .invalidParameter) ∧
    (∀ e, (TypeReaderManager.GetByTargetType targetType m).1 = .error e →
      e = .cantFindTargetType (StripAssemblyVersion targetType) ∨ e = .invalidParameter) := by
  have hcases := fatalError_cases 35 2 (StripAssemblyVersion targetType)
    (.cantFindTargetType (StripAssemblyVersion targetType))
  refine ⟨GetByTargetType_manager m targetType, ?_⟩
  rw [GetByTargetType_result]
  obtain ⟨found, hfound⟩ :=
    findByTargetType_defined (StripAssemblyVersion targetType) m.typeReaders 0 hT
  rw [hfound]
  cases found with
  | none =>
    have hnone := findByTargetType_eq_none _ _ _ hfound
    refine ⟨?_, ?_⟩
    · intro i
      simp only [reduceCtorEq, false_iff, not_exists, not_and]
      intro reader hget ht
      exact absurd ht (hnone reader (List.get?_mem hget))
    · rcases hcases with ⟨hs, he⟩ | ⟨hs, he⟩
      · simp only [he, hs]
        simp only [true_iff, and_true, Except.error.injEq, reduceCtorEq, false_iff,
          and_false, not_false_eq_true, true_and]
        exact ⟨hnone, fun e he => Or.inl he.symm⟩
      · simp only [he, hs]
        simp only [true_iff, and_true, Except.error.injEq, reduceCtorEq, false_iff,
          and_false, not_false_eq_true, true_and]
        exact ⟨hnone, fun e he => Or.inr he.symm⟩
  | some k =>
    obtain ⟨k', reader, hk, hget, ht, hfirst⟩ := findByTargetType_eq_some _ _ _ _ hfound
    have hk0 : k = k' := by omega
    subst hk0
    have hsome : ¬ ∀ reader ∈ m.typeReaders,
        reader.TargetType ≠ .ok (StripAssemblyVersion targetType) := by
      simp only [not_forall]
      exact ⟨reader, List.get?_mem hget, by simp [ht]⟩
    refine ⟨?_, ?_, ?_, ?_⟩
    · intro i
      simp only [Except.ok.injEq]
      constructor
      · rintro rfl
        exact ⟨reader, hget, ht, hfirst⟩
      · rintro ⟨reader', hget', ht', hfirst'⟩
        rcases Nat.lt_trichotomy k i with h | h | h
        · exact absurd ht (hfirst' k reader h hget)
        · exact h
        · exact absurd ht' (hfirst i reader' h hget')
    · simp only [reduceCtorEq, false_iff, not_and]
      exact fun h => absurd h hsome
    · simp only [reduceCtorEq, false_iff, not_and]
      exact fun h => absurd h hsome
    · intro e he
      cases he

/-! ## Lemmas: the monad of member functions -/

@[simp] theorem Method.pure_apply {σ α : Type} (a : α) (s : σ) :
    (Pure.pure a : Method σ α) s = (.ok a, s) := rfl

@[simp] theorem Method.ite_apply {σ α : Type} (c : Prop) [Decidable c] (x y : Method σ α)
    (s : σ) : (if c then x else y) s = if c then x s else y s := by
  split <;> rfl

@[simp] theorem Method.bind_apply {σ α β : Type} (x : Method σ α) (f : α → Method σ β)
    (s : σ) :
    (x >>= f) s =
      match x s with
      | (.ok a, s) => f a s
      | (.error e, s) => (.error e, s) := rfl

@[simp] theorem Method.fail_apply {σ α : Type} (e : Error) (s : σ) :
    (Method.fail e : Method σ α) s = (.error e, s) := rfl

@[simp] theorem Method.get_apply {σ : Type} (s : σ) :
    (Method.get : Method σ σ) s = (.ok s, s) := rfl

@[simp] theorem Method.modify_apply {σ : Type} (f : σ → σ) (s : σ) :
    Method.modify f s = (.ok (), f s) := rfl

@[simp] theorem Method.ofExcept_apply {σ α : Type} (x : Except Error α) (s : σ) :
    (Method.ofExcept x : Method σ α) s = (x, s) := rfl

@[simp] theorem Method.lift_apply {σ τ α : Type} (get : σ → τ) (set : σ → τ → σ)
    (x : Method τ α) (s : σ) :
    Method.lift get set x s = ((x (get s)).1, set s (x (get s)).2) := rfl

theorem Method.eq_ok_of_fst {σ α : Type} {x : Method σ α} {s : σ} {a : α}
    (h : (x s).1 = .ok a) : x s = (.ok a, (x s).2) :=
  Prod.ext h rfl

theorem Method.bind_ok {σ α β : Type} {x : Method σ α} {f : α → Method σ β} {s s' : σ}
    {a : α} (h : x s = (.ok a, s')) : (x >>= f) s = f a s' := by
  simp [h]

theorem Method.bind_error {σ α β : Type} {x : Method σ α} {f : α → Method σ β} {s s' : σ}
    {e : Error} (h : x s = (.error e, s')) : (x >>= f) s = (.error e, s') := by
  simp [h]

theorem Method.Preserves.pure {σ α : Type} {R : σ → σ → Prop} (hR : Method.Frame R) (a : α) :
    Method.Preserves R (Pure.pure a : Method σ α) := fun s => hR.refl s

theorem Method.Preserves.fail {σ α : Type} {R : σ → σ → Prop} (hR : Method.Frame R)
    (e : Error) : Method.Preserves R (Method.fail e : Method σ α) := fun s => hR.refl s

theorem Method.Preserves.get {σ : Type} {R : σ → σ → Prop} (hR : Method.Frame R) :
    Method.Preserves R (Method.get : Method σ σ) := fun s => hR.refl s

theorem Method.Preserves.ofExcept {σ α : Type} {R : σ → σ → Prop} (hR : Method.Frame R)
    (x : Except Error α) : Method.Preserves R (Method.ofExcept x : Method σ α) :=
  fun s => hR.refl s

theorem Method.Preserves.modify {σ : Type} {R : σ → σ → Prop} {f : σ → σ}
    (h : ∀ s, R s (f s)) : Method.Preserves R (Method.modify f) := fun s => h s

theorem Method.Preserves.bind {σ α β : Type} {R : σ → σ → Prop} (hR : Method.Frame R)
    {x : Method σ α} {f : α → Method σ β} (hx : Method.Preserves R x)
    (hf : ∀ a, Method.Preserves R (f a)) : Method.Preserves R (x >>= f) := by
  intro s
  have h1 := hx s
  simp only [Method.bind_apply]
  cases hxs : x s with
  | mk result s' =>
    rw [hxs] at h1
    cases result with
    | ok a => exact hR.trans h1 (hf a s')
    | error e => exact h1

theorem Method.Preserves.forLoop_go {σ : Type} {R : σ → σ → Prop} (hR : Method.Frame R)
    {body : Nat → Method σ Unit} (hbody : ∀ i, Method.Preserves R (body i))
    (count i : Nat) : Method.Preserves R (forLoop.go body count i) := by
  induction count generalizing i with
  | zero => exact Method.Preserves.pure hR ()
  | succ n ih => exact Method.Preserves.bind hR (hbody i) fun _ => ih (i + 1)

theorem Method.Preserves.forLoop {σ : Type} {R : σ → σ → Prop} (hR : Method.Frame R)
    {body : Nat → Method σ Unit} (hbody : ∀ i, Method.Preserves R (body i))
    (count : Nat) : Method.Preserves R (forLoop count body) :=
  Method.Preserves.forLoop_go hR hbody count 0

theorem Method.Preserves.forEach {σ α : Type} {R : σ → σ → Prop} (hR : Method.Frame R)
    {body : α → Method σ Unit} (hbody : ∀ a, Method.Preserves R (body a))
    (xs : List α) : Method.Preserves R (forEach body xs) := by
  induction xs with
  | nil => exact Method.Preserves.pure hR ()
  | cons a rest ih => exact Method.Preserves.bind hR (hbody a) fun _ => ih

/-! ## Lemmas: reader names in the registry -/

theorem GetByReaderName_noDuplicates (m : TypeReaderManager) (name : wstring)
    (h : m.NoDuplicateReaderNames) (hdebug : m.NDEBUG = false) :
    (TypeReaderManager.GetByReaderName name m).2.NoDuplicateReaderNames := by
  cases hfind : findByReaderName (StripAssemblyVersion name) m.typeReaders 0 with
  | some reader => rw [GetByReaderName_found m name reader hfind]; exact h
  | none =>
    have hnone := (findByReaderName_eq_none _ _ _).mp hfind
    cases hsplit : SplitGenericTypeName (StripAssemblyVersion name) with
    | none => rw [GetByReaderName_notGeneric m name hfind hsplit]; exact h
    | some split =>
      obtain ⟨genericName, genericArguments⟩ := split
      cases hfac : findFactory genericName m.genericReaders with
      | none => rw [GetByReaderName_noFactory m name _ _ hfind hsplit hfac]; exact h
      | some factory =>
        rcases GetByReaderName_factory m name _ _ _ hfind hsplit hfac with
          ⟨-, -, hG⟩ | ⟨ha, hG⟩
        · rw [hG]; exact h
        · have ha : (factory.CreateTypeReader genericArguments).readerName =
              StripAssemblyVersion name := by
            rcases ha with ha | ha
            · rw [hdebug] at ha; cases ha
            · exact ha
          rw [hG]
          unfold TypeReaderManager.NoDuplicateReaderNames at h ⊢
          simp only [List.map_append, List.map_cons, List.map_nil]
          refine List.Nodup.append h (List.nodup_singleton _) ?_
          simp only [List.disjoint_singleton, TypeReader.ReaderName, ha]
          intro hmem
          obtain ⟨reader, hr, hname⟩ := List.mem_map.mp hmem
          exact hnone reader hr hname

theorem assign_readerNames (reader : Nat) (f : GenericTypeReader → GenericTypeReader)
    (hf : ∀ g, (f g).readerName = g.readerName) (m : TypeReaderManager) :
    (TypeReaderManager.assign reader f m).2.typeReaders.map TypeReader.ReaderName =
      m.typeReaders.map TypeReader.ReaderName := by
  unfold TypeReaderManager.assign
  simp only [Method.modify_apply]
  split
  · rename_i g hg
    simp only [List.map_set]
    apply List.ext_getElem?
    intro i
    by_cases hi : reader = i
    · subst hi
      rw [List.get?_eq_getElem?] at hg
      have hlt : reader < m.typeReaders.length := by
        by_contra hc
        rw [List.getElem?_eq_none (by omega)] at hg
        cases hg
      have hget : m.typeReaders[reader] = .generic g := by
        rw [List.getElem?_eq_getElem hlt] at hg
        exact Option.some.inj hg
      simp [hlt, hget, TypeReader.ReaderName, hf]
    · simp [List.getElem?_set_ne hi]
  · rfl


theorem sameReaderNames_frame : Method.Frame sameReaderNames :=
  ⟨fun _ => rfl, fun h1 h2 => h2.trans h1⟩

theorem GetByTargetType_sameReaderNames (targetType : wstring) :
    Method.Preserves sameReaderNames (TypeReaderManager.GetByTargetType targetType) := by
  intro m
  rw [GetByTargetType_manager]
  exact sameReaderNames_frame.refl m

theorem assign_sameReaderNames (reader : Nat) (f : GenericTypeReader → GenericTypeReader)
    (hf : ∀ g, (f g).readerName = g.readerName) :
    Method.Preserves sameReaderNames (TypeReaderManager.assign reader f) :=
  fun m => assign_readerNames reader f hf m

theorem Initialize_sameReaderNames (reader : Nat) :
    Method.Preserves sameReaderNames (TypeReaderManager.Initialize reader) := by
  unfold TypeReaderManager.Initialize
  refine Method.Preserves.bind sameReaderNames_frame (Method.Preserves.get sameReaderNames_frame) fun m => ?_
  refine Method.Preserves.bind sameReaderNames_frame (Method.Preserves.ofExcept sameReaderNames_frame _) fun object => ?_
  cases object with
  | plain cls => exact Method.Preserves.pure sameReaderNames_frame ()
  | generic g =>
    simp only []
    cases hc : g.cls <;> simp only [] <;>
    repeat' first
      | exact Method.Preserves.pure sameReaderNames_frame _
      | exact Method.Preserves.ofExcept sameReaderNames_frame _
      | exact GetByTargetType_sameReaderNames _
      | exact assign_sameReaderNames _ _ (fun _ => rfl)
      | refine Method.Preserves.bind sameReaderNames_frame ?_ fun _ => ?_

theorem sameBuild_frame :
    Method.Frame (fun m m' : TypeReaderManager => m'.NDEBUG = m.NDEBUG) :=
  ⟨fun _ => rfl, fun h1 h2 => h2.trans h1⟩

theorem Initialize_NDEBUG (reader : Nat) :
    Method.Preserves (fun m m' : TypeReaderManager => m'.NDEBUG = m.NDEBUG)
      (TypeReaderManager.Initialize reader) := by
  have hassign : ∀ (reader : Nat) (f : GenericTypeReader → GenericTypeReader),
      Method.Preserves (fun m m' : TypeReaderManager => m'.NDEBUG = m.NDEBUG)
        (TypeReaderManager.assign reader f) := by
    intro reader f m
    unfold TypeReaderManager.assign
    simp only [Method.modify_apply]
    split <;> rfl
  have hget : ∀ targetType : wstring,
      Method.Preserves (fun m m' : TypeReaderManager => m'.NDEBUG = m.NDEBUG)
        (TypeReaderManager.GetByTargetType targetType) := by
    intro targetType m
    rw [GetByTargetType_manager]
  unfold TypeReaderManager.Initialize
  refine Method.Preserves.bind sameBuild_frame (Method.Preserves.get sameBuild_frame) fun m => ?_
  refine Method.Preserves.bind sameBuild_frame (Method.Preserves.ofExcept sameBuild_frame _)
    fun object => ?_
  cases object with
  | plain cls => exact Method.Preserves.pure sameBuild_frame ()
  | generic g =>
    simp only []
    cases hc : g.cls <;> simp only [] <;>
    repeat' first
      | exact Method.Preserves.pure sameBuild_frame _
      | exact Method.Preserves.ofExcept sameBuild_frame _
      | exact hget _
      | exact hassign _ _
      | refine Method.Preserves.bind sameBuild_frame ?_ fun _ => ?_

theorem ManagerCall.run_NDEBUG (call : ManagerCall) (m : TypeReaderManager) :
    (call.run m).NDEBUG = m.NDEBUG := by
  cases call with
  | GetByReaderName name => exact GetByReaderName_NDEBUG m name
  | GetByTargetType name => simp only [ManagerCall.run, GetByTargetType_manager]
  | Initialize reader => exact Initialize_NDEBUG reader m

theorem runCalls_NDEBUG (calls : List ManagerCall) (m : TypeReaderManager) :
    (runCalls calls m).NDEBUG = m.NDEBUG := by
  induction calls generalizing m with
  | nil => rfl
  | cons call rest ih => exact (ih (call.run m)).trans (call.run_NDEBUG m)

theorem standardManager_noDuplicates : standardManager.NoDuplicateReaderNames := by
  unfold TypeReaderManager.NoDuplicateReaderNames
  decide

theorem ManagerCall.run_noDuplicates (call : ManagerCall) (m : TypeReaderManager)
    (h : m.NoDuplicateReaderNames) (hdebug : m.NDEBUG = false) :
    (call.run m).NoDuplicateReaderNames := by
  cases call with
  | GetByReaderName name => exact GetByReaderName_noDuplicates m name h hdebug
  | GetByTargetType name =>
    simp only [ManagerCall.run, GetByTargetType_manager]
    exact h
  | Initialize reader =>
    unfold TypeReaderManager.NoDuplicateReaderNames at h ⊢
    simp only [ManagerCall.run]
    rw [Initialize_sameReaderNames reader m]
    exact h

theorem runCalls_noDuplicates (calls : List ManagerCall) (m : TypeReaderManager)
    (h : m.NoDuplicateReaderNames) (hdebug : m.NDEBUG = false) :
    (runCalls calls m).NoDuplicateReaderNames := by
  induction calls generalizing m with
  | nil => exact h
  | cons call rest ih =>
    exact ih (call.run m) (call.run_noDuplicates m h hdebug)
      ((call.run_NDEBUG m).trans hdebug)

/-- Unique names in a build that checks `assert`: in the registry made by
`RegisterStandardTypes`, and after any sequence of `GetByReaderName`,
`GetByTargetType` and `Initialize` calls with arbitrary arguments (returning or
failing), no two readers of the registry's reader list have the same
`ReaderName()`. -/
theorem registry_readerNames_unique (calls : List ManagerCall) :
    ((runCalls calls standardManager).typeReaders.map TypeReader.ReaderName).Nodup :=
  runCalls_noDuplicates calls standardManager standardManager_noDuplicates rfl

/-! ## Lemmas: `find` and `StripAssemblyVersion` -/

theorem find_eq_none_of_not_mem (s : wstring) (c pos : Nat) (h : c ∉ s.drop pos) :
    find s c pos = none := by
  induction s generalizing pos with
  | nil => simp [find]
  | cons x xs ih =>
    cases pos with
    | zero =>
      simp only [List.drop_zero, List.mem_cons, not_or] at h
      have hx : ¬ x = c := fun hxc => h.1 hxc.symm
      simp [find, hx, ih 0 (by simpa using h.2)]
    | succ pos =>
      simp only [List.drop_succ_cons] at h
      simp [find, ih pos h]

theorem find_append_of_not_mem (n s : wstring) (c : Nat) (h : c ∉ n) :
    find (n ++ s) c 0 = (find s c 0).map (· + n.length) := by
  induction n with
  | nil => simp
  | cons x xs ih =>
    simp only [List.mem_cons, not_or] at h
    have hx : ¬ x = c := fun hxc => h.1 hxc.symm
    simp only [List.cons_append, find, hx, if_false, List.append_eq, ih h.2, Option.map_map,
      List.length_cons]
    cases find s c 0 with
    | none => rfl
    | some k => simp only [Option.map_some', Function.comp_apply, Option.some.injEq]; omega

theorem find_append_length (n s : wstring) (c : Nat) :
    find (n ++ s) c n.length = (find s c 0).map (· + n.length) := by
  induction n with
  | nil => simp
  | cons x xs ih =>
    simp only [List.cons_append, List.length_cons, find, List.append_eq, ih, Option.map_map]
    cases find s c 0 with
    | none => rfl
    | some k => simp only [Option.map_some', Function.comp_apply, Option.some.injEq]; omega

theorem find_cons_self (s : wstring) (c : Nat) : find (c :: s) c 0 = some 0 := by
  simp [find]

theorem StripAssemblyVersion_of_no_comma (s : wstring) (h : 44 ∉ s) :
    StripAssemblyVersion s = s := by
  unfold StripAssemblyVersion
  simp [StripAssemblyVersion.loop, find_eq_none_of_not_mem s 44 0 (by simpa using h)]

theorem StripAssemblyVersion_suffix (n rest : wstring) (hn : 44 ∉ n)
    (h1 : rest.head? ≠ some 91) (h2 : 93 ∉ rest) :
    StripAssemblyVersion (n ++ 44 :: rest) = n := by
  unfold StripAssemblyVersion
  have hfuel : (n ++ 44 :: rest).length + 1 = (n.length + rest.length) + 1 + 1 := by
    simp; omega
  rw [hfuel]
  have hfind : find (n ++ 44 :: rest) 44 0 = some n.length := by
    rw [find_append_of_not_mem n _ 44 hn, find_cons_self]; simp
  have hchar : charAt (n ++ 44 :: rest) (n.length + 1) ≠ 91 := by
    unfold charAt
    have hget : (n ++ 44 :: rest)[n.length + 1]? = rest[0]? := by
      rw [List.getElem?_append_right (by omega)]
      simp
    rw [List.getD_eq_getElem?_getD, hget]
    cases rest with
    | nil => simp
    | cons x xs =>
      simp only [List.head?_cons, ne_eq, Option.some.injEq] at h1
      simpa using h1
  have hclose : find (n ++ 44 :: rest) 93 n.length = none := by
    rw [find_append_length]
    rw [find_eq_none_of_not_mem (44 :: rest) 93 0 (by simpa using h2)]
    rfl
  have hend : find n 44 n.length = none :=
    find_eq_none_of_not_mem n 44 n.length (by simp)
  simp [StripAssemblyVersion.loop, hfind, hchar, hclose, eraseToEnd, hend]

theorem ReaderClass.readerName_no_comma (cls : ReaderClass) : 44 ∉ cls.ReaderName := by
  cases cls <;> decide

theorem ReaderClass.mem_standardManager (cls : ReaderClass) :
    TypeReader.plain cls ∈ standardManager.typeReaders := by
  cases cls <;> decide

theorem readerNamesExtend_frame : Method.Frame readerNamesExtend :=
  ⟨fun _ => ⟨[], by simp⟩, fun ⟨e1, h1⟩ ⟨e2, h2⟩ => ⟨e1 ++ e2, by rw [h2, h1, List.append_assoc]⟩⟩

theorem GetByReaderName_readerNamesExtend (name : wstring) :
    Method.Preserves readerNamesExtend (TypeReaderManager.GetByReaderName name) := by
  intro m
  cases hfind : findByReaderName (StripAssemblyVersion name) m.typeReaders 0 with
  | some reader =>
    rw [GetByReaderName_found m name reader hfind]; exact readerNamesExtend_frame.refl m
  | none =>
    cases hsplit : SplitGenericTypeName (StripAssemblyVersion name) with
    | none =>
      rw [GetByReaderName_notGeneric m name hfind hsplit]; exact readerNamesExtend_frame.refl m
    | some split =>
      obtain ⟨genericName, genericArguments⟩ := split
      cases hfac : findFactory genericName m.genericReaders with
      | none =>
        rw [GetByReaderName_noFactory m name _ _ hfind hsplit hfac]
        exact readerNamesExtend_frame.refl m
      | some factory =>
        rcases GetByReaderName_factory m name _ _ _ hfind hsplit hfac with
          ⟨-, -, hG⟩ | ⟨-, hG⟩
        · rw [hG]
          exact readerNamesExtend_frame.refl m
        · rw [hG]
          exact ⟨[(factory.CreateTypeReader genericArguments).readerName], by
            simp [TypeReader.ReaderName]⟩

theorem ManagerCall.run_readerNamesExtend (call : ManagerCall) (m : TypeReaderManager) :
    readerNamesExtend m (call.run m) := by
  cases call with
  | GetByReaderName name => exact GetByReaderName_readerNamesExtend name m
  | GetByTargetType name =>
    simp only [ManagerCall.run, GetByTargetType_manager]
    exact readerNamesExtend_frame.refl m
  | Initialize reader =>
    exact ⟨[], by simp only [ManagerCall.run, List.append_nil]; exact Initialize_sameReaderNames reader m⟩

theorem runCalls_readerNamesExtend (calls : List ManagerCall) (m : TypeReaderManager) :
    readerNamesExtend m (runCalls calls m) := by
  induction calls generalizing m with
  | nil => exact readerNamesExtend_frame.refl m
  | cons call rest ih =>
    exact readerNamesExtend_frame.trans (call.run_readerNamesExtend m) (ih (call.run m))

theorem runCalls_standard_registered (calls : List ManagerCall) (cls : ReaderClass) :
    ∃ reader, findByReaderName cls.ReaderName
      (runCalls calls standardManager).typeReaders 0 = some reader := by
  obtain ⟨extra, hextra⟩ := runCalls_readerNamesExtend calls standardManager
  cases hfind : findByReaderName cls.ReaderName (runCalls calls standardManager).typeReaders 0 with
  | some reader => exact ⟨reader, rfl⟩
  | none =>
    exfalso
    have hnone := (findByReaderName_eq_none _ _ _).mp hfind
    have hmem : cls.ReaderName ∈
        (runCalls calls standardManager).typeReaders.map TypeReader.ReaderName := by
      rw [hextra]
      exact List.mem_append_left _ (List.mem_map.mpr ⟨_, cls.mem_standardManager, rfl⟩)
    obtain ⟨reader, hr, hname⟩ := List.mem_map.mp hmem
    exact hnone reader hr hname

/-- C8: for every non-generic reader name `N` registered by `RegisterStandardTypes`,
every suffix that starts with a comma not followed by `[` and contains no `]`, and
every registry reached from the standard one, `GetByReaderName(N + suffix)` returns
the same reader instance as `GetByReaderName(N)`, and neither call changes the
registry. -/
theorem GetByReaderName_ignores_assembly_suffix (cls : ReaderClass) (suffix : wstring)
    (calls : List ManagerCall)
    (hcomma : suffix.head? = some 44) (hnext : suffix.get? 1 ≠ some 91)
    (hclose : 93 ∉ suffix) :
    ∃ reader,
      TypeReaderManager.GetByReaderName cls.ReaderName (runCalls calls standardManager) =
        (.ok reader, runCalls calls standardManager) ∧
      TypeReaderManager.GetByReaderName (cls.ReaderName ++ suffix)
          (runCalls calls standardManager) =
        (.ok reader, runCalls calls standardManager) := by
  obtain ⟨reader, hreader⟩ := runCalls_standard_registered calls cls
  cases suffix with
  | nil => simp at hcomma
  | cons c rest =>
    simp only [List.head?_cons, Option.some.injEq] at hcomma
    subst hcomma
    have hstrip : StripAssemblyVersion (cls.ReaderName ++ 44 :: rest) = cls.ReaderName :=
      StripAssemblyVersion_suffix _ rest cls.readerName_no_comma
        (by cases rest with
          | nil => simp
          | cons x xs => simpa using hnext) (by simpa using hclose)
    have hplain : StripAssemblyVersion cls.ReaderName = cls.ReaderName :=
      StripAssemblyVersion_of_no_comma _ cls.readerName_no_comma
    exact ⟨reader,
      GetByReaderName_found _ _ reader (by rw [hplain]; exact hreader),
      GetByReaderName_found _ _ reader (by rw [hstrip]; exact hreader)⟩

/-- C8, witness: `Int32Reader` with the suffix `, Assembly=X, Version=Y` on the
standard registry. -/
theorem GetByReaderName_ignores_assembly_suffix_witness :
    (L ", Assembly=X, Version=Y").head? = some 44 ∧
    (L ", Assembly=X, Version=Y").get? 1 ≠ some 91 ∧
    93 ∉ L ", Assembly=X, Version=Y" ∧
    ∃ reader,
      TypeReaderManager.GetByReaderName ReaderClass.Int32Reader.ReaderName
          (runCalls [] standardManager) = (.ok reader, runCalls [] standardManager) ∧
      TypeReaderManager.GetByReaderName
          (ReaderClass.Int32Reader.ReaderName ++ L ", Assembly=X, Version=Y")
          (runCalls [] standardManager) = (.ok reader, runCalls [] standardManager) :=
  ⟨by decide, by decide, by decide,
    GetByReaderName_ignores_assembly_suffix .Int32Reader (L ", Assembly=X, Version=Y") []
      (by decide) (by decide) (by decide)⟩

/-! ## Interning of specializations -/

theorem findByReaderName_append_of_none (wanted : wstring) (l l' : List TypeReader)
    (index : Nat) (h : findByReaderName wanted l index = none) :
    findByReaderName wanted (l ++ l') index =
      findByReaderName wanted l' (index + l.length) := by
  induction l generalizing index with
  | nil => simp
  | cons reader rest ih =>
    by_cases hn : reader.ReaderName = wanted
    · simp [findByReaderName, hn] at h
    · simp only [findByReaderName, hn, if_false] at h
      simp only [List.cons_append, findByReaderName, hn, if_false, List.length_cons,
        List.append_eq]
      rw [ih (index + 1) h]
      congr 1
      omega

theorem GetByReaderName_returns_named (m m1 : TypeReaderManager) (name : wstring)
    (reader : Nat) (h : TypeReaderManager.GetByReaderName name m = (.ok reader, m1))
    (hdebug : m.NDEBUG = false) :
    findByReaderName (StripAssemblyVersion name) m1.typeReaders 0 = some reader ∧
    ((∀ r ∈ m.typeReaders, r.ReaderName ≠ StripAssemblyVersion name) →
      m1.typeReaders.length = m.typeReaders.length + 1) ∧
    ((∃ r ∈ m.typeReaders, r.ReaderName = StripAssemblyVersion name) → m1 = m) := by
  cases hfind : findByReaderName (StripAssemblyVersion name) m.typeReaders 0 with
  | some found =>
    rw [GetByReaderName_found m name found hfind] at h
    cases h
    refine ⟨hfind, ?_, fun _ => rfl⟩
    intro hall
    rw [(findByReaderName_eq_none _ _ _).mpr hall] at hfind
    cases hfind
  | none =>
    have hnone := (findByReaderName_eq_none _ _ _).mp hfind
    cases hsplit : SplitGenericTypeName (StripAssemblyVersion name) with
    | none => rw [GetByReaderName_notGeneric m name hfind hsplit] at h; cases h
    | some split =>
      obtain ⟨genericName, genericArguments⟩ := split
      cases hfac : findFactory genericName m.genericReaders with
      | none => rw [GetByReaderName_noFactory m name _ _ hfind hsplit hfac] at h; cases h
      | some factory =>
        rcases GetByReaderName_factory m name _ _ _ hfind hsplit hfac with
          ⟨-, -, hG⟩ | ⟨ha, hG⟩
        · rw [hG] at h
          cases h
        · have ha : (factory.CreateTypeReader genericArguments).readerName =
              StripAssemblyVersion name := by
            rcases ha with ha | ha
            · rw [hdebug] at ha; cases ha
            · exact ha
          rw [hG] at h
          cases h
          refine ⟨?_, fun _ => by simp, ?_⟩
          · simp only []
            rw [findByReaderName_append_of_none _ _ _ _ hfind]
            simp [findByReaderName, TypeReader.ReaderName, ha]
          · rintro ⟨r, hr, hname⟩
            exact absurd hname (hnone r hr)

set_option maxRecDepth 100000 in
/-- C6: `ListReader` is a registered factory and the argument list with the one
argument `""` gives the specialized name
`Microsoft.Xna.Framework.Content.ListReader` followed by `` `1[[]] ``.  The name
splits into no argument, so the reader created is named `` ...`0[[]] ``.  In a
build that checks `assert`, `GetByReaderName` of that name ends in the failed
assertion and returns no reader at all.  In a build with `NDEBUG` the first call
returns the new reader 51 and the second call, which still finds no reader of
the name asked for, returns another new reader 52: the two calls do not return
the same instance, and the reader list grows by two entries. -/
theorem GetByReaderName_interning_failure :
    (GenericReaderClass.ListReader.CreateTypeReader [L ""]).readerName =
      L "Microsoft.Xna.Framework.Content.ListReader`1[[]]" ∧
    GenericReaderClass.ListReader ∈ standardManager.genericReaders ∧
    TypeReaderManager.GetByReaderName
        (GenericReaderClass.ListReader.CreateTypeReader [L ""]).readerName standardManager =
      (.error .assertionFailed, standardManager) ∧
    (TypeReaderManager.GetByReaderName
        (L "Microsoft.Xna.Framework.Content.ListReader`1[[]]") releaseManager).1 = .ok 51 ∧
    (TypeReaderManager.GetByReaderName
        (L "Microsoft.Xna.Framework.Content.ListReader`1[[]]")
        (TypeReaderManager.GetByReaderName
          (L "Microsoft.Xna.Framework.Content.ListReader`1[[]]") releaseManager).2).1 =
      .ok 52 ∧
    (TypeReaderManager.GetByReaderName
        (L "Microsoft.Xna.Framework.Content.ListReader`1[[]]")
        (TypeReaderManager.GetByReaderName
          (L "Microsoft.Xna.Framework.Content.ListReader`1[[]]")
          releaseManager).2).2.typeReaders.length =
      releaseManager.typeReaders.length + 2 := by
  decide!

/-- Interning in a build that checks `assert`: for every factory and argument
list whose specialized name `G`k[[A1],...,[Ak]]` makes a first `GetByReaderName`
call return a reader, a second call with that name returns the same reader
instance and leaves the registry as the first call left it; over the two calls the
reader list grows by exactly one entry when no reader with the normalized name was
registered before, and the registry does not change at all when one was. -/
theorem GetByReaderName_interning (m m1 : TypeReaderManager) (factory : GenericReaderClass)
    (genericArguments : List wstring) (reader : Nat)
    (h : TypeReaderManager.GetByReaderName
      (factory.CreateTypeReader genericArguments).readerName m = (.ok reader, m1))
    (hdebug : m.NDEBUG = false) :
    TypeReaderManager.GetByReaderName
      (factory.CreateTypeReader genericArguments).readerName m1 = (.ok reader, m1) ∧
    ((∀ r ∈ m.typeReaders, r.ReaderName ≠
        StripAssemblyVersion (factory.CreateTypeReader genericArguments).readerName) →
      m1.typeReaders.length = m.typeReaders.length + 1) ∧
    ((∃ r ∈ m.typeReaders, r.ReaderName =
        StripAssemblyVersion (factory.CreateTypeReader genericArguments).readerName) →
      m1 = m) := by
  obtain ⟨hfound, hgrow, hsame⟩ := GetByReaderName_returns_named m m1 _ reader h hdebug
  exact ⟨GetByReaderName_found m1 _ reader hfound, hgrow, hsame⟩

/-- An instance of the interning: `ListReader` specialized to `System.Int32` on the
standard registry: the first call creates reader 51, the second call returns
reader 51. -/
theorem GetByReaderName_interning_witness :
    TypeReaderManager.GetByReaderName
        (GenericReaderClass.ListReader.CreateTypeReader [L "System.Int32"]).readerName
        standardManager =
      (.ok 51, { standardManager with typeReaders := standardManager.typeReaders ++
        [.generic (GenericReaderClass.ListReader.CreateTypeReader [L "System.Int32"])] }) ∧
    TypeReaderManager.GetByReaderName
        (GenericReaderClass.ListReader.CreateTypeReader [L "System.Int32"]).readerName
        { standardManager with typeReaders := standardManager.typeReaders ++
          [.generic (GenericReaderClass.ListReader.CreateTypeReader [L "System.Int32"])] } =
      (.ok 51, { standardManager with typeReaders := standardManager.typeReaders ++
        [.generic (GenericReaderClass.ListReader.CreateTypeReader [L "System.Int32"])] }) :=
  ⟨by decide,
    (GetByReaderName_interning standardManager _ .ListReader [L "System.Int32"] 51
      (by decide) rfl).1⟩

/-! ## Object dispatch -/

theorem ContentReader.base_apply {α : Type} (x : Method BinaryReader α) (r : ContentReader) :
    ContentReader.base x r =
      ((x r.toBinaryReader).1, { r with toBinaryReader := (x r.toBinaryReader).2 }) := rfl

theorem ContentReader.log_apply (f : Logger → Logger) (r : ContentReader) :
    ContentReader.log f r = (.ok (), { r with Log := f r.Log }) := rfl

theorem ContentReader.manager_apply {α : Type} (x : Method TypeReaderManager α)
    (r : ContentReader) :
    ContentReader.manager x r =
      ((x r.typeReaderManager).1, { r with typeReaderManager := (x r.typeReaderManager).2 }) :=
  rfl

/-- C2: for every per-file reader table and every tag `t` that `Read7BitEncodedInt`
returns, `ReadTypeId` returns null when `t == 0` (and `ReadObject` then logs "null"
and returns, whatever the readers' `Read` would do: none is invoked), returns
`table[t-1]`, an element of the table, when `1 <= t <= n`, and fails with the
out-of-range typeId error when `t > n`; in all three cases only the tag is
consumed. -/
theorem ReadTypeId_spec (r r1 : ContentReader) (t : Nat)
    (h : ContentReader.Read7BitEncodedInt r = (.ok t, r1)) :
    (t = 0 →
      ContentReader.ReadTypeId r = (.ok none, r1) ∧
      ∀ Read : Nat → Method ContentReader Unit,
        ContentReader.ReadObject Read r =
          (.ok (), { r1 with Log := ((r.Log.Indent).WriteLine "null" []).Unindent })) ∧
    (1 ≤ t → t ≤ r.typeReaders.length →
      ∃ reader, r.typeReaders.get? (t - 1) = some reader ∧
        ContentReader.ReadTypeId r = (.ok (some reader), r1)) ∧
    (r.typeReaders.length < t →
      ContentReader.ReadTypeId r = (.error .typeIdOutOfRange, r1)) := by
  have hr1 : r1 = { r with toBinaryReader := r1.toBinaryReader } := by
    simp only [ContentReader.Read7BitEncodedInt, ContentReader.base_apply] at h
    rw [← (Prod.mk.inj h).2]
  have hb : BinaryReader.Read7BitEncodedInt r.toBinaryReader = (.ok t, r1.toBinaryReader) := by
    simp only [ContentReader.Read7BitEncodedInt, ContentReader.base_apply] at h
    rw [← (Prod.mk.inj h).2]
    exact Prod.ext (Prod.mk.inj h).1 rfl
  refine ⟨?_, ?_, ?_⟩
  · intro ht
    subst ht
    refine ⟨?_, ?_⟩
    · simp [ContentReader.ReadTypeId, h]
    · intro Read
      have h' : ContentReader.Read7BitEncodedInt { r with Log := r.Log.Indent } =
          (.ok 0, { r1 with Log := r.Log.Indent }) := by
        simp only [ContentReader.Read7BitEncodedInt, ContentReader.base_apply, hb]
        rw [hr1]
      simp [ContentReader.ReadObject, ContentReader.Indent, ContentReader.log_apply,
        ContentReader.ReadTypeId, h', ContentReader.WriteLine, ContentReader.Unindent]
  · intro h1 h2
    have hlt : t - 1 < r.typeReaders.length := by omega
    have htab : r1.typeReaders = r.typeReaders := by rw [hr1]
    refine ⟨r.typeReaders[t - 1], by simp [hlt], ?_⟩
    have hpos : t > 0 := by omega
    simp [ContentReader.ReadTypeId, h, hpos, htab, hlt]
  · intro h1
    have htab : r1.typeReaders = r.typeReaders := by rw [hr1]
    have hpos : t > 0 := by omega
    have hge : r.typeReaders.length ≤ t - 1 := by omega
    simp [ContentReader.ReadTypeId, h, hpos, htab, hge]

/-- C3: for every reader `typeReader`, when `IsValueType()` is true
`ReadValueOrObject(typeReader)` calls `typeReader->Read` directly, on a reader at
the same file position (no tag is consumed) with the log indented, and unindents
the log when it returns; when `IsValueType()` is false it is exactly `ReadObject`,
which does not depend on `typeReader`. -/
theorem ReadValueOrObject_spec (Read : Nat → Method ContentReader Unit) (r : ContentReader)
    (typeReader : Nat) (object : TypeReader)
    (h : r.typeReaderManager.deref typeReader = .ok object) :
    (object.IsValueType = true →
      ContentReader.ReadValueOrObject Read (some typeReader) r =
        match Read typeReader { r with Log := r.Log.Indent } with
        | (.ok _, r') => (.ok (), { r' with Log := r'.Log.Unindent })
        | (.error e, r') => (.error e, r')) ∧
    (object.IsValueType = false →
      ContentReader.ReadValueOrObject Read (some typeReader) r =
        ContentReader.ReadObject Read r) := by
  have hv : ContentReader.IsValueType typeReader r = (.ok object.IsValueType, r) := by
    simp [ContentReader.IsValueType, h]
  refine ⟨?_, ?_⟩
  · intro hvalue
    simp only [ContentReader.ReadValueOrObject, Method.bind_apply, hv, hvalue, if_true,
      ContentReader.Indent, ContentReader.Unindent, ContentReader.log_apply]
    cases Read typeReader { r with Log := r.Log.Indent } with
    | mk result r' => cases result <;> rfl
  · intro hvalue
    simp [ContentReader.ReadValueOrObject, hv, hvalue]

/-- C2, witness: a table of two readers and the tag byte 2. -/
theorem ReadTypeId_spec_witness :
    ContentReader.Read7BitEncodedInt
        { ContentReader.new [2] standardManager with typeReaders := [4, 7] } =
      (.ok 2, { ContentReader.new [2] standardManager with
        typeReaders := [4, 7], position := 1 }) ∧
    ContentReader.ReadTypeId
        { ContentReader.new [2] standardManager with typeReaders := [4, 7] } =
      (.ok (some 7), { ContentReader.new [2] standardManager with
        typeReaders := [4, 7], position := 1 }) := by
  refine ⟨by decide, ?_⟩
  obtain ⟨reader, hget, hread⟩ :=
    (ReadTypeId_spec { ContentReader.new [2] standardManager with typeReaders := [4, 7] }
      { ContentReader.new [2] standardManager with typeReaders := [4, 7], position := 1 }
      2 (by decide)).2.1 (by decide) (by decide)
  have h7 : reader = 7 := by
    have : ([4, 7] : List Nat).get? (2 - 1) = some 7 := by decide
    exact Option.some.inj (hget.symm.trans this)
  rw [hread, h7]

/-- C3, witness: `Int32Reader` (reader 4 of the standard registry) is a value type,
`ObjectReader` (reader 13) is not. -/
theorem ReadValueOrObject_spec_witness :
    (standardManager.deref 4 = .ok (.plain .Int32Reader) ∧
      ContentReader.ReadValueOrObject (fun _ => pure ()) (some 4)
          (ContentReader.new [] standardManager) =
        (.ok (), ContentReader.new [] standardManager)) ∧
    (standardManager.deref 13 = .ok (.plain .ObjectReader) ∧
      ContentReader.ReadValueOrObject (fun _ => pure ()) (some 13)
          (ContentReader.new [] standardManager) =
        ContentReader.ReadObject (fun _ => pure ()) (ContentReader.new [] standardManager)) :=
  ⟨⟨by decide, by
      rw [(ReadValueOrObject_spec (fun _ => pure ()) (ContentReader.new [] standardManager) 4
        (.plain .Int32Reader) (by decide)).1 (by decide)]
      decide⟩,
    ⟨by decide,
      (ReadValueOrObject_spec (fun _ => pure ()) (ContentReader.new [] standardManager) 13
        (.plain .ObjectReader) (by decide)).2 (by decide)⟩⟩

/-! ## Lemmas: the type manifest -/

theorem Method.bind_eq_ok {σ α β : Type} (x : Method σ α) (f : α → Method σ β) (s s' : σ)
    (b : β) :
    (x >>= f) s = (.ok b, s') ↔ ∃ a s1, x s = (.ok a, s1) ∧ f a s1 = (.ok b, s') := by
  simp only [Method.bind_apply]
  cases hx : x s with
  | mk result s1 =>
    cases result with
    | ok a =>
      simp only [Prod.mk.injEq, Except.ok.injEq]
      constructor
      · intro h; exact ⟨a, s1, ⟨rfl, rfl⟩, h⟩
      · rintro ⟨a', s1', ⟨rfl, rfl⟩, h⟩; exact h
    | error e => simp

theorem ContentReader.base_eq_ok {α : Type} (x : Method BinaryReader α) (r r' : ContentReader)
    (a : α) :
    ContentReader.base x r = (.ok a, r') ↔
      x r.toBinaryReader = (.ok a, r'.toBinaryReader) ∧
      r' = { r with toBinaryReader := r'.toBinaryReader } := by
  rw [ContentReader.base_apply]
  constructor
  · intro h
    have h1 := (Prod.mk.inj h).1
    have h2 := (Prod.mk.inj h).2
    subst h2
    exact ⟨Prod.ext h1 rfl, rfl⟩
  · rintro ⟨h1, h2⟩
    rw [h1, h2]

theorem ContentReader.manager_eq_ok {α : Type} (x : Method TypeReaderManager α)
    (r r' : ContentReader) (a : α) :
    ContentReader.manager x r = (.ok a, r') ↔
      x r.typeReaderManager = (.ok a, r'.typeReaderManager) ∧
      r' = { r with typeReaderManager := r'.typeReaderManager } := by
  rw [ContentReader.manager_apply]
  constructor
  · intro h
    have h1 := (Prod.mk.inj h).1
    have h2 := (Prod.mk.inj h).2
    subst h2
    exact ⟨Prod.ext h1 rfl, rfl⟩
  · rintro ⟨h1, h2⟩
    rw [h1, h2]

theorem ReadTypeManifest.entry_eq_ok (s s' : ContentReader)
    (h : ContentReader.ReadTypeManifest.entry s = (.ok (), s')) :
    ∃ readerName b1 version reader,
      BinaryReader.ReadString s.toBinaryReader = (.ok readerName, b1) ∧
      BinaryReader.ReadInt32 b1 = (.ok version, s'.toBinaryReader) ∧
      TypeReaderManager.GetByReaderName readerName s.typeReaderManager =
        (.ok reader, s'.typeReaderManager) ∧
      s'.typeReaders = s.typeReaders ++ [reader] := by
  unfold ContentReader.ReadTypeManifest.entry at h
  simp only [Method.bind_apply, ContentReader.ReadString, ContentReader.ReadInt32,
    ContentReader.base_apply, ContentReader.manager_apply, ContentReader.WriteLine,
    ContentReader.log_apply, Method.modify_apply] at h
  cases hs : BinaryReader.ReadString s.toBinaryReader with
  | mk res b1 =>
    rw [hs] at h
    cases res with
    | error e => simp at h
    | ok readerName =>
      simp only [] at h
      cases hv : BinaryReader.ReadInt32 b1 with
      | mk res2 b2 =>
        rw [hv] at h
        cases res2 with
        | error e => simp at h
        | ok version =>
          simp only [] at h
          cases hg : TypeReaderManager.GetByReaderName readerName s.typeReaderManager with
          | mk res3 m' =>
            rw [hg] at h
            cases res3 with
            | error e => simp at h
            | ok reader =>
              simp only [Prod.mk.injEq, true_and] at h
              subst h
              exact ⟨readerName, b1, version, reader, rfl, hv, hg, rfl⟩

theorem findByReaderName_readerNames (wanted : wstring) (m : TypeReaderManager)
    (reader : Nat) (h : findByReaderName wanted m.typeReaders 0 = some reader) :
    m.readerNames.get? reader = some wanted := by
  obtain ⟨k, object, hk, hget, hname, -⟩ := findByReaderName_eq_some _ _ _ _ h
  have hk' : reader = k := by omega
  subst hk'
  simp only [TypeReaderManager.readerNames, List.get?_eq_getElem?, List.getElem?_map] at hget ⊢
  rw [hget]
  simp [hname]

theorem readerNamesExtend_get? (m m' : TypeReaderManager) (h : readerNamesExtend m m')
    (reader : Nat) (name : wstring) (hget : m.readerNames.get? reader = some name) :
    m'.readerNames.get? reader = some name := by
  obtain ⟨extra, hextra⟩ := h
  unfold TypeReaderManager.readerNames at hget ⊢
  rw [hextra]
  simp only [List.get?_eq_getElem?] at hget ⊢
  have hlt : reader < (m.typeReaders.map TypeReader.ReaderName).length := by
    by_contra hc
    rw [List.getElem?_eq_none (by omega)] at hget
    cases hget
  rw [List.getElem?_append_left hlt]
  exact hget

/-- What the first loop of `ReadTypeManifest` has done when it ends normally. -/
theorem ReadTypeManifest.loop_eq_ok (count i : Nat) (s s' : ContentReader)
    (h : forLoop.go (fun _ => ContentReader.ReadTypeManifest.entry) count i s = (.ok (), s'))
    (hdebug : s.typeReaderManager.NDEBUG = false) :
    ∃ names readers,
      readManifestNames count s.toBinaryReader = (.ok names, s'.toBinaryReader) ∧
      names.length = count ∧ readers.length = count ∧
      s'.typeReaders = s.typeReaders ++ readers ∧
      readerNamesExtend s.typeReaderManager s'.typeReaderManager ∧
      ∀ j name, names.get? j = some name →
        ∃ reader, readers.get? j = some reader ∧
          s'.typeReaderManager.readerNames.get? reader =
            some (StripAssemblyVersion name) := by
  induction count generalizing i s with
  | zero =>
    simp only [forLoop.go, Method.pure_apply, Prod.mk.injEq, true_and] at h
    subst h
    exact ⟨[], [], rfl, rfl, rfl, by simp, readerNamesExtend_frame.refl _, by simp⟩
  | succ n ih =>
    simp only [forLoop.go] at h
    obtain ⟨_, s1, hentry, hrest⟩ := (Method.bind_eq_ok _ _ _ _ _).mp h
    obtain ⟨readerName, b1, version, reader, hstring, hversion, hlookup, htable⟩ :=
      ReadTypeManifest.entry_eq_ok s s1 hentry
    have hdebug1 : s1.typeReaderManager.NDEBUG = false := by
      have := GetByReaderName_NDEBUG s.typeReaderManager readerName
      rw [hlookup] at this
      exact this.trans hdebug
    obtain ⟨names, readers, hnames, hlen, hrlen, htable', hext, hall⟩ :=
      ih (i + 1) s1 hrest hdebug1
    obtain ⟨hfound, -, -⟩ := GetByReaderName_returns_named _ _ _ _ hlookup hdebug
    refine ⟨readerName :: names, reader :: readers, ?_, by simp [hlen], by simp [hrlen], ?_, ?_, ?_⟩
    · simp only [readManifestNames, Method.bind_apply, hstring, hversion, hnames,
        Method.pure_apply]
    · rw [htable', htable]; simp
    · have hstep := GetByReaderName_readerNamesExtend readerName s.typeReaderManager
      rw [hlookup] at hstep
      exact readerNamesExtend_frame.trans hstep hext
    · intro j name hj
      cases j with
      | zero =>
        simp only [List.get?_cons_zero, Option.some.injEq] at hj
        subst hj
        exact ⟨reader, rfl, readerNamesExtend_get? _ _ hext _ _
          (findByReaderName_readerNames _ _ _ hfound)⟩
      | succ j =>
        obtain ⟨reader', hget, hname⟩ := hall j name (by simpa using hj)
        exact ⟨reader', by simpa using hget, hname⟩

theorem sameTable_frame : Method.Frame sameTable :=
  ⟨fun _ => ⟨rfl, rfl, rfl⟩,
    fun h1 h2 => ⟨h2.1.trans h1.1, h2.2.1.trans h1.2.1, h2.2.2.trans h1.2.2⟩⟩

theorem manager_Initialize_sameTable (reader : Nat) :
    Method.Preserves sameTable (ContentReader.manager (TypeReaderManager.Initialize reader)) := by
  intro r
  rw [ContentReader.manager_apply]
  exact ⟨rfl, Initialize_sameReaderNames reader r.typeReaderManager, rfl⟩

/-- The table in a build that checks `assert`: when `ReadTypeManifest` returns
normally on a manifest of `count` entries (the count and the names as the file
lays them out), the per-file table afterwards has exactly `count` entries,
whatever it held before, and for every `i` its entry `i` points to the reader of
the registry whose `ReaderName()` equals `StripAssemblyVersion` of the `i`-th
manifest name. -/
theorem ReadTypeManifest_table (r r' : ContentReader)
    (h : ContentReader.ReadTypeManifest r = (.ok (), r'))
    (hdebug : r.typeReaderManager.NDEBUG = false) :
    ∃ count b1 names,
      BinaryReader.Read7BitEncodedInt r.toBinaryReader = (.ok count, b1) ∧
      readManifestNames count b1 = (.ok names, r'.toBinaryReader) ∧
      names.length = count ∧
      r'.typeReaders.length = count ∧
      ∀ i name, names.get? i = some name →
        ∃ reader, r'.typeReaders.get? i = some reader ∧
          r'.typeReaderManager.readerNames.get? reader =
            some (StripAssemblyVersion name) := by
  unfold ContentReader.ReadTypeManifest at h
  simp only [Method.bind_eq_ok] at h
  obtain ⟨_, r1, h1, _, r2, h2, count, r3, h3, _, r4, h4, _, r5, h5, r6', r6, h6, _, r7, h7, h8⟩ := h
  simp only [ContentReader.WriteLine, ContentReader.Indent, ContentReader.Unindent,
    ContentReader.log_apply, Method.modify_apply, Method.get_apply, Prod.mk.injEq,
    true_and] at h1 h2 h4 h6 h8
  simp only [ContentReader.Read7BitEncodedInt, ContentReader.base_eq_ok] at h3
  have hdebug4 : r4.typeReaderManager.NDEBUG = false := by
    rw [← h4, h3.2, ← h2, ← h1]
    exact hdebug
  obtain ⟨names, readers, hnames, hlen, hrlen, htable, -, hall⟩ :=
    ReadTypeManifest.loop_eq_ok count 0 r4 r5 h5 hdebug4
  have hsame : sameTable r5 r7 := by
    have := Method.Preserves.forEach sameTable_frame manager_Initialize_sameTable
      r6'.typeReaders r6
    rw [h7] at this
    rw [h6.2]
    exact this
  obtain ⟨ht, hn, hb⟩ := hsame
  subst h8
  subst h4
  refine ⟨count, r3.toBinaryReader, names, ?_, ?_, hlen, ?_, ?_⟩
  · rw [← h2, ← h1] at h3; exact h3.1
  · simpa [hb] using hnames
  · simp only [ht, htable, List.nil_append, hrlen]
  · intro i name hi
    obtain ⟨reader, hget, hname⟩ := hall i name hi
    refine ⟨reader, ?_, ?_⟩
    · simpa [ht, htable] using hget
    · simpa [hn] using hname

set_option maxRecDepth 100000 in
/-- An instance of the table: the example manifest of two entries, read with the
standard registry. -/
theorem ReadTypeManifest_table_witness :
    (ContentReader.ReadTypeManifest (ContentReader.new exampleManifest standardManager)).1 =
      .ok () ∧
    ∃ count b1 names,
      BinaryReader.Read7BitEncodedInt
        (ContentReader.new exampleManifest standardManager).toBinaryReader = (.ok count, b1) ∧
      readManifestNames count b1 = (.ok names,
        (ContentReader.ReadTypeManifest
          (ContentReader.new exampleManifest standardManager)).2.toBinaryReader) ∧
      names.length = count ∧
      (ContentReader.ReadTypeManifest
        (ContentReader.new exampleManifest standardManager)).2.typeReaders.length = count ∧
      ∀ i name, names.get? i = some name →
        ∃ reader, (ContentReader.ReadTypeManifest
            (ContentReader.new exampleManifest standardManager)).2.typeReaders.get? i =
              some reader ∧
          (ContentReader.ReadTypeManifest
            (ContentReader.new exampleManifest standardManager)).2.typeReaderManager.readerNames.get?
              reader = some (StripAssemblyVersion name) :=
  have h : (ContentReader.ReadTypeManifest
      (ContentReader.new exampleManifest standardManager)).1 = .ok () := by decide!
  ⟨h, ReadTypeManifest_table _ _ (Method.eq_ok_of_fst h) rfl⟩

/-! ## Lemmas: the file position only moves forward -/

theorem BinaryReader.advances_frame : Method.Frame BinaryReader.advances :=
  ⟨fun _ => ⟨rfl, Nat.le_refl _, fun h => h⟩,
    fun h1 h2 => ⟨h2.1.trans h1.1, Nat.le_trans h1.2.1 h2.2.1,
      fun h => h2.2.2 (h1.2.2 h)⟩⟩

theorem ContentReader.advances_isFrame : Method.Frame ContentReader.advances :=
  ⟨fun _ => BinaryReader.advances_frame.refl _,
    fun h1 h2 => BinaryReader.advances_frame.trans h1 h2⟩

theorem BinaryReader.ReadByte_advances :
    Method.Preserves BinaryReader.advances BinaryReader.ReadByte := by
  intro b
  unfold BinaryReader.ReadByte
  cases h : b.file.get? b.position with
  | none => exact BinaryReader.advances_frame.refl b
  | some value =>
    have hlt : b.position < b.file.length := by
      simp only [List.get?_eq_getElem?] at h
      by_contra hc
      rw [List.getElem?_eq_none (by omega)] at h
      cases h
    exact ⟨rfl, Nat.le_succ _, fun _ => hlt⟩

theorem BinaryReader.ReadUInt16_advances :
    Method.Preserves BinaryReader.advances BinaryReader.ReadUInt16 := by
  unfold BinaryReader.ReadUInt16
  repeat' first
    | exact Method.Preserves.pure BinaryReader.advances_frame _
    | exact BinaryReader.ReadByte_advances
    | refine Method.Preserves.bind BinaryReader.advances_frame ?_ fun _ => ?_

theorem BinaryReader.ReadUInt32_advances :
    Method.Preserves BinaryReader.advances BinaryReader.ReadUInt32 := by
  unfold BinaryReader.ReadUInt32
  repeat' first
    | exact Method.Preserves.pure BinaryReader.advances_frame _
    | exact BinaryReader.ReadByte_advances
    | refine Method.Preserves.bind BinaryReader.advances_frame ?_ fun _ => ?_

theorem BinaryReader.ReadUInt64_advances :
    Method.Preserves BinaryReader.advances BinaryReader.ReadUInt64 := by
  unfold BinaryReader.ReadUInt64
  repeat' first
    | exact Method.Preserves.pure BinaryReader.advances_frame _
    | exact BinaryReader.ReadByte_advances
    | refine Method.Preserves.bind BinaryReader.advances_frame ?_ fun _ => ?_

theorem BinaryReader.ReadSByte_advances :
    Method.Preserves BinaryReader.advances BinaryReader.ReadSByte := by
  unfold BinaryReader.ReadSByte
  exact Method.Preserves.bind BinaryReader.advances_frame BinaryReader.ReadByte_advances
    fun _ => Method.Preserves.pure BinaryReader.advances_frame _

theorem BinaryReader.ReadInt16_advances :
    Method.Preserves BinaryReader.advances BinaryReader.ReadInt16 := by
  unfold BinaryReader.ReadInt16
  exact Method.Preserves.bind BinaryReader.advances_frame BinaryReader.ReadUInt16_advances
    fun _ => Method.Preserves.pure BinaryReader.advances_frame _

theorem BinaryReader.ReadInt32_advances :
    Method.Preserves BinaryReader.advances BinaryReader.ReadInt32 := by
  unfold BinaryReader.ReadInt32
  exact Method.Preserves.bind BinaryReader.advances_frame BinaryReader.ReadUInt32_advances
    fun _ => Method.Preserves.pure BinaryReader.advances_frame _

theorem BinaryReader.ReadInt64_advances :
    Method.Preserves BinaryReader.advances BinaryReader.ReadInt64 := by
  unfold BinaryReader.ReadInt64
  exact Method.Preserves.bind BinaryReader.advances_frame BinaryReader.ReadUInt64_advances
    fun _ => Method.Preserves.pure BinaryReader.advances_frame _

theorem BinaryReader.ReadSingle_advances :
    Method.Preserves BinaryReader.advances BinaryReader.ReadSingle := by
  unfold BinaryReader.ReadSingle
  exact Method.Preserves.bind BinaryReader.advances_frame BinaryReader.ReadUInt32_advances
    fun _ => Method.Preserves.pure BinaryReader.advances_frame _

theorem BinaryReader.ReadDouble_advances :
    Method.Preserves BinaryReader.advances BinaryReader.ReadDouble := by
  unfold BinaryReader.ReadDouble
  exact Method.Preserves.bind BinaryReader.advances_frame BinaryReader.ReadUInt64_advances
    fun _ => Method.Preserves.pure BinaryReader.advances_frame _

theorem BinaryReader.ReadBoolean_advances :
    Method.Preserves BinaryReader.advances BinaryReader.ReadBoolean := by
  unfold BinaryReader.ReadBoolean
  exact Method.Preserves.bind BinaryReader.advances_frame BinaryReader.ReadByte_advances
    fun _ => Method.Preserves.pure BinaryReader.advances_frame _

theorem BinaryReader.ReadChar_continuation_advances (n result : Nat) :
    Method.Preserves BinaryReader.advances (BinaryReader.ReadChar.continuation n result) := by
  induction n generalizing result with
  | zero => exact Method.Preserves.pure BinaryReader.advances_frame _
  | succ n ih =>
    unfold BinaryReader.ReadChar.continuation
    exact Method.Preserves.bind BinaryReader.advances_frame BinaryReader.ReadByte_advances
      fun _ => ih _

theorem BinaryReader.ReadChar_advances :
    Method.Preserves BinaryReader.advances BinaryReader.ReadChar := by
  unfold BinaryReader.ReadChar
  refine Method.Preserves.bind BinaryReader.advances_frame BinaryReader.ReadByte_advances
    fun result => ?_
  split
  · exact BinaryReader.ReadChar_continuation_advances _ _
  · exact Method.Preserves.pure BinaryReader.advances_frame _

theorem BinaryReader.Read7BitEncodedInt_loop_advances (fuel result bitsRead : Nat) :
    Method.Preserves BinaryReader.advances
      (BinaryReader.Read7BitEncodedInt.loop fuel result bitsRead) := by
  induction fuel generalizing result bitsRead with
  | zero => exact Method.Preserves.fail BinaryReader.advances_frame _
  | succ fuel ih =>
    unfold BinaryReader.Read7BitEncodedInt.loop
    refine Method.Preserves.bind BinaryReader.advances_frame BinaryReader.ReadByte_advances
      fun value => ?_
    split
    · exact Method.Preserves.fail BinaryReader.advances_frame _
    · split
      · exact ih _ _
      · exact Method.Preserves.pure BinaryReader.advances_frame _

theorem BinaryReader.Read7BitEncodedInt_advances :
    Method.Preserves BinaryReader.advances BinaryReader.Read7BitEncodedInt :=
  BinaryReader.Read7BitEncodedInt_loop_advances 6 0 0

theorem BinaryReader.ReadBytes_advances (count : Nat) :
    Method.Preserves BinaryReader.advances (BinaryReader.ReadBytes count) := by
  induction count with
  | zero => exact Method.Preserves.pure BinaryReader.advances_frame _
  | succ count ih =>
    unfold BinaryReader.ReadBytes
    exact Method.Preserves.bind BinaryReader.advances_frame BinaryReader.ReadByte_advances
      fun _ => Method.Preserves.bind BinaryReader.advances_frame ih
        fun _ => Method.Preserves.pure BinaryReader.advances_frame _

theorem BinaryReader.ReadString_loop_advances (endOfString fuel : Nat) (result : wstring) :
    Method.Preserves BinaryReader.advances
      (BinaryReader.ReadString.loop endOfString fuel result) := by
  induction fuel generalizing result with
  | zero => exact Method.Preserves.fail BinaryReader.advances_frame _
  | succ fuel ih =>
    unfold BinaryReader.ReadString.loop
    refine Method.Preserves.bind BinaryReader.advances_frame
      (Method.Preserves.get BinaryReader.advances_frame) fun b => ?_
    split
    · exact Method.Preserves.bind BinaryReader.advances_frame BinaryReader.ReadChar_advances
        fun _ => ih _
    · exact Method.Preserves.pure BinaryReader.advances_frame _

theorem BinaryReader.ReadString_advances :
    Method.Preserves BinaryReader.advances BinaryReader.ReadString := by
  unfold BinaryReader.ReadString
  exact Method.Preserves.bind BinaryReader.advances_frame
    BinaryReader.Read7BitEncodedInt_advances fun _ =>
      Method.Preserves.bind BinaryReader.advances_frame
        (Method.Preserves.get BinaryReader.advances_frame) fun _ =>
          BinaryReader.ReadString_loop_advances _ _ _

instance Advancing.pure {α : Type} (a : α) :
    Advancing (Pure.pure a : Method ContentReader α) :=
  ⟨Method.Preserves.pure ContentReader.advances_isFrame a⟩

instance Advancing.fail {α : Type} (e : Error) :
    Advancing (Method.fail e : Method ContentReader α) :=
  ⟨Method.Preserves.fail ContentReader.advances_isFrame e⟩

instance Advancing.get : Advancing (Method.get : Method ContentReader ContentReader) :=
  ⟨Method.Preserves.get ContentReader.advances_isFrame⟩

instance Advancing.ofExcept {α : Type} (x : Except Error α) :
    Advancing (Method.ofExcept x : Method ContentReader α) :=
  ⟨Method.Preserves.ofExcept ContentReader.advances_isFrame x⟩

instance Advancing.bind {α β : Type} (x : Method ContentReader α)
    (f : α → Method ContentReader β) [hx : Advancing x] [hf : ∀ a, Advancing (f a)] :
    Advancing (x >>= f) :=
  ⟨Method.Preserves.bind ContentReader.advances_isFrame hx.out fun a => (hf a).out⟩

instance Advancing.ite {α : Type} (c : Prop) {h : Decidable c} (x y : Method ContentReader α)
    [hx : Advancing x] [hy : Advancing y] : Advancing (if c then x else y) := by
  split
  · exact hx
  · exact hy

instance Advancing.forLoop (count : Nat) (body : Nat → Method ContentReader Unit)
    [hbody : ∀ i, Advancing (body i)] : Advancing (forLoop count body) :=
  ⟨Method.Preserves.forLoop ContentReader.advances_isFrame (fun i => (hbody i).out) count⟩

instance Advancing.forEach {α : Type} (body : α → Method ContentReader Unit) (xs : List α)
    [hbody : ∀ a, Advancing (body a)] : Advancing (forEach body xs) :=
  ⟨Method.Preserves.forEach ContentReader.advances_isFrame (fun a => (hbody a).out) xs⟩

instance Advancing.log (f : Logger → Logger) : Advancing (ContentReader.log f) :=
  ⟨fun r => BinaryReader.advances_frame.refl r.toBinaryReader⟩

instance Advancing.manager {α : Type} (x : Method TypeReaderManager α) :
    Advancing (ContentReader.manager x) :=
  ⟨fun r => BinaryReader.advances_frame.refl r.toBinaryReader⟩

theorem Advancing.base {α : Type} (x : Method BinaryReader α)
    (hx : Method.Preserves BinaryReader.advances x) : Advancing (ContentReader.base x) :=
  ⟨fun r => hx r.toBinaryReader⟩

instance : Advancing ContentReader.ReadByte := Advancing.base _ BinaryReader.ReadByte_advances
instance : Advancing ContentReader.ReadUInt16 :=
  Advancing.base _ BinaryReader.ReadUInt16_advances
instance : Advancing ContentReader.ReadUInt32 :=
  Advancing.base _ BinaryReader.ReadUInt32_advances
instance : Advancing ContentReader.ReadUInt64 :=
  Advancing.base _ BinaryReader.ReadUInt64_advances
instance : Advancing ContentReader.ReadSByte := Advancing.base _ BinaryReader.ReadSByte_advances
instance : Advancing ContentReader.ReadInt16 := Advancing.base _ BinaryReader.ReadInt16_advances
instance : Advancing ContentReader.ReadInt32 := Advancing.base _ BinaryReader.ReadInt32_advances
instance : Advancing ContentReader.ReadInt64 := Advancing.base _ BinaryReader.ReadInt64_advances
instance : Advancing ContentReader.ReadSingle :=
  Advancing.base _ BinaryReader.ReadSingle_advances
instance : Advancing ContentReader.ReadDouble :=
  Advancing.base _ BinaryReader.ReadDouble_advances
instance : Advancing ContentReader.ReadBoolean :=
  Advancing.base _ BinaryReader.ReadBoolean_advances
instance : Advancing ContentReader.ReadChar := Advancing.base _ BinaryReader.ReadChar_advances
instance : Advancing ContentReader.ReadString :=
  Advancing.base _ BinaryReader.ReadString_advances
instance : Advancing ContentReader.Read7BitEncodedInt :=
  Advancing.base _ BinaryReader.Read7BitEncodedInt_advances
instance (count : Nat) : Advancing (ContentReader.ReadBytes count) :=
  Advancing.base _ (BinaryReader.ReadBytes_advances count)

instance : Advancing ContentReader.Indent := Advancing.log _
instance : Advancing ContentReader.Unindent := Advancing.log _
instance (format : String) (args : List PrintfArg) :
    Advancing (ContentReader.Write format args) := Advancing.log _
instance (format : String) (args : List PrintfArg) :
    Advancing (ContentReader.WriteLine format args) := Advancing.log _
instance (name : String) (bytes : List Nat) :
    Advancing (ContentReader.WriteBytes name bytes) := Advancing.log _
instance (name : String) (value : Int) (enumValues : List String) :
    Advancing (ContentReader.WriteEnum name value enumValues) := Advancing.log _

instance (typeReader : Nat) : Advancing (ContentReader.TargetType typeReader) := by
  unfold ContentReader.TargetType; infer_instance

instance (typeReader : Nat) : Advancing (ContentReader.IsValueType typeReader) := by
  unfold ContentReader.IsValueType; infer_instance

set_option synthInstance.maxSize 100000000
set_option synthInstance.maxHeartbeats 10000000

instance : Advancing ContentReader.ReadHeader := by
  unfold ContentReader.ReadHeader; dsimp only; infer_instance

instance : Advancing ContentReader.ReadTypeManifest.entry := by
  unfold ContentReader.ReadTypeManifest.entry
  have : ∀ reader : Nat, Advancing (Method.modify fun r : ContentReader =>
      { r with typeReaders := r.typeReaders ++ [reader] }) :=
    fun _ => ⟨fun r => BinaryReader.advances_frame.refl r.toBinaryReader⟩
  infer_instance

instance : Advancing ContentReader.ReadTypeManifest := by
  unfold ContentReader.ReadTypeManifest
  have : Advancing (Method.modify fun r : ContentReader => { r with typeReaders := [] }) :=
    ⟨fun r => BinaryReader.advances_frame.refl r.toBinaryReader⟩
  infer_instance

instance : Advancing ContentReader.ReadTypeId := by
  unfold ContentReader.ReadTypeId; infer_instance

instance (Read : Nat → Method ContentReader Unit) [hRead : ∀ p, Advancing (Read p)] :
    Advancing (ContentReader.ReadObject Read) := by
  constructor
  unfold ContentReader.ReadObject
  refine Method.Preserves.bind ContentReader.advances_isFrame Advancing.out fun _ => ?_
  refine Method.Preserves.bind ContentReader.advances_isFrame Advancing.out fun typeReader => ?_
  refine Method.Preserves.bind ContentReader.advances_isFrame ?_ fun _ => Advancing.out
  cases typeReader with
  | none => exact Advancing.out
  | some typeReader => exact Advancing.out

instance (Read : Nat → Method ContentReader Unit) [hRead : ∀ p, Advancing (Read p)]
    (typeReader : Option Nat) : Advancing (ContentReader.ReadValueOrObject Read typeReader) := by
  unfold ContentReader.ReadValueOrObject
  cases typeReader <;> infer_instance

instance (expectedType : wstring) : Advancing (ContentReader.ValidateTypeId expectedType) := by
  constructor
  unfold ContentReader.ValidateTypeId
  refine Method.Preserves.bind ContentReader.advances_isFrame Advancing.out fun typeReader => ?_
  cases typeReader with
  | none => exact Advancing.out
  | some typeReader => exact Advancing.out

instance : Advancing ContentReader.ReadSharedResource := by
  unfold ContentReader.ReadSharedResource; infer_instance

instance : Advancing ByteReader.Read := by unfold ByteReader.Read; infer_instance
instance : Advancing SByteReader.Read := by unfold SByteReader.Read; infer_instance
instance : Advancing Int16Reader.Read := by unfold Int16Reader.Read; infer_instance
instance : Advancing UInt16Reader.Read := by unfold UInt16Reader.Read; infer_instance
instance : Advancing Int32Reader.Read := by unfold Int32Reader.Read; infer_instance
instance : Advancing UInt32Reader.Read := by unfold UInt32Reader.Read; infer_instance
instance : Advancing Int64Reader.Read := by unfold Int64Reader.Read; infer_instance
instance : Advancing UInt64Reader.Read := by unfold UInt64Reader.Read; infer_instance
instance : Advancing SingleReader.Read := by unfold SingleReader.Read; infer_instance
instance : Advancing DoubleReader.Read := by unfold DoubleReader.Read; infer_instance
instance : Advancing BooleanReader.Read := by unfold BooleanReader.Read; infer_instance
instance : Advancing CharReader.Read := by unfold CharReader.Read; infer_instance
instance : Advancing StringReader.Read := by unfold StringReader.Read; infer_instance
instance : Advancing ObjectReader.Read := by unfold ObjectReader.Read; infer_instance
instance : Advancing Vector2Reader.Read := by unfold Vector2Reader.Read; infer_instance
instance : Advancing Vector3Reader.Read := by unfold Vector3Reader.Read; infer_instance
instance : Advancing Vector4Reader.Read := by unfold Vector4Reader.Read; infer_instance

instance (count : Nat) : Advancing (readSingles count) := by
  induction count with
  | zero => unfold readSingles; infer_instance
  | succ count ih => unfold readSingles; infer_instance

instance : Advancing MatrixReader.Read := by unfold MatrixReader.Read; infer_instance
instance : Advancing QuaternionReader.Read := by unfold QuaternionReader.Read; infer_instance
instance : Advancing ColorReader.Read := by unfold ColorReader.Read; infer_instance
instance : Advancing PlaneReader.Read := by unfold PlaneReader.Read; infer_instance
instance : Advancing PointReader.Read := by unfold PointReader.Read; infer_instance
instance : Advancing RectangleReader.Read := by unfold RectangleReader.Read; infer_instance
instance : Advancing BoundingBoxReader.Read := by unfold BoundingBoxReader.Read; infer_instance
instance : Advancing BoundingSphereReader.Read := by
  unfold BoundingSphereReader.Read; infer_instance
instance : Advancing BoundingFrustumReader.Read := by
  unfold BoundingFrustumReader.Read; infer_instance
instance : Advancing RayReader.Read := by unfold RayReader.Read; infer_instance
instance : Advancing CurveReader.Read := by unfold CurveReader.Read; infer_instance
instance : Advancing TextureReader.Read := by unfold TextureReader.Read; infer_instance
instance : Advancing Texture2DReader.Read := by unfold Texture2DReader.Read; infer_instance
instance : Advancing Texture3DReader.Read := by unfold Texture3DReader.Read; infer_instance
instance : Advancing TextureCubeReader.Read := by unfold TextureCubeReader.Read; infer_instance
instance : Advancing IndexBufferReader.Read := by unfold IndexBufferReader.Read; infer_instance
instance : Advancing ReadVertexDeclaration := by unfold ReadVertexDeclaration; infer_instance
instance : Advancing VertexBufferReader.Read := by
  unfold VertexBufferReader.Read; infer_instance
instance : Advancing VertexDeclarationReader.Read := by
  unfold VertexDeclarationReader.Read; infer_instance
instance : Advancing EffectReader.Read := by unfold EffectReader.Read; infer_instance
instance (Read : Nat → Method ContentReader Unit) [∀ p, Advancing (Read p)] :
    Advancing (EffectMaterialReader.Read Read) := by
  unfold EffectMaterialReader.Read; infer_instance
instance : Advancing BasicEffectReader.Read := by unfold BasicEffectReader.Read; infer_instance
instance : Advancing AlphaTestEffectReader.Read := by
  unfold AlphaTestEffectReader.Read; infer_instance
instance : Advancing DualTextureEffectReader.Read := by
  unfold DualTextureEffectReader.Read; infer_instance
instance : Advancing EnvironmentMapEffectReader.Read := by
  unfold EnvironmentMapEffectReader.Read; infer_instance
instance : Advancing SkinnedEffectReader.Read := by
  unfold SkinnedEffectReader.Read; infer_instance
instance (Read : Nat → Method ContentReader Unit) [∀ p, Advancing (Read p)] :
    Advancing (SpriteFontReader.Read Read) := by
  unfold SpriteFontReader.Read; infer_instance
instance (boneCount : Nat) : Advancing (ReadBoneReference boneCount) := by
  unfold ReadBoneReference; infer_instance
instance (Read : Nat → Method ContentReader Unit) [∀ p, Advancing (Read p)] :
    Advancing (ModelReader.Read Read) := by
  constructor
  unfold ModelReader.Read
  repeat
    first
    | (with_reducible refine Method.Preserves.bind ContentReader.advances_isFrame ?_ fun _ => ?_)
    | (with_reducible refine Method.Preserves.forLoop ContentReader.advances_isFrame (fun _ => ?_) _)
    | exact Advancing.out
instance : Advancing SoundEffectReader.Read := by unfold SoundEffectReader.Read; infer_instance
instance : Advancing SongReader.Read := by unfold SongReader.Read; infer_instance
instance : Advancing VideoReader.Read := by unfold VideoReader.Read; infer_instance
instance : Advancing EnumReader.Read := by unfold EnumReader.Read; infer_instance
instance : Advancing TimeSpanReader.Read := by unfold TimeSpanReader.Read; infer_instance
instance : Advancing DateTimeReader.Read := by unfold DateTimeReader.Read; infer_instance
instance : Advancing DecimalReader.Read := by unfold DecimalReader.Read; infer_instance
instance : Advancing ExternalReferenceReader.Read := by
  unfold ExternalReferenceReader.Read; infer_instance
instance : Advancing ReflectiveReader.Read := by unfold ReflectiveReader.Read; infer_instance

instance (Read : Nat → Method ContentReader Unit) [∀ p, Advancing (Read p)]
    (self : GenericTypeReader) : Advancing (NullableReader.Read Read self) := by
  unfold NullableReader.Read
  cases self.valueReader <;> infer_instance
instance (Read : Nat → Method ContentReader Unit) [∀ p, Advancing (Read p)]
    (self : GenericTypeReader) : Advancing (ArrayReader.Read Read self) := by
  unfold ArrayReader.Read; infer_instance
instance (Read : Nat → Method ContentReader Unit) [∀ p, Advancing (Read p)]
    (self : GenericTypeReader) : Advancing (ListReader.Read Read self) := by
  unfold ListReader.Read; infer_instance
instance (Read : Nat → Method ContentReader Unit) [∀ p, Advancing (Read p)]
    (self : GenericTypeReader) : Advancing (DictionaryReader.Read Read self) := by
  unfold DictionaryReader.Read; infer_instance

instance (Read : Nat → Method ContentReader Unit) [∀ p, Advancing (Read p)]
    (cls : ReaderClass) : Advancing (cls.Read Read) := by
  cases cls <;> unfold ReaderClass.Read <;> infer_instance

instance (Read : Nat → Method ContentReader Unit) [∀ p, Advancing (Read p)]
    (self : GenericTypeReader) : Advancing (self.Read Read) := by
  unfold GenericTypeReader.Read
  cases self.cls <;> infer_instance

instance TypeReader.Read_advancing (fuel typeReader : Nat) :
    Advancing (TypeReader.Read fuel typeReader) := by
  induction fuel generalizing typeReader with
  | zero => unfold TypeReader.Read; infer_instance
  | succ fuel ih =>
    constructor
    unfold TypeReader.Read
    refine Method.Preserves.bind ContentReader.advances_isFrame Advancing.out fun r => ?_
    refine Method.Preserves.bind ContentReader.advances_isFrame Advancing.out fun object => ?_
    cases object with
    | plain cls => exact Advancing.out
    | generic self => exact Advancing.out

instance (fuel : Nat) : Advancing (ContentReader.ReadXnb fuel) := by
  unfold ContentReader.ReadXnb; infer_instance

/-! ## Lemmas: the header and the end position -/

theorem BinaryReader.ReadByte_eq_ok (b b' : BinaryReader) (v : Nat)
    (h : BinaryReader.ReadByte b = (.ok v, b')) :
    b'.file = b.file ∧ b'.position = b.position + 1 ∧ b.position < b.file.length ∧
      v = byteAt b.file b.position := by
  unfold BinaryReader.ReadByte at h
  cases hget : b.file.get? b.position with
  | none => rw [hget] at h; simp at h
  | some value =>
    rw [hget] at h
    simp only [Prod.mk.injEq, Except.ok.injEq] at h
    obtain ⟨hv, hb⟩ := h
    subst hb
    have hlt : b.position < b.file.length := by
      rw [List.get?_eq_getElem?] at hget
      exact (List.getElem?_eq_some_iff.1 hget).1
    refine ⟨rfl, rfl, hlt, ?_⟩
    rw [← hv, byteAt, List.getD_eq_getElem?_getD, ← List.get?_eq_getElem?, hget]
    rfl

theorem uint32_of_bytes (b1 b2 b3 b4 : Nat) (h1 : b1 < 256) (h2 : b2 < 256) (h3 : b3 < 256) :
    b1 ||| (b2 <<< 8) ||| (b3 <<< 16) ||| (b4 <<< 24) =
      b1 + 256 * b2 + 65536 * b3 + 16777216 * b4 := by
  have e1 : b1 ||| (b2 <<< 8) = b1 + 256 * b2 := by
    have h := @Nat.mul_add_lt_is_or 8 b1 (by omega) b2
    rw [Nat.lor_comm, Nat.shiftLeft_eq, Nat.mul_comm, ← h]
    omega
  have e2 : b1 + 256 * b2 ||| (b3 <<< 16) = b1 + 256 * b2 + 65536 * b3 := by
    have h := @Nat.mul_add_lt_is_or 16 (b1 + 256 * b2) (by omega) b3
    rw [Nat.lor_comm, Nat.shiftLeft_eq, Nat.mul_comm, ← h]
    omega
  have e3 : b1 + 256 * b2 + 65536 * b3 ||| (b4 <<< 24) =
      b1 + 256 * b2 + 65536 * b3 + 16777216 * b4 := by
    have h := @Nat.mul_add_lt_is_or 24 (b1 + 256 * b2 + 65536 * b3) (by omega) b4
    rw [Nat.lor_comm, Nat.shiftLeft_eq, Nat.mul_comm, ← h]
    omega
  rw [e1, e2, e3]

theorem byteAt_lt (file : List Nat) (offset : Nat) : byteAt file offset < 256 :=
  Nat.mod_lt _ (by decide)

theorem BinaryReader.ReadUInt32_eq_ok (b b' : BinaryReader) (v : Nat)
    (h : BinaryReader.ReadUInt32 b = (.ok v, b')) :
    b'.file = b.file ∧ b'.position = b.position + 4 ∧ b.position + 4 ≤ b.file.length ∧
      v = byteAt b.file b.position + 256 * byteAt b.file (b.position + 1) +
        65536 * byteAt b.file (b.position + 2) + 16777216 * byteAt b.file (b.position + 3) := by
  unfold BinaryReader.ReadUInt32 at h
  obtain ⟨v1, s1, h1, h⟩ := (Method.bind_eq_ok _ _ _ _ _).1 h
  obtain ⟨v2, s2, h2, h⟩ := (Method.bind_eq_ok _ _ _ _ _).1 h
  obtain ⟨v3, s3, h3, h⟩ := (Method.bind_eq_ok _ _ _ _ _).1 h
  obtain ⟨v4, s4, h4, h⟩ := (Method.bind_eq_ok _ _ _ _ _).1 h
  obtain ⟨f1, p1, l1, e1⟩ := BinaryReader.ReadByte_eq_ok _ _ _ h1
  obtain ⟨f2, p2, l2, e2⟩ := BinaryReader.ReadByte_eq_ok _ _ _ h2
  obtain ⟨f3, p3, l3, e3⟩ := BinaryReader.ReadByte_eq_ok _ _ _ h3
  obtain ⟨f4, p4, l4, e4⟩ := BinaryReader.ReadByte_eq_ok _ _ _ h4
  simp only [Method.pure_apply, Prod.mk.injEq, Except.ok.injEq] at h
  obtain ⟨hv, hb⟩ := h
  subst hb
  rw [f1] at f2; rw [f2] at f3; rw [f3] at f4
  rw [f1, p1] at l2 e2; rw [f2, p2, p1] at l3 e3; rw [f3, p3, p2, p1] at l4 e4
  refine ⟨f4, by omega, by omega, ?_⟩
  rw [← hv, e1, e2, e3, e4]
  exact uint32_of_bytes _ _ _ _ (byteAt_lt _ _) (byteAt_lt _ _) (byteAt_lt _ _)

theorem ContentReader.readByte_inherited_eq_ok (r r' : ContentReader) (v : Nat)
    (h : ContentReader.ReadByte r = (.ok v, r')) :
    r'.file = r.file ∧ r'.position = r.position + 1 ∧ r.position < r.file.length ∧
      v = byteAt r.file r.position :=
  BinaryReader.ReadByte_eq_ok _ _ _ ((ContentReader.base_eq_ok _ _ _ _).1 h).1

theorem ContentReader.readUInt32_inherited_eq_ok (r r' : ContentReader) (v : Nat)
    (h : ContentReader.ReadUInt32 r = (.ok v, r')) :
    r'.file = r.file ∧ r'.position = r.position + 4 ∧ r.position + 4 ≤ r.file.length ∧
      v = byteAt r.file r.position + 256 * byteAt r.file (r.position + 1) +
        65536 * byteAt r.file (r.position + 2) + 16777216 * byteAt r.file (r.position + 3) :=
  BinaryReader.ReadUInt32_eq_ok _ _ _ ((ContentReader.base_eq_ok _ _ _ _).1 h).1

theorem ContentReader.WriteLine_eq (format : String) (args : List PrintfArg)
    (r r' : ContentReader) (result : Except Error Unit)
    (h : ContentReader.WriteLine format args r = (result, r')) :
    r'.toBinaryReader = r.toBinaryReader := by
  rw [ContentReader.WriteLine, ContentReader.log_apply] at h
  rw [← (Prod.mk.inj h).2]

/-- A header read by `ReadHeader` without an exception: ten bytes were there,
the position is past them, and the end position returned is the sum as a
`uint32_t` of the start position and the declared size. -/
theorem ContentReader.ReadHeader_eq_ok (r r' : ContentReader) (endPosition : Nat)
    (h : ContentReader.ReadHeader r = (.ok endPosition, r')) :
    r'.file = r.file ∧ r'.position = r.position + 10 ∧ r.position + 10 ≤ r.file.length ∧
      endPosition = (r.FilePosition + declaredSize r.file r.position) % 2 ^ 32 ∧
      endPosition ≤ r.file.length % 2 ^ 32 := by
  unfold ContentReader.ReadHeader at h
  obtain ⟨r0, s0, h0, hA⟩ := (Method.bind_eq_ok _ _ _ _ _).1 h
  clear h
  simp only [Method.get_apply, Prod.mk.injEq, Except.ok.injEq] at h0
  obtain ⟨e0, e0'⟩ := h0
  subst e0 e0'
  dsimp only at hA
  obtain ⟨m1, s1, h1, hB⟩ := (Method.bind_eq_ok _ _ _ _ _).1 hA
  obtain ⟨m2, s2, h2, hC⟩ := (Method.bind_eq_ok _ _ _ _ _).1 hB
  obtain ⟨m3, s3, h3, hD⟩ := (Method.bind_eq_ok _ _ _ _ _).1 hC
  clear hA hB hC
  obtain ⟨f1, p1, -, -⟩ := ContentReader.readByte_inherited_eq_ok _ _ _ h1
  obtain ⟨f2, p2, -, -⟩ := ContentReader.readByte_inherited_eq_ok _ _ _ h2
  obtain ⟨f3, p3, -, -⟩ := ContentReader.readByte_inherited_eq_ok _ _ _ h3
  rw [Method.ite_apply] at hD
  split at hD
  · simp at hD
  obtain ⟨platform, s4, h4, hE⟩ := (Method.bind_eq_ok _ _ _ _ _).1 hD
  obtain ⟨f4, p4, -, -⟩ := ContentReader.readByte_inherited_eq_ok _ _ _ h4
  obtain ⟨u5, s5, h5, hF⟩ := (Method.bind_eq_ok _ _ _ _ _).1 hE
  have e5 : s5.toBinaryReader = s4.toBinaryReader := by
    simp only [Method.ite_apply] at h5
    repeat' split at h5
    all_goals exact ContentReader.WriteLine_eq _ _ _ _ _ h5
  obtain ⟨version, s6, h6, hG⟩ := (Method.bind_eq_ok _ _ _ _ _).1 hF
  obtain ⟨f6, p6, -, -⟩ := ContentReader.readByte_inherited_eq_ok _ _ _ h6
  obtain ⟨u7, s7, h7, hH⟩ := (Method.bind_eq_ok _ _ _ _ _).1 hG
  have e7 : s7.toBinaryReader = s6.toBinaryReader := by
    simp only [Method.ite_apply] at h7
    split at h7
    · exact ContentReader.WriteLine_eq _ _ _ _ _ h7
    · rw [Method.pure_apply] at h7; rw [← (Prod.mk.inj h7).2]
  obtain ⟨flags, s8, h8, hI⟩ := (Method.bind_eq_ok _ _ _ _ _).1 hH
  obtain ⟨f8, p8, -, -⟩ := ContentReader.readByte_inherited_eq_ok _ _ _ h8
  obtain ⟨u9, s9, h9, hJ⟩ := (Method.bind_eq_ok _ _ _ _ _).1 hI
  have e9 : s9.toBinaryReader = s8.toBinaryReader := by
    simp only [Method.ite_apply] at h9
    split at h9
    all_goals exact ContentReader.WriteLine_eq _ _ _ _ _ h9
  clear hD hE hF hG hH hI
  obtain ⟨sizeOnDisk, s10, h10, hK⟩ := (Method.bind_eq_ok _ _ _ _ _).1 hJ
  obtain ⟨f10, p10, l10, v10⟩ := ContentReader.readUInt32_inherited_eq_ok _ _ _ h10
  obtain ⟨r11, s11, h11, hL⟩ := (Method.bind_eq_ok _ _ _ _ _).1 hK
  simp only [Method.get_apply, Prod.mk.injEq, Except.ok.injEq] at h11
  obtain ⟨e11, e11'⟩ := h11
  subst e11 e11'
  clear hJ hK
  rw [Method.ite_apply] at hL
  split at hL
  · simp at hL
  rw [Method.ite_apply] at hL
  split at hL
  · obtain ⟨d1, t1, -, hM⟩ := (Method.bind_eq_ok _ _ _ _ _).1 hL
    obtain ⟨d2, t2, -, hN⟩ := (Method.bind_eq_ok _ _ _ _ _).1 hM
    obtain ⟨d3, t3, -, hO⟩ := (Method.bind_eq_ok _ _ _ _ _).1 hN
    simp at hO
  rw [Method.pure_apply] at hL
  obtain ⟨hok, hr'⟩ := Prod.mk.inj hL
  have hend := Except.ok.inj hok
  clear hok hL
  subst hr'
  have g5f : s5.file = s4.file := congrArg BinaryReader.file e5
  have g5p : s5.position = s4.position := congrArg BinaryReader.position e5
  have g7f : s7.file = s6.file := congrArg BinaryReader.file e7
  have g7p : s7.position = s6.position := congrArg BinaryReader.position e7
  have g9f : s9.file = s8.file := congrArg BinaryReader.file e9
  have g9p : s9.position = s8.position := congrArg BinaryReader.position e9
  have hfile9 : s9.file = r.file := by
    rw [g9f, f8, g7f, f6, g5f, f4, f3, f2, f1]
  have hpos9 : s9.position = r.position + 6 := by omega
  have hsize : sizeOnDisk = declaredSize r.file r.position := by
    rw [v10, hfile9, hpos9]
    rfl
  rename_i hfit hflags
  have hfs : s10.FileSize = s10.file.length % 2 ^ 32 := rfl
  rw [hfile9] at l10 f10
  rw [hfs, f10, hsize] at hfit
  rw [hsize] at hend
  refine ⟨f10, by omega, by omega, hend.symm, ?_⟩
  rw [← hend]
  omega

theorem Advancing.of_eq {α : Type} {x : Method ContentReader α} [hx : Advancing x]
    {s s' : ContentReader} {result : Except Error α} (h : x s = (result, s')) :
    ContentReader.advances s s' := by
  have := hx.out s
  rwa [h] at this

/-- C1: when `ReadXnb` returns without an exception, the file position that
the reader reports (`FilePosition`, a `uint32_t`) is the position at which the
header started plus the declared size at offset 6 of the header, the sum being
taken as a `uint32_t`; and for a file of less than 4 GiB the position in the
file is exactly the start position plus the declared size. -/
theorem ReadXnb_final_position (fuel : Nat) (r r' : ContentReader)
    (h : ContentReader.ReadXnb fuel r = (.ok (), r')) :
    r'.FilePosition = (r.FilePosition + declaredSize r.file r.position) % 2 ^ 32 ∧
      (r.file.length < 2 ^ 32 →
        r'.position = r.position + declaredSize r.file r.position) := by
  unfold ContentReader.ReadXnb at h
  obtain ⟨endPosition, s1, hHeader, hA⟩ := (Method.bind_eq_ok _ _ _ _ _).1 h
  obtain ⟨u2, s2, h2, hB⟩ := (Method.bind_eq_ok _ _ _ _ _).1 hA
  obtain ⟨sharedResourceCount, s3, h3, hC⟩ := (Method.bind_eq_ok _ _ _ _ _).1 hB
  obtain ⟨u4, s4, h4, hD⟩ := (Method.bind_eq_ok _ _ _ _ _).1 hC
  obtain ⟨u5, s5, h5, hE⟩ := (Method.bind_eq_ok _ _ _ _ _).1 hD
  obtain ⟨u6, s6, h6, hF⟩ := (Method.bind_eq_ok _ _ _ _ _).1 hE
  obtain ⟨r7, s7, h7, hG⟩ := (Method.bind_eq_ok _ _ _ _ _).1 hF
  clear h hA hB hC hD hE hF
  simp only [Method.get_apply, Prod.mk.injEq, Except.ok.injEq] at h7
  obtain ⟨e7, e7'⟩ := h7
  subst e7 e7'
  rw [Method.ite_apply] at hG
  split at hG
  · simp at hG
  rename_i hend
  rw [Method.pure_apply] at hG
  have hr' : s6 = r' := (Prod.mk.inj hG).2
  subst hr'
  have hadv : ContentReader.advances s1 s6 :=
    ContentReader.advances_isFrame.trans (Advancing.of_eq h2)
      (ContentReader.advances_isFrame.trans (Advancing.of_eq h3)
        (ContentReader.advances_isFrame.trans (Advancing.of_eq h4)
          (ContentReader.advances_isFrame.trans (Advancing.of_eq h5) (Advancing.of_eq h6))))
  obtain ⟨hfile, hpos, hlen, hvalue, hfit⟩ := ContentReader.ReadHeader_eq_ok _ _ _ hHeader
  obtain ⟨afile, apos, alen⟩ := hadv
  have hend' : s6.FilePosition = endPosition := not_not.1 hend
  have hfp : s6.FilePosition = s6.position % 2 ^ 32 := rfl
  have hfp0 : r.FilePosition = r.position % 2 ^ 32 := rfl
  have hsize : declaredSize r.file r.position < 2 ^ 32 := by
    have b6 := byteAt_lt r.file (r.position + 6)
    have b7 := byteAt_lt r.file (r.position + 7)
    have b8 := byteAt_lt r.file (r.position + 8)
    have b9 := byteAt_lt r.file (r.position + 9)
    unfold declaredSize
    omega
  refine ⟨by rw [hend', hvalue], fun hsmall => ?_⟩
  change s6.toBinaryReader.file = s1.toBinaryReader.file at afile
  change s1.toBinaryReader.position ≤ s6.toBinaryReader.position at apos
  change s1.toBinaryReader.position ≤ s1.toBinaryReader.file.length →
    s6.toBinaryReader.position ≤ s6.toBinaryReader.file.length at alen
  have hlen7 : s6.position ≤ r.file.length := by
    have := alen (by rw [hfile]; omega)
    rwa [afile, hfile] at this
  rw [hfp] at hend'
  rw [hfp0] at hvalue
  omega

set_option maxRecDepth 100000 in
/-- C1, witness: the example file of 65 bytes is read to its end. -/
theorem ReadXnb_final_position_witness :
    (ContentReader.ReadXnb 1 (ContentReader.new exampleXnb standardManager)).1 = .ok () ∧
    (ContentReader.ReadXnb 1 (ContentReader.new exampleXnb standardManager)).2.FilePosition =
      ((ContentReader.new exampleXnb standardManager).FilePosition +
        declaredSize exampleXnb 0) % 2 ^ 32 ∧
    (exampleXnb.length < 2 ^ 32 →
      (ContentReader.ReadXnb 1 (ContentReader.new exampleXnb standardManager)).2.position =
        0 + declaredSize exampleXnb 0) :=
  have h : (ContentReader.ReadXnb 1 (ContentReader.new exampleXnb standardManager)).1 =
      .ok () := by decide!
  ⟨h, ReadXnb_final_position 1 _ _ (Method.eq_ok_of_fst h)⟩

/-! ## C10: `GetByTargetType` -/

theorem TypeReader.targetType_of_hasTargetType (readers : List TypeReader)
    (h : ∀ reader ∈ readers, reader.hasTargetType = true) :
    ∀ reader ∈ readers, ∃ t, reader.TargetType = .ok t := by
  intro reader hmem
  have := h reader hmem
  unfold TypeReader.hasTargetType at this
  cases ht : reader.TargetType with
  | ok t => exact ⟨t, rfl⟩
  | error e => rw [ht] at this; cases this

set_option maxRecDepth 100000 in
/-- C10: two inputs on which `GetByTargetType` does not do what it is meant to.
In the registry `malformedManager`, reader 52 has the target type
`System.Collections.Generic.List` of `System.Int32` and no reader before it has
(readers 0 to 50 are the standard ones), yet `GetByTargetType` of that name does
not return it: the scan calls `TargetType()` on reader 51, which reads
`genericArguments[0]` of an empty vector.  And for a name of 219 characters that
no reader has as its target type the call does not throw the unknown-target-type
exception: the message does not fit `char message[256]` and `sprintf_s` ends the
program; with 218 characters it fits and the exception is thrown. -/
theorem GetByTargetType_failure :
    StripAssemblyVersion (L "System.Collections.Generic.List`1[[System.Int32]]") =
      L "System.Collections.Generic.List`1[[System.Int32]]" ∧
    (malformedManager.typeReaders.get? 52).map TypeReader.TargetType =
      some (.ok (L "System.Collections.Generic.List`1[[System.Int32]]")) ∧
    (malformedManager.typeReaders.get? 51).map TypeReader.TargetType =
      some (.error .undefinedBehavior) ∧
    (TypeReaderManager.GetByTargetType
      (L "System.Collections.Generic.List`1[[System.Int32]]") malformedManager).1 =
        .error .undefinedBehavior ∧
    TypeReaderManager.GetByTargetType (List.replicate 219 65) standardManager =
      (.error .invalidParameter, standardManager) ∧
    TypeReaderManager.GetByTargetType (List.replicate 218 65) standardManager =
      (.error (.cantFindTargetType (List.replicate 218 65)), standardManager) := by
  decide!

set_option maxRecDepth 100000 in
/-- An instance of the lookup: the standard registry and the target type
`System.Int32`. -/
theorem GetByTargetType_spec_witness :
    (∀ reader ∈ standardManager.typeReaders, ∃ t, reader.TargetType = .ok t) ∧
    (TypeReaderManager.GetByTargetType (L "System.Int32") standardManager).2 =
      standardManager ∧
    (∀ i, (TypeReaderManager.GetByTargetType (L "System.Int32") standardManager).1 = .ok i ↔
      ∃ reader, standardManager.typeReaders.get? i = some reader ∧
        reader.TargetType = .ok (StripAssemblyVersion (L "System.Int32")) ∧
        ∀ j reader', j < i → standardManager.typeReaders.get? j = some reader' →
          reader'.TargetType ≠ .ok (StripAssemblyVersion (L "System.Int32"))) :=
  have hT : ∀ reader ∈ standardManager.typeReaders, ∃ t, reader.TargetType = .ok t :=
    TypeReader.targetType_of_hasTargetType _ (by decide!)
  have h := GetByTargetType_spec standardManager (L "System.Int32") hT
  ⟨hT, h.1, h.2.1⟩

/-! ## Lemmas: `ReadTypeManifest` as calls on the manager -/

theorem ReadTypeManifest.entry_apply (s : ContentReader) (readerName : wstring)
    (version : Int) (b1 b2 : BinaryReader)
    (hs : BinaryReader.ReadString s.toBinaryReader = (.ok readerName, b1))
    (hv : BinaryReader.ReadInt32 b1 = (.ok version, b2)) :
    (ContentReader.ReadTypeManifest.entry s).2.typeReaderManager =
      (TypeReaderManager.GetByReaderName readerName s.typeReaderManager).2 ∧
    (∀ reader, (TypeReaderManager.GetByReaderName readerName s.typeReaderManager).1 =
        .ok reader →
      (ContentReader.ReadTypeManifest.entry s).1 = .ok () ∧
      (ContentReader.ReadTypeManifest.entry s).2.toBinaryReader = b2 ∧
      (ContentReader.ReadTypeManifest.entry s).2.typeReaders = s.typeReaders ++ [reader]) ∧
    (∀ e, (TypeReaderManager.GetByReaderName readerName s.typeReaderManager).1 = .error e →
      (ContentReader.ReadTypeManifest.entry s).1 = .error e) := by
  unfold ContentReader.ReadTypeManifest.entry
  simp only [Method.bind_apply, ContentReader.ReadString, ContentReader.ReadInt32,
    ContentReader.base_apply, ContentReader.manager_apply, ContentReader.WriteLine,
    ContentReader.log_apply, Method.modify_apply, hs, hv]
  cases hg : TypeReaderManager.GetByReaderName readerName s.typeReaderManager with
  | mk result m' =>
    cases result with
    | error e => simp
    | ok reader => simp

theorem ReadTypeManifest.loop_apply (count i : Nat) (s : ContentReader) (names : List wstring)
    (b' : BinaryReader)
    (h : readManifestNames count s.toBinaryReader = (.ok names, b')) :
    (forLoop.go (fun _ => ContentReader.ReadTypeManifest.entry) count i s).2.typeReaderManager =
      (resolveNames names s.typeReaderManager).2 ∧
    (∀ table, (resolveNames names s.typeReaderManager).1 = .ok table →
      (forLoop.go (fun _ => ContentReader.ReadTypeManifest.entry) count i s).1 = .ok () ∧
      (forLoop.go (fun _ => ContentReader.ReadTypeManifest.entry) count i s).2.typeReaders =
        s.typeReaders ++ table) ∧
    (∀ e, (resolveNames names s.typeReaderManager).1 = .error e →
      (forLoop.go (fun _ => ContentReader.ReadTypeManifest.entry) count i s).1 = .error e) := by
  induction count generalizing i s names with
  | zero =>
    simp only [readManifestNames, Method.pure_apply, Prod.mk.injEq, Except.ok.injEq] at h
    obtain ⟨rfl, -⟩ := h
    simp [forLoop.go, resolveNames]
  | succ n ih =>
    unfold readManifestNames at h
    obtain ⟨readerName, b1, hs, h⟩ := (Method.bind_eq_ok _ _ _ _ _).1 h
    obtain ⟨version, b2, hv, h⟩ := (Method.bind_eq_ok _ _ _ _ _).1 h
    obtain ⟨rest, b3, hrest, h⟩ := (Method.bind_eq_ok _ _ _ _ _).1 h
    simp only [Method.pure_apply, Prod.mk.injEq, Except.ok.injEq] at h
    obtain ⟨rfl, rfl⟩ := h
    obtain ⟨hm, hok, herr⟩ := ReadTypeManifest.entry_apply s readerName version b1 b2 hs hv
    simp only [forLoop.go, resolveNames, Method.bind_apply]
    cases hg : TypeReaderManager.GetByReaderName readerName s.typeReaderManager with
    | mk result m' =>
      rw [hg] at hm hok herr
      cases result with
      | error e =>
        have he := herr e rfl
        cases hentry : ContentReader.ReadTypeManifest.entry s with
        | mk result' s' =>
          rw [hentry] at he hm
          simp only at he hm
          subst he
          simp [hm]
      | ok reader =>
        obtain ⟨h1, h2, h3⟩ := hok reader rfl
        cases hentry : ContentReader.ReadTypeManifest.entry s with
        | mk result' s' =>
          rw [hentry] at h1 h2 h3 hm
          simp only at h1 h2 h3 hm
          subst h1
          simp only []
          have hrest' : readManifestNames n s'.toBinaryReader = (.ok rest, b3) := by
            rw [h2]; exact hrest
          obtain ⟨im, iok, ierr⟩ := ih (i + 1) s' rest hrest'
          rw [hm] at im iok ierr
          cases hr : resolveNames rest m' with
          | mk result2 m2 =>
            rw [hr] at im iok ierr
            cases result2 with
            | error e => simpa using ⟨im, ierr e rfl⟩
            | ok table =>
              obtain ⟨j1, j2⟩ := iok table rfl
              simp [im, j1, j2, h3]

theorem forEach_manager {α : Type} (f : α → Method TypeReaderManager Unit) (xs : List α)
    (s : ContentReader) :
    forEach (fun a => ContentReader.manager (f a)) xs s =
      ((forEach f xs s.typeReaderManager).1,
        { s with typeReaderManager := (forEach f xs s.typeReaderManager).2 }) := by
  induction xs generalizing s with
  | nil => rfl
  | cons a rest ih =>
    simp only [forEach, Method.bind_apply, ContentReader.manager_apply]
    cases hf : f a s.typeReaderManager with
    | mk result m' =>
      cases result with
      | error e => rfl
      | ok u => simp only []; rw [ih]

theorem ReadTypeManifest_apply (r : ContentReader) (count : Nat) (b1 b2 : BinaryReader)
    (names : List wstring)
    (hc : BinaryReader.Read7BitEncodedInt r.toBinaryReader = (.ok count, b1))
    (hn : readManifestNames count b1 = (.ok names, b2)) :
    (ContentReader.ReadTypeManifest r).2.typeReaderManager =
      (loadManifest names r.typeReaderManager).2 ∧
    (∀ table, (loadManifest names r.typeReaderManager).1 = .ok table →
      (ContentReader.ReadTypeManifest r).1 = .ok () ∧
      (ContentReader.ReadTypeManifest r).2.typeReaders = table) ∧
    (∀ e, (loadManifest names r.typeReaderManager).1 = .error e →
      (ContentReader.ReadTypeManifest r).1 = .error e) := by
  unfold ContentReader.ReadTypeManifest loadManifest
  simp only [Method.bind_apply, ContentReader.WriteLine, ContentReader.Indent,
    ContentReader.Unindent, ContentReader.log_apply, ContentReader.Read7BitEncodedInt,
    ContentReader.base_apply, hc, Method.modify_apply, forLoop, Method.get_apply,
    forEach_manager, Method.pure_apply]
  generalize hs4 : ContentReader.mk b1 (r.Log.WriteLine "Type readers:" []).Indent
    r.typeReaderManager [] = s4
  have hb : s4.toBinaryReader = b1 := by rw [← hs4]
  have hm : s4.typeReaderManager = r.typeReaderManager := by rw [← hs4]
  have ht : s4.typeReaders = [] := by rw [← hs4]
  obtain ⟨lm, lok, lerr⟩ := ReadTypeManifest.loop_apply count 0 s4 names b2 (by rw [hb]; exact hn)
  rw [hm] at lm lok lerr
  cases hr : resolveNames names r.typeReaderManager with
  | mk result m1 =>
    rw [hr] at lm lok lerr
    cases hloop : forLoop.go (fun _ => ContentReader.ReadTypeManifest.entry) count 0 s4 with
    | mk result' s5 =>
      rw [hloop] at lm lok lerr
      simp only at lm lok lerr
      cases result with
      | error e =>
        have := lerr e rfl
        subst this
        simp [lm]
      | ok table =>
        obtain ⟨j1, j2⟩ := lok table rfl
        subst j1
        rw [ht, List.nil_append] at j2
        simp only [j2, lm]
        cases hi : forEach TypeReaderManager.Initialize table m1 with
        | mk result2 m2 =>
          cases result2 with
          | error e => simp
          | ok u => simp [j2]

/-! ## Lemmas: the first loop of `ReadTypeManifest` does not depend on the order -/

theorem specialization_readerName (factories : List GenericReaderClass) (wanted : wstring)
    (g : GenericTypeReader) (h : specialization factories wanted = some g) :
    g.readerName = wanted := by
  unfold specialization at h
  split at h
  · split at h
    · split at h
      · rename_i hname
        cases h
        exact hname
      · cases h
    · cases h
  · cases h

theorem GetByReaderName_specialization (m : TypeReaderManager) (name : wstring)
    (h : findByReaderName (StripAssemblyVersion name) m.typeReaders 0 = none)
    (hdebug : m.NDEBUG = false) :
    (∀ g, specialization m.genericReaders (StripAssemblyVersion name) = some g →
      TypeReaderManager.GetByReaderName name m =
        (.ok m.typeReaders.length, { m with typeReaders := m.typeReaders ++ [.generic g] })) ∧
    (specialization m.genericReaders (StripAssemblyVersion name) = none →
      ∃ e, TypeReaderManager.GetByReaderName name m = (.error e, m)) := by
  unfold specialization
  cases hs : SplitGenericTypeName (StripAssemblyVersion name) with
  | none =>
    simp only [reduceCtorEq, false_implies, implies_true, true_and]
    exact fun _ => ⟨_, GetByReaderName_notGeneric m name h hs⟩
  | some split =>
    obtain ⟨genericName, genericArguments⟩ := split
    simp only []
    cases hf : findFactory genericName m.genericReaders with
    | none =>
      simp only [reduceCtorEq, false_implies, implies_true, true_and]
      exact fun _ => ⟨_, GetByReaderName_noFactory m name _ _ h hs hf⟩
    | some factory =>
      simp only []
      by_cases ha : (factory.CreateTypeReader genericArguments).readerName =
          StripAssemblyVersion name
      · rw [if_pos ha]
        refine ⟨?_, fun hnone => (by cases hnone)⟩
        intro g hg
        cases hg
        exact GetByReaderName_created m name _ _ _ h hs hf ha
      · rw [if_neg ha]
        refine ⟨fun g hg => (by cases hg), fun _ => ?_⟩
        exact ⟨_, GetByReaderName_assertionFailed m name _ _ _ h hs hf ha hdebug⟩

set_option maxRecDepth 100000 in
theorem standardManager_registered : Registered standardManager := by
  refine ⟨rfl, fun _ h => h, ?_, rfl⟩
  decide!

/-- One lookup in a registry that grew from the standard one: it fails when the
name denotes no reader, and otherwise returns a pointer to the reader the name
denotes, after adding it if it was not there. -/
theorem GetByReaderName_canonical (m : TypeReaderManager) (name : wstring)
    (hm : Registered m) :
    (canonical (StripAssemblyVersion name) = none →
      ∃ e, TypeReaderManager.GetByReaderName name m = (.error e, m)) ∧
    (∀ object, canonical (StripAssemblyVersion name) = some object →
      ∃ reader m', TypeReaderManager.GetByReaderName name m = (.ok reader, m') ∧
        Registered m' ∧ m'.typeReaders.get? reader = some object ∧
        (m'.typeReaders = m.typeReaders ∨ m'.typeReaders = m.typeReaders ++ [object])) := by
  obtain ⟨hfactories, hstandard, hcanonical, hdebug⟩ := hm
  cases hfind : findByReaderName (StripAssemblyVersion name) m.typeReaders 0 with
  | some reader =>
    obtain ⟨k, object, hk, hget, hname, -⟩ := findByReaderName_eq_some _ _ _ _ hfind
    have hc := hcanonical object (List.get?_mem hget)
    rw [hname] at hc
    have hk' : reader = k := by omega
    subst hk'
    refine ⟨fun hnone => (by rw [hnone] at hc; cases hc), fun object' hobject => ?_⟩
    rw [hc] at hobject
    cases hobject
    exact ⟨reader, m, GetByReaderName_found m name reader hfind,
      ⟨hfactories, hstandard, hcanonical, hdebug⟩, hget, Or.inl rfl⟩
  | none =>
    have hnone := (findByReaderName_eq_none _ _ _).1 hfind
    have hstd : findByReaderName (StripAssemblyVersion name) standardManager.typeReaders 0 =
        none :=
      (findByReaderName_eq_none _ _ _).2 fun reader hmem => hnone reader (hstandard reader hmem)
    have hc : canonical (StripAssemblyVersion name) =
        (specialization m.genericReaders (StripAssemblyVersion name)).map .generic := by
      unfold canonical
      rw [hstd, hfactories]
    obtain ⟨hsome, hfail⟩ := GetByReaderName_specialization m name hfind hdebug
    rw [hc]
    cases hspec : specialization m.genericReaders (StripAssemblyVersion name) with
    | none => exact ⟨fun _ => hfail hspec, fun object hobject => (by cases hobject)⟩
    | some g =>
      refine ⟨fun h => (by cases h), fun object hobject => ?_⟩
      cases hobject
      refine ⟨_, _, hsome g hspec, ⟨hfactories, ?_, ?_, hdebug⟩, ?_, Or.inr rfl⟩
      · intro reader hmem
        exact List.mem_append_left _ (hstandard reader hmem)
      · intro reader hmem
        rcases List.mem_append.1 hmem with h | h
        · exact hcanonical reader h
        · rw [List.mem_singleton] at h
          subst h
          show canonical g.readerName = _
          rw [specialization_readerName _ _ _ hspec, hc, hspec]
          rfl
      · show (m.typeReaders ++ [TypeReader.generic g]).get? m.typeReaders.length = _
        simp

theorem get?_append_of_get? {α : Type} (l l' : List α) (i : Nat) (x : α)
    (h : l.get? i = some x) : (l ++ l').get? i = some x := by
  rw [List.get?_eq_getElem?] at h ⊢
  have hlt : i < l.length := (List.getElem?_eq_some_iff.1 h).1
  rw [List.getElem?_append_left hlt]
  exact h

/-- The first loop in a registry that grew from the standard one: it fails when
some name denotes no reader; otherwise it returns a table that points to the
readers the names denote, and the readers it added are readers the names
denote. -/
theorem resolveNames_canonical (names : List wstring) (m : TypeReaderManager)
    (hm : Registered m) :
    ((∃ name ∈ names, canonical (StripAssemblyVersion name) = none) →
      ∃ e m', resolveNames names m = (.error e, m')) ∧
    ((∀ name ∈ names, canonical (StripAssemblyVersion name) ≠ none) →
      ∃ table m', resolveNames names m = (.ok table, m') ∧ Registered m' ∧
        (∃ extra, m'.typeReaders = m.typeReaders ++ extra ∧
          ∀ object ∈ extra, ∃ name ∈ names,
            canonical (StripAssemblyVersion name) = some object) ∧
        (∀ reader ∈ table, ∃ name ∈ names,
          m'.typeReaders.get? reader = canonical (StripAssemblyVersion name)) ∧
        (∀ name ∈ names, ∃ reader ∈ table,
          m'.typeReaders.get? reader = canonical (StripAssemblyVersion name))) := by
  induction names generalizing m with
  | nil =>
    refine ⟨fun ⟨name, hmem, _⟩ => (by cases hmem), fun _ => ?_⟩
    exact ⟨[], m, rfl, hm, ⟨[], by simp, by simp⟩, by simp, by simp⟩
  | cons name rest ih =>
    obtain ⟨hfail, hok⟩ := GetByReaderName_canonical m name hm
    cases hc : canonical (StripAssemblyVersion name) with
    | none =>
      obtain ⟨e, he⟩ := hfail hc
      refine ⟨fun _ => ⟨e, m, ?_⟩, fun hall => absurd hc (hall name (by simp))⟩
      simp [resolveNames, he]
    | some object =>
      obtain ⟨reader, m1, hlookup, hm1, hget, hgrow⟩ := hok object hc
      obtain ⟨ihfail, ihok⟩ := ih m1 hm1
      constructor
      · rintro ⟨name', hmem, hnone⟩
        have hrest : ∃ name ∈ rest, canonical (StripAssemblyVersion name) = none := by
          rcases List.mem_cons.1 hmem with h | h
          · subst h; rw [hc] at hnone; cases hnone
          · exact ⟨name', h, hnone⟩
        obtain ⟨e, m', he⟩ := ihfail hrest
        exact ⟨e, m', by simp [resolveNames, hlookup, he]⟩
      · intro hall
        obtain ⟨table, m', hresolve, hm', ⟨extra, hextra, hnew⟩, htable, hnames⟩ :=
          ihok fun name' hmem => hall name' (List.mem_cons_of_mem _ hmem)
        refine ⟨reader :: table, m', by simp [resolveNames, hlookup, hresolve], hm', ?_, ?_, ?_⟩
        · rcases hgrow with h | h
          · refine ⟨extra, by rw [hextra, h], fun object' hmem => ?_⟩
            obtain ⟨name', hmem', hname'⟩ := hnew object' hmem
            exact ⟨name', List.mem_cons_of_mem _ hmem', hname'⟩
          · refine ⟨object :: extra, by rw [hextra, h]; simp, fun object' hmem => ?_⟩
            rcases List.mem_cons.1 hmem with h' | h'
            · subst h'; exact ⟨name, by simp, hc⟩
            · obtain ⟨name', hmem', hname'⟩ := hnew object' h'
              exact ⟨name', List.mem_cons_of_mem _ hmem', hname'⟩
        · intro reader' hmem
          rcases List.mem_cons.1 hmem with h | h
          · subst h
            refine ⟨name, by simp, ?_⟩
            rw [hc, hextra]
            exact get?_append_of_get? _ _ _ _ hget
          · obtain ⟨name', hmem', hname'⟩ := htable reader' h
            exact ⟨name', List.mem_cons_of_mem _ hmem', hname'⟩
        · intro name' hmem
          rcases List.mem_cons.1 hmem with h | h
          · subst h
            refine ⟨reader, by simp, ?_⟩
            rw [hc, hextra]
            exact get?_append_of_get? _ _ _ _ hget
          · obtain ⟨reader', hmem', hname'⟩ := hnames name' h
            exact ⟨reader', List.mem_cons_of_mem _ hmem', hname'⟩

/-! ## Lemmas: the second loop of `ReadTypeManifest` -/

theorem TypeReader.targetType_static (reader : TypeReader) :
    reader.static.TargetType = reader.TargetType := by
  cases reader with
  | plain cls => rfl
  | generic g => rfl

theorem initializable_static (targetTypes : List (Except Error wstring))
    (reader : TypeReader) :
    initializable targetTypes reader.static ↔ initializable targetTypes reader := by
  cases reader with
  | plain cls => exact Iff.rfl
  | generic g => exact Iff.rfl

theorem sameStatics_frame : Method.Frame sameStatics :=
  ⟨fun _ => rfl, fun h1 h2 => h2.trans h1⟩

theorem sameStatics_targetTypes (m m' : TypeReaderManager) (h : sameStatics m m') :
    m'.typeReaders.map TypeReader.TargetType = m.typeReaders.map TypeReader.TargetType := by
  have h' := congrArg (List.map TypeReader.TargetType) h
  simpa [List.map_map, Function.comp_def, TypeReader.targetType_static] using h'

theorem assign_map {β : Type} (view : TypeReader → β) (reader : Nat)
    (f : GenericTypeReader → GenericTypeReader)
    (hf : ∀ g, view (.generic (f g)) = view (.generic g)) (m : TypeReaderManager) :
    (TypeReaderManager.assign reader f m).2.typeReaders.map view = m.typeReaders.map view := by
  unfold TypeReaderManager.assign
  simp only [Method.modify_apply]
  split
  · rename_i g hg
    simp only [List.map_set]
    apply List.ext_getElem?
    intro i
    by_cases hi : reader = i
    · subst hi
      rw [List.get?_eq_getElem?] at hg
      have hlt : reader < m.typeReaders.length := by
        by_contra hc
        rw [List.getElem?_eq_none (by omega)] at hg
        cases hg
      have hget : m.typeReaders[reader] = .generic g := by
        rw [List.getElem?_eq_getElem hlt] at hg
        exact Option.some.inj hg
      simp [hlt, hget, hf]
    · simp [List.getElem?_set_ne hi]
  · rfl

theorem assign_sameStatics (reader : Nat) (f : GenericTypeReader → GenericTypeReader)
    (hf : ∀ g, TypeReader.static (.generic (f g)) = TypeReader.static (.generic g)) :
    Method.Preserves sameStatics (TypeReaderManager.assign reader f) :=
  fun m => assign_map TypeReader.static reader f hf m

theorem GetByTargetType_sameStatics (targetType : wstring) :
    Method.Preserves sameStatics (TypeReaderManager.GetByTargetType targetType) := by
  intro m
  rw [GetByTargetType_manager]
  exact sameStatics_frame.refl m

theorem Initialize_sameStatics (reader : Nat) :
    Method.Preserves sameStatics (TypeReaderManager.Initialize reader) := by
  unfold TypeReaderManager.Initialize
  refine Method.Preserves.bind sameStatics_frame (Method.Preserves.get sameStatics_frame)
    fun m => ?_
  refine Method.Preserves.bind sameStatics_frame (Method.Preserves.ofExcept sameStatics_frame _)
    fun object => ?_
  cases object with
  | plain cls => exact Method.Preserves.pure sameStatics_frame ()
  | generic g =>
    simp only []
    cases hc : g.cls <;> simp only [] <;>
    repeat' first
      | exact Method.Preserves.pure sameStatics_frame _
      | exact Method.Preserves.ofExcept sameStatics_frame _
      | exact GetByTargetType_sameStatics _
      | exact assign_sameStatics _ _ (fun _ => rfl)
      | refine Method.Preserves.bind sameStatics_frame ?_ fun _ => ?_

/-- In a registry whose readers all have a `TargetType()`, `GetByTargetType`
returns a reader exactly when some reader has the target type. -/
theorem GetByTargetType_defined (m : TypeReaderManager) (targetType : wstring)
    (hT : ∀ reader ∈ m.typeReaders, ∃ t, reader.TargetType = .ok t) :
    (hasTarget (m.typeReaders.map TypeReader.TargetType) targetType →
      ∃ reader, TypeReaderManager.GetByTargetType targetType m = (.ok reader, m)) ∧
    (¬ hasTarget (m.typeReaders.map TypeReader.TargetType) targetType →
      ∃ e, TypeReaderManager.GetByTargetType targetType m = (.error e, m)) := by
  have hstate := GetByTargetType_manager m targetType
  have hresult := GetByTargetType_result m targetType
  obtain ⟨found, hfound⟩ :=
    findByTargetType_defined (StripAssemblyVersion targetType) m.typeReaders 0 hT
  rw [hfound] at hresult
  unfold hasTarget
  cases found with
  | none =>
    have hnone := findByTargetType_eq_none _ _ _ hfound
    constructor
    · intro h
      obtain ⟨reader, hmem, ht⟩ := List.mem_map.1 h
      exact absurd ht (hnone reader hmem)
    · intro _
      exact ⟨_, Prod.ext hresult hstate⟩
  | some reader =>
    obtain ⟨k, object, -, hget, ht, -⟩ := findByTargetType_eq_some _ _ _ _ hfound
    constructor
    · intro _
      exact ⟨reader, Prod.ext hresult hstate⟩
    · intro h
      exact absurd (List.mem_map.2 ⟨object, List.get?_mem hget, ht⟩) h

theorem lookup_assign (m : TypeReaderManager) (reader : Nat) (targetType : wstring)
    (f : Nat → GenericTypeReader → GenericTypeReader)
    (hf : ∀ found g, TypeReader.static (.generic (f found g)) = TypeReader.static (.generic g))
    (hT : ∀ object ∈ m.typeReaders, ∃ t, object.TargetType = .ok t) :
    (hasTarget (m.typeReaders.map TypeReader.TargetType) targetType →
      ∃ m', (TypeReaderManager.GetByTargetType targetType >>= fun found =>
        TypeReaderManager.assign reader (f found)) m = (.ok (), m') ∧ sameStatics m m') ∧
    (¬ hasTarget (m.typeReaders.map TypeReader.TargetType) targetType →
      ∃ e, (TypeReaderManager.GetByTargetType targetType >>= fun found =>
        TypeReaderManager.assign reader (f found)) m = (.error e, m)) := by
  obtain ⟨hyes, hno⟩ := GetByTargetType_defined m targetType hT
  constructor
  · intro h
    obtain ⟨found, hfound⟩ := hyes h
    refine ⟨(TypeReaderManager.assign reader (f found) m).2, ?_, ?_⟩
    · rw [Method.bind_ok hfound]
      rfl
    · exact assign_sameStatics reader (f found) (hf found) m
  · intro h
    obtain ⟨e, he⟩ := hno h
    exact ⟨e, Method.bind_error he⟩

theorem targetTypes_defined_iff (readers : List TypeReader) :
    (∀ object ∈ readers, ∃ t, object.TargetType = .ok t) ↔
      ∀ x ∈ readers.map TypeReader.TargetType, ∃ t, x = .ok t := by
  simp [List.forall_mem_map]

theorem sameStatics_defined (m m' : TypeReaderManager) (h : sameStatics m m')
    (hT : ∀ object ∈ m.typeReaders, ∃ t, object.TargetType = .ok t) :
    ∀ object ∈ m'.typeReaders, ∃ t, object.TargetType = .ok t := by
  rw [targetTypes_defined_iff] at hT ⊢
  rw [sameStatics_targetTypes m m' h]
  exact hT

theorem argument_lookup_assign (m : TypeReaderManager) (reader : Nat) (g : GenericTypeReader)
    (i : Nat) (f : Nat → GenericTypeReader → GenericTypeReader)
    (hf : ∀ found g, TypeReader.static (.generic (f found g)) = TypeReader.static (.generic g))
    (hT : ∀ object ∈ m.typeReaders, ∃ t, object.TargetType = .ok t) :
    ((∃ a, g.GenericArgument i = .ok a ∧
        hasTarget (m.typeReaders.map TypeReader.TargetType) a) →
      ∃ m', (Method.ofExcept (g.GenericArgument i) >>= fun a =>
        TypeReaderManager.GetByTargetType a >>= fun found =>
          TypeReaderManager.assign reader (f found)) m = (.ok (), m') ∧ sameStatics m m') ∧
    (¬ (∃ a, g.GenericArgument i = .ok a ∧
        hasTarget (m.typeReaders.map TypeReader.TargetType) a) →
      ∃ e, (Method.ofExcept (g.GenericArgument i) >>= fun a =>
        TypeReaderManager.GetByTargetType a >>= fun found =>
          TypeReaderManager.assign reader (f found)) m = (.error e, m)) := by
  cases harg : g.GenericArgument i with
  | error e =>
    refine ⟨fun ⟨a, ha, _⟩ => (by cases ha), fun _ => ⟨e, ?_⟩⟩
    exact Method.bind_error rfl
  | ok a =>
    obtain ⟨hyes, hno⟩ := lookup_assign m reader a f hf hT
    have hbind : (Method.ofExcept (Except.ok a) >>= fun a =>
        TypeReaderManager.GetByTargetType a >>= fun found =>
          TypeReaderManager.assign reader (f found)) m =
        (TypeReaderManager.GetByTargetType a >>= fun found =>
          TypeReaderManager.assign reader (f found)) m := Method.bind_ok rfl
    rw [hbind]
    constructor
    · rintro ⟨a', ha', ht⟩
      cases ha'
      exact hyes ht
    · intro h
      exact hno fun ht => h ⟨a, rfl, ht⟩

theorem Initialize_initializable (m : TypeReaderManager) (reader : Nat) (object : TypeReader)
    (hT : ∀ object ∈ m.typeReaders, ∃ t, object.TargetType = .ok t)
    (hget : m.typeReaders.get? reader = some object) :
    (initializable (m.typeReaders.map TypeReader.TargetType) object →
      ∃ m', TypeReaderManager.Initialize reader m = (.ok (), m')) ∧
    (¬ initializable (m.typeReaders.map TypeReader.TargetType) object →
      ∃ e m', TypeReaderManager.Initialize reader m = (.error e, m')) := by
  unfold TypeReaderManager.Initialize
  simp only [Method.bind_apply, Method.get_apply, Method.ofExcept_apply,
    TypeReaderManager.deref, hget]
  cases object with
  | plain cls =>
    simp [initializable]
  | generic g =>
    simp only [initializable]
    cases hcls : g.cls <;> simp only []
    case EnumReader => simp
    case ReflectiveReader => simp
    case NullableReader =>
      obtain ⟨hyes, hno⟩ := argument_lookup_assign m reader g 0
        (fun found g => { g with valueReader := some found }) (fun _ _ => rfl) hT
      exact ⟨fun h => (hyes h).imp fun _ h' => h'.1, fun h => (hno h).imp fun _ h' => ⟨m, h'⟩⟩
    case ArrayReader =>
      obtain ⟨hyes, hno⟩ := argument_lookup_assign m reader g 0
        (fun found g => { g with elementReader := some found }) (fun _ _ => rfl) hT
      exact ⟨fun h => (hyes h).imp fun _ h' => h'.1, fun h => (hno h).imp fun _ h' => ⟨m, h'⟩⟩
    case ListReader =>
      obtain ⟨hyes, hno⟩ := argument_lookup_assign m reader g 0
        (fun found g => { g with elementReader := some found }) (fun _ _ => rfl) hT
      exact ⟨fun h => (hyes h).imp fun _ h' => h'.1, fun h => (hno h).imp fun _ h' => ⟨m, h'⟩⟩
    case DictionaryReader =>
      cases harg : g.GenericArgument 0 with
      | error e =>
        refine ⟨fun ⟨a, b, ha, _⟩ => (by cases ha), fun _ => ⟨e, m, ?_⟩⟩
        exact Method.bind_error rfl
      | ok a =>
        rw [Method.bind_ok (rfl : Method.ofExcept (Except.ok a) m = (.ok a, m))]
        obtain ⟨hyes, hno⟩ := GetByTargetType_defined m a hT
        by_cases ha : hasTarget (m.typeReaders.map TypeReader.TargetType) a
        · obtain ⟨keyReader, hkey⟩ := hyes ha
          rw [Method.bind_ok hkey]
          have hassign : TypeReaderManager.assign reader
              (fun g => { g with keyReader := some keyReader }) m =
              (.ok (), (TypeReaderManager.assign reader
                (fun g => { g with keyReader := some keyReader }) m).2) := rfl
          rw [Method.bind_ok hassign]
          have hsame := assign_sameStatics reader
            (fun g => { g with keyReader := some keyReader }) (fun _ => rfl) m
          obtain ⟨hyes2, hno2⟩ := argument_lookup_assign _ reader g 1
            (fun found g => { g with valueReader := some found }) (fun _ _ => rfl)
            (sameStatics_defined _ _ hsame hT)
          rw [sameStatics_targetTypes _ _ hsame] at hyes2 hno2
          constructor
          · rintro ⟨a', b, ha', hb, -, htb⟩
            exact (hyes2 ⟨b, hb, htb⟩).imp fun _ h' => h'.1
          · intro h
            have : ¬ ∃ b, g.GenericArgument 1 = .ok b ∧
                hasTarget (m.typeReaders.map TypeReader.TargetType) b :=
              fun ⟨b, hb, htb⟩ => h ⟨a, b, rfl, hb, ha, htb⟩
            exact (hno2 this).imp fun _ h' => ⟨_, h'⟩
        · obtain ⟨e, he⟩ := hno ha
          refine ⟨fun ⟨a', b, ha', _, hta, _⟩ => ?_, fun _ => ⟨e, m, Method.bind_error he⟩⟩
          cases ha'
          exact absurd hta ha

theorem sameStatics_get? (m m' : TypeReaderManager) (h : sameStatics m m') (reader : Nat) :
    (m'.typeReaders.get? reader).map TypeReader.static =
      (m.typeReaders.get? reader).map TypeReader.static := by
  have := congrArg (fun l => l.get? reader) h
  simpa [List.get?_eq_getElem?, List.getElem?_map] using this

theorem sameStatics_initializable (m m' : TypeReaderManager) (h : sameStatics m m')
    (targetTypes : List (Except Error wstring)) (reader : Nat) :
    (∀ object, m'.typeReaders.get? reader = some object → initializable targetTypes object) ↔
      (∀ object, m.typeReaders.get? reader = some object → initializable targetTypes object) := by
  have hget := sameStatics_get? m m' h reader
  cases h1 : m'.typeReaders.get? reader with
  | none =>
    cases h2 : m.typeReaders.get? reader with
    | none => simp
    | some object => rw [h1, h2] at hget; cases hget
  | some object' =>
    cases h2 : m.typeReaders.get? reader with
    | none => rw [h1, h2] at hget; cases hget
    | some object =>
      rw [h1, h2] at hget
      have hs : object'.static = object.static := Option.some.inj hget
      simp only [Option.some.injEq, forall_eq']
      rw [← initializable_static _ object', ← initializable_static _ object, hs]

/-- The second loop in a registry whose readers all have a `TargetType()`: it
returns exactly when every reader of the table is initializable. -/
theorem initializeAll_iff (table : List Nat) (m : TypeReaderManager)
    (hT : ∀ object ∈ m.typeReaders, ∃ t, object.TargetType = .ok t)
    (hvalid : ∀ reader ∈ table, ∃ object, m.typeReaders.get? reader = some object) :
    (∃ m', forEach TypeReaderManager.Initialize table m = (.ok (), m')) ↔
      ∀ reader ∈ table, ∀ object, m.typeReaders.get? reader = some object →
        initializable (m.typeReaders.map TypeReader.TargetType) object := by
  induction table generalizing m with
  | nil => simp [forEach]
  | cons reader rest ih =>
    obtain ⟨object, hget⟩ := hvalid reader (by simp)
    obtain ⟨hyes, hno⟩ := Initialize_initializable m reader object hT hget
    by_cases hi : initializable (m.typeReaders.map TypeReader.TargetType) object
    · obtain ⟨m1, hm1⟩ := hyes hi
      have hsame : sameStatics m m1 := by
        have := Initialize_sameStatics reader m
        rwa [hm1] at this
      have hvalid1 : ∀ reader ∈ rest, ∃ object, m1.typeReaders.get? reader = some object := by
        intro reader' hmem
        obtain ⟨object', hget'⟩ := hvalid reader' (List.mem_cons_of_mem _ hmem)
        have := sameStatics_get? m m1 hsame reader'
        rw [hget'] at this
        cases h1 : m1.typeReaders.get? reader' with
        | none => rw [h1] at this; cases this
        | some o => exact ⟨o, rfl⟩
      have hih := ih m1 (sameStatics_defined _ _ hsame hT) hvalid1
      rw [sameStatics_targetTypes _ _ hsame] at hih
      have hstep : forEach TypeReaderManager.Initialize (reader :: rest) m =
          forEach TypeReaderManager.Initialize rest m1 := Method.bind_ok hm1
      rw [hstep, hih]
      constructor
      · intro h reader' hmem
        rcases List.mem_cons.1 hmem with h' | h'
        · subst h'
          intro object' hget'
          rw [hget] at hget'
          cases hget'
          exact hi
        · exact (sameStatics_initializable m m1 hsame _ reader').1 (h reader' h')
      · intro h reader' hmem
        exact (sameStatics_initializable m m1 hsame _ reader').2
          (h reader' (List.mem_cons_of_mem _ hmem))
    · obtain ⟨e, m1, hm1⟩ := hno hi
      have hstep : forEach TypeReaderManager.Initialize (reader :: rest) m = (.error e, m1) :=
        Method.bind_error hm1
      rw [hstep]
      constructor
      · rintro ⟨m', h⟩
        cases h
      · intro h
        exact absurd (h reader (by simp) object hget) hi

theorem initializable_congr (targetTypes targetTypes' : List (Except Error wstring))
    (h : ∀ x, x ∈ targetTypes ↔ x ∈ targetTypes') (object : TypeReader) :
    initializable targetTypes object ↔ initializable targetTypes' object := by
  cases object with
  | plain cls => exact Iff.rfl
  | generic g =>
    unfold initializable
    cases g.cls <;> simp only [hasTarget, h]

theorem loadManifest_of_resolved (names : List wstring) (m m1 : TypeReaderManager)
    (table : List Nat) (h : resolveNames names m = (.ok table, m1)) :
    (loadManifest names m).2 = (forEach TypeReaderManager.Initialize table m1).2 ∧
    ((∃ table', (loadManifest names m).1 = .ok table') ↔
      ∃ m', forEach TypeReaderManager.Initialize table m1 = (.ok (), m')) := by
  unfold loadManifest
  rw [Method.bind_ok h]
  cases hinit : forEach TypeReaderManager.Initialize table m1 with
  | mk result m' =>
    cases result with
    | error e =>
      rw [Method.bind_error hinit]
      simp
    | ok u =>
      rw [Method.bind_ok hinit]
      simp

/-- A manifest all of whose names denote readers, loaded into the standard
registry: the registry after the first loop holds the standard readers and the
readers the names denote, and, when all its readers have a `TargetType()`, the
load succeeds exactly when the readers the names denote are initializable. -/
theorem loadManifest_iff (names : List wstring)
    (hall : ∀ name ∈ names, canonical (StripAssemblyVersion name) ≠ none) :
    ∃ m1, sameStatics m1 (loadManifest names standardManager).2 ∧
      (∀ object, object ∈ m1.typeReaders ↔ object ∈ standardManager.typeReaders ∨
        ∃ name ∈ names, canonical (StripAssemblyVersion name) = some object) ∧
      ((∀ object ∈ m1.typeReaders, ∃ t, object.TargetType = .ok t) →
        ((∃ table, (loadManifest names standardManager).1 = .ok table) ↔
          ∀ name ∈ names, ∀ object, canonical (StripAssemblyVersion name) = some object →
            initializable (m1.typeReaders.map TypeReader.TargetType) object)) := by
  obtain ⟨table, m1, hresolve, hm1, ⟨extra, hextra, hnew⟩, htable, hnames⟩ :=
    (resolveNames_canonical names standardManager standardManager_registered).2 hall
  obtain ⟨hstate, hresult⟩ := loadManifest_of_resolved names standardManager m1 table hresolve
  refine ⟨m1, ?_, ?_, ?_⟩
  · rw [hstate]
    exact Method.Preserves.forEach sameStatics_frame Initialize_sameStatics table m1
  · intro object
    constructor
    · intro hmem
      rw [hextra] at hmem
      rcases List.mem_append.1 hmem with h | h
      · exact Or.inl h
      · exact Or.inr (hnew object h)
    · rintro (h | ⟨name, hmem, hname⟩)
      · exact hm1.2.1 object h
      · obtain ⟨reader, -, hget⟩ := hnames name hmem
        rw [hname] at hget
        exact List.get?_mem hget
  · intro hT
    have hvalid : ∀ reader ∈ table, ∃ object, m1.typeReaders.get? reader = some object := by
      intro reader hmem
      obtain ⟨name, hmem', hget⟩ := htable reader hmem
      cases hc : canonical (StripAssemblyVersion name) with
      | none => exact absurd hc (hall name hmem')
      | some object => exact ⟨object, by rw [hget, hc]⟩
    rw [hresult, initializeAll_iff table m1 hT hvalid]
    constructor
    · intro h name hmem object hname
      obtain ⟨reader, hmem', hget⟩ := hnames name hmem
      exact h reader hmem' object (by rw [hget, hname])
    · intro h reader hmem object hget
      obtain ⟨name, hmem', hget'⟩ := htable reader hmem
      exact h name hmem' object (by rw [← hget', hget])

theorem loadManifest_unresolved (names : List wstring)
    (h : ∃ name ∈ names, canonical (StripAssemblyVersion name) = none) :
    ¬ ∃ table, (loadManifest names standardManager).1 = .ok table := by
  obtain ⟨e, m', he⟩ :=
    (resolveNames_canonical names standardManager standardManager_registered).1 h
  rintro ⟨table, htable⟩
  unfold loadManifest at htable
  rw [Method.bind_error he] at htable
  cases htable

/-- Whether a manifest loads into the standard registry does not depend on the
order of its names, when the readers of the registry after the load of the one
order all have a `TargetType()`. -/
theorem loadManifest_perm (names1 names2 : List wstring) (hperm : names1.Perm names2)
    (hT : ∀ object ∈ (loadManifest names1 standardManager).2.typeReaders,
      ∃ t, object.TargetType = .ok t) :
    (∃ table, (loadManifest names1 standardManager).1 = .ok table) ↔
      ∃ table, (loadManifest names2 standardManager).1 = .ok table := by
  by_cases hall : ∀ name ∈ names1, canonical (StripAssemblyVersion name) ≠ none
  · have hall2 : ∀ name ∈ names2, canonical (StripAssemblyVersion name) ≠ none :=
      fun name hmem => hall name (hperm.mem_iff.2 hmem)
    obtain ⟨m1, hsame1, hmem1, hiff1⟩ := loadManifest_iff names1 hall
    obtain ⟨m2, -, hmem2, hiff2⟩ := loadManifest_iff names2 hall2
    have hT1 : ∀ object ∈ m1.typeReaders, ∃ t, object.TargetType = .ok t :=
      sameStatics_defined _ _ hsame1.symm hT
    have hmem : ∀ object, object ∈ m1.typeReaders ↔ object ∈ m2.typeReaders := by
      intro object
      rw [hmem1, hmem2]
      constructor
      · rintro (h | ⟨name, hn, hc⟩)
        · exact Or.inl h
        · exact Or.inr ⟨name, hperm.mem_iff.1 hn, hc⟩
      · rintro (h | ⟨name, hn, hc⟩)
        · exact Or.inl h
        · exact Or.inr ⟨name, hperm.mem_iff.2 hn, hc⟩
    have hT2 : ∀ object ∈ m2.typeReaders, ∃ t, object.TargetType = .ok t :=
      fun object h => hT1 object ((hmem object).2 h)
    have htt : ∀ x, x ∈ m1.typeReaders.map TypeReader.TargetType ↔
        x ∈ m2.typeReaders.map TypeReader.TargetType := by
      intro x
      simp only [List.mem_map]
      constructor
      · rintro ⟨object, h, rfl⟩; exact ⟨object, (hmem object).1 h, rfl⟩
      · rintro ⟨object, h, rfl⟩; exact ⟨object, (hmem object).2 h, rfl⟩
    rw [hiff1 hT1, hiff2 hT2]
    constructor
    · intro h name hn object hc
      exact (initializable_congr _ _ htt object).1 (h name (hperm.mem_iff.2 hn) object hc)
    · intro h name hn object hc
      exact (initializable_congr _ _ htt object).2 (h name (hperm.mem_iff.1 hn) object hc)
  · have h1 : ∃ name ∈ names1, canonical (StripAssemblyVersion name) = none := by
      by_contra hc
      exact hall fun name hmem hnone => hc ⟨name, hmem, hnone⟩
    have h2 : ∃ name ∈ names2, canonical (StripAssemblyVersion name) = none := by
      obtain ⟨name, hmem, hnone⟩ := h1
      exact ⟨name, hperm.mem_iff.1 hmem, hnone⟩
    exact iff_of_false (loadManifest_unresolved names1 h1) (loadManifest_unresolved names2 h2)

/-! ## C5: the order of the manifest entries -/

theorem ReadTypeManifest_ok_iff (r : ContentReader) (count : Nat) (b1 b2 : BinaryReader)
    (names : List wstring)
    (hc : BinaryReader.Read7BitEncodedInt r.toBinaryReader = (.ok count, b1))
    (hn : readManifestNames count b1 = (.ok names, b2)) :
    (ContentReader.ReadTypeManifest r).1 = .ok () ↔
      ∃ table, (loadManifest names r.typeReaderManager).1 = .ok table := by
  obtain ⟨-, hok, herr⟩ := ReadTypeManifest_apply r count b1 b2 names hc hn
  cases h : (loadManifest names r.typeReaderManager).1 with
  | ok table => exact iff_of_true (hok table h).1 ⟨table, rfl⟩
  | error e =>
    rw [herr e h]
    exact iff_of_false (fun h' => by cases h') (fun ⟨_, h'⟩ => by cases h')

set_option maxRecDepth 100000 in
/-- C5: the two manifests hold the same three entries, the first two exchanged,
and `ReadTypeManifest` from the standard registry returns on the one and fails on
the other, in a build with `NDEBUG` as in one without: with the `EnumReader` of
no arguments registered before the `ListReader` of `Int32`, the lookup of the
element type of the outer `ListReader` calls `TargetType()` on the `EnumReader`,
which reads `genericArguments[0]` of an empty vector. -/
theorem ReadTypeManifest_order_failure :
    (readManifestNames 3 ⟨malformedManifest, 1⟩).1 = .ok
      [L "Microsoft.Xna.Framework.Content.EnumReader`0[[]]",
       L "Microsoft.Xna.Framework.Content.ListReader`1[[System.Int32]]",
       L ("Microsoft.Xna.Framework.Content.ListReader`1" ++
         "[[System.Collections.Generic.List`1[[System.Int32]]]]")] ∧
    (readManifestNames 3 ⟨malformedManifestSwapped, 1⟩).1 = .ok
      [L "Microsoft.Xna.Framework.Content.ListReader`1[[System.Int32]]",
       L "Microsoft.Xna.Framework.Content.EnumReader`0[[]]",
       L ("Microsoft.Xna.Framework.Content.ListReader`1" ++
         "[[System.Collections.Generic.List`1[[System.Int32]]]]")] ∧
    (ContentReader.ReadTypeManifest
      (ContentReader.new malformedManifestSwapped standardManager)).1 = .ok () ∧
    (ContentReader.ReadTypeManifest
      (ContentReader.new malformedManifest standardManager)).1 = .error .undefinedBehavior ∧
    (ContentReader.ReadTypeManifest
      (ContentReader.new malformedManifestSwapped releaseManager)).1 = .ok () ∧
    (ContentReader.ReadTypeManifest
      (ContentReader.new malformedManifest releaseManager)).1 = .error .undefinedBehavior := by
  decide!

set_option maxRecDepth 100000 in
/-- The order of the entries in a build that checks `assert`: starting from the
standard registry, two manifests whose names are the same up to their order are
both loaded by `ReadTypeManifest` or both rejected, provided that every reader
of the registry after the first load has a `TargetType()` (no name made
`GetByReaderName` create a reader that reads a generic argument it does not
have); and the manifest that lists the `ListReader` of lists of `Int32` before
the `ListReader` of `Int32` is loaded, readers 51 and 52 are created for the two
names in this order, and the element reader of the outer one is the inner one. -/
theorem ReadTypeManifest_order_independent (r1 r2 : ContentReader) (count1 count2 : Nat)
    (b1 e1 b2 e2 : BinaryReader) (names1 names2 : List wstring)
    (hm1 : r1.typeReaderManager = standardManager)
    (hm2 : r2.typeReaderManager = standardManager)
    (hc1 : BinaryReader.Read7BitEncodedInt r1.toBinaryReader = (.ok count1, b1))
    (hn1 : readManifestNames count1 b1 = (.ok names1, e1))
    (hc2 : BinaryReader.Read7BitEncodedInt r2.toBinaryReader = (.ok count2, b2))
    (hn2 : readManifestNames count2 b2 = (.ok names2, e2))
    (hperm : names1.Perm names2)
    (hT : ∀ object ∈ (ContentReader.ReadTypeManifest r1).2.typeReaderManager.typeReaders,
      ∃ t, object.TargetType = .ok t) :
    ((ContentReader.ReadTypeManifest r1).1 = .ok () ↔
      (ContentReader.ReadTypeManifest r2).1 = .ok ()) ∧
    ((readManifestNames 2 ⟨nestedManifest, 1⟩).1 = .ok
        [L ("Microsoft.Xna.Framework.Content.ListReader`1" ++
           "[[System.Collections.Generic.List`1[[System.Int32]]]]"),
         L "Microsoft.Xna.Framework.Content.ListReader`1[[System.Int32]]"] ∧
      (ContentReader.ReadTypeManifest
        (ContentReader.new nestedManifest standardManager)).1 = .ok () ∧
      (ContentReader.ReadTypeManifest
        (ContentReader.new nestedManifest standardManager)).2.typeReaders = [51, 52] ∧
      ((ContentReader.ReadTypeManifest (ContentReader.new nestedManifest
          standardManager)).2.typeReaderManager.typeReaders.get? 51).map
        TypeReader.ReaderName = some (L ("Microsoft.Xna.Framework.Content.ListReader`1" ++
          "[[System.Collections.Generic.List`1[[System.Int32]]]]")) ∧
      ((ContentReader.ReadTypeManifest (ContentReader.new nestedManifest
          standardManager)).2.typeReaderManager.typeReaders.get? 51).bind
        TypeReader.elementReader = some 52 ∧
      ((ContentReader.ReadTypeManifest (ContentReader.new nestedManifest
          standardManager)).2.typeReaderManager.typeReaders.get? 52).map
        TypeReader.ReaderName =
          some (L "Microsoft.Xna.Framework.Content.ListReader`1[[System.Int32]]") ∧
      ((ContentReader.ReadTypeManifest (ContentReader.new nestedManifest
          standardManager)).2.typeReaderManager.typeReaders.get? 52).map
        TypeReader.TargetType =
          some (.ok (L "System.Collections.Generic.List`1[[System.Int32]]"))) := by
  refine ⟨?_, by decide!⟩
  rw [ReadTypeManifest_ok_iff r1 count1 b1 e1 names1 hc1 hn1,
    ReadTypeManifest_ok_iff r2 count2 b2 e2 names2 hc2 hn2, hm1, hm2]
  have hstate := (ReadTypeManifest_apply r1 count1 b1 e1 names1 hc1 hn1).1
  rw [hstate, hm1] at hT
  exact loadManifest_perm names1 names2 hperm hT

set_option maxRecDepth 100000 in
/-- An instance of the order independence: the manifest `nestedManifest` and the
same entries in the other order. -/
theorem ReadTypeManifest_order_independent_witness :
    readManifestNames 2 ⟨nestedManifest, 1⟩ = (.ok
      [L ("Microsoft.Xna.Framework.Content.ListReader`1" ++
         "[[System.Collections.Generic.List`1[[System.Int32]]]]"),
       L "Microsoft.Xna.Framework.Content.ListReader`1[[System.Int32]]"],
      ⟨nestedManifest, nestedManifest.length⟩) ∧
    readManifestNames 2 ⟨nestedManifestSwapped, 1⟩ = (.ok
      [L "Microsoft.Xna.Framework.Content.ListReader`1[[System.Int32]]",
       L ("Microsoft.Xna.Framework.Content.ListReader`1" ++
         "[[System.Collections.Generic.List`1[[System.Int32]]]]")],
      ⟨nestedManifestSwapped, nestedManifestSwapped.length⟩) ∧
    ((ContentReader.ReadTypeManifest
        (ContentReader.new nestedManifest standardManager)).1 = .ok () ↔
      (ContentReader.ReadTypeManifest
        (ContentReader.new nestedManifestSwapped standardManager)).1 = .ok ()) :=
  have hn1 : readManifestNames 2 ⟨nestedManifest, 1⟩ = (.ok
      [L ("Microsoft.Xna.Framework.Content.ListReader`1" ++
         "[[System.Collections.Generic.List`1[[System.Int32]]]]"),
       L "Microsoft.Xna.Framework.Content.ListReader`1[[System.Int32]]"],
      ⟨nestedManifest, nestedManifest.length⟩) := by decide!
  have hn2 : readManifestNames 2 ⟨nestedManifestSwapped, 1⟩ = (.ok
      [L "Microsoft.Xna.Framework.Content.ListReader`1[[System.Int32]]",
       L ("Microsoft.Xna.Framework.Content.ListReader`1" ++
         "[[System.Collections.Generic.List`1[[System.Int32]]]]")],
      ⟨nestedManifestSwapped, nestedManifestSwapped.length⟩) := by decide!
  ⟨hn1, hn2,
    (ReadTypeManifest_order_independent
      (ContentReader.new nestedManifest standardManager)
      (ContentReader.new nestedManifestSwapped standardManager) 2 2
      ⟨nestedManifest, 1⟩ ⟨nestedManifest, nestedManifest.length⟩
      ⟨nestedManifestSwapped, 1⟩ ⟨nestedManifestSwapped, nestedManifestSwapped.length⟩
      _ _ rfl rfl (by decide!) hn1 (by decide!) hn2 (List.Perm.swap _ _ _)
      (TypeReader.targetType_of_hasTargetType _ (by decide!))).1⟩

/-! ## Lemmas: `StripAssemblyVersion` -/

theorem find_split (s : wstring) (c : Nat) :
    (c ∉ s ∧ find s c 0 = none) ∨
      ∃ a b, s = a ++ c :: b ∧ c ∉ a ∧ find s c 0 = some a.length := by
  induction s with
  | nil => exact Or.inl ⟨by simp, rfl⟩
  | cons x xs ih =>
    by_cases hx : x = c
    · subst hx
      exact Or.inr ⟨[], xs, rfl, by simp, by simp [find]⟩
    · rcases ih with ⟨hmem, hnone⟩ | ⟨a, b, hs, ha, hfind⟩
      · refine Or.inl ⟨?_, by simp [find, hx, hnone]⟩
        simp only [List.mem_cons, not_or]
        exact ⟨fun h => hx h.symm, hmem⟩
      · refine Or.inr ⟨x :: a, b, by rw [hs]; rfl, ?_, by simp [find, hx, hfind]⟩
        simp only [List.mem_cons, not_or]
        exact ⟨fun h => hx h.symm, ha⟩

theorem stripFrom_false_append (a b : wstring) (h : 44 ∉ a) :
    stripFrom false (a ++ b) = a ++ stripFrom false b := by
  induction a with
  | nil => rfl
  | cons x xs ih =>
    simp only [List.mem_cons, not_or] at h
    have hx : ¬ x = 44 := fun hx => h.1 hx.symm
    simp [stripFrom, hx, ih h.2]

theorem stripFrom_true_append (a b : wstring) (h : 93 ∉ a) :
    stripFrom true (a ++ b) = stripFrom true b := by
  induction a with
  | nil => rfl
  | cons x xs ih =>
    simp only [List.mem_cons, not_or] at h
    have hx : ¬ x = 93 := fun hx => h.1 hx.symm
    simp [stripFrom, hx, ih h.2]

theorem charAt_append_succ (x b : wstring) (c : Nat) :
    charAt (x ++ c :: b) (x.length + 1) = b.head?.getD 0 := by
  unfold charAt
  rw [List.getD_eq_getElem?_getD, List.getElem?_append_right (by omega)]
  cases b with
  | nil => simp
  | cons y ys => simp

/-- The loop of `StripAssemblyVersion` with enough fuel, on a string whose part
before `commaIndex` is done. -/
theorem StripAssemblyVersion_loop_eq (fuel : Nat) (p q : wstring) (h : q.length < fuel) :
    StripAssemblyVersion.loop fuel (p ++ q) p.length = some (p ++ stripFrom false q) := by
  induction fuel generalizing p q with
  | zero => omega
  | succ fuel ih =>
    unfold StripAssemblyVersion.loop
    rw [find_append_length]
    rcases find_split q 44 with ⟨hmem, hnone⟩ | ⟨a, b, hq, ha, hfind⟩
    · rw [hnone]
      have := stripFrom_false_append q [] hmem
      simp only [List.append_nil] at this
      simp [this, stripFrom]
    · rw [hfind]
      simp only [Option.map_some']
      subst hq
      have hlen : (a ++ 44 :: b).length = a.length + b.length + 1 := by simp; omega
      have hchar : charAt (p ++ (a ++ 44 :: b)) (a.length + p.length + 1) = b.head?.getD 0 := by
        have := charAt_append_succ (p ++ a) b 44
        simpa [List.append_assoc, Nat.add_comm] using this
      rw [hchar, stripFrom_false_append a _ ha]
      by_cases hb : b.head?.getD 0 = 91
      · have hhead : b.head? = some 91 := by
          cases b with
          | nil => simp at hb
          | cons y ys => simpa using hb
        rw [if_pos hb]
        have := ih (p ++ a ++ [44]) b (by omega)
        simp only [List.append_assoc, List.length_append, List.length_cons, List.length_nil,
          List.singleton_append] at this
        have hidx : a.length + p.length + 1 = p.length + (a.length + (0 + 1)) := by omega
        rw [hidx, this]
        simp [stripFrom, hhead]
      · have hhead : b.head? ≠ some 91 := by
          intro hh
          rw [hh] at hb
          exact hb rfl
        rw [if_neg hb]
        have hclose : find (p ++ (a ++ 44 :: b)) 93 (a.length + p.length) =
            (find b 93 0).map (· + (a.length + p.length + 1)) := by
          have := find_append_length (p ++ a) (44 :: b) 93
          simp only [List.append_assoc, List.length_append] at this
          rw [Nat.add_comm a.length p.length, this]
          simp only [find, Nat.reduceEqDiff, if_false, Option.map_map]
          cases find b 93 0 with
          | none => rfl
          | some k => simp only [Option.map_some', Function.comp_apply, Option.some.injEq]; omega
        rw [hclose]
        have hstrip : stripFrom false (44 :: b) = stripFrom true b := by
          simp [stripFrom, hhead]
        rw [hstrip]
        rcases find_split b 93 with ⟨hmem, hnone⟩ | ⟨b1, b2, hbeq, hb1, hfind2⟩
        · rw [hnone]
          simp only [Option.map_none']
          have herase : eraseToEnd (p ++ (a ++ 44 :: b)) (a.length + p.length) = p ++ a := by
            unfold eraseToEnd
            rw [← List.append_assoc, Nat.add_comm, ← List.length_append, List.take_left']
            rfl
          rw [herase]
          have := ih (p ++ a) [] (by simp; omega)
          simp only [List.append_nil, List.length_append, stripFrom] at this
          rw [Nat.add_comm, this]
          have hs := stripFrom_true_append b [] hmem
          simp only [List.append_nil] at hs
          simp [hs, stripFrom]
        · rw [hfind2]
          simp only [Option.map_some']
          subst hbeq
          have herase : erase (p ++ (a ++ 44 :: (b1 ++ 93 :: b2))) (a.length + p.length)
              (b1.length + (a.length + p.length + 1) - (a.length + p.length)) =
              (p ++ a) ++ 93 :: b2 := by
            unfold erase
            have h1 : (p ++ (a ++ 44 :: (b1 ++ 93 :: b2))).take (a.length + p.length) = p ++ a := by
              rw [← List.append_assoc, Nat.add_comm, ← List.length_append, List.take_left']
              rfl
            have h2 : (p ++ (a ++ 44 :: (b1 ++ 93 :: b2))).drop
                (a.length + p.length + (b1.length + (a.length + p.length + 1) -
                  (a.length + p.length))) = 93 :: b2 := by
              have hre : p ++ (a ++ 44 :: (b1 ++ 93 :: b2)) =
                  (p ++ a ++ 44 :: b1) ++ 93 :: b2 := by simp
              have hn : a.length + p.length + (b1.length + (a.length + p.length + 1) -
                  (a.length + p.length)) = (p ++ a ++ 44 :: b1).length := by
                simp; omega
              rw [hre, hn, List.drop_left']
              rfl
            rw [h1, h2]
          rw [herase]
          have := ih (p ++ a) (93 :: b2) (by simp at hlen h ⊢; omega)
          simp only [List.length_append] at this
          rw [Nat.add_comm, this, stripFrom_true_append b1 _ hb1]
          simp [stripFrom]

/-- `StripAssemblyVersion` returns what `stripFrom` keeps: the fuel of the loop is
enough for every string. -/
theorem StripAssemblyVersion_eq (s : wstring) : StripAssemblyVersion s = stripFrom false s := by
  unfold StripAssemblyVersion
  have := StripAssemblyVersion_loop_eq (s.length + 1) [] s (by omega)
  simp only [List.nil_append, List.length_nil] at this
  rw [this]
  rfl

theorem stripFrom_head_open (rest : wstring) (h : rest.head? = some 91) :
    (stripFrom false rest).head? = some 91 := by
  cases rest with
  | nil => cases h
  | cons x xs =>
    simp only [List.head?_cons, Option.some.injEq] at h
    subst h
    simp [stripFrom]

theorem get?_comma_cons (c : Nat) (t : wstring) (h0 : c = 44 → t.head? = some 91)
    (ht : ∀ i, t.get? i = some 44 → t.get? (i + 1) = some 91) :
    ∀ i, (c :: t).get? i = some 44 → (c :: t).get? (i + 1) = some 91 := by
  intro i hi
  cases i with
  | zero =>
    simp only [List.get?_cons_zero, Option.some.injEq] at hi
    have := h0 hi
    cases t with
    | nil => cases this
    | cons y ys => simpa using this
  | succ i =>
    simp only [List.get?_cons_succ] at hi ⊢
    exact ht i hi

/-- Every comma that `stripFrom` keeps is followed by `[`. -/
theorem stripFrom_comma (skipping : Bool) (s : wstring) :
    ∀ i, (stripFrom skipping s).get? i = some 44 →
      (stripFrom skipping s).get? (i + 1) = some 91 := by
  induction s generalizing skipping with
  | nil => intro i hi; cases skipping <;> simp [stripFrom] at hi
  | cons c rest ih =>
    cases skipping with
    | true =>
      by_cases hc : c = 93
      · simp only [stripFrom, hc, if_true]
        exact get?_comma_cons 93 _ (fun h => by cases h) (ih false)
      · simp only [stripFrom, hc, if_false]
        exact ih true
    | false =>
      by_cases hc : c = 44
      · by_cases hh : rest.head? = some 91
        · simp only [stripFrom, hc, hh, if_true]
          exact get?_comma_cons 44 _ (fun _ => stripFrom_head_open rest hh) (ih false)
        · simp only [stripFrom, hc, hh, if_true, if_false]
          exact ih true
      · simp only [stripFrom, hc, if_false]
        exact get?_comma_cons c _ (fun h => absurd h hc) (ih false)

/-- A string whose commas are all followed by `[` is kept as it is. -/
theorem stripFrom_of_comma (s : wstring)
    (h : ∀ i, s.get? i = some 44 → s.get? (i + 1) = some 91) :
    stripFrom false s = s := by
  induction s with
  | nil => rfl
  | cons c rest ih =>
    have hrest : ∀ i, rest.get? i = some 44 → rest.get? (i + 1) = some 91 :=
      fun i hi => h (i + 1) hi
    by_cases hc : c = 44
    · have h0 := h 0 (by simp [hc])
      have hh : rest.head? = some 91 := by
        cases rest with
        | nil => simp at h0
        | cons y ys => simpa using h0
      simp [stripFrom, hc, hh, ih hrest]
    · simp [stripFrom, hc, ih hrest]

/-- What is kept of a string up to a `]` does not depend on what follows the `]`,
which is kept. -/
theorem stripFrom_append_close (skipping : Bool) (u : wstring) :
    ∃ u', u'.Sublist u ∧
      ∀ rest, stripFrom skipping (u ++ 93 :: rest) = u' ++ 93 :: stripFrom false rest := by
  induction u generalizing skipping with
  | nil =>
    refine ⟨[], List.Sublist.refl _, fun rest => ?_⟩
    cases skipping <;> simp [stripFrom]
  | cons c u ih =>
    obtain ⟨u1, hsub1, h1⟩ := ih false
    obtain ⟨u2, hsub2, h2⟩ := ih true
    cases skipping with
    | true =>
      by_cases hc : c = 93
      · refine ⟨c :: u1, hsub1.cons₂ c, fun rest => ?_⟩
        simp [stripFrom, hc, h1]
      · refine ⟨u2, hsub2.cons c, fun rest => ?_⟩
        simp [stripFrom, hc, h2]
    | false =>
      by_cases hc : c = 44
      · by_cases hh : u.head? = some 91
        · refine ⟨c :: u1, hsub1.cons₂ c, fun rest => ?_⟩
          have : (u ++ 93 :: rest).head? = some 91 := by
            cases u with
            | nil => cases hh
            | cons y ys => simpa using hh
          simp only [List.cons_append, stripFrom, List.append_eq, hc, if_true, if_pos this, h1]
        · refine ⟨u2, hsub2.cons c, fun rest => ?_⟩
          have : (u ++ 93 :: rest).head? ≠ some 91 := by
            cases u with
            | nil => simp
            | cons y ys => simpa using hh
          simp only [List.cons_append, stripFrom, List.append_eq, hc, if_true, if_neg this, h2]
      · refine ⟨c :: u1, hsub1.cons₂ c, fun rest => ?_⟩
        simp [stripFrom, hc, h1]

theorem occurrences_stripFrom (skipping : Bool) (s : wstring) :
    occurrences (L "],[") s ≤ occurrences (L "],[") (stripFrom skipping s) := by
  have hL : L "],[" = [93, 44, 91] := by decide
  rw [hL]
  induction s generalizing skipping with
  | nil => simp [occurrences]
  | cons c rest ih =>
    have hkeep : ∀ d : Nat, d ≠ 44 →
        occurrences [93, 44, 91] (d :: rest) ≤
          occurrences [93, 44, 91] (d :: stripFrom false rest) := by
      intro d hd
      have := ih false
      simp only [occurrences]
      by_cases hp : List.isPrefixOf [93, 44, 91] (d :: rest) = true
      · have hp' : List.isPrefixOf [93, 44, 91] (d :: stripFrom false rest) = true := by
          match rest, hp with
          | x :: y :: r, hp =>
            simp only [List.isPrefixOf, Bool.and_eq_true, beq_iff_eq, Bool.and_true] at hp
            obtain ⟨h1, h2, h3⟩ := hp
            subst h1 h2 h3
            simp [stripFrom, List.isPrefixOf]
          | [x], hp => simp [List.isPrefixOf] at hp
          | [], hp => simp [List.isPrefixOf] at hp
        rw [if_pos hp, if_pos hp']
        omega
      · rw [if_neg hp]
        split <;> omega
    have hdrop : ∀ d : Nat, d ≠ 93 → ∀ t : wstring,
        occurrences [93, 44, 91] (d :: t) = occurrences [93, 44, 91] t := by
      intro d hd t
      have hd' : ¬ (93 = d) := fun h => hd h.symm
      simp [occurrences, List.isPrefixOf, hd']
    cases skipping with
    | true =>
      by_cases hc : c = 93
      · simp only [stripFrom, hc, if_true]
        exact hkeep 93 (by decide)
      · simp only [stripFrom, hc, if_false]
        rw [hdrop c hc]
        exact ih true
    | false =>
      by_cases hc : c = 44
      · subst hc
        by_cases hh : rest.head? = some 91
        · simp only [stripFrom, hh, if_true]
          rw [hdrop 44 (by decide), hdrop 44 (by decide)]
          exact ih false
        · simp only [stripFrom, hh, if_true, if_false]
          rw [hdrop 44 (by decide)]
          exact ih true
      · simp only [stripFrom, hc, if_false]
        exact hkeep c hc

/-- C11: `StripAssemblyVersion` is idempotent: for every string `s`,
`StripAssemblyVersion(StripAssemblyVersion(s)) == StripAssemblyVersion(s)`. -/
theorem StripAssemblyVersion_idempotent (s : wstring) :
    StripAssemblyVersion (StripAssemblyVersion s) = StripAssemblyVersion s := by
  rw [StripAssemblyVersion_eq (StripAssemblyVersion s), StripAssemblyVersion_eq s]
  exact stripFrom_of_comma _ (stripFrom_comma false s)

/-- C12: every occurrence of the substring `],[` survives in
`StripAssemblyVersion(s)`.  For a string `u ],[ v`, the result is `u' ],[ v'`
where `u'` is what is kept of `u` (some of the characters of `u`, in their order,
the same for every `v`) and `v' = StripAssemblyVersion(v)`: the three characters
are kept and stay adjacent.  And the number of occurrences of `],[` in the result
is at least that in `s`. -/
theorem StripAssemblyVersion_keeps_separators :
    (∀ u : wstring, ∃ u', u'.Sublist u ∧ ∀ v : wstring,
      StripAssemblyVersion (u ++ L "],[" ++ v) = u' ++ L "],[" ++ StripAssemblyVersion v) ∧
    (∀ s : wstring,
      occurrences (L "],[") s ≤ occurrences (L "],[") (StripAssemblyVersion s)) := by
  constructor
  · intro u
    obtain ⟨u', hsub, h⟩ := stripFrom_append_close false u
    refine ⟨u', hsub, fun v => ?_⟩
    have hL : L "],[" = [93, 44, 91] := by decide
    rw [StripAssemblyVersion_eq, StripAssemblyVersion_eq, hL]
    have := h (44 :: 91 :: v)
    simp only [List.append_assoc, List.cons_append, List.nil_append] at this ⊢
    rw [this]
    simp [stripFrom]
  · intro s
    rw [StripAssemblyVersion_eq]
    exact occurrences_stripFrom false s

/-- C13: every `,` of `StripAssemblyVersion(s)` is immediately followed by `[`. -/
theorem StripAssemblyVersion_commas (s : wstring) (i : Nat)
    (h : (StripAssemblyVersion s).get? i = some 44) :
    (StripAssemblyVersion s).get? (i + 1) = some 91 := by
  rw [StripAssemblyVersion_eq] at h ⊢
  exact stripFrom_comma false s i h

set_option maxRecDepth 100000 in
/-- C13, witness: a name of two arguments with metadata; the comma of `],[` is
kept. -/
theorem StripAssemblyVersion_commas_witness :
    (StripAssemblyVersion (L "a`2[[b, m],[c, n]], k")).get? 7 = some 44 ∧
    (StripAssemblyVersion (L "a`2[[b, m],[c, n]], k")).get? (7 + 1) = some 91 :=
  have h : (StripAssemblyVersion (L "a`2[[b, m],[c, n]], k")).get? 7 = some 44 := by decide
  ⟨h, StripAssemblyVersion_commas _ 7 h⟩

theorem toDigitsCore_digits (fuel n : Nat) (ds : List Char)
    (h : ∀ c ∈ ds, 48 ≤ c.toNat ∧ c.toNat ≤ 57) :
    ∀ c ∈ Nat.toDigitsCore 10 fuel n ds, 48 ≤ c.toNat ∧ c.toNat ≤ 57 := by
  induction fuel generalizing n ds with
  | zero => simpa [Nat.toDigitsCore] using h
  | succ fuel ih =>
    have hd : ∀ d, d < 10 → 48 ≤ (Nat.digitChar d).toNat ∧ (Nat.digitChar d).toNat ≤ 57 := by
      decide
    have hcons : ∀ c ∈ Nat.digitChar (n % 10) :: ds, 48 ≤ c.toNat ∧ c.toNat ≤ 57 := by
      intro c hc
      rcases List.mem_cons.1 hc with h' | h'
      · subst h'; exact hd _ (Nat.mod_lt _ (by decide))
      · exact h c h'
    unfold Nat.toDigitsCore
    simp only []
    split
    · exact hcons
    · exact ih _ _ hcons

/-- The characters that `%d` prints for a natural number are decimal digits. -/
theorem decimal_digits (n : Nat) : ∀ c ∈ decimal n, 48 ≤ c ∧ c ≤ 57 := by
  intro c hc
  unfold decimal L at hc
  obtain ⟨ch, hmem, rfl⟩ := List.mem_map.1 hc
  exact toDigitsCore_digits (n + 1) n [] (by simp) ch hmem

theorem decimal_no_comma (n : Nat) : 44 ∉ decimal n := by
  intro h
  have := decimal_digits n 44 h
  omega

/-! ## Lemmas: names with assembly metadata -/

theorem intercalate_singleton (sep a : wstring) : sep.intercalate [a] = a := by
  simp [List.intercalate]

theorem intercalate_cons_cons (sep a b : wstring) (rest : List wstring) :
    sep.intercalate (a :: b :: rest) = a ++ sep ++ sep.intercalate (b :: rest) := by
  simp [List.intercalate]

theorem stripFrom_metadata (metadata rest : wstring) (h : isMetadata metadata) :
    stripFrom false (44 :: (metadata ++ 93 :: rest)) = 93 :: stripFrom false rest := by
  have hhead : (metadata ++ 93 :: rest).head? ≠ some 91 := by
    cases metadata with
    | nil => simp
    | cons y ys => simpa using h.2
  simp only [stripFrom, if_true, if_neg hhead]
  rw [stripFrom_true_append _ _ h.1]
  simp [stripFrom]

theorem stripFrom_metadata_end (metadata : wstring) (h : isMetadata metadata) :
    stripFrom false (44 :: metadata) = [] := by
  simp only [stripFrom, if_true, if_neg h.2]
  have := stripFrom_true_append metadata [] h.1
  simpa [stripFrom] using this

theorem stripFrom_arguments (arguments : List (wstring × wstring × wstring))
    (hargument : ∀ a ∈ arguments, ∀ rest,
      stripFrom false (a.1 ++ rest) = a.2.2 ++ stripFrom false rest)
    (hmetadata : ∀ a ∈ arguments, isMetadata a.2.1) (rest : wstring) :
    stripFrom false
        ((L "],[").intercalate (arguments.map fun a => a.1 ++ [44] ++ a.2.1) ++
          93 :: 93 :: rest) =
      (L "],[").intercalate (arguments.map fun a => a.2.2) ++
        93 :: 93 :: stripFrom false rest := by
  have hL : L "],[" = [93, 44, 91] := by decide
  rw [hL]
  induction arguments with
  | nil => simp [List.intercalate, stripFrom]
  | cons a more ih =>
    have ha := hargument a (by simp)
    have hm := hmetadata a (by simp)
    cases more with
    | nil =>
      simp only [List.map_cons, List.map_nil, intercalate_singleton, List.append_assoc,
        List.singleton_append, List.cons_append, List.nil_append]
      rw [ha, stripFrom_metadata _ _ hm]
      simp [stripFrom]
    | cons b more =>
      have ih' := ih (fun x hx => hargument x (List.mem_cons_of_mem _ hx))
        (fun x hx => hmetadata x (List.mem_cons_of_mem _ hx))
      simp only [List.map_cons, intercalate_cons_cons, List.append_assoc,
        List.singleton_append, List.cons_append, List.nil_append] at ih' ⊢
      rw [ha, stripFrom_metadata _ _ hm]
      simp only [stripFrom, List.head?_cons, if_true, Nat.reduceEqDiff, if_false]
      rw [ih']

/-- What is kept of a well-formed name is the name without its metadata, whatever
follows the name. -/
theorem WellFormedName.stripFrom_append {full stripped : wstring}
    (h : WellFormedName full stripped) (rest : wstring) :
    stripFrom false (full ++ rest) = stripped ++ stripFrom false rest := by
  induction h generalizing rest with
  | simple name hname => exact stripFrom_false_append name rest hname
  | generic name arguments hname hargument hmetadata ih =>
    have hprefix : 44 ∉ name ++ [96] ++ decimal arguments.length ++ L "[[" := by
      have hd := decimal_no_comma arguments.length
      have hb : (44 : Nat) ∉ L "[[" := by decide
      simp only [List.mem_append, List.mem_singleton, not_or]
      exact ⟨⟨⟨hname, by decide⟩, hd⟩, hb⟩
    have hclose : L "]]" = [93, 93] := by decide
    rw [hclose]
    simp only [List.append_assoc (_ ++ L "[[")]
    rw [stripFrom_false_append _ _ hprefix]
    have := stripFrom_arguments arguments (fun a ha rest => ih a ha rest) hmetadata rest
    simp only [List.append_assoc, List.cons_append, List.nil_append] at this ⊢
    rw [this]

/-- C14: for every well-formed name `full` (`WellFormedName`: a text without a
comma, or ``G`k[[A1,M1],...,[Ak,Mk]]`` with `G` without a comma, every `Mi`
without `]` and not starting with `[`, and every `Ai` again a well-formed name)
followed by a comma and metadata `M0`, `StripAssemblyVersion` returns exactly the
name without any metadata, ``G`k[[A1],...,[Ak]]``; the same holds of the name
with no metadata after it; and the two documented examples give `foo` and
`foo[bar]`. -/
theorem StripAssemblyVersion_wellFormed (full stripped metadata : wstring)
    (h : WellFormedName full stripped) (hm : isMetadata metadata) :
    StripAssemblyVersion (full ++ [44] ++ metadata) = stripped ∧
    StripAssemblyVersion full = stripped ∧
    StripAssemblyVersion (L "foo, key=bar") = L "foo" ∧
    StripAssemblyVersion (L "foo[bar, key=baz], key=barg") = L "foo[bar]" := by
  refine ⟨?_, ?_, by decide, by decide⟩
  · rw [StripAssemblyVersion_eq, List.append_assoc, h.stripFrom_append]
    simp only [List.singleton_append]
    rw [stripFrom_metadata_end _ hm, List.append_nil]
  · have := h.stripFrom_append []
    simp only [List.append_nil, stripFrom] at this
    rw [StripAssemblyVersion_eq, this]

set_option maxRecDepth 100000 in
/-- C14, witness: a dictionary name whose second argument is itself a generic
name with metadata. -/
theorem StripAssemblyVersion_wellFormed_witness :
    WellFormedName (L "D`2[[K, m1],[L`1[[V, m2]], m3]]") (L "D`2[[K],[L`1[[V]]]]") ∧
    isMetadata (L " m0") ∧
    StripAssemblyVersion (L "D`2[[K, m1],[L`1[[V, m2]], m3]]" ++ [44] ++ L " m0") =
      L "D`2[[K],[L`1[[V]]]]" :=
  have hinner : WellFormedName (L "L`1[[V, m2]]") (L "L`1[[V]]") :=
    WellFormedName.generic (L "L") [(L "V", L " m2", L "V")] (by decide)
      (fun a ha => by
        rw [List.mem_singleton] at ha
        subst ha
        exact WellFormedName.simple _ (by decide))
      (fun a ha => by
        rw [List.mem_singleton] at ha
        subst ha
        exact ⟨by decide, by decide⟩)
  have h : WellFormedName (L "D`2[[K, m1],[L`1[[V, m2]], m3]]") (L "D`2[[K],[L`1[[V]]]]") :=
    WellFormedName.generic (L "D")
      [(L "K", L " m1", L "K"), (L "L`1[[V, m2]]", L " m3", L "L`1[[V]]")] (by decide)
      (fun a ha => by
        simp only [List.mem_cons, List.mem_singleton, List.not_mem_nil, or_false] at ha
        rcases ha with rfl | rfl
        · exact WellFormedName.simple _ (by decide)
        · exact hinner)
      (fun a ha => by
        simp only [List.mem_cons, List.mem_singleton, List.not_mem_nil, or_false] at ha
        rcases ha with rfl | rfl
        · exact ⟨by decide, by decide⟩
        · exact ⟨by decide, by decide⟩)
  have hm : isMetadata (L " m0") := ⟨by decide, by decide⟩
  ⟨h, hm, (StripAssemblyVersion_wellFormed _ _ _ h hm).1⟩

/-! ## Lemmas: `SplitGenericTypeName` -/

theorem charAt_append_add (x y : wstring) (n : Nat) :
    charAt (x ++ y) (x.length + n) = charAt y n := by
  unfold charAt
  rw [List.getD_eq_getElem?_getD, List.getD_eq_getElem?_getD,
    List.getElem?_append_right (by omega)]
  simp

theorem charAt_append_length (x y : wstring) : charAt (x ++ y) x.length = y.head?.getD 0 := by
  have := charAt_append_add x y 0
  rw [Nat.add_zero] at this
  rw [this]
  cases y <;> simp [charAt]

theorem findArgumentEnd_append (a rest : wstring) (depth depth' endIndex : Nat)
    (h : nestingDepth a depth = some depth') :
    findArgumentEnd (a ++ rest) depth endIndex =
      findArgumentEnd rest depth' (endIndex + a.length) := by
  induction a generalizing depth endIndex with
  | nil =>
    simp only [nestingDepth, Option.some.injEq] at h
    subst h
    rfl
  | cons c a ih =>
    simp only [nestingDepth] at h
    simp only [List.cons_append, findArgumentEnd, List.length_cons, List.append_eq]
    by_cases h1 : c = 91
    · rw [if_pos h1] at h ⊢
      rw [ih _ _ h]
      congr 1
      omega
    · rw [if_neg h1] at h ⊢
      by_cases h2 : c = 93
      · rw [if_pos h2] at h ⊢
        by_cases h3 : depth > 0
        · rw [if_pos h3] at h ⊢
          rw [ih _ _ h]
          congr 1
          omega
        · rw [if_neg h3] at h
          cases h
      · rw [if_neg h2] at h ⊢
        rw [ih _ _ h]
        congr 1
        omega

theorem findArgumentEnd_balanced (a rest : wstring) (endIndex : Nat) (h : isBalanced a) :
    findArgumentEnd (a ++ 93 :: rest) 0 endIndex = endIndex + a.length := by
  rw [findArgumentEnd_append a _ 0 0 endIndex h]
  simp [findArgumentEnd]

theorem skipWhile_append (p : Nat → Bool) (x a rest : wstring) (ha : ∀ c ∈ a, p c = true)
    (hrest : ∀ c, rest.head? = some c → p c = false) :
    skipWhile p (x ++ (a ++ rest)) x.length = x.length + a.length := by
  unfold skipWhile
  rw [List.drop_left']
  · congr 1
    induction a with
    | nil =>
      cases rest with
      | nil => rfl
      | cons c rest => simp [List.takeWhile, hrest c rfl]
    | cons c a ih =>
      have hc := ha c (by simp)
      simp only [List.cons_append, List.takeWhile_cons, hc, if_true, List.length_cons]
      rw [ih fun c hc => ha c (List.mem_cons_of_mem _ hc)]
  · rfl

/-- The argument loop at a position that holds `]` (or the end) stops. -/
theorem SplitGenericTypeName.loop_stop (fuel : Nat) (typeName : wstring) (pos : Nat)
    (genericArguments : List wstring)
    (h : ¬ (pos < typeName.length ∧ charAt typeName pos ≠ 93)) :
    SplitGenericTypeName.loop (fuel + 1) typeName pos genericArguments =
      some genericArguments := by
  unfold SplitGenericTypeName.loop
  rw [if_neg h]

theorem SplitGenericTypeName.loop_step (fuel : Nat) (p a rest : wstring)
    (genericArguments : List wstring) (hne : a ≠ []) (hclose : a.head? ≠ some 93)
    (hbalanced : isBalanced a) :
    SplitGenericTypeName.loop (fuel + 1) (p ++ (a ++ 93 :: rest)) p.length genericArguments =
      SplitGenericTypeName.loop fuel (p ++ (a ++ 93 :: rest))
        (if rest.head? = some 44 then
          (if rest.tail.head? = some 91 then p.length + a.length + 3
            else p.length + a.length + 2)
          else if rest.head? = some 91 then p.length + a.length + 2
          else p.length + a.length + 1)
        (genericArguments ++ [a]) := by
  have hchar : ∀ n, charAt (p ++ (a ++ 93 :: rest)) (p.length + a.length + n) =
      charAt (93 :: rest) n := by
    intro n
    have := charAt_append_add (p ++ a) (93 :: rest) n
    simpa [List.append_assoc] using this
  have hlen : (p ++ (a ++ 93 :: rest)).length = p.length + a.length + rest.length + 1 := by
    simp; omega
  have hfirst : charAt (p ++ (a ++ 93 :: rest)) p.length ≠ 93 := by
    rw [charAt_append_length]
    cases a with
    | nil => exact absurd rfl hne
    | cons c a => simpa using hclose
  have hend : findArgumentEnd ((p ++ (a ++ 93 :: rest)).drop p.length) 0 p.length =
      p.length + a.length := by
    rw [List.drop_left' rfl]
    exact findArgumentEnd_balanced a rest p.length hbalanced
  have hsub : substr (p ++ (a ++ 93 :: rest)) p.length (p.length + a.length - p.length) = a := by
    unfold substr
    rw [List.drop_left' rfl, Nat.add_sub_cancel_left, List.take_left' rfl]
  have h0 := hchar 0
  have h1 := hchar 1
  have h2 := hchar 2
  simp only [Nat.add_zero] at h0
  rw [SplitGenericTypeName.loop]
  have hcond : p.length < (p ++ (a ++ 93 :: rest)).length ∧
      charAt (p ++ (a ++ 93 :: rest)) p.length ≠ 93 := ⟨by omega, hfirst⟩
  rw [if_pos hcond]
  simp only [hend, hsub]
  have hc0 : p.length + a.length < (p ++ (a ++ 93 :: rest)).length ∧
      charAt (p ++ (a ++ 93 :: rest)) (p.length + a.length) = 93 := by
    refine ⟨by omega, ?_⟩
    rw [h0]
    rfl
  rw [if_pos hc0]
  cases rest with
  | nil =>
    have hn1 : ¬ (p.length + a.length + 1 < (p ++ (a ++ [93])).length ∧
        charAt (p ++ (a ++ [93])) (p.length + a.length + 1) = 44) := by
      intro h
      have := h.1
      simp at this
      omega
    have hn2 : ¬ (p.length + a.length + 1 < (p ++ (a ++ [93])).length ∧
        charAt (p ++ (a ++ [93])) (p.length + a.length + 1) = 91) := by
      intro h
      have := h.1
      simp at this
      omega
    simp only [if_neg hn1, if_neg hn2, List.head?_nil, reduceCtorEq, if_false]
  | cons x rest =>
    have hx : charAt (p ++ (a ++ 93 :: x :: rest)) (p.length + a.length + 1) = x := by
      rw [h1]; rfl
    have hlt1 : p.length + a.length + 1 < (p ++ (a ++ 93 :: x :: rest)).length := by
      simp at hlen ⊢; omega
    simp only [List.head?_cons, Option.some.injEq, List.tail_cons]
    by_cases hx44 : x = 44
    · subst hx44
      have hc1 : p.length + a.length + 1 < (p ++ (a ++ 93 :: 44 :: rest)).length ∧
          charAt (p ++ (a ++ 93 :: 44 :: rest)) (p.length + a.length + 1) = 44 := ⟨hlt1, hx⟩
      rw [if_pos hc1]
      simp only [if_true]
      cases rest with
      | nil =>
        have hn : ¬ (p.length + a.length + 1 + 1 < (p ++ (a ++ [93, 44])).length ∧
            charAt (p ++ (a ++ [93, 44])) (p.length + a.length + 1 + 1) = 91) := by
          intro h
          have := h.1
          simp at this
          omega
        simp only [if_neg hn, List.head?_nil, reduceCtorEq, if_false]
      | cons y rest =>
        have hy : charAt (p ++ (a ++ 93 :: 44 :: y :: rest)) (p.length + a.length + 1 + 1) =
            y := by
          rw [Nat.add_assoc (p.length + a.length) 1 1, h2]; rfl
        have hlt2 : p.length + a.length + 1 + 1 <
            (p ++ (a ++ 93 :: 44 :: y :: rest)).length := by
          simp; omega
        simp only [List.head?_cons, Option.some.injEq]
        by_cases hy91 : y = 91
        · have hc2 : p.length + a.length + 1 + 1 <
              (p ++ (a ++ 93 :: 44 :: y :: rest)).length ∧
              charAt (p ++ (a ++ 93 :: 44 :: y :: rest)) (p.length + a.length + 1 + 1) = 91 :=
            ⟨hlt2, by rw [hy]; exact hy91⟩
          rw [if_pos hc2, if_pos hy91]
        · have hc2 : ¬ (p.length + a.length + 1 + 1 <
              (p ++ (a ++ 93 :: 44 :: y :: rest)).length ∧
              charAt (p ++ (a ++ 93 :: 44 :: y :: rest)) (p.length + a.length + 1 + 1) = 91) :=
            fun h => hy91 (by rw [← hy]; exact h.2)
          rw [if_neg hc2, if_neg hy91]
    · have hc1 : ¬ (p.length + a.length + 1 < (p ++ (a ++ 93 :: x :: rest)).length ∧
          charAt (p ++ (a ++ 93 :: x :: rest)) (p.length + a.length + 1) = 44) :=
        fun h => hx44 (by rw [← hx]; exact h.2)
      rw [if_neg hc1, if_neg hx44]
      by_cases hx91 : x = 91
      · have hc2 : p.length + a.length + 1 < (p ++ (a ++ 93 :: x :: rest)).length ∧
            charAt (p ++ (a ++ 93 :: x :: rest)) (p.length + a.length + 1) = 91 :=
          ⟨hlt1, by rw [hx]; exact hx91⟩
        rw [if_pos hc2, if_pos hx91]
      · have hc2 : ¬ (p.length + a.length + 1 < (p ++ (a ++ 93 :: x :: rest)).length ∧
            charAt (p ++ (a ++ 93 :: x :: rest)) (p.length + a.length + 1) = 91) :=
          fun h => hx91 (by rw [← hx]; exact h.2)
        rw [if_neg hc2, if_neg hx91]

theorem length_le_intercalate (sep : wstring) (arguments : List wstring)
    (h : ∀ a ∈ arguments, a ≠ []) : arguments.length ≤ (sep.intercalate arguments).length := by
  induction arguments with
  | nil => simp
  | cons a more ih =>
    have ha : 0 < a.length := List.length_pos.2 (h a (by simp))
    cases more with
    | nil => rw [intercalate_singleton]; simp; omega
    | cons b more =>
      have := ih fun x hx => h x (List.mem_cons_of_mem _ hx)
      rw [intercalate_cons_cons]
      simp only [List.length_cons, List.length_append] at this ⊢
      omega

/-- The argument loop on the arguments of a specialized name, from the start of
an argument. -/
theorem SplitGenericTypeName.loop_arguments (arguments : List wstring)
    (hne : arguments ≠ [])
    (harg : ∀ a ∈ arguments, a ≠ [] ∧ a.head? ≠ some 93 ∧ isBalanced a)
    (fuel : Nat) (p : wstring) (genericArguments : List wstring)
    (hfuel : arguments.length < fuel) :
    SplitGenericTypeName.loop fuel (p ++ ((L "],[").intercalate arguments ++ [93, 93]))
      p.length genericArguments = some (genericArguments ++ arguments) := by
  have hL : L "],[" = [93, 44, 91] := by decide
  rw [hL]
  induction arguments generalizing fuel p genericArguments with
  | nil => exact absurd rfl hne
  | cons a more ih =>
    obtain ⟨hane, hclose, hbalanced⟩ := harg a (by simp)
    cases fuel with
    | zero => omega
    | succ fuel =>
      cases more with
      | nil =>
        rw [intercalate_singleton]
        have := SplitGenericTypeName.loop_step fuel p a [93] genericArguments hane hclose
          hbalanced
        simp only [List.head?_cons, Option.some.injEq, Nat.reduceEqDiff, if_false] at this
        rw [show a ++ [93, 93] = a ++ 93 :: [93] from rfl, this]
        cases fuel with
        | zero => simp at hfuel
        | succ fuel =>
          apply SplitGenericTypeName.loop_stop
          intro h
          have hchar := charAt_append_add (p ++ a) [93, 93] 1
          simp only [List.append_assoc, List.length_append] at hchar
          rw [show a ++ 93 :: [93] = a ++ [93, 93] from rfl, hchar] at h
          exact h.2 rfl
      | cons b more =>
        rw [intercalate_cons_cons]
        have := SplitGenericTypeName.loop_step fuel p a
          (44 :: 91 :: ([93, 44, 91].intercalate (b :: more) ++ [93, 93])) genericArguments
          hane hclose hbalanced
        simp only [List.head?_cons, List.tail_cons, if_true] at this
        have hT : p ++ (a ++ [93, 44, 91] ++ [93, 44, 91].intercalate (b :: more) ++ [93, 93]) =
            p ++ (a ++ 93 :: 44 :: 91 :: ([93, 44, 91].intercalate (b :: more) ++ [93, 93])) := by
          simp
        rw [hT, this]
        have hT2 : p ++ (a ++ 93 :: 44 :: 91 :: ([93, 44, 91].intercalate (b :: more) ++
            [93, 93])) =
            (p ++ a ++ [93, 44, 91]) ++ ([93, 44, 91].intercalate (b :: more) ++ [93, 93]) := by
          simp
        have hlen : p.length + a.length + 3 = (p ++ a ++ [93, 44, 91]).length := by
          simp only [List.length_append, List.length_cons, List.length_nil]
        rw [hT2, hlen]
        rw [ih (by simp) (fun x hx => harg x (List.mem_cons_of_mem _ hx)) fuel _ _
          (by simp at hfuel ⊢; omega)]
        simp

theorem SplitGenericTypeName_eq_none (s : wstring) :
    SplitGenericTypeName s = none ↔ 96 ∉ s := by
  unfold SplitGenericTypeName
  rcases find_split s 96 with ⟨hmem, hnone⟩ | ⟨a, b, hs, ha, hfind⟩
  · rw [hnone]
    exact iff_of_true rfl hmem
  · rw [hfind]
    refine iff_of_false (fun h => by cases h) fun h => h ?_
    rw [hs]
    simp

theorem intercalate_head (sep a : wstring) (more : List wstring) (rest : wstring)
    (ha : a ≠ []) : (sep.intercalate (a :: more) ++ rest).head? = a.head? := by
  cases a with
  | nil => exact absurd rfl ha
  | cons c a =>
    cases more with
    | nil => rw [intercalate_singleton]; rfl
    | cons b more => rw [intercalate_cons_cons]; rfl

/-- The split of a specialized name into the open name and the arguments it was
built from. -/
theorem SplitGenericTypeName_construction (G : wstring) (arguments : List wstring)
    (hG : 96 ∉ G) (hne : arguments ≠ [])
    (harg : ∀ a ∈ arguments,
      a ≠ [] ∧ a.head? ≠ some 91 ∧ a.head? ≠ some 93 ∧ isBalanced a) :
    SplitGenericTypeName (G ++ [96] ++ decimal arguments.length ++ L "[[" ++
      (L "],[").intercalate arguments ++ L "]]") = some (G, arguments) := by
  have hopen : L "[[" = [91, 91] := by decide
  have hclose : L "]]" = [93, 93] := by decide
  rw [hopen, hclose]
  generalize hJ : (L "],[").intercalate arguments = J
  generalize hD : decimal arguments.length = D
  have hdigits : ∀ c ∈ D, iswdigit c = true := by
    intro c hc
    rw [← hD] at hc
    have := decimal_digits _ c hc
    simp [iswdigit, this.1, this.2]
  obtain ⟨a, more, rfl⟩ : ∃ a more, arguments = a :: more := by
    cases arguments with
    | nil => exact absurd rfl hne
    | cons a more => exact ⟨a, more, rfl⟩
  obtain ⟨hane, ha91, -, -⟩ := harg a (by simp)
  have hJhead : (J ++ [93, 93]).head? = a.head? := by
    rw [← hJ]; exact intercalate_head _ a more _ hane
  have hT : G ++ [96] ++ D ++ [91, 91] ++ J ++ [93, 93] =
      G ++ 96 :: (D ++ ([91, 91] ++ (J ++ [93, 93]))) := by simp
  rw [hT]
  unfold SplitGenericTypeName
  have hfind : find (G ++ 96 :: (D ++ ([91, 91] ++ (J ++ [93, 93])))) 96 0 = some G.length := by
    rw [find_append_of_not_mem G _ 96 hG, find_cons_self]
    simp
  rw [hfind]
  simp only []
  have hname : substr (G ++ 96 :: (D ++ ([91, 91] ++ (J ++ [93, 93])))) 0 G.length = G := by
    unfold substr
    rw [List.drop_zero, List.take_left' rfl]
  have hskip1 : skipWhile iswdigit (G ++ 96 :: (D ++ ([91, 91] ++ (J ++ [93, 93]))))
      (G.length + 1) = G.length + 1 + D.length := by
    have := skipWhile_append iswdigit (G ++ [96]) D ([91, 91] ++ (J ++ [93, 93])) hdigits
      (by intro c hc; cases hc; decide)
    simpa using this
  have hskip2 : skipWhile (fun c => decide (c = 91))
      (G ++ 96 :: (D ++ ([91, 91] ++ (J ++ [93, 93])))) (G.length + 1 + D.length) =
      G.length + 1 + D.length + 2 := by
    have := skipWhile_append (fun c => decide (c = 91)) (G ++ [96] ++ D) [91, 91]
      (J ++ [93, 93]) (by intro c hc; simp at hc; simp [hc])
      (by
        intro c hc
        rw [hJhead] at hc
        simp only [decide_eq_false_iff_not]
        intro h91
        rw [h91] at hc
        exact ha91 hc)
    have e : (G ++ [96] ++ D).length = G.length + 1 + D.length := by
      simp only [List.length_append, List.length_cons, List.length_nil]
    have eT : (G ++ [96] ++ D) ++ ([91, 91] ++ (J ++ [93, 93])) =
        G ++ 96 :: (D ++ ([91, 91] ++ (J ++ [93, 93]))) := by simp
    rw [eT, e] at this
    exact this
  rw [hname, hskip1, hskip2]
  have hT2 : G ++ 96 :: (D ++ ([91, 91] ++ (J ++ [93, 93]))) =
      (G ++ [96] ++ D ++ [91, 91]) ++ (J ++ [93, 93]) := by simp
  have hlen : G.length + 1 + D.length + 2 = (G ++ [96] ++ D ++ [91, 91]).length := by
    simp only [List.length_append, List.length_cons, List.length_nil]
  have hfuel : (a :: more).length <
      ((G ++ [96] ++ D ++ [91, 91]) ++ (J ++ [93, 93])).length + 1 := by
    have := length_le_intercalate (L "],[") (a :: more) fun x hx => (harg x hx).1
    rw [hJ] at this
    simp only [List.length_append] at this ⊢
    omega
  rw [hT2, hlen, ← hJ]
  rw [SplitGenericTypeName.loop_arguments (a :: more) hne
    (fun x hx => ⟨(harg x hx).1, (harg x hx).2.2.1, (harg x hx).2.2.2⟩) _ _ [] (by
      rw [hJ]; exact hfuel)]
  rfl

set_option maxRecDepth 100000 in
/-- C15: `SplitGenericTypeName` inverts the construction of a specialized name.
For every open name `G` without a backtick and every non-empty list of arguments,
each of them non-empty, not starting with `[` or `]`, and bracket-balanced (no `]`
at nesting depth 0 and every `[` closed), splitting
``G`k[[A1],[A2],...,[Ak]]`` returns true with `genericName == G` and
`genericArguments == [A1,...,Ak]`; it returns false exactly when the input holds
no backtick; and the nested example splits into `List` and the one argument
``List`1[[Int]]``. -/
theorem SplitGenericTypeName_specialized (G : wstring) (arguments : List wstring)
    (hG : 96 ∉ G) (hne : arguments ≠ [])
    (harg : ∀ a ∈ arguments,
      a ≠ [] ∧ a.head? ≠ some 91 ∧ a.head? ≠ some 93 ∧ isBalanced a) :
    SplitGenericTypeName (G ++ [96] ++ decimal arguments.length ++ L "[[" ++
      (L "],[").intercalate arguments ++ L "]]") = some (G, arguments) ∧
    (∀ s, SplitGenericTypeName s = none ↔ 96 ∉ s) ∧
    SplitGenericTypeName (L "List`1[[List`1[[Int]]]]") =
      some (L "List", [L "List`1[[Int]]"]) := by
  exact ⟨SplitGenericTypeName_construction G arguments hG hne harg,
    SplitGenericTypeName_eq_none, by decide⟩

set_option maxRecDepth 100000 in
/-- C15, witness: a name of two arguments, the second a nested generic name. -/
theorem SplitGenericTypeName_specialized_witness :
    isBalanced (L "List`1[[Int]]") ∧
    SplitGenericTypeName (L "Dictionary" ++ [96] ++ decimal 2 ++ L "[[" ++
      (L "],[").intercalate [L "Key", L "List`1[[Int]]"] ++ L "]]") =
      some (L "Dictionary", [L "Key", L "List`1[[Int]]"]) :=
  have hbalanced : isBalanced (L "List`1[[Int]]") := by decide
  ⟨hbalanced,
    (SplitGenericTypeName_specialized (L "Dictionary") [L "Key", L "List`1[[Int]]"]
      (by decide) (by simp)
      (fun a ha => by
        simp only [List.mem_cons, List.mem_singleton, List.not_mem_nil, or_false] at ha
        rcases ha with rfl | rfl
        · exact ⟨by decide, by decide, by decide, by decide⟩
        · exact ⟨by decide, by decide, by decide, hbalanced⟩)).1⟩

/-! ## C16: `CreateTypeReader` -/

theorem appendGenericArguments_eq (genericSuffix : wstring) (genericArguments : List wstring) :
    appendGenericArguments genericSuffix genericArguments =
      genericSuffix ++ (L "],[").intercalate genericArguments := by
  induction genericArguments generalizing genericSuffix with
  | nil => simp [appendGenericArguments, List.intercalate]
  | cons a more ih =>
    cases more with
    | nil => simp [appendGenericArguments, intercalate_singleton]
    | cons b more =>
      rw [appendGenericArguments, ih, intercalate_cons_cons]
      · simp
      · simp

/-- C16: for every factory and every argument list `args` of length `N >= 1`,
`CreateTypeReader(args)` yields a reader whose `ReaderName()` is
``GenericReaderName + "`" + decimal(N) + "[[" + args[0] + "],[" + ... + "],[" +
args[N-1] + "]]"`` (the arguments joined by `],[`, whatever their values), whose
`GenericArgument(i)` is `args[i]`, and whose `TargetType()` is
`GenericTargetType` followed by the same suffix for `ListReader`,
`NullableReader` and `DictionaryReader`, `args[0] + "[]"` for `ArrayReader`, and
`args[0]` for `EnumReader` and `ReflectiveReader`. -/
theorem CreateTypeReader_spec (factory : GenericReaderClass) (args : List wstring)
    (hne : args ≠ []) :
    (TypeReader.generic (factory.CreateTypeReader args)).ReaderName =
      factory.GenericReaderName ++ [96] ++ decimal args.length ++ L "[[" ++
        (L "],[").intercalate args ++ L "]]" ∧
    (∀ i a, args.get? i = some a →
      (factory.CreateTypeReader args).GenericArgument i = .ok a) ∧
    (TypeReader.generic (factory.CreateTypeReader args)).TargetType =
      match factory with
      | .ListReader | .NullableReader | .DictionaryReader =>
        .ok (factory.GenericTargetType ++ [96] ++ decimal args.length ++ L "[[" ++
          (L "],[").intercalate args ++ L "]]")
      | .ArrayReader => .ok (args.head hne ++ L "[]")
      | .EnumReader | .ReflectiveReader => .ok (args.head hne) := by
  obtain ⟨a, more, rfl⟩ : ∃ a more, args = a :: more := by
    cases args with
    | nil => exact absurd rfl hne
    | cons a more => exact ⟨a, more, rfl⟩
  refine ⟨?_, ?_, ?_⟩
  · simp only [TypeReader.ReaderName, GenericReaderClass.CreateTypeReader,
      appendGenericArguments_eq, List.append_assoc]
  · intro i b hb
    simp only [GenericTypeReader.GenericArgument, GenericReaderClass.CreateTypeReader, hb]
  · cases factory <;>
      simp [TypeReader.TargetType, GenericReaderClass.CreateTypeReader,
        GenericTypeReader.GenericArgument, appendGenericArguments_eq, List.append_assoc,
        Bind.bind, Except.bind, Pure.pure, Except.pure]

set_option maxRecDepth 100000 in
/-- C16, witness: a dictionary reader whose two arguments are equal. -/
theorem CreateTypeReader_spec_witness :
    (TypeReader.generic (GenericReaderClass.DictionaryReader.CreateTypeReader
      [L "System.Int32", L "System.Int32"])).ReaderName =
        L "Microsoft.Xna.Framework.Content.DictionaryReader`2[[System.Int32],[System.Int32]]" ∧
    (TypeReader.generic (GenericReaderClass.DictionaryReader.CreateTypeReader
      [L "System.Int32", L "System.Int32"])).ReaderName =
        GenericReaderClass.DictionaryReader.GenericReaderName ++ [96] ++
          decimal [L "System.Int32", L "System.Int32"].length ++ L "[[" ++
          (L "],[").intercalate [L "System.Int32", L "System.Int32"] ++ L "]]" :=
  ⟨by decide,
    (CreateTypeReader_spec .DictionaryReader [L "System.Int32", L "System.Int32"]
      (by simp)).1⟩

/-! ## Lemmas: `ReadHeader` as a function of the bytes -/

theorem BinaryReader.ReadByte_apply (file : List Nat) (position : Nat) :
    BinaryReader.ReadByte ⟨file, position⟩ =
      if position < file.length then (.ok (byteAt file position), ⟨file, position + 1⟩)
      else (.error .errorReadingFile, ⟨file, position⟩) := by
  unfold BinaryReader.ReadByte
  by_cases h : position < file.length
  · rw [if_pos h]
    simp only [List.get?_eq_getElem?, List.getElem?_eq_getElem h]
    unfold byteAt
    rw [List.getD_eq_getElem?_getD, List.getElem?_eq_getElem h]
    rfl
  · rw [if_neg h]
    simp only [List.get?_eq_getElem?, List.getElem?_eq_none (Nat.le_of_not_lt h)]

theorem ContentReader.ReadByte_bind_ok {α : Type} (file : List Nat) (position : Nat)
    (log : Logger) (m : TypeReaderManager) (table : List Nat)
    (f : Nat → Method ContentReader α) (h : position < file.length) :
    (ContentReader.ReadByte >>= f) ⟨⟨file, position⟩, log, m, table⟩ =
      f (byteAt file position) ⟨⟨file, position + 1⟩, log, m, table⟩ := by
  have : ContentReader.ReadByte ⟨⟨file, position⟩, log, m, table⟩ =
      (.ok (byteAt file position), ⟨⟨file, position + 1⟩, log, m, table⟩) := by
    rw [ContentReader.ReadByte, ContentReader.base_apply]
    simp only [BinaryReader.ReadByte_apply, if_pos h]
  exact Method.bind_ok this

theorem ContentReader.ReadByte_bind_error {α : Type} (file : List Nat) (position : Nat)
    (log : Logger) (m : TypeReaderManager) (table : List Nat)
    (f : Nat → Method ContentReader α) (h : ¬ position < file.length) :
    (ContentReader.ReadByte >>= f) ⟨⟨file, position⟩, log, m, table⟩ =
      (.error .errorReadingFile, ⟨⟨file, position⟩, log, m, table⟩) := by
  have : ContentReader.ReadByte ⟨⟨file, position⟩, log, m, table⟩ =
      (.error .errorReadingFile, ⟨⟨file, position⟩, log, m, table⟩) := by
    rw [ContentReader.ReadByte, ContentReader.base_apply]
    simp only [BinaryReader.ReadByte_apply, if_neg h]
  exact Method.bind_error this

theorem BinaryReader.ReadUInt32_apply (file : List Nat) (position : Nat)
    (h : position ≤ file.length) :
    BinaryReader.ReadUInt32 ⟨file, position⟩ =
      if position + 4 ≤ file.length then
        (.ok (byteAt file position + 256 * byteAt file (position + 1) +
          65536 * byteAt file (position + 2) + 16777216 * byteAt file (position + 3)),
          ⟨file, position + 4⟩)
      else (.error .errorReadingFile, ⟨file, file.length⟩) := by
  unfold BinaryReader.ReadUInt32
  by_cases h4 : position + 4 ≤ file.length
  · rw [if_pos h4]
    have h0 : position < file.length := by omega
    have h1 : position + 1 < file.length := by omega
    have h2 : position + 1 + 1 < file.length := by omega
    have h3 : position + 1 + 1 + 1 < file.length := by omega
    simp only [Method.bind_apply, BinaryReader.ReadByte_apply, if_pos h0, if_pos h1, if_pos h2,
      if_pos h3, Method.pure_apply]
    rw [uint32_of_bytes _ _ _ _ (byteAt_lt _ _) (byteAt_lt _ _) (byteAt_lt _ _)]
  · rw [if_neg h4]
    by_cases h0 : position < file.length
    · by_cases h1 : position + 1 < file.length
      · by_cases h2 : position + 1 + 1 < file.length
        · have h3 : ¬ position + 1 + 1 + 1 < file.length := by omega
          have hl : position + 1 + 1 + 1 = file.length := by omega
          simp only [Method.bind_apply, BinaryReader.ReadByte_apply, if_pos h0, if_pos h1,
            if_pos h2, if_neg h3]
          rw [hl]
        · have hl : position + 1 + 1 = file.length := by omega
          simp only [Method.bind_apply, BinaryReader.ReadByte_apply, if_pos h0, if_pos h1,
            if_neg h2]
          rw [hl]
      · have hl : position + 1 = file.length := by omega
        simp only [Method.bind_apply, BinaryReader.ReadByte_apply, if_pos h0, if_neg h1]
        rw [hl]
    · have hl : position = file.length := by omega
      simp only [Method.bind_apply, BinaryReader.ReadByte_apply, if_neg h0]
      rw [hl]

theorem ContentReader.ReadUInt32_bind_ok {α : Type} (file : List Nat) (position : Nat)
    (log : Logger) (m : TypeReaderManager) (table : List Nat)
    (f : Nat → Method ContentReader α) (h : position + 4 ≤ file.length) :
    (ContentReader.ReadUInt32 >>= f) ⟨⟨file, position⟩, log, m, table⟩ =
      f (byteAt file position + 256 * byteAt file (position + 1) +
          65536 * byteAt file (position + 2) + 16777216 * byteAt file (position + 3))
        ⟨⟨file, position + 4⟩, log, m, table⟩ := by
  have : ContentReader.ReadUInt32 ⟨⟨file, position⟩, log, m, table⟩ =
      (.ok (byteAt file position + 256 * byteAt file (position + 1) +
          65536 * byteAt file (position + 2) + 16777216 * byteAt file (position + 3)),
        ⟨⟨file, position + 4⟩, log, m, table⟩) := by
    rw [ContentReader.ReadUInt32, ContentReader.base_apply]
    simp only [BinaryReader.ReadUInt32_apply file position (by omega), if_pos h]
  exact Method.bind_ok this

theorem ContentReader.ReadUInt32_bind_error {α : Type} (file : List Nat) (position : Nat)
    (log : Logger) (m : TypeReaderManager) (table : List Nat)
    (f : Nat → Method ContentReader α) (hle : position ≤ file.length)
    (h : ¬ position + 4 ≤ file.length) :
    (ContentReader.ReadUInt32 >>= f) ⟨⟨file, position⟩, log, m, table⟩ =
      (.error .errorReadingFile, ⟨⟨file, file.length⟩, log, m, table⟩) := by
  have : ContentReader.ReadUInt32 ⟨⟨file, position⟩, log, m, table⟩ =
      (.error .errorReadingFile, ⟨⟨file, file.length⟩, log, m, table⟩) := by
    rw [ContentReader.ReadUInt32, ContentReader.base_apply]
    simp only [BinaryReader.ReadUInt32_apply file position hle, if_neg h]
  exact Method.bind_error this

theorem ContentReader.logOnly_bind {α : Type} (x : Method ContentReader Unit)
    (f : Unit → Method ContentReader α) (b : BinaryReader) (log : Logger)
    (m : TypeReaderManager) (table : List Nat)
    (hx : ∃ log', x ⟨b, log, m, table⟩ = (.ok (), ⟨b, log', m, table⟩)) :
    ∃ log', (x >>= f) ⟨b, log, m, table⟩ = f () ⟨b, log', m, table⟩ := by
  obtain ⟨log', h⟩ := hx
  exact ⟨log', Method.bind_ok h⟩

set_option maxRecDepth 100000 in
theorem byte_bit7 : ∀ b, b < 256 → ((b &&& 128 ≠ 0) ↔ 128 ≤ b) := by decide

theorem ReadHeader_outcome (file : List Nat) (log : Logger) (m : TypeReaderManager)
    (table : List Nat) :
    ∃ log', ContentReader.ReadHeader ⟨⟨file, 0⟩, log, m, table⟩ =
      ((headerOutcome file).1, ⟨⟨file, (headerOutcome file).2⟩, log', m, table⟩) := by
  unfold ContentReader.ReadHeader
  rw [Method.bind_ok (rfl : Method.get (⟨⟨file, 0⟩, log, m, table⟩ : ContentReader) = _)]
  dsimp only
  by_cases h0 : 0 < file.length
  swap
  · rw [ContentReader.ReadByte_bind_error _ _ _ _ _ _ h0]
    have hlen : file.length = 0 := by omega
    refine ⟨log, ?_⟩
    simp [headerOutcome, hlen]
  rw [ContentReader.ReadByte_bind_ok _ _ _ _ _ _ h0]
  by_cases h1 : 0 + 1 < file.length
  swap
  · rw [ContentReader.ReadByte_bind_error _ _ _ _ _ _ h1]
    have hlen : file.length = 1 := by omega
    refine ⟨log, ?_⟩
    simp [headerOutcome, hlen]
  rw [ContentReader.ReadByte_bind_ok _ _ _ _ _ _ h1]
  by_cases h2 : 0 + 1 + 1 < file.length
  swap
  · rw [ContentReader.ReadByte_bind_error _ _ _ _ _ _ h2]
    have hlen : file.length = 2 := by omega
    refine ⟨log, ?_⟩
    simp [headerOutcome, hlen]
  rw [ContentReader.ReadByte_bind_ok _ _ _ _ _ _ h2]
  have hn3 : ¬ file.length < 3 := by omega
  simp only [Nat.zero_add, Nat.reduceAdd] at h1 h2 ⊢
  rw [Method.ite_apply]
  by_cases hmagic : byteAt file 0 ≠ 88 ∨ byteAt file 1 ≠ 78 ∨ byteAt file 2 ≠ 66
  · rw [if_pos hmagic]
    refine ⟨log, ?_⟩
    have : ¬ (byteAt file 0 = 88 ∧ byteAt file 1 = 78 ∧ byteAt file 2 = 66) := by
      intro h
      rcases hmagic with h' | h' | h'
      · exact h' h.1
      · exact h' h.2.1
      · exact h' h.2.2
    simp only [headerOutcome, if_neg hn3, this, not_false_eq_true, if_true]
    rfl
  rw [if_neg hmagic]
  have hm' : byteAt file 0 = 88 ∧ byteAt file 1 = 78 ∧ byteAt file 2 = 66 := by
    refine ⟨?_, ?_, ?_⟩ <;> by_contra hc <;> exact hmagic (by simp [hc])
  have hout : headerOutcome file =
      if file.length < 10 then (.error .errorReadingFile, file.length)
      else if declaredSize file 0 > file.length % 2 ^ 32 then (.error .truncated, 10)
      else if 128 ≤ byteAt file 5 then
        if file.length < 14 then (.error .errorReadingFile, file.length)
        else (.error .compressedNotSupported, 14)
      else (.ok (declaredSize file 0), 10) := by
    simp only [headerOutcome, if_neg hn3, hm', and_self, not_true_eq_false, if_false]
  rw [hout]
  clear hout
  by_cases h3 : 3 < file.length
  swap
  · rw [ContentReader.ReadByte_bind_error _ _ _ _ _ _ h3]
    have hlen : file.length = 3 := by omega
    refine ⟨log, ?_⟩
    simp [hlen]
  rw [ContentReader.ReadByte_bind_ok _ _ _ _ _ _ h3]
  obtain ⟨log4, hlog4⟩ := ContentReader.logOnly_bind
    (if byteAt file 3 = 119 then ContentReader.WriteLine "Target platform: Windows" []
      else if byteAt file 3 = 109 then
        ContentReader.WriteLine "Target platform: Windows Phone" []
      else if byteAt file 3 = 120 then ContentReader.WriteLine "Target platform: Xbox 360" []
      else ContentReader.WriteLine "Unknown target platform %d" [.nat (byteAt file 3)])
    _ ⟨file, 3 + 1⟩ log m table (by
      repeat' split
      all_goals exact ⟨_, rfl⟩)
  rw [hlog4]
  clear hlog4
  simp only [Nat.reduceAdd]
  by_cases h4 : 4 < file.length
  swap
  · rw [ContentReader.ReadByte_bind_error _ _ _ _ _ _ h4]
    have hlen : file.length = 4 := by omega
    refine ⟨log4, ?_⟩
    simp [hlen]
  rw [ContentReader.ReadByte_bind_ok _ _ _ _ _ _ h4]
  obtain ⟨log5, hlog5⟩ := ContentReader.logOnly_bind
    (if byteAt file 4 ≠ 5 then
      ContentReader.WriteLine ("Warning: not an XNA Game Studio version 4.0 XNB file. " ++
        "Parsing may fail unexpectedly.") []
      else pure ())
    _ ⟨file, 4 + 1⟩ log4 m table (by
      split
      all_goals exact ⟨_, rfl⟩)
  rw [hlog5]
  clear hlog5
  simp only [Nat.reduceAdd]
  by_cases h5 : 5 < file.length
  swap
  · rw [ContentReader.ReadByte_bind_error _ _ _ _ _ _ h5]
    have hlen : file.length = 5 := by omega
    refine ⟨log5, ?_⟩
    simp [hlen]
  rw [ContentReader.ReadByte_bind_ok _ _ _ _ _ _ h5]
  obtain ⟨log6, hlog6⟩ := ContentReader.logOnly_bind
    (if byteAt file 5 &&& 1 ≠ 0 then ContentReader.WriteLine "Graphics profile: HiDef" []
      else ContentReader.WriteLine "Graphics profile: Reach" [])
    _ ⟨file, 5 + 1⟩ log5 m table (by
      split
      all_goals exact ⟨_, rfl⟩)
  rw [hlog6]
  clear hlog6
  simp only [Nat.reduceAdd]
  by_cases h10 : 6 + 4 ≤ file.length
  swap
  · rw [ContentReader.ReadUInt32_bind_error _ _ _ _ _ _ (by omega) h10]
    have hlen : file.length < 10 := by omega
    refine ⟨log6, ?_⟩
    rw [if_pos hlen]
  rw [ContentReader.ReadUInt32_bind_ok _ _ _ _ _ _ h10]
  have hlen10 : ¬ file.length < 10 := by omega
  rw [if_neg hlen10]
  rw [Method.bind_ok (rfl : Method.get (⟨⟨file, 6 + 4⟩, log6, m, table⟩ : ContentReader) = _)]
  have hsize : byteAt file 6 + 256 * byteAt file (6 + 1) + 65536 * byteAt file (6 + 2) +
      16777216 * byteAt file (6 + 3) = declaredSize file 0 := rfl
  rw [hsize]
  have hlt : declaredSize file 0 < 2 ^ 32 := by
    have b6 := byteAt_lt file (0 + 6)
    have b7 := byteAt_lt file (0 + 7)
    have b8 := byteAt_lt file (0 + 8)
    have b9 := byteAt_lt file (0 + 9)
    unfold declaredSize
    omega
  have hstart : (BinaryReader.FilePosition ⟨file, 0⟩ + declaredSize file 0) % 2 ^ 32 =
      declaredSize file 0 := by
    show (0 % 2 ^ 32 + declaredSize file 0) % 2 ^ 32 = _
    rw [Nat.zero_mod, Nat.zero_add, Nat.mod_eq_of_lt hlt]
  have hfs : (⟨⟨file, 6 + 4⟩, log6, m, table⟩ : ContentReader).FileSize =
      file.length % 2 ^ 32 := rfl
  have hflags := byte_bit7 _ (byteAt_lt file 5)
  rw [hstart, hfs, Method.ite_apply]
  by_cases htruncated : declaredSize file 0 > file.length % 2 ^ 32
  · simp only [if_pos htruncated]
    exact ⟨log6, rfl⟩
  simp only [if_neg htruncated]
  rw [Method.ite_apply]
  by_cases hcompressed : 128 ≤ byteAt file 5
  · simp only [if_pos hcompressed, if_pos (hflags.2 hcompressed)]
    by_cases h14 : 6 + 4 + 4 ≤ file.length
    · rw [ContentReader.ReadUInt32_bind_ok _ _ _ _ _ _ h14]
      have hlen14 : ¬ file.length < 14 := by omega
      simp only [if_neg hlen14]
      exact ⟨_, rfl⟩
    · rw [ContentReader.ReadUInt32_bind_error _ _ _ _ _ _ (by omega) h14]
      have hlen14 : file.length < 14 := by omega
      simp only [if_pos hlen14]
      exact ⟨_, rfl⟩
  · have hclear : ¬ (byteAt file 5 &&& 128 ≠ 0) := fun h => hcompressed (hflags.1 h)
    simp only [if_neg hcompressed, if_neg hclear]
    exact ⟨_, rfl⟩

theorem headerOutcome_ok_iff (file : List Nat) (endPosition : Nat) :
    (headerOutcome file).1 = .ok endPosition ↔
      (10 ≤ file.length ∧ byteAt file 0 = 88 ∧ byteAt file 1 = 78 ∧ byteAt file 2 = 66 ∧
        declaredSize file 0 ≤ file.length % 2 ^ 32 ∧ byteAt file 5 < 128) ∧
      endPosition = declaredSize file 0 := by
  unfold headerOutcome
  by_cases h1 : file.length < 3
  · rw [if_pos h1]
    exact iff_of_false (fun h => by cases h) fun h => by omega
  rw [if_neg h1]
  by_cases h2 : ¬ (byteAt file 0 = 88 ∧ byteAt file 1 = 78 ∧ byteAt file 2 = 66)
  · rw [if_pos h2]
    exact iff_of_false (fun h => by cases h) fun h => h2 ⟨h.1.2.1, h.1.2.2.1, h.1.2.2.2.1⟩
  rw [if_neg h2]
  have h2' : byteAt file 0 = 88 ∧ byteAt file 1 = 78 ∧ byteAt file 2 = 66 := by
    by_contra hc; exact h2 hc
  by_cases h3 : file.length < 10
  · rw [if_pos h3]
    exact iff_of_false (fun h => by cases h) fun h => by omega
  rw [if_neg h3]
  by_cases h4 : declaredSize file 0 > file.length % 2 ^ 32
  · rw [if_pos h4]
    exact iff_of_false (fun h => by cases h) fun h => by omega
  rw [if_neg h4]
  by_cases h5 : 128 ≤ byteAt file 5
  · rw [if_pos h5]
    refine iff_of_false (fun h => ?_) fun h => by omega
    split at h <;> cases h
  rw [if_neg h5]
  simp only [Except.ok.injEq]
  constructor
  · intro h
    exact ⟨⟨by omega, h2'.1, h2'.2.1, h2'.2.2, by omega, by omega⟩, h.symm⟩
  · intro h
    exact h.2.symm

theorem headerOutcome_ok_position (file : List Nat) (endPosition : Nat)
    (h : (headerOutcome file).1 = .ok endPosition) : (headerOutcome file).2 = 10 := by
  have h6 := ((headerOutcome_ok_iff file endPosition).1 h).1
  unfold headerOutcome
  rw [if_neg (by omega), if_neg (by simp [h6.2.1, h6.2.2.1, h6.2.2.2.1]), if_neg (by omega),
    if_neg (by omega), if_neg (by omega)]

/-- C17: `ReadHeader` started at position 0 returns normally if and only if at
least 10 bytes are there, bytes 0 to 2 are `X`, `N`, `B`, the little-endian
32-bit size declared at offset 6 does not exceed the file size (the `uint32_t`
that `FileSize()` returns, which is the length of a file of less than 4 GiB), and
bit 7 of the flags byte at offset 5 is clear; when it returns, the result is the
declared size and exactly 10 bytes have been consumed. -/
theorem ReadHeader_returns_iff (r : ContentReader) (hp : r.position = 0) :
    ((∃ endPosition r', ContentReader.ReadHeader r = (.ok endPosition, r')) ↔
      10 ≤ r.file.length ∧ byteAt r.file 0 = 88 ∧ byteAt r.file 1 = 78 ∧
        byteAt r.file 2 = 66 ∧ declaredSize r.file 0 ≤ r.FileSize ∧ byteAt r.file 5 < 128) ∧
    (∀ endPosition r', ContentReader.ReadHeader r = (.ok endPosition, r') →
      endPosition = declaredSize r.file 0 ∧ r'.position = 10) ∧
    (r.file.length < 2 ^ 32 → r.FileSize = r.file.length) := by
  obtain ⟨⟨file, position⟩, log, m, table⟩ := r
  simp only at hp
  subst hp
  obtain ⟨log', hrun⟩ := ReadHeader_outcome file log m table
  have hfs : (⟨⟨file, 0⟩, log, m, table⟩ : ContentReader).FileSize = file.length % 2 ^ 32 := rfl
  refine ⟨?_, ?_, fun h => ?_⟩
  · rw [hrun, hfs]
    constructor
    · rintro ⟨endPosition, r', h⟩
      exact ((headerOutcome_ok_iff file endPosition).1 (Prod.mk.inj h).1).1
    · intro h
      exact ⟨declaredSize file 0, _,
        Prod.ext ((headerOutcome_ok_iff file _).2 ⟨h, rfl⟩) rfl⟩
  · intro endPosition r' h
    rw [hrun] at h
    obtain ⟨h1, h2⟩ := Prod.mk.inj h
    refine ⟨((headerOutcome_ok_iff file endPosition).1 h1).2, ?_⟩
    rw [← h2]
    exact headerOutcome_ok_position file endPosition h1
  · rw [hfs]
    exact Nat.mod_eq_of_lt h

set_option maxRecDepth 100000 in
/-- C17, witness: the header of the example file of 65 bytes. -/
theorem ReadHeader_returns_iff_witness :
    (ContentReader.new exampleXnb standardManager).position = 0 ∧
    (ContentReader.ReadHeader (ContentReader.new exampleXnb standardManager)).1 = .ok 65 ∧
    65 = declaredSize (ContentReader.new exampleXnb standardManager).file 0 ∧
    (ContentReader.ReadHeader (ContentReader.new exampleXnb standardManager)).2.position = 10 :=
  have h : (ContentReader.ReadHeader (ContentReader.new exampleXnb standardManager)).1 =
      .ok 65 := by decide!
  ⟨rfl, h, (ReadHeader_returns_iff _ rfl).2.1 65 _ (Method.eq_ok_of_fst h)⟩

/-- C18: for every file of at least 10 bytes with the magic `XNB` whose declared
size exceeds the size of the file, `ReadXnb` from the start of the file fails
with the truncated error, whatever the flags byte holds (the compressed bit set
or not), with the file position right after the 10 bytes of the header (no byte
of the manifest is read) and the reader table and the registry as they were. -/
theorem ReadXnb_truncated (fuel : Nat) (r : ContentReader) (hp : r.position = 0)
    (hlen : 10 ≤ r.file.length)
    (hmagic : byteAt r.file 0 = 88 ∧ byteAt r.file 1 = 78 ∧ byteAt r.file 2 = 66)
    (hsize : r.file.length < declaredSize r.file 0) :
    ∃ r', ContentReader.ReadXnb fuel r = (.error .truncated, r') ∧ r'.position = 10 ∧
      r'.file = r.file ∧ r'.typeReaders = r.typeReaders ∧
      r'.typeReaderManager = r.typeReaderManager := by
  obtain ⟨⟨file, position⟩, log, m, table⟩ := r
  simp only at hp hlen hmagic hsize
  subst hp
  obtain ⟨log', hrun⟩ := ReadHeader_outcome file log m table
  have hout : headerOutcome file = (.error .truncated, 10) := by
    have hmod : file.length % 2 ^ 32 ≤ file.length := Nat.mod_le _ _
    unfold headerOutcome
    rw [if_neg (by omega), if_neg (by simp [hmagic]), if_neg (by omega), if_pos (by omega)]
  rw [hout] at hrun
  refine ⟨⟨⟨file, 10⟩, log', m, table⟩, ?_, rfl, rfl, rfl, rfl⟩
  unfold ContentReader.ReadXnb
  exact Method.bind_error hrun

set_option maxRecDepth 100000 in
/-- C18, witness: a file of 100 bytes that declares 1000, with the compressed bit
set. -/
theorem ReadXnb_truncated_witness :
    truncatedXnb.length = 100 ∧ declaredSize truncatedXnb 0 = 1000 ∧
    128 ≤ byteAt truncatedXnb 5 ∧
    ∃ r', ContentReader.ReadXnb 1 (ContentReader.new truncatedXnb standardManager) =
        (.error .truncated, r') ∧ r'.position = 10 ∧
      r'.file = (ContentReader.new truncatedXnb standardManager).file ∧
      r'.typeReaders = (ContentReader.new truncatedXnb standardManager).typeReaders ∧
      r'.typeReaderManager =
        (ContentReader.new truncatedXnb standardManager).typeReaderManager :=
  ⟨by decide, by decide, by decide,
    ReadXnb_truncated 1 (ContentReader.new truncatedXnb standardManager) rfl (by decide)
      (by decide) (by decide)⟩

/-! ## Lemmas: the outcome does not depend on the bytes already read -/

theorem Method.respects_pure {σ α : Type} {R : σ → σ → Prop} (a : α) :
    Method.Respects R (Pure.pure a : Method σ α) := fun _ _ h => ⟨rfl, h⟩

theorem Method.respects_fail {σ α : Type} {R : σ → σ → Prop} (e : Error) :
    Method.Respects R (Method.fail e : Method σ α) := fun _ _ h => ⟨rfl, h⟩

theorem Method.respects_ofExcept {σ α : Type} {R : σ → σ → Prop} (x : Except Error α) :
    Method.Respects R (Method.ofExcept x : Method σ α) := fun _ _ h => ⟨rfl, h⟩

theorem Method.respects_bind {σ α β : Type} {R : σ → σ → Prop} {x : Method σ α}
    {f : α → Method σ β} (hx : Method.Respects R x) (hf : ∀ a, Method.Respects R (f a)) :
    Method.Respects R (x >>= f) := by
  intro s s' h
  obtain ⟨h1, h2⟩ := hx s s' h
  simp only [Method.bind_apply]
  cases hs : x s with
  | mk result t =>
    cases hs' : x s' with
    | mk result' t' =>
      rw [hs, hs'] at h1 h2
      simp only at h1 h2
      subst h1
      cases result with
      | ok a => exact hf a t t' h2
      | error e => exact ⟨rfl, h2⟩

theorem Method.respects_get_bind {σ β : Type} {R : σ → σ → Prop} {f : σ → Method σ β}
    (hcongr : ∀ s s', R s s' → f s = f s') (hf : ∀ s, Method.Respects R (f s)) :
    Method.Respects R (Method.get >>= f) := by
  intro s s' h
  have hs : (Method.get >>= f) s = f s s := rfl
  have hs' : (Method.get >>= f) s' = f s' s' := rfl
  rw [hs, hs', hcongr s s' h]
  exact hf s' s s' h

theorem Method.respects_forLoop_go {σ : Type} {R : σ → σ → Prop} {body : Nat → Method σ Unit}
    (hbody : ∀ i, Method.Respects R (body i)) (count i : Nat) :
    Method.Respects R (forLoop.go body count i) := by
  induction count generalizing i with
  | zero => exact Method.respects_pure ()
  | succ n ih => exact Method.respects_bind (hbody i) fun _ => ih (i + 1)

theorem Method.respects_forLoop {σ : Type} {R : σ → σ → Prop} {body : Nat → Method σ Unit}
    (hbody : ∀ i, Method.Respects R (body i)) (count : Nat) :
    Method.Respects R (forLoop count body) :=
  Method.respects_forLoop_go hbody count 0

theorem Method.respects_forEach {σ α : Type} {R : σ → σ → Prop} {body : α → Method σ Unit}
    (hbody : ∀ a, Method.Respects R (body a)) (xs : List α) :
    Method.Respects R (forEach body xs) := by
  induction xs with
  | nil => exact Method.respects_pure ()
  | cons a rest ih => exact Method.respects_bind (hbody a) fun _ => ih

theorem BinaryReader.ReadByte_respects :
    Method.Respects BinaryReader.agrees BinaryReader.ReadByte := by
  intro b b' ⟨hpos, hlen, hbytes⟩
  unfold BinaryReader.ReadByte
  have hget := hbytes b.position (Nat.le_refl _)
  rw [← hpos, ← hget]
  cases b.file.get? b.position with
  | none => exact ⟨rfl, hpos, hlen, hbytes⟩
  | some value =>
    refine ⟨rfl, ?_, hlen, fun i hi => hbytes i ?_⟩
    · rfl
    · have : b.position + 1 ≤ i := hi
      omega

theorem BinaryReader.ReadUInt16_respects :
    Method.Respects BinaryReader.agrees BinaryReader.ReadUInt16 := by
  unfold BinaryReader.ReadUInt16
  repeat' first
    | exact Method.respects_pure _
    | exact BinaryReader.ReadByte_respects
    | refine Method.respects_bind ?_ fun _ => ?_

theorem BinaryReader.ReadUInt32_respects :
    Method.Respects BinaryReader.agrees BinaryReader.ReadUInt32 := by
  unfold BinaryReader.ReadUInt32
  repeat' first
    | exact Method.respects_pure _
    | exact BinaryReader.ReadByte_respects
    | refine Method.respects_bind ?_ fun _ => ?_

theorem BinaryReader.ReadUInt64_respects :
    Method.Respects BinaryReader.agrees BinaryReader.ReadUInt64 := by
  unfold BinaryReader.ReadUInt64
  repeat' first
    | exact Method.respects_pure _
    | exact BinaryReader.ReadByte_respects
    | refine Method.respects_bind ?_ fun _ => ?_

theorem BinaryReader.ReadSByte_respects :
    Method.Respects BinaryReader.agrees BinaryReader.ReadSByte := by
  unfold BinaryReader.ReadSByte
  exact Method.respects_bind BinaryReader.ReadByte_respects fun _ => Method.respects_pure _

theorem BinaryReader.ReadInt16_respects :
    Method.Respects BinaryReader.agrees BinaryReader.ReadInt16 := by
  unfold BinaryReader.ReadInt16
  exact Method.respects_bind BinaryReader.ReadUInt16_respects fun _ => Method.respects_pure _

theorem BinaryReader.ReadInt32_respects :
    Method.Respects BinaryReader.agrees BinaryReader.ReadInt32 := by
  unfold BinaryReader.ReadInt32
  exact Method.respects_bind BinaryReader.ReadUInt32_respects fun _ => Method.respects_pure _

theorem BinaryReader.ReadInt64_respects :
    Method.Respects BinaryReader.agrees BinaryReader.ReadInt64 := by
  unfold BinaryReader.ReadInt64
  exact Method.respects_bind BinaryReader.ReadUInt64_respects fun _ => Method.respects_pure _

theorem BinaryReader.ReadSingle_respects :
    Method.Respects BinaryReader.agrees BinaryReader.ReadSingle := by
  unfold BinaryReader.ReadSingle
  exact Method.respects_bind BinaryReader.ReadUInt32_respects fun _ => Method.respects_pure _

theorem BinaryReader.ReadDouble_respects :
    Method.Respects BinaryReader.agrees BinaryReader.ReadDouble := by
  unfold BinaryReader.ReadDouble
  exact Method.respects_bind BinaryReader.ReadUInt64_respects fun _ => Method.respects_pure _

theorem BinaryReader.ReadBoolean_respects :
    Method.Respects BinaryReader.agrees BinaryReader.ReadBoolean := by
  unfold BinaryReader.ReadBoolean
  exact Method.respects_bind BinaryReader.ReadByte_respects fun _ => Method.respects_pure _

theorem BinaryReader.ReadChar_continuation_respects (n result : Nat) :
    Method.Respects BinaryReader.agrees (BinaryReader.ReadChar.continuation n result) := by
  induction n generalizing result with
  | zero => exact Method.respects_pure _
  | succ n ih =>
    unfold BinaryReader.ReadChar.continuation
    exact Method.respects_bind BinaryReader.ReadByte_respects fun _ => ih _

theorem BinaryReader.ReadChar_respects :
    Method.Respects BinaryReader.agrees BinaryReader.ReadChar := by
  unfold BinaryReader.ReadChar
  refine Method.respects_bind BinaryReader.ReadByte_respects fun result => ?_
  split
  · exact BinaryReader.ReadChar_continuation_respects _ _
  · exact Method.respects_pure _

theorem BinaryReader.Read7BitEncodedInt_loop_respects (fuel result bitsRead : Nat) :
    Method.Respects BinaryReader.agrees
      (BinaryReader.Read7BitEncodedInt.loop fuel result bitsRead) := by
  induction fuel generalizing result bitsRead with
  | zero => exact Method.respects_fail _
  | succ fuel ih =>
    unfold BinaryReader.Read7BitEncodedInt.loop
    refine Method.respects_bind BinaryReader.ReadByte_respects fun value => ?_
    split
    · exact Method.respects_fail _
    · split
      · exact ih _ _
      · exact Method.respects_pure _

theorem BinaryReader.Read7BitEncodedInt_respects :
    Method.Respects BinaryReader.agrees BinaryReader.Read7BitEncodedInt :=
  BinaryReader.Read7BitEncodedInt_loop_respects 6 0 0

theorem BinaryReader.ReadBytes_respects (count : Nat) :
    Method.Respects BinaryReader.agrees (BinaryReader.ReadBytes count) := by
  induction count with
  | zero => exact Method.respects_pure _
  | succ count ih =>
    unfold BinaryReader.ReadBytes
    exact Method.respects_bind BinaryReader.ReadByte_respects
      fun _ => Method.respects_bind ih fun _ => Method.respects_pure _

theorem BinaryReader.FilePosition_agrees {b b' : BinaryReader} (h : BinaryReader.agrees b b') :
    b.FilePosition = b'.FilePosition := by
  unfold BinaryReader.FilePosition
  rw [h.1]

theorem BinaryReader.ReadString_loop_respects (endOfString fuel : Nat) (result : wstring) :
    Method.Respects BinaryReader.agrees
      (BinaryReader.ReadString.loop endOfString fuel result) := by
  induction fuel generalizing result with
  | zero => exact Method.respects_fail _
  | succ fuel ih =>
    unfold BinaryReader.ReadString.loop
    refine Method.respects_get_bind (fun b b' h => ?_) fun b => ?_
    · simp only [BinaryReader.FilePosition_agrees h]
    · split
      · exact Method.respects_bind BinaryReader.ReadChar_respects fun _ => ih _
      · exact Method.respects_pure _

theorem BinaryReader.ReadString_respects :
    Method.Respects BinaryReader.agrees BinaryReader.ReadString := by
  unfold BinaryReader.ReadString
  refine Method.respects_bind BinaryReader.Read7BitEncodedInt_respects fun _ => ?_
  refine Method.respects_get_bind (fun b b' h => ?_) fun b => ?_
  · simp only [BinaryReader.FilePosition_agrees h, h.1, h.2.1]
  · exact BinaryReader.ReadString_loop_respects _ _ _

instance Respecting.pure {α : Type} (a : α) :
    Respecting (Pure.pure a : Method ContentReader α) :=
  ⟨Method.respects_pure a⟩

instance Respecting.fail {α : Type} (e : Error) :
    Respecting (Method.fail e : Method ContentReader α) :=
  ⟨Method.respects_fail e⟩

instance Respecting.ofExcept {α : Type} (x : Except Error α) :
    Respecting (Method.ofExcept x : Method ContentReader α) :=
  ⟨Method.respects_ofExcept x⟩

instance Respecting.bind {α β : Type} (x : Method ContentReader α)
    (f : α → Method ContentReader β) [hx : Respecting x] [hf : ∀ a, Respecting (f a)] :
    Respecting (x >>= f) :=
  ⟨Method.respects_bind hx.out fun a => (hf a).out⟩

theorem Respecting.get_bind {β : Type} {f : ContentReader → Method ContentReader β}
    (hcongr : ∀ r r', ContentReader.agrees r r' → f r = f r')
    (hf : ∀ r, Respecting (f r)) : Respecting (Method.get >>= f) :=
  ⟨Method.respects_get_bind hcongr fun r => (hf r).out⟩

instance Respecting.ite {α : Type} (c : Prop) {h : Decidable c} (x y : Method ContentReader α)
    [hx : Respecting x] [hy : Respecting y] : Respecting (if c then x else y) := by
  split
  · exact hx
  · exact hy

instance Respecting.forLoop (count : Nat) (body : Nat → Method ContentReader Unit)
    [hbody : ∀ i, Respecting (body i)] : Respecting (forLoop count body) :=
  ⟨Method.respects_forLoop (fun i => (hbody i).out) count⟩

instance Respecting.forEach {α : Type} (body : α → Method ContentReader Unit) (xs : List α)
    [hbody : ∀ a, Respecting (body a)] : Respecting (forEach body xs) :=
  ⟨Method.respects_forEach (fun a => (hbody a).out) xs⟩

instance Respecting.log (f : Logger → Logger) : Respecting (ContentReader.log f) :=
  ⟨fun _ _ h => ⟨rfl, h⟩⟩

instance Respecting.manager {α : Type} (x : Method TypeReaderManager α) :
    Respecting (ContentReader.manager x) := by
  constructor
  intro r r' h
  simp only [ContentReader.manager_apply, h.2.1]
  exact ⟨trivial, h.1, rfl, h.2.2⟩

theorem Respecting.of_base {α : Type} (x : Method BinaryReader α)
    (hx : Method.Respects BinaryReader.agrees x) : Respecting (ContentReader.base x) := by
  constructor
  intro r r' h
  obtain ⟨h1, h2⟩ := hx _ _ h.1
  exact ⟨h1, h2, h.2.1, h.2.2⟩

instance : Respecting ContentReader.ReadByte := Respecting.of_base _ BinaryReader.ReadByte_respects
instance : Respecting ContentReader.ReadUInt16 :=
  Respecting.of_base _ BinaryReader.ReadUInt16_respects
instance : Respecting ContentReader.ReadUInt32 :=
  Respecting.of_base _ BinaryReader.ReadUInt32_respects
instance : Respecting ContentReader.ReadUInt64 :=
  Respecting.of_base _ BinaryReader.ReadUInt64_respects
instance : Respecting ContentReader.ReadSByte :=
  Respecting.of_base _ BinaryReader.ReadSByte_respects
instance : Respecting ContentReader.ReadInt16 :=
  Respecting.of_base _ BinaryReader.ReadInt16_respects
instance : Respecting ContentReader.ReadInt32 :=
  Respecting.of_base _ BinaryReader.ReadInt32_respects
instance : Respecting ContentReader.ReadInt64 :=
  Respecting.of_base _ BinaryReader.ReadInt64_respects
instance : Respecting ContentReader.ReadSingle :=
  Respecting.of_base _ BinaryReader.ReadSingle_respects
instance : Respecting ContentReader.ReadDouble :=
  Respecting.of_base _ BinaryReader.ReadDouble_respects
instance : Respecting ContentReader.ReadBoolean :=
  Respecting.of_base _ BinaryReader.ReadBoolean_respects
instance : Respecting ContentReader.ReadChar := Respecting.of_base _ BinaryReader.ReadChar_respects
instance : Respecting ContentReader.ReadString :=
  Respecting.of_base _ BinaryReader.ReadString_respects
instance : Respecting ContentReader.Read7BitEncodedInt :=
  Respecting.of_base _ BinaryReader.Read7BitEncodedInt_respects
instance (count : Nat) : Respecting (ContentReader.ReadBytes count) :=
  Respecting.of_base _ (BinaryReader.ReadBytes_respects count)

instance : Respecting ContentReader.Indent := Respecting.log _
instance : Respecting ContentReader.Unindent := Respecting.log _
instance (format : String) (args : List PrintfArg) :
    Respecting (ContentReader.Write format args) := Respecting.log _
instance (format : String) (args : List PrintfArg) :
    Respecting (ContentReader.WriteLine format args) := Respecting.log _
instance (name : String) (bytes : List Nat) :
    Respecting (ContentReader.WriteBytes name bytes) := Respecting.log _
instance (name : String) (value : Int) (enumValues : List String) :
    Respecting (ContentReader.WriteEnum name value enumValues) := Respecting.log _

instance (typeReader : Nat) : Respecting (ContentReader.TargetType typeReader) := by
  unfold ContentReader.TargetType
  exact Respecting.get_bind (fun r r' h => by simp only [h.2.1]) fun _ => inferInstance

instance (typeReader : Nat) : Respecting (ContentReader.IsValueType typeReader) := by
  unfold ContentReader.IsValueType
  exact Respecting.get_bind (fun r r' h => by simp only [h.2.1]) fun _ => inferInstance

instance : Respecting ContentReader.ReadTypeManifest.entry := by
  unfold ContentReader.ReadTypeManifest.entry
  have : ∀ reader : Nat, Respecting (Method.modify fun r : ContentReader =>
      { r with typeReaders := r.typeReaders ++ [reader] }) :=
    fun reader =>
      ⟨fun r r' h => ⟨rfl, h.1, h.2.1, congrArg (fun table => table ++ [reader]) h.2.2⟩⟩
  infer_instance

instance : Respecting ContentReader.ReadTypeManifest := by
  unfold ContentReader.ReadTypeManifest
  have : Respecting (Method.modify fun r : ContentReader => { r with typeReaders := [] }) :=
    ⟨fun r r' h => ⟨rfl, h.1, h.2.1, rfl⟩⟩
  have : ∀ table : List Nat, Respecting (do
      forEach (fun reader => ContentReader.manager (TypeReaderManager.Initialize reader)) table
      ContentReader.Unindent) := fun _ => inferInstance
  have : Respecting (do
      forEach (fun reader => ContentReader.manager (TypeReaderManager.Initialize reader))
        (← Method.get).typeReaders
      ContentReader.Unindent) :=
    Respecting.get_bind (fun r r' h => by simp only [h.2.2]) fun _ => inferInstance
  infer_instance

instance : Respecting ContentReader.ReadTypeId := by
  unfold ContentReader.ReadTypeId
  have : ∀ typeId : Nat, Respecting (do
      let r ← Method.get
      if typeId ≥ r.typeReaders.length then
        (Method.fail .typeIdOutOfRange : Method ContentReader (Option Nat))
      else
        return r.typeReaders.get? typeId) :=
    fun _ => Respecting.get_bind (fun r r' h => by simp only [h.2.2]) fun _ => inferInstance
  infer_instance

instance (Read : Nat → Method ContentReader Unit) [hRead : ∀ p, Respecting (Read p)] :
    Respecting (ContentReader.ReadObject Read) := by
  constructor
  unfold ContentReader.ReadObject
  refine Method.respects_bind Respecting.out fun _ => ?_
  refine Method.respects_bind Respecting.out fun typeReader => ?_
  refine Method.respects_bind ?_ fun _ => Respecting.out
  cases typeReader with
  | none => exact Respecting.out
  | some typeReader => exact Respecting.out

instance (Read : Nat → Method ContentReader Unit) [hRead : ∀ p, Respecting (Read p)]
    (typeReader : Option Nat) : Respecting (ContentReader.ReadValueOrObject Read typeReader) := by
  unfold ContentReader.ReadValueOrObject
  cases typeReader <;> infer_instance

instance (expectedType : wstring) : Respecting (ContentReader.ValidateTypeId expectedType) := by
  constructor
  unfold ContentReader.ValidateTypeId
  refine Method.respects_bind Respecting.out fun typeReader => ?_
  cases typeReader with
  | none => exact Respecting.out
  | some typeReader => exact Respecting.out

instance : Respecting ContentReader.ReadSharedResource := by
  unfold ContentReader.ReadSharedResource; infer_instance

instance : Respecting ByteReader.Read := by unfold ByteReader.Read; infer_instance
instance : Respecting SByteReader.Read := by unfold SByteReader.Read; infer_instance
instance : Respecting Int16Reader.Read := by unfold Int16Reader.Read; infer_instance
instance : Respecting UInt16Reader.Read := by unfold UInt16Reader.Read; infer_instance
instance : Respecting Int32Reader.Read := by unfold Int32Reader.Read; infer_instance
instance : Respecting UInt32Reader.Read := by unfold UInt32Reader.Read; infer_instance
instance : Respecting Int64Reader.Read := by unfold Int64Reader.Read; infer_instance
instance : Respecting UInt64Reader.Read := by unfold UInt64Reader.Read; infer_instance
instance : Respecting SingleReader.Read := by unfold SingleReader.Read; infer_instance
instance : Respecting DoubleReader.Read := by unfold DoubleReader.Read; infer_instance
instance : Respecting BooleanReader.Read := by unfold BooleanReader.Read; infer_instance
instance : Respecting CharReader.Read := by unfold CharReader.Read; infer_instance
instance : Respecting StringReader.Read := by unfold StringReader.Read; infer_instance
instance : Respecting ObjectReader.Read := by unfold ObjectReader.Read; infer_instance
instance : Respecting Vector2Reader.Read := by unfold Vector2Reader.Read; infer_instance
instance : Respecting Vector3Reader.Read := by unfold Vector3Reader.Read; infer_instance
instance : Respecting Vector4Reader.Read := by unfold Vector4Reader.Read; infer_instance

instance (count : Nat) : Respecting (readSingles count) := by
  induction count with
  | zero => unfold readSingles; infer_instance
  | succ count ih => unfold readSingles; infer_instance

instance : Respecting MatrixReader.Read := by unfold MatrixReader.Read; infer_instance
instance : Respecting QuaternionReader.Read := by unfold QuaternionReader.Read; infer_instance
instance : Respecting ColorReader.Read := by unfold ColorReader.Read; infer_instance
instance : Respecting PlaneReader.Read := by unfold PlaneReader.Read; infer_instance
instance : Respecting PointReader.Read := by unfold PointReader.Read; infer_instance
instance : Respecting RectangleReader.Read := by unfold RectangleReader.Read; infer_instance
instance : Respecting BoundingBoxReader.Read := by unfold BoundingBoxReader.Read; infer_instance
instance : Respecting BoundingSphereReader.Read := by
  unfold BoundingSphereReader.Read; infer_instance
instance : Respecting BoundingFrustumReader.Read := by
  unfold BoundingFrustumReader.Read; infer_instance
instance : Respecting RayReader.Read := by unfold RayReader.Read; infer_instance
instance : Respecting CurveReader.Read := by unfold CurveReader.Read; infer_instance
instance : Respecting TextureReader.Read := by unfold TextureReader.Read; infer_instance
instance : Respecting Texture2DReader.Read := by unfold Texture2DReader.Read; infer_instance
instance : Respecting Texture3DReader.Read := by unfold Texture3DReader.Read; infer_instance
instance : Respecting TextureCubeReader.Read := by unfold TextureCubeReader.Read; infer_instance
instance : Respecting IndexBufferReader.Read := by unfold IndexBufferReader.Read; infer_instance
instance : Respecting ReadVertexDeclaration := by unfold ReadVertexDeclaration; infer_instance
instance : Respecting VertexBufferReader.Read := by
  unfold VertexBufferReader.Read; infer_instance
instance : Respecting VertexDeclarationReader.Read := by
  unfold VertexDeclarationReader.Read; infer_instance
instance : Respecting EffectReader.Read := by unfold EffectReader.Read; infer_instance
instance (Read : Nat → Method ContentReader Unit) [∀ p, Respecting (Read p)] :
    Respecting (EffectMaterialReader.Read Read) := by
  unfold EffectMaterialReader.Read; infer_instance
instance : Respecting BasicEffectReader.Read := by unfold BasicEffectReader.Read; infer_instance
instance : Respecting AlphaTestEffectReader.Read := by
  unfold AlphaTestEffectReader.Read; infer_instance
instance : Respecting DualTextureEffectReader.Read := by
  unfold DualTextureEffectReader.Read; infer_instance
instance : Respecting EnvironmentMapEffectReader.Read := by
  unfold EnvironmentMapEffectReader.Read; infer_instance
instance : Respecting SkinnedEffectReader.Read := by
  unfold SkinnedEffectReader.Read; infer_instance
instance (Read : Nat → Method ContentReader Unit) [∀ p, Respecting (Read p)] :
    Respecting (SpriteFontReader.Read Read) := by
  unfold SpriteFontReader.Read; infer_instance
instance (boneCount : Nat) : Respecting (ReadBoneReference boneCount) := by
  unfold ReadBoneReference; infer_instance
instance (Read : Nat → Method ContentReader Unit) [∀ p, Respecting (Read p)] :
    Respecting (ModelReader.Read Read) := by
  constructor
  unfold ModelReader.Read
  repeat
    first
    | (with_reducible refine Method.respects_bind ?_ fun _ => ?_)
    | (with_reducible refine Method.respects_forLoop (fun _ => ?_) _)
    | exact Respecting.out
instance : Respecting SoundEffectReader.Read := by unfold SoundEffectReader.Read; infer_instance
instance : Respecting SongReader.Read := by unfold SongReader.Read; infer_instance
instance : Respecting VideoReader.Read := by unfold VideoReader.Read; infer_instance
instance : Respecting EnumReader.Read := by unfold EnumReader.Read; infer_instance
instance : Respecting TimeSpanReader.Read := by unfold TimeSpanReader.Read; infer_instance
instance : Respecting DateTimeReader.Read := by unfold DateTimeReader.Read; infer_instance
instance : Respecting DecimalReader.Read := by unfold DecimalReader.Read; infer_instance
instance : Respecting ExternalReferenceReader.Read := by
  unfold ExternalReferenceReader.Read; infer_instance
instance : Respecting ReflectiveReader.Read := by unfold ReflectiveReader.Read; infer_instance

instance (Read : Nat → Method ContentReader Unit) [∀ p, Respecting (Read p)]
    (self : GenericTypeReader) : Respecting (NullableReader.Read Read self) := by
  unfold NullableReader.Read
  cases self.valueReader <;> infer_instance
instance (Read : Nat → Method ContentReader Unit) [∀ p, Respecting (Read p)]
    (self : GenericTypeReader) : Respecting (ArrayReader.Read Read self) := by
  unfold ArrayReader.Read; infer_instance
instance (Read : Nat → Method ContentReader Unit) [∀ p, Respecting (Read p)]
    (self : GenericTypeReader) : Respecting (ListReader.Read Read self) := by
  unfold ListReader.Read; infer_instance
instance (Read : Nat → Method ContentReader Unit) [∀ p, Respecting (Read p)]
    (self : GenericTypeReader) : Respecting (DictionaryReader.Read Read self) := by
  unfold DictionaryReader.Read; infer_instance

instance (Read : Nat → Method ContentReader Unit) [∀ p, Respecting (Read p)]
    (cls : ReaderClass) : Respecting (cls.Read Read) := by
  cases cls <;> unfold ReaderClass.Read <;> infer_instance

instance (Read : Nat → Method ContentReader Unit) [∀ p, Respecting (Read p)]
    (self : GenericTypeReader) : Respecting (self.Read Read) := by
  unfold GenericTypeReader.Read
  cases self.cls <;> infer_instance

instance TypeReader.Read_respecting (fuel typeReader : Nat) :
    Respecting (TypeReader.Read fuel typeReader) := by
  induction fuel generalizing typeReader with
  | zero => unfold TypeReader.Read; infer_instance
  | succ fuel ih =>
    constructor
    unfold TypeReader.Read
    refine Method.respects_get_bind (fun r r' h => by simp only [h.2.1]) fun r => ?_
    refine Method.respects_bind Respecting.out fun object => ?_
    cases object with
    | plain cls => exact Respecting.out
    | generic self => exact Respecting.out

/-! ## C19: the platform, version and profile bytes -/

theorem byteAt_congr (file file' : List Nat) (i : Nat) (h : file.get? i = file'.get? i) :
    byteAt file i = byteAt file' i := by
  unfold byteAt
  rw [List.getD_eq_getElem?_getD, List.getD_eq_getElem?_getD, ← List.get?_eq_getElem?,
    ← List.get?_eq_getElem?, h]

theorem headerOutcome_congr (file file' : List Nat) (hlen : file.length = file'.length)
    (hsame : ∀ i, i ≠ 3 → i ≠ 4 → i ≠ 5 → file.get? i = file'.get? i)
    (hflags : byteAt file 5 / 128 = byteAt file' 5 / 128) :
    headerOutcome file = headerOutcome file' := by
  have hbyte : ∀ i, i ≠ 3 → i ≠ 4 → i ≠ 5 → byteAt file i = byteAt file' i :=
    fun i h3 h4 h5 => byteAt_congr file file' i (hsame i h3 h4 h5)
  have hsize : declaredSize file 0 = declaredSize file' 0 := by
    unfold declaredSize
    rw [hbyte (0 + 6) (by omega) (by omega) (by omega),
      hbyte (0 + 7) (by omega) (by omega) (by omega),
      hbyte (0 + 8) (by omega) (by omega) (by omega),
      hbyte (0 + 9) (by omega) (by omega) (by omega)]
  have hbit : 128 ≤ byteAt file 5 ↔ 128 ≤ byteAt file' 5 := by omega
  unfold headerOutcome
  simp only [hlen, hsize, hbit, hbyte 0 (by omega) (by omega) (by omega),
    hbyte 1 (by omega) (by omega) (by omega), hbyte 2 (by omega) (by omega) (by omega)]

/-- What `ReadXnb` does after the header respects the agreement of two readers. -/
theorem ReadXnb_afterHeader_respects (fuel endPosition : Nat) :
    Method.Respects ContentReader.agrees (do
      ContentReader.ReadTypeManifest
      let sharedResourceCount ← ContentReader.Read7BitEncodedInt
      ContentReader.WriteLine "Asset:" []
      ContentReader.ReadObject (TypeReader.Read fuel)
      forLoop sharedResourceCount fun i => do
        ContentReader.WriteLine "Shared resource %d:" [.nat i]
        ContentReader.ReadObject (TypeReader.Read fuel)
      if (← Method.get).FilePosition ≠ endPosition then
        Method.fail .endPositionMismatch) := by
  refine Method.respects_bind Respecting.out fun _ => ?_
  refine Method.respects_bind Respecting.out fun count => ?_
  refine Method.respects_bind Respecting.out fun _ => ?_
  refine Method.respects_bind Respecting.out fun _ => ?_
  refine Method.respects_bind Respecting.out fun _ => ?_
  refine Method.respects_get_bind (fun r r' h => ?_) fun _ => Respecting.out
  simp only [BinaryReader.FilePosition_agrees h.1]

/-- C19: two files of the same length that hold the same bytes everywhere except
at offset 3 (platform), at offset 4 (format version) and in bits 0 to 6 of the
flags byte at offset 5 are parsed alike: started at position 0 with the same
registry and the same reader table, `ReadXnb` returns on both or fails on both
with the same error, at the same file position, with the same per-file reader
table and the same registry. -/
theorem ReadXnb_ignores_platform_version_profile (fuel : Nat) (r r' : ContentReader)
    (hp : r.position = 0) (hp' : r'.position = 0)
    (hm : r.typeReaderManager = r'.typeReaderManager) (ht : r.typeReaders = r'.typeReaders)
    (hlen : r.file.length = r'.file.length)
    (hsame : ∀ i, i ≠ 3 → i ≠ 4 → i ≠ 5 → r.file.get? i = r'.file.get? i)
    (hflags : byteAt r.file 5 / 128 = byteAt r'.file 5 / 128) :
    (ContentReader.ReadXnb fuel r).1 = (ContentReader.ReadXnb fuel r').1 ∧
      (ContentReader.ReadXnb fuel r).2.position = (ContentReader.ReadXnb fuel r').2.position ∧
      (ContentReader.ReadXnb fuel r).2.typeReaders =
        (ContentReader.ReadXnb fuel r').2.typeReaders ∧
      (ContentReader.ReadXnb fuel r).2.typeReaderManager =
        (ContentReader.ReadXnb fuel r').2.typeReaderManager := by
  obtain ⟨⟨file, position⟩, log, m, table⟩ := r
  obtain ⟨⟨file', position'⟩, log', m', table'⟩ := r'
  simp only at hp hp' hm ht hlen hsame hflags
  subst hp hp' hm ht
  obtain ⟨log1, h1⟩ := ReadHeader_outcome file log m table
  obtain ⟨log2, h2⟩ := ReadHeader_outcome file' log' m table
  rw [← headerOutcome_congr file file' hlen hsame hflags] at h2
  unfold ContentReader.ReadXnb
  cases hres : (headerOutcome file).1 with
  | error e =>
    rw [hres] at h1 h2
    rw [Method.bind_error h1, Method.bind_error h2]
    exact ⟨rfl, rfl, rfl, rfl⟩
  | ok endPosition =>
    have hpos := headerOutcome_ok_position file endPosition hres
    rw [hres, hpos] at h1 h2
    rw [Method.bind_ok h1, Method.bind_ok h2]
    have h := ReadXnb_afterHeader_respects fuel endPosition
      ⟨⟨file, 10⟩, log1, m, table⟩ ⟨⟨file', 10⟩, log2, m, table⟩
      ⟨⟨rfl, hlen, fun i hi => hsame i (by simp only at hi; omega)
        (by simp only at hi; omega) (by simp only at hi; omega)⟩, rfl, rfl⟩
    exact ⟨h.1, h.2.1.1, h.2.2.2, h.2.2.1⟩

set_option maxRecDepth 100000 in
/-- C19, witness: the example file against the same file marked as an Xbox 360
file of format version 4 with the HiDef profile; both parse to the end, at
position 65, with a table of one reader. -/
theorem ReadXnb_ignores_platform_version_profile_witness :
    byteAt exampleXnb 3 ≠ byteAt exampleXnbXbox 3 ∧
    byteAt exampleXnb 4 ≠ byteAt exampleXnbXbox 4 ∧
    byteAt exampleXnb 5 ≠ byteAt exampleXnbXbox 5 ∧
    (ContentReader.ReadXnb 1 (ContentReader.new exampleXnb standardManager)).1 = .ok () ∧
    (ContentReader.ReadXnb 1 (ContentReader.new exampleXnb standardManager)).1 =
      (ContentReader.ReadXnb 1 (ContentReader.new exampleXnbXbox standardManager)).1 ∧
    (ContentReader.ReadXnb 1 (ContentReader.new exampleXnb standardManager)).2.position =
      (ContentReader.ReadXnb 1 (ContentReader.new exampleXnbXbox standardManager)).2.position ∧
    (ContentReader.ReadXnb 1 (ContentReader.new exampleXnb standardManager)).2.typeReaders =
      (ContentReader.ReadXnb 1
        (ContentReader.new exampleXnbXbox standardManager)).2.typeReaders ∧
    (ContentReader.ReadXnb 1 (ContentReader.new exampleXnb standardManager)).2.typeReaderManager =
      (ContentReader.ReadXnb 1
        (ContentReader.new exampleXnbXbox standardManager)).2.typeReaderManager :=
  ⟨by decide, by decide, by decide, by decide!,
    ReadXnb_ignores_platform_version_profile 1 (ContentReader.new exampleXnb standardManager)
      (ContentReader.new exampleXnbXbox standardManager) rfl rfl rfl rfl (by decide)
      (fun i h3 h4 h5 =>
        match i, h3, h4, h5 with
        | 0, _, _, _ => rfl
        | 1, _, _, _ => rfl
        | 2, _, _, _ => rfl
        | 3, h3, _, _ => absurd rfl h3
        | 4, _, h4, _ => absurd rfl h4
        | 5, _, _, h5 => absurd rfl h5
        | _ + 6, _, _, _ => rfl)
      (by decide)⟩

/-! ## C20: the order of the payload -/

set_option maxRecDepth 100000 in
/-- C20, counterexample: the example file, whose manifest ends at offset 59 and is
followed by the bytes 0 (the shared-resource count), 1 (the type id of the
primary asset) and the 32-bit integer 42.  `ReadXnb` parses it to the end, while
the order of the claim (the primary asset before the count) takes the byte 0 for
the type id of a null primary asset, the byte 1 for the count, and fails on the
byte 42 as the type id of the first shared resource. -/
theorem ReadXnb_payload_order_counterexample :
    (ContentReader.ReadXnb 1 (ContentReader.new exampleXnb standardManager)).1 = .ok () ∧
    (ContentReader.specifiedReadXnb 1 (ContentReader.new exampleXnb standardManager)).1 =
      .error .typeIdOutOfRange ∧
    (ContentReader.ReadTypeManifest
      (ContentReader.ReadHeader
        (ContentReader.new exampleXnb standardManager)).2).2.position = 59 ∧
    exampleXnb.drop 59 = [0, 1, 42, 0, 0, 0] ∧
    (ContentReader.ReadXnb 1 (ContentReader.new exampleXnb standardManager)).2.position = 65 ∧
    (ContentReader.specifiedReadXnb 1
      (ContentReader.new exampleXnb standardManager)).2.position = 62 := by
  decide!

/-- C20: the payload phase of `ReadXnb` reads the shared-resource count `S` as a
7-bit encoded integer right after the manifest, then decodes the primary asset
with `ReadObject`, then makes `S` further `ReadObject` calls: `ReadXnb` returns
normally exactly when the header, the manifest, the count, the primary asset and
the `S` shared resources are read in this order, each from the state the step
before it left, and the position reached is the end position of the header. -/
theorem ReadXnb_payload_order (fuel : Nat) (r r' : ContentReader) :
    ContentReader.ReadXnb fuel r = (.ok (), r') ↔
      ∃ endPosition r1 r2 S r3 r4 r5,
        ContentReader.ReadHeader r = (.ok endPosition, r1) ∧
        ContentReader.ReadTypeManifest r1 = (.ok (), r2) ∧
        ContentReader.Read7BitEncodedInt r2 = (.ok S, r3) ∧
        ContentReader.WriteLine "Asset:" [] r3 = (.ok (), r4) ∧
        ContentReader.ReadObject (TypeReader.Read fuel) r4 = (.ok (), r5) ∧
        forLoop S (fun i => do
          ContentReader.WriteLine "Shared resource %d:" [.nat i]
          ContentReader.ReadObject (TypeReader.Read fuel)) r5 = (.ok (), r') ∧
        r'.FilePosition = endPosition := by
  unfold ContentReader.ReadXnb
  constructor
  · intro h
    obtain ⟨endPosition, s1, h1, hA⟩ := (Method.bind_eq_ok _ _ _ _ _).1 h
    obtain ⟨u2, s2, h2, hB⟩ := (Method.bind_eq_ok _ _ _ _ _).1 hA
    obtain ⟨S, s3, h3, hC⟩ := (Method.bind_eq_ok _ _ _ _ _).1 hB
    obtain ⟨u4, s4, h4, hD⟩ := (Method.bind_eq_ok _ _ _ _ _).1 hC
    obtain ⟨u5, s5, h5, hE⟩ := (Method.bind_eq_ok _ _ _ _ _).1 hD
    obtain ⟨u6, s6, h6, hF⟩ := (Method.bind_eq_ok _ _ _ _ _).1 hE
    obtain ⟨r7, s7, h7, hG⟩ := (Method.bind_eq_ok _ _ _ _ _).1 hF
    clear h hA hB hC hD hE hF
    simp only [Method.get_apply, Prod.mk.injEq, Except.ok.injEq] at h7
    obtain ⟨e7, e7'⟩ := h7
    subst e7 e7'
    rw [Method.ite_apply] at hG
    split at hG
    · simp at hG
    rename_i hend
    rw [Method.pure_apply] at hG
    have hr' : s6 = r' := (Prod.mk.inj hG).2
    subst hr'
    exact ⟨endPosition, s1, s2, S, s3, s4, s5, h1, h2, h3, h4, h5, h6, not_not.1 hend⟩
  · rintro ⟨endPosition, r1, r2, S, r3, r4, r5, h1, h2, h3, h4, h5, h6, hend⟩
    rw [Method.bind_ok h1, Method.bind_ok h2, Method.bind_ok h3, Method.bind_ok h4,
      Method.bind_ok h5, Method.bind_ok h6,
      Method.bind_ok (rfl : Method.get r' = (.ok r', r')), Method.ite_apply,
      if_neg (not_not.2 hend)]
    rfl

set_option maxRecDepth 100000 in
/-- C20, witness: the example file, which `ReadXnb` parses to its end, is read in
this order. -/
theorem ReadXnb_payload_order_witness :
    ∃ r', ContentReader.ReadXnb 1 (ContentReader.new exampleXnb standardManager) = (.ok (), r') ∧
      ∃ endPosition r1 r2 S r3 r4 r5,
        ContentReader.ReadHeader (ContentReader.new exampleXnb standardManager) =
          (.ok endPosition, r1) ∧
        ContentReader.ReadTypeManifest r1 = (.ok (), r2) ∧
        ContentReader.Read7BitEncodedInt r2 = (.ok S, r3) ∧
        ContentReader.WriteLine "Asset:" [] r3 = (.ok (), r4) ∧
        ContentReader.ReadObject (TypeReader.Read 1) r4 = (.ok (), r5) ∧
        forLoop S (fun i => do
          ContentReader.WriteLine "Shared resource %d:" [.nat i]
          ContentReader.ReadObject (TypeReader.Read 1)) r5 = (.ok (), r') ∧
        r'.FilePosition = endPosition :=
  have h : (ContentReader.ReadXnb 1 (ContentReader.new exampleXnb standardManager)).1 =
      .ok () := by decide!
  ⟨_, Method.eq_ok_of_fst h, (ReadXnb_payload_order 1 _ _).1 (Method.eq_ok_of_fst h)⟩

/-! ## C21: the minimal frame -/

set_option maxRecDepth 100000 in
/-- C21, counterexample: on the 13-byte file `58 4E 42 77 05 00 0A 00 00 00 00 00
00` with the standard registry `ReadXnb` raises the end-position error: the header
declares 10 bytes, and after the manifest count, the shared-resource count and the
null tag the file position is 13. -/
theorem ReadXnb_minimalFrame_counterexample :
    minimalFrame.length = 13 ∧
    declaredSize minimalFrame 0 = 10 ∧
    (ContentReader.ReadXnb 1 (ContentReader.new minimalFrame standardManager)).1 =
      .error .endPositionMismatch ∧
    (ContentReader.ReadXnb 1 (ContentReader.new minimalFrame standardManager)).2.position = 13 := by
  decide!

set_option maxRecDepth 100000 in
/-- C21: on the 13-byte file `58 4E 42 77 05 00 0D 00 00 00 00 00 00`, whose
header declares the 13 bytes of the file, `ReadXnb` with the standard registry
completes without an error, whatever the fuel: the header is accepted, the
manifest has no entry, the primary asset is reported as null, and the whole file
is read.  On the file that declares 10 bytes the same steps are done and print
the same, before the check of the end position fails. -/
theorem ReadXnb_minimalFrame :
    (∀ fuel, (ContentReader.ReadXnb fuel
        (ContentReader.new minimalFrameSized standardManager)).1 = .ok ()) ∧
    (ContentReader.ReadHeader (ContentReader.new minimalFrameSized standardManager)).1 =
      .ok 13 ∧
    (ContentReader.ReadXnb 1
      (ContentReader.new minimalFrameSized standardManager)).2.typeReaders = [] ∧
    (ContentReader.ReadXnb 1
      (ContentReader.new minimalFrameSized standardManager)).2.Log.output =
        minimalFrameOutput ∧
    (ContentReader.ReadXnb 1
      (ContentReader.new minimalFrameSized standardManager)).2.position = 13 ∧
    (ContentReader.ReadHeader (ContentReader.new minimalFrame standardManager)).1 = .ok 10 ∧
    (ContentReader.ReadXnb 1 (ContentReader.new minimalFrame standardManager)).2.typeReaders =
      [] ∧
    (ContentReader.ReadXnb 1 (ContentReader.new minimalFrame standardManager)).2.Log.output =
      minimalFrameOutput := by
  refine ⟨fun fuel => ?_, by decide!, by decide!, by decide!, by decide!, by decide!,
    by decide!, by decide!⟩
  rfl

/-! ## Lemmas: little-endian integers -/

theorem byteAt_append_add (pre file : List Nat) (i : Nat) :
    byteAt (pre ++ file) (pre.length + i) = byteAt file i := by
  unfold byteAt
  rw [List.getD_eq_getElem?_getD, List.getD_eq_getElem?_getD,
    List.getElem?_append_right (by omega)]
  simp

theorem byteAt_cons_succ (b : Nat) (file : List Nat) (i : Nat) :
    byteAt (b :: file) (i + 1) = byteAt file i := by
  unfold byteAt
  simp

theorem byteAt_cons_zero (b : Nat) (file : List Nat) : byteAt (b :: file) 0 = b % 256 := by
  unfold byteAt
  simp

theorem or_shiftLeft_eq_add (a b k : Nat) (h : a < 2 ^ k) : a ||| (b <<< k) = a + 2 ^ k * b := by
  have := @Nat.mul_add_lt_is_or k a h b
  rw [Nat.lor_comm, Nat.shiftLeft_eq, Nat.mul_comm, ← this, Nat.add_comm]

theorem uint16_of_bytes (b1 b2 : Nat) (h1 : b1 < 256) : b1 ||| (b2 <<< 8) = b1 + 256 * b2 :=
  or_shiftLeft_eq_add b1 b2 8 h1

theorem uint64_of_bytes (b1 b2 b3 b4 b5 b6 b7 b8 : Nat) (h1 : b1 < 256) (h2 : b2 < 256)
    (h3 : b3 < 256) (h4 : b4 < 256) (h5 : b5 < 256) (h6 : b6 < 256) (h7 : b7 < 256) :
    b1 ||| (b2 <<< 8) ||| (b3 <<< 16) ||| (b4 <<< 24) ||| (b5 <<< 32) ||| (b6 <<< 40) |||
        (b7 <<< 48) ||| (b8 <<< 56) =
      b1 + 2 ^ 8 * b2 + 2 ^ 16 * b3 + 2 ^ 24 * b4 + 2 ^ 32 * b5 + 2 ^ 40 * b6 + 2 ^ 48 * b7 +
        2 ^ 56 * b8 := by
  rw [or_shiftLeft_eq_add b1 b2 8 h1,
    or_shiftLeft_eq_add _ b3 16 (by omega),
    or_shiftLeft_eq_add _ b4 24 (by omega),
    or_shiftLeft_eq_add _ b5 32 (by omega),
    or_shiftLeft_eq_add _ b6 40 (by omega),
    or_shiftLeft_eq_add _ b7 48 (by omega),
    or_shiftLeft_eq_add _ b8 56 (by omega)]

theorem BinaryReader.ReadByte_step_ok {α : Type} (file : List Nat) (position : Nat)
    (f : Nat → Method BinaryReader α) (h : position < file.length) :
    (BinaryReader.ReadByte >>= f) ⟨file, position⟩ =
      f (byteAt file position) ⟨file, position + 1⟩ := by
  have : BinaryReader.ReadByte ⟨file, position⟩ =
      (.ok (byteAt file position), ⟨file, position + 1⟩) := by
    rw [BinaryReader.ReadByte_apply, if_pos h]
  exact Method.bind_ok this

theorem BinaryReader.ReadUInt16_ok (file : List Nat) (position : Nat)
    (h : position + 2 ≤ file.length) :
    BinaryReader.ReadUInt16 ⟨file, position⟩ =
      (.ok (byteAt file position + 256 * byteAt file (position + 1)),
        ⟨file, position + 2⟩) := by
  unfold BinaryReader.ReadUInt16
  rw [BinaryReader.ReadByte_step_ok _ _ _ (by omega),
    BinaryReader.ReadByte_step_ok _ _ _ (by omega),
    uint16_of_bytes _ _ (byteAt_lt _ _)]
  rfl

theorem BinaryReader.ReadUInt32_ok (file : List Nat) (position : Nat)
    (h : position + 4 ≤ file.length) :
    BinaryReader.ReadUInt32 ⟨file, position⟩ =
      (.ok (byteAt file position + 256 * byteAt file (position + 1) +
          65536 * byteAt file (position + 2) + 16777216 * byteAt file (position + 3)),
        ⟨file, position + 4⟩) := by
  rw [BinaryReader.ReadUInt32_apply file position (by omega), if_pos h]

theorem BinaryReader.ReadUInt64_ok (file : List Nat) (position : Nat)
    (h : position + 8 ≤ file.length) :
    BinaryReader.ReadUInt64 ⟨file, position⟩ =
      (.ok (byteAt file position + 2 ^ 8 * byteAt file (position + 1) +
          2 ^ 16 * byteAt file (position + 2) + 2 ^ 24 * byteAt file (position + 3) +
          2 ^ 32 * byteAt file (position + 4) + 2 ^ 40 * byteAt file (position + 5) +
          2 ^ 48 * byteAt file (position + 6) + 2 ^ 56 * byteAt file (position + 7)),
        ⟨file, position + 8⟩) := by
  unfold BinaryReader.ReadUInt64
  rw [BinaryReader.ReadByte_step_ok _ _ _ (by omega),
    BinaryReader.ReadByte_step_ok _ _ _ (by omega),
    BinaryReader.ReadByte_step_ok _ _ _ (by omega),
    BinaryReader.ReadByte_step_ok _ _ _ (by omega),
    BinaryReader.ReadByte_step_ok _ _ _ (by omega),
    BinaryReader.ReadByte_step_ok _ _ _ (by omega),
    BinaryReader.ReadByte_step_ok _ _ _ (by omega),
    BinaryReader.ReadByte_step_ok _ _ _ (by omega),
    uint64_of_bytes _ _ _ _ _ _ _ _ (byteAt_lt _ _) (byteAt_lt _ _) (byteAt_lt _ _)
      (byteAt_lt _ _) (byteAt_lt _ _) (byteAt_lt _ _) (byteAt_lt _ _)]
  rfl

theorem length_littleEndian (k n : Nat) : (littleEndian k n).length = k := by
  induction k generalizing n with
  | zero => rfl
  | succ k ih => simp [littleEndian, ih]

theorem byteAt_littleEndian_two (n : Nat) (rest : List Nat) :
    byteAt (littleEndian 2 n ++ rest) 0 = n % 256 ∧
      byteAt (littleEndian 2 n ++ rest) 1 = n / 256 % 256 := by
  simp [littleEndian, byteAt]

theorem byteAt_littleEndian_four (n : Nat) (rest : List Nat) :
    byteAt (littleEndian 4 n ++ rest) 0 = n % 256 ∧
      byteAt (littleEndian 4 n ++ rest) 1 = n / 256 % 256 ∧
      byteAt (littleEndian 4 n ++ rest) 2 = n / 256 / 256 % 256 ∧
      byteAt (littleEndian 4 n ++ rest) 3 = n / 256 / 256 / 256 % 256 := by
  simp [littleEndian, byteAt]

theorem byteAt_littleEndian_eight (n : Nat) (rest : List Nat) :
    byteAt (littleEndian 8 n ++ rest) 0 = n % 256 ∧
      byteAt (littleEndian 8 n ++ rest) 1 = n / 256 % 256 ∧
      byteAt (littleEndian 8 n ++ rest) 2 = n / 256 / 256 % 256 ∧
      byteAt (littleEndian 8 n ++ rest) 3 = n / 256 / 256 / 256 % 256 ∧
      byteAt (littleEndian 8 n ++ rest) 4 = n / 256 / 256 / 256 / 256 % 256 ∧
      byteAt (littleEndian 8 n ++ rest) 5 = n / 256 / 256 / 256 / 256 / 256 % 256 ∧
      byteAt (littleEndian 8 n ++ rest) 6 = n / 256 / 256 / 256 / 256 / 256 / 256 % 256 ∧
      byteAt (littleEndian 8 n ++ rest) 7 =
        n / 256 / 256 / 256 / 256 / 256 / 256 / 256 % 256 := by
  simp [littleEndian, byteAt]

/-- `ReadUInt16` on the two little-endian bytes of `n`. -/
theorem BinaryReader.ReadUInt16_littleEndian (pre rest : List Nat) (n : Nat) (h : n < 2 ^ 16) :
    BinaryReader.ReadUInt16 ⟨pre ++ (littleEndian 2 n ++ rest), pre.length⟩ =
      (.ok n, ⟨pre ++ (littleEndian 2 n ++ rest), pre.length + 2⟩) := by
  have hlen := length_littleEndian 2 n
  rw [BinaryReader.ReadUInt16_ok _ _ (by simp only [List.length_append]; omega)]
  have h0 := byteAt_append_add pre (littleEndian 2 n ++ rest) 0
  rw [Nat.add_zero] at h0
  rw [h0, byteAt_append_add, (byteAt_littleEndian_two n rest).1,
    (byteAt_littleEndian_two n rest).2]
  have : n % 256 + 256 * (n / 256 % 256) = n := by omega
  rw [this]

/-- `ReadUInt32` on the four little-endian bytes of `n`. -/
theorem BinaryReader.ReadUInt32_littleEndian (pre rest : List Nat) (n : Nat) (h : n < 2 ^ 32) :
    BinaryReader.ReadUInt32 ⟨pre ++ (littleEndian 4 n ++ rest), pre.length⟩ =
      (.ok n, ⟨pre ++ (littleEndian 4 n ++ rest), pre.length + 4⟩) := by
  have hlen := length_littleEndian 4 n
  rw [BinaryReader.ReadUInt32_ok _ _ (by simp only [List.length_append]; omega)]
  have h0 := byteAt_append_add pre (littleEndian 4 n ++ rest) 0
  rw [Nat.add_zero] at h0
  obtain ⟨e0, e1, e2, e3⟩ := byteAt_littleEndian_four n rest
  rw [h0, byteAt_append_add, byteAt_append_add, byteAt_append_add, e0, e1, e2, e3]
  have : n % 256 + 256 * (n / 256 % 256) + 65536 * (n / 256 / 256 % 256) +
      16777216 * (n / 256 / 256 / 256 % 256) = n := by omega
  rw [this]

/-- `ReadUInt64` on the eight little-endian bytes of `n`. -/
theorem BinaryReader.ReadUInt64_littleEndian (pre rest : List Nat) (n : Nat) (h : n < 2 ^ 64) :
    BinaryReader.ReadUInt64 ⟨pre ++ (littleEndian 8 n ++ rest), pre.length⟩ =
      (.ok n, ⟨pre ++ (littleEndian 8 n ++ rest), pre.length + 8⟩) := by
  have hlen := length_littleEndian 8 n
  rw [BinaryReader.ReadUInt64_ok _ _ (by simp only [List.length_append]; omega)]
  have h0 := byteAt_append_add pre (littleEndian 8 n ++ rest) 0
  rw [Nat.add_zero] at h0
  obtain ⟨e0, e1, e2, e3, e4, e5, e6, e7⟩ := byteAt_littleEndian_eight n rest
  rw [h0, byteAt_append_add, byteAt_append_add, byteAt_append_add, byteAt_append_add,
    byteAt_append_add, byteAt_append_add, byteAt_append_add, e0, e1, e2, e3, e4, e5, e6, e7]
  have : n % 256 + 2 ^ 8 * (n / 256 % 256) + 2 ^ 16 * (n / 256 / 256 % 256) +
      2 ^ 24 * (n / 256 / 256 / 256 % 256) + 2 ^ 32 * (n / 256 / 256 / 256 / 256 % 256) +
      2 ^ 40 * (n / 256 / 256 / 256 / 256 / 256 % 256) +
      2 ^ 48 * (n / 256 / 256 / 256 / 256 / 256 / 256 % 256) +
      2 ^ 56 * (n / 256 / 256 / 256 / 256 / 256 / 256 / 256 % 256) = n := by omega
  rw [this]

/-- C25: for each width `w` of 16, 32 and 64 bits and every `n < 2^w`,
`ReadUInt<w>` applied to the `w/8` little-endian bytes of `n` (anywhere in a
file) returns `n` and consumes exactly these `w/8` bytes, and `ReadInt<w>` on the
same bytes returns the two's-complement reinterpretation of `n`: `n` when
`n < 2^(w-1)`, else `n - 2^w`; likewise `ReadSByte` on the one byte `n < 2^8`. -/
theorem ReadInt_littleEndian (pre rest : List Nat) (n : Nat) :
    (n < 2 ^ 16 →
      BinaryReader.ReadUInt16 ⟨pre ++ littleEndian 2 n ++ rest, pre.length⟩ =
        (.ok n, ⟨pre ++ littleEndian 2 n ++ rest, pre.length + 2⟩) ∧
      BinaryReader.ReadInt16 ⟨pre ++ littleEndian 2 n ++ rest, pre.length⟩ =
        (.ok (if n < 2 ^ 15 then (n : Int) else (n : Int) - 2 ^ 16),
          ⟨pre ++ littleEndian 2 n ++ rest, pre.length + 2⟩)) ∧
    (n < 2 ^ 32 →
      BinaryReader.ReadUInt32 ⟨pre ++ littleEndian 4 n ++ rest, pre.length⟩ =
        (.ok n, ⟨pre ++ littleEndian 4 n ++ rest, pre.length + 4⟩) ∧
      BinaryReader.ReadInt32 ⟨pre ++ littleEndian 4 n ++ rest, pre.length⟩ =
        (.ok (if n < 2 ^ 31 then (n : Int) else (n : Int) - 2 ^ 32),
          ⟨pre ++ littleEndian 4 n ++ rest, pre.length + 4⟩)) ∧
    (n < 2 ^ 64 →
      BinaryReader.ReadUInt64 ⟨pre ++ littleEndian 8 n ++ rest, pre.length⟩ =
        (.ok n, ⟨pre ++ littleEndian 8 n ++ rest, pre.length + 8⟩) ∧
      BinaryReader.ReadInt64 ⟨pre ++ littleEndian 8 n ++ rest, pre.length⟩ =
        (.ok (if n < 2 ^ 63 then (n : Int) else (n : Int) - 2 ^ 64),
          ⟨pre ++ littleEndian 8 n ++ rest, pre.length + 8⟩)) ∧
    (n < 2 ^ 8 →
      BinaryReader.ReadSByte ⟨pre ++ littleEndian 1 n ++ rest, pre.length⟩ =
        (.ok (if n < 2 ^ 7 then (n : Int) else (n : Int) - 2 ^ 8),
          ⟨pre ++ littleEndian 1 n ++ rest, pre.length + 1⟩)) := by
  simp only [List.append_assoc]
  refine ⟨fun h => ?_, fun h => ?_, fun h => ?_, fun h => ?_⟩
  · refine ⟨BinaryReader.ReadUInt16_littleEndian pre rest n h, ?_⟩
    unfold BinaryReader.ReadInt16
    rw [Method.bind_ok (BinaryReader.ReadUInt16_littleEndian pre rest n h)]
    rfl
  · refine ⟨BinaryReader.ReadUInt32_littleEndian pre rest n h, ?_⟩
    unfold BinaryReader.ReadInt32
    rw [Method.bind_ok (BinaryReader.ReadUInt32_littleEndian pre rest n h)]
    rfl
  · refine ⟨BinaryReader.ReadUInt64_littleEndian pre rest n h, ?_⟩
    unfold BinaryReader.ReadInt64
    rw [Method.bind_ok (BinaryReader.ReadUInt64_littleEndian pre rest n h)]
    rfl
  · unfold BinaryReader.ReadSByte
    have hlen : pre.length < (pre ++ (littleEndian 1 n ++ rest)).length := by
      simp [littleEndian]
    rw [BinaryReader.ReadByte_step_ok _ _ _ hlen]
    have h0 := byteAt_append_add pre (littleEndian 1 n ++ rest) 0
    rw [Nat.add_zero] at h0
    have hb : byteAt (littleEndian 1 n ++ rest) 0 = n := by
      simp only [littleEndian, List.cons_append, byteAt_cons_zero]
      omega
    rw [h0, hb]
    rfl

/-- C25, witness: the patterns `FFFE`, `80000000`, `FFFFFFFFFFFFFFFF` and `80`
after one byte of a file, read unsigned and as -2, -2147483648, -1 and -128. -/
theorem ReadInt_littleEndian_witness :
    (BinaryReader.ReadUInt16 ⟨[7] ++ littleEndian 2 65534 ++ [9], 1⟩ =
        (.ok 65534, ⟨[7] ++ littleEndian 2 65534 ++ [9], 1 + 2⟩) ∧
      BinaryReader.ReadInt16 ⟨[7] ++ littleEndian 2 65534 ++ [9], 1⟩ =
        (.ok (-2), ⟨[7] ++ littleEndian 2 65534 ++ [9], 1 + 2⟩)) ∧
    (BinaryReader.ReadUInt32 ⟨[7] ++ littleEndian 4 2147483648 ++ [9], 1⟩ =
        (.ok 2147483648, ⟨[7] ++ littleEndian 4 2147483648 ++ [9], 1 + 4⟩) ∧
      BinaryReader.ReadInt32 ⟨[7] ++ littleEndian 4 2147483648 ++ [9], 1⟩ =
        (.ok (-2147483648), ⟨[7] ++ littleEndian 4 2147483648 ++ [9], 1 + 4⟩)) ∧
    (BinaryReader.ReadUInt64 ⟨[7] ++ littleEndian 8 18446744073709551615 ++ [9], 1⟩ =
        (.ok 18446744073709551615,
          ⟨[7] ++ littleEndian 8 18446744073709551615 ++ [9], 1 + 8⟩) ∧
      BinaryReader.ReadInt64 ⟨[7] ++ littleEndian 8 18446744073709551615 ++ [9], 1⟩ =
        (.ok (-1), ⟨[7] ++ littleEndian 8 18446744073709551615 ++ [9], 1 + 8⟩)) ∧
    BinaryReader.ReadSByte ⟨[7] ++ littleEndian 1 128 ++ [9], 1⟩ =
      (.ok (-128), ⟨[7] ++ littleEndian 1 128 ++ [9], 1 + 1⟩) :=
  ⟨(ReadInt_littleEndian [7] [9] 65534).1 (by decide),
    (ReadInt_littleEndian [7] [9] 2147483648).2.1 (by decide),
    (ReadInt_littleEndian [7] [9] 18446744073709551615).2.2.1 (by decide),
    (ReadInt_littleEndian [7] [9] 128).2.2.2 (by decide)⟩

/-! ## Lemmas: `Read7BitEncodedInt` -/

theorem encode7Bit.go_fuel (fuel fuel' n : Nat) (h : n ≤ fuel) (h' : n ≤ fuel') :
    encode7Bit.go fuel n = encode7Bit.go fuel' n := by
  induction fuel generalizing fuel' n with
  | zero =>
    have : n = 0 := by omega
    subst this
    cases fuel' with
    | zero => rfl
    | succ fuel' => rfl
  | succ fuel ih =>
    cases fuel' with
    | zero =>
      have : n = 0 := by omega
      subst this
      rfl
    | succ fuel' =>
      unfold encode7Bit.go
      by_cases hn : n < 128
      · rw [if_pos hn, if_pos hn]
      · rw [if_neg hn, if_neg hn, ih fuel' (n / 128) (by omega) (by omega)]

theorem encode7Bit_eq (n : Nat) :
    encode7Bit n = if n < 128 then [n] else (n % 128 + 128) :: encode7Bit (n / 128) := by
  cases n with
  | zero => rfl
  | succ k =>
    unfold encode7Bit
    rw [encode7Bit.go]
    by_cases hn : k + 1 < 128
    · rw [if_pos hn, if_pos hn]
    · rw [if_neg hn, if_neg hn,
        encode7Bit.go_fuel k ((k + 1) / 128) ((k + 1) / 128) (by omega) (Nat.le_refl _)]

theorem encode7Bit_small (n : Nat) (h : n < 128) : encode7Bit n = [n] := by
  rw [encode7Bit_eq, if_pos h]

theorem encode7Bit_large (n : Nat) (h : 128 ≤ n) :
    encode7Bit n = (n % 128 + 128) :: encode7Bit (n / 128) := by
  rw [encode7Bit_eq, if_neg (by omega)]

set_option maxRecDepth 100000 in
theorem byte_low7 : ∀ b, b < 256 → b &&& 127 = b % 128 := by decide

theorem BinaryReader.Read7BitEncodedInt_loop_step (fuel result bitsRead : Nat)
    (file : List Nat) (position : Nat) (hp : position < file.length) (hb : bitsRead < 32) :
    BinaryReader.Read7BitEncodedInt.loop (fuel + 1) result bitsRead ⟨file, position⟩ =
      if 128 ≤ byteAt file position then
        BinaryReader.Read7BitEncodedInt.loop fuel
          (result ||| ((byteAt file position % 128) <<< bitsRead) % 2 ^ 32) (bitsRead + 7)
          ⟨file, position + 1⟩
      else
        (.ok (result ||| ((byteAt file position % 128) <<< bitsRead) % 2 ^ 32),
          ⟨file, position + 1⟩) := by
  rw [BinaryReader.Read7BitEncodedInt.loop, BinaryReader.ReadByte_step_ok _ _ _ hp,
    if_neg (by omega)]
  have hlt := byteAt_lt file position
  have h7 : byteAt file position &&& 0x7f = byteAt file position % 128 := byte_low7 _ hlt
  have h8 := byte_bit7 _ hlt
  rw [h7]
  by_cases hc : 128 ≤ byteAt file position
  · rw [if_pos hc, if_pos (h8.2 hc)]
  · rw [if_neg hc, if_neg (fun h => hc (h8.1 h))]
    rfl

theorem varuint_accumulate (result v k : Nat) (hr : result < 2 ^ k) (hv : 2 ^ k * v < 2 ^ 32) :
    result ||| (v <<< k) % 2 ^ 32 = result + 2 ^ k * v := by
  rw [Nat.shiftLeft_eq, Nat.mul_comm, Nat.mod_eq_of_lt hv]
  have := or_shiftLeft_eq_add result v k hr
  rwa [Nat.shiftLeft_eq, Nat.mul_comm] at this

theorem length_encode7Bit_pos (n : Nat) : 1 ≤ (encode7Bit n).length := by
  rw [encode7Bit_eq]
  split <;> simp

theorem BinaryReader.Read7BitEncodedInt_loop_encode (fuel k result m : Nat)
    (pre rest : List Nat) (hfuel : fuel + k = 6) (hk : k ≤ 4) (hr : result < 2 ^ (7 * k))
    (hm : 2 ^ (7 * k) * m < 2 ^ 32) :
    BinaryReader.Read7BitEncodedInt.loop fuel result (7 * k)
        ⟨pre ++ (encode7Bit m ++ rest), pre.length⟩ =
      (.ok (result + 2 ^ (7 * k) * m),
        ⟨pre ++ (encode7Bit m ++ rest), pre.length + (encode7Bit m).length⟩) := by
  induction fuel generalizing k result m pre with
  | zero => omega
  | succ fuel ih =>
    have hpos : pre.length < (pre ++ (encode7Bit m ++ rest)).length := by
      have := length_encode7Bit_pos m
      simp only [List.length_append]
      omega
    rw [BinaryReader.Read7BitEncodedInt_loop_step _ _ _ _ _ hpos (by omega)]
    have h0 := byteAt_append_add pre (encode7Bit m ++ rest) 0
    rw [Nat.add_zero] at h0
    rw [h0]
    by_cases hsmall : m < 128
    · rw [encode7Bit_small m hsmall]
      have hb : byteAt ([m] ++ rest) 0 = m := by
        rw [List.singleton_append, byteAt_cons_zero]
        omega
      rw [hb, if_neg (by omega), Nat.mod_eq_of_lt hsmall, varuint_accumulate _ _ _ hr hm]
      rfl
    · have hlarge : 128 ≤ m := by omega
      rw [encode7Bit_large m hlarge]
      have hb : byteAt ((m % 128 + 128) :: encode7Bit (m / 128) ++ rest) 0 = m % 128 + 128 := by
        rw [List.cons_append, byteAt_cons_zero]
        omega
      have hmod : (m % 128 + 128) % 128 = m % 128 := by omega
      have hpow : 2 ^ (7 * (k + 1)) = 2 ^ (7 * k) * 128 := by
        rw [Nat.mul_add, Nat.pow_add]
      have hpos2 : 0 < 2 ^ (7 * k) := Nat.two_pow_pos _
      have hsplit : 2 ^ (7 * k) * m =
          2 ^ (7 * k) * (m % 128) + 2 ^ (7 * k) * 128 * (m / 128) := by
        rw [Nat.mul_assoc, ← Nat.mul_add, Nat.add_comm, Nat.div_add_mod]
      have hlow : 2 ^ (7 * k) * (m % 128) < 2 ^ 32 := by omega
      have hk3 : k ≤ 3 := by
        by_contra hc
        have hk4 : k = 4 := by omega
        subst hk4
        omega
      have hbound : 2 ^ (7 * k) * (m % 128) ≤ 2 ^ (7 * k) * 127 :=
        Nat.mul_le_mul_left _ (by omega)
      rw [hb, if_pos (by omega), hmod, varuint_accumulate _ _ _ hr hlow]
      have hfile : pre ++ ((m % 128 + 128) :: encode7Bit (m / 128) ++ rest) =
          (pre ++ [m % 128 + 128]) ++ (encode7Bit (m / 128) ++ rest) := by
        simp only [List.append_assoc, List.cons_append, List.nil_append]
      have hlen : pre.length + 1 = (pre ++ [m % 128 + 128]).length := by
        simp only [List.length_append, List.length_cons, List.length_nil]
      rw [hfile, hlen]
      have hstep := ih (k + 1) (result + 2 ^ (7 * k) * (m % 128)) (m / 128)
        (pre ++ [m % 128 + 128]) (by omega) (by omega) (by rw [hpow]; omega)
        (by rw [hpow]; omega)
      have hbits : 7 * k + 7 = 7 * (k + 1) := by omega
      rw [hbits, hstep, hpow]
      have hres : result + 2 ^ (7 * k) * (m % 128) + 2 ^ (7 * k) * 128 * (m / 128) =
          result + 2 ^ (7 * k) * m := by omega
      have hend : (pre ++ [m % 128 + 128]).length + (encode7Bit (m / 128)).length =
          pre.length + ((m % 128 + 128) :: encode7Bit (m / 128)).length := by
        simp only [List.length_append, List.length_cons, List.length_nil]
        omega
      rw [hres, hend]

theorem length_encode7Bit_le (n : Nat) (h : n < 2 ^ 32) : (encode7Bit n).length ≤ 5 := by
  have h1 : ∀ m, m < 128 → (encode7Bit m).length = 1 := fun m hm => by
    rw [encode7Bit_small m hm]; rfl
  have h2 : ∀ m, m < 128 ^ 2 → (encode7Bit m).length ≤ 2 := fun m hm => by
    by_cases hs : m < 128
    · rw [h1 m hs]; omega
    · rw [encode7Bit_large m (by omega), List.length_cons, h1 (m / 128) (by omega)]
  have h3 : ∀ m, m < 128 ^ 3 → (encode7Bit m).length ≤ 3 := fun m hm => by
    by_cases hs : m < 128
    · rw [h1 m hs]; omega
    · rw [encode7Bit_large m (by omega), List.length_cons]
      have := h2 (m / 128) (by omega)
      omega
  have h4 : ∀ m, m < 128 ^ 4 → (encode7Bit m).length ≤ 4 := fun m hm => by
    by_cases hs : m < 128
    · rw [h1 m hs]; omega
    · rw [encode7Bit_large m (by omega), List.length_cons]
      have := h3 (m / 128) (by omega)
      omega
  by_cases hs : n < 128
  · rw [h1 n hs]; omega
  · rw [encode7Bit_large n (by omega), List.length_cons]
    have := h4 (n / 128) (by omega)
    omega

/-- C24: for every `n < 2^32`, `Read7BitEncodedInt` applied to the canonical
7-bit encoding of `n` (the low 7 bits first, the high bit set on every byte but
the last), anywhere in a file, returns `n` and consumes exactly the bytes of the
encoding, which are 1 to 5. -/
theorem Read7BitEncodedInt_encode7Bit (pre rest : List Nat) (n : Nat) (h : n < 2 ^ 32) :
    BinaryReader.Read7BitEncodedInt ⟨pre ++ encode7Bit n ++ rest, pre.length⟩ =
        (.ok n, ⟨pre ++ encode7Bit n ++ rest, pre.length + (encode7Bit n).length⟩) ∧
      1 ≤ (encode7Bit n).length ∧ (encode7Bit n).length ≤ 5 := by
  refine ⟨?_, length_encode7Bit_pos n, length_encode7Bit_le n h⟩
  rw [List.append_assoc]
  have := BinaryReader.Read7BitEncodedInt_loop_encode 6 0 0 n pre rest rfl (by omega)
    (by decide) (by omega)
  simp only [Nat.mul_zero, Nat.pow_zero, Nat.one_mul, Nat.zero_add] at this
  exact this

set_option maxRecDepth 100000 in
/-- C24, witness: `2^32 - 1` is encoded as `FF FF FF FF 0F` and read back after
one byte of a file. -/
theorem Read7BitEncodedInt_encode7Bit_witness :
    encode7Bit 4294967295 = [255, 255, 255, 255, 15] ∧
    BinaryReader.Read7BitEncodedInt ⟨[7] ++ encode7Bit 4294967295 ++ [9], 1⟩ =
        (.ok 4294967295, ⟨[7] ++ encode7Bit 4294967295 ++ [9],
          1 + (encode7Bit 4294967295).length⟩) ∧
      1 ≤ (encode7Bit 4294967295).length ∧ (encode7Bit 4294967295).length ≤ 5 :=
  ⟨by decide, Read7BitEncodedInt_encode7Bit [7] [9] 4294967295 (by decide)⟩

/-! ## Lemmas: `ReadChar` -/

set_option maxRecDepth 100000 in
theorem byte_low6 : ∀ b, b < 256 → b &&& 63 = b % 64 := by decide

set_option maxRecDepth 100000 in
theorem leadByte_two : ∀ b, b < 256 → 192 ≤ b → b < 224 →
    BinaryReader.ReadChar.countBytes b 8 1 = 2 ∧ b &&& ((1 <<< (8 - 2)) - 1) = b - 192 := by
  decide

set_option maxRecDepth 100000 in
theorem leadByte_three : ∀ b, b < 256 → 224 ≤ b → b < 240 →
    BinaryReader.ReadChar.countBytes b 8 1 = 3 ∧ b &&& ((1 <<< (8 - 3)) - 1) = b - 224 := by
  decide

set_option maxRecDepth 100000 in
theorem leadByte_four : ∀ b, b < 256 → 240 ≤ b → b < 248 →
    BinaryReader.ReadChar.countBytes b 8 1 = 4 ∧ b &&& ((1 <<< (8 - 4)) - 1) = b - 240 := by
  decide

set_option maxRecDepth 100000 in
theorem leadByte_mask : ∀ b, b < 256 → 128 ≤ b →
    BinaryReader.ReadChar.countBytes b 8 1 ≤ 8 ∧
    b &&& ((1 <<< (8 - BinaryReader.ReadChar.countBytes b 8 1)) - 1) =
      b % 2 ^ (7 - BinaryReader.ReadChar.countBytes b 8 1) := by
  decide

theorem utf8_accumulate (result x : Nat) (hx : x < 64) :
    (result <<< 6) % 2 ^ 16 ||| x = 64 * (result % 1024) + x := by
  have h1 : (result <<< 6) % 2 ^ 16 = (result % 1024) <<< 6 := by
    rw [Nat.shiftLeft_eq, Nat.shiftLeft_eq]
    omega
  have h2 := or_shiftLeft_eq_add x (result % 1024) 6 hx
  rw [h1, Nat.lor_comm, h2]
  omega

theorem BinaryReader.ReadChar_continuation_step (n result : Nat) (file : List Nat)
    (position : Nat) (hp : position < file.length) :
    BinaryReader.ReadChar.continuation (n + 1) result ⟨file, position⟩ =
      BinaryReader.ReadChar.continuation n
        (64 * (result % 1024) + byteAt file position % 64) ⟨file, position + 1⟩ := by
  rw [BinaryReader.ReadChar.continuation]
  rw [BinaryReader.ReadByte_step_ok _ _ _ hp, byte_low6 _ (byteAt_lt _ _),
    utf8_accumulate _ _ (Nat.mod_lt _ (by decide))]

theorem BinaryReader.ReadChar_lead (file : List Nat) (position : Nat)
    (hp : position < file.length) :
    BinaryReader.ReadChar ⟨file, position⟩ =
      if 128 ≤ byteAt file position then
        BinaryReader.ReadChar.continuation
          (BinaryReader.ReadChar.countBytes (byteAt file position) 8 1 - 1)
          (byteAt file position &&&
            ((1 <<< (8 - BinaryReader.ReadChar.countBytes (byteAt file position) 8 1)) - 1))
          ⟨file, position + 1⟩
      else (.ok (byteAt file position), ⟨file, position + 1⟩) := by
  rw [BinaryReader.ReadChar, BinaryReader.ReadByte_step_ok _ _ _ hp]
  have h8 := byte_bit7 _ (byteAt_lt file position)
  by_cases hc : 128 ≤ byteAt file position
  · rw [if_pos hc, if_pos (h8.2 hc)]
  · rw [if_neg hc, if_neg (fun h => hc (h8.1 h))]
    rfl

theorem length_utf8 (c : Nat) : 1 ≤ (utf8 c).length ∧ (utf8 c).length ≤ 4 := by
  unfold utf8
  split
  · simp
  · split
    · simp
    · split <;> simp

/-- `ReadChar` on the UTF-8 encoding of `c`: the value as a 16-bit `wchar_t`. -/
theorem BinaryReader.ReadChar_utf8 (pre rest : List Nat) (c : Nat) (h : c < 0x110000) :
    BinaryReader.ReadChar ⟨pre ++ (utf8 c ++ rest), pre.length⟩ =
      (.ok (c % 2 ^ 16), ⟨pre ++ (utf8 c ++ rest), pre.length + (utf8 c).length⟩) := by
  have hpos : pre.length < (pre ++ (utf8 c ++ rest)).length := by
    have := (length_utf8 c).1
    simp only [List.length_append]
    omega
  rw [BinaryReader.ReadChar_lead _ _ hpos]
  have h0 := byteAt_append_add pre (utf8 c ++ rest) 0
  rw [Nat.add_zero] at h0
  rw [h0]
  unfold utf8
  by_cases h1 : c < 0x80
  · simp only [if_pos h1, List.singleton_append, byteAt_cons_zero, List.length_singleton]
    rw [if_neg (by omega)]
    have e1 : c % 256 = c := by omega
    have e2 : c % 2 ^ 16 = c := by omega
    rw [e1, e2]
  · rw [if_neg h1]
    by_cases h2 : c < 0x800
    · simp only [if_pos h2, List.cons_append, List.nil_append, byteAt_cons_zero,
        List.length_cons, List.length_nil]
      have e1 : (0xC0 + c / 64) % 256 = 0xC0 + c / 64 := by omega
      rw [e1, if_pos (by omega)]
      obtain ⟨hn, hmask⟩ := leadByte_two (0xC0 + c / 64) (by omega) (by omega) (by omega)
      rw [hn, hmask]
      have hlen : pre.length + 1 <
          (pre ++ (0xC0 + c / 64) :: (0x80 + c % 64) :: rest).length := by
        simp only [List.length_append, List.length_cons]
        omega
      rw [BinaryReader.ReadChar_continuation_step _ _ _ _ hlen,
        byteAt_append_add, byteAt_cons_succ, byteAt_cons_zero]
      simp only [BinaryReader.ReadChar.continuation, Method.pure_apply]
      have : 64 * ((0xC0 + c / 64 - 192) % 1024) + (0x80 + c % 64) % 256 % 64 = c % 2 ^ 16 := by
        omega
      rw [this]
    · rw [if_neg h2]
      by_cases h3 : c < 0x10000
      · simp only [if_pos h3, List.cons_append, List.nil_append, byteAt_cons_zero,
          List.length_cons, List.length_nil]
        have e1 : (0xE0 + c / 4096) % 256 = 0xE0 + c / 4096 := by omega
        rw [e1, if_pos (by omega)]
        obtain ⟨hn, hmask⟩ := leadByte_three (0xE0 + c / 4096) (by omega) (by omega) (by omega)
        rw [hn, hmask]
        have hlen1 : pre.length + 1 <
            (pre ++ (0xE0 + c / 4096) :: (0x80 + c / 64 % 64) :: (0x80 + c % 64) :: rest).length := by
          simp only [List.length_append, List.length_cons]
          omega
        have hlen2 : pre.length + 1 + 1 <
            (pre ++ (0xE0 + c / 4096) :: (0x80 + c / 64 % 64) :: (0x80 + c % 64) :: rest).length := by
          simp only [List.length_append, List.length_cons]
          omega
        rw [BinaryReader.ReadChar_continuation_step _ _ _ _ hlen1,
          BinaryReader.ReadChar_continuation_step _ _ _ _ hlen2,
          byteAt_append_add, byteAt_cons_succ, byteAt_cons_zero,
          Nat.add_assoc pre.length 1 1, byteAt_append_add, byteAt_cons_succ, byteAt_cons_succ,
          byteAt_cons_zero]
        simp only [BinaryReader.ReadChar.continuation, Method.pure_apply]
        have : 64 * ((64 * ((0xE0 + c / 4096 - 224) % 1024) + (0x80 + c / 64 % 64) % 256 % 64)
            % 1024) + (0x80 + c % 64) % 256 % 64 = c % 2 ^ 16 := by
          omega
        rw [this]
      · simp only [if_neg h3, List.cons_append, List.nil_append, byteAt_cons_zero,
          List.length_cons, List.length_nil]
        have e1 : (0xF0 + c / 262144) % 256 = 0xF0 + c / 262144 := by omega
        rw [e1, if_pos (by omega)]
        obtain ⟨hn, hmask⟩ :=
          leadByte_four (0xF0 + c / 262144) (by omega) (by omega) (by omega)
        rw [hn, hmask]
        have hlen1 : pre.length + 1 <
            (pre ++ (0xF0 + c / 262144) :: (0x80 + c / 4096 % 64) :: (0x80 + c / 64 % 64) ::
              (0x80 + c % 64) :: rest).length := by
          simp only [List.length_append, List.length_cons]
          omega
        have hlen2 : pre.length + 1 + 1 <
            (pre ++ (0xF0 + c / 262144) :: (0x80 + c / 4096 % 64) :: (0x80 + c / 64 % 64) ::
              (0x80 + c % 64) :: rest).length := by
          simp only [List.length_append, List.length_cons]
          omega
        have hlen3 : pre.length + 1 + 1 + 1 <
            (pre ++ (0xF0 + c / 262144) :: (0x80 + c / 4096 % 64) :: (0x80 + c / 64 % 64) ::
              (0x80 + c % 64) :: rest).length := by
          simp only [List.length_append, List.length_cons]
          omega
        rw [BinaryReader.ReadChar_continuation_step _ _ _ _ hlen1,
          BinaryReader.ReadChar_continuation_step _ _ _ _ hlen2,
          BinaryReader.ReadChar_continuation_step _ _ _ _ hlen3,
          byteAt_append_add, byteAt_cons_succ, byteAt_cons_zero,
          Nat.add_assoc pre.length 1 1, byteAt_append_add, byteAt_cons_succ, byteAt_cons_succ,
          byteAt_cons_zero,
          Nat.add_assoc pre.length 2 1, byteAt_append_add, byteAt_cons_succ, byteAt_cons_succ,
          byteAt_cons_succ, byteAt_cons_zero]
        simp only [BinaryReader.ReadChar.continuation, Method.pure_apply]
        have : 64 * ((64 * ((64 * ((0xF0 + c / 262144 - 240) % 1024) +
            (0x80 + c / 4096 % 64) % 256 % 64) % 1024) + (0x80 + c / 64 % 64) % 256 % 64)
            % 1024) + (0x80 + c % 64) % 256 % 64 = c % 2 ^ 16 := by
          omega
        rw [this]

/-! ## C27: `ReadChar` and UTF-8 -/

/-- C27, counterexample: the scalar value U+1F600 is encoded as `F0 9F 98 80`;
`ReadChar` consumes the four bytes and returns `0xF600`, the low 16 bits, since
the result is accumulated in a 16-bit `wchar_t`. -/
theorem ReadChar_utf8_counterexample :
    utf8 0x1F600 = [0xF0, 0x9F, 0x98, 0x80] ∧
    BinaryReader.ReadChar ⟨utf8 0x1F600, 0⟩ = (.ok 0xF600, ⟨utf8 0x1F600, 4⟩) := by
  decide

/-- C27: for every code point `c` below `0x110000`, `ReadChar` applied to the
UTF-8 encoding of `c` (anywhere in a file) consumes exactly the bytes of the
encoding and returns `c` modulo `2^16`, the value being kept in a 16-bit
`wchar_t`; so it returns `c` for every `c` below `0x10000`.  The lead byte with
`n` leading 1-bits is masked to its `7-n` low bits (the mask of `8-n` bits that
the code applies gives the same, bit `7-n` being clear), and each of the `n-1`
continuation bytes contributes its low 6 bits. -/
theorem ReadChar_utf8_spec (pre rest : List Nat) (c : Nat) (h : c < 0x110000) :
    BinaryReader.ReadChar ⟨pre ++ utf8 c ++ rest, pre.length⟩ =
      (.ok (c % 2 ^ 16), ⟨pre ++ utf8 c ++ rest, pre.length + (utf8 c).length⟩) ∧
    (c < 0x10000 →
      BinaryReader.ReadChar ⟨pre ++ utf8 c ++ rest, pre.length⟩ =
        (.ok c, ⟨pre ++ utf8 c ++ rest, pre.length + (utf8 c).length⟩)) ∧
    (∀ lead, lead < 256 → 128 ≤ lead →
      lead &&& ((1 <<< (8 - BinaryReader.ReadChar.countBytes lead 8 1)) - 1) =
        lead % 2 ^ (7 - BinaryReader.ReadChar.countBytes lead 8 1)) ∧
    (∀ n result file position, position < file.length →
      BinaryReader.ReadChar.continuation (n + 1) result ⟨file, position⟩ =
        BinaryReader.ReadChar.continuation n
          (64 * (result % 1024) + byteAt file position % 64) ⟨file, position + 1⟩) := by
  have hread := BinaryReader.ReadChar_utf8 pre rest c h
  rw [← List.append_assoc] at hread
  refine ⟨hread, fun hc => ?_, fun lead hl hh => (leadByte_mask lead hl hh).2,
    fun n result file position hp =>
      BinaryReader.ReadChar_continuation_step n result file position hp⟩
  have hmod : c % 2 ^ 16 = c := Nat.mod_eq_of_lt hc
  rw [hread, hmod]

/-- C27, witness: the euro sign U+20AC, encoded as `E2 82 AC`, after one byte of
a file. -/
theorem ReadChar_utf8_spec_witness :
    utf8 0x20AC = [0xE2, 0x82, 0xAC] ∧
    BinaryReader.ReadChar ⟨[7] ++ utf8 0x20AC ++ [9], 1⟩ =
      (.ok 0x20AC, ⟨[7] ++ utf8 0x20AC ++ [9], 1 + 3⟩) :=
  ⟨by decide, (ReadChar_utf8_spec [7] [9] 0x20AC (by decide)).2.1 (by decide)⟩

/-! ## Lemmas: `ReadString` -/

theorem BinaryReader.ReadChar_continuation_eq_ok (n result : Nat) (b b' : BinaryReader)
    (c : Nat) (h : BinaryReader.ReadChar.continuation n result b = (.ok c, b')) :
    b'.file = b.file ∧ b'.position = b.position + n ∧ b'.position ≤ b'.file.length ∨
      (n = 0 ∧ b' = b) := by
  induction n generalizing result b with
  | zero =>
    right
    rw [BinaryReader.ReadChar.continuation, Method.pure_apply] at h
    exact ⟨rfl, (Prod.mk.inj h).2.symm⟩
  | succ n ih =>
    left
    rw [BinaryReader.ReadChar.continuation] at h
    obtain ⟨v, s1, h1, h2⟩ := (Method.bind_eq_ok _ _ _ _ _).1 h
    obtain ⟨hf, hp, hl, _⟩ := BinaryReader.ReadByte_eq_ok _ _ _ h1
    rcases ih _ _ h2 with ⟨hf', hp', hl'⟩ | ⟨hn, hb⟩
    · exact ⟨hf'.trans hf, by omega, hl'⟩
    · subst hb
      exact ⟨hf, by omega, by rw [hf]; omega⟩

theorem BinaryReader.ReadChar_eq_ok (b b' : BinaryReader) (c : Nat)
    (h : BinaryReader.ReadChar b = (.ok c, b')) :
    b'.file = b.file ∧ b.position + 1 ≤ b'.position ∧ b'.position ≤ b.position + 8 ∧
      b'.position ≤ b'.file.length := by
  rw [BinaryReader.ReadChar] at h
  obtain ⟨v, s1, h1, h2⟩ := (Method.bind_eq_ok _ _ _ _ _).1 h
  obtain ⟨hf, hp, hl, hv⟩ := BinaryReader.ReadByte_eq_ok _ _ _ h1
  have hlt : v < 256 := by rw [hv]; exact byteAt_lt _ _
  rw [Method.ite_apply] at h2
  split at h2
  · rename_i hbit
    have h128 : 128 ≤ v := (byte_bit7 v hlt).1 hbit
    have hcount := (leadByte_mask v hlt h128).1
    rcases BinaryReader.ReadChar_continuation_eq_ok _ _ _ _ _ h2 with ⟨hf', hp', hl'⟩ | ⟨hn, hb⟩
    · exact ⟨hf'.trans hf, by omega, by omega, hl'⟩
    · subst hb
      exact ⟨hf, by omega, by omega, by rw [hf]; omega⟩
  · rw [Method.pure_apply] at h2
    have hb : s1 = b' := (Prod.mk.inj h2).2
    subst hb
    exact ⟨hf, by omega, by omega, by rw [hf]; omega⟩

theorem BinaryReader.Read7BitEncodedInt_loop_eq_ok (fuel result bitsRead : Nat)
    (b b' : BinaryReader) (v : Nat)
    (h : BinaryReader.Read7BitEncodedInt.loop fuel result bitsRead b = (.ok v, b')) :
    b'.file = b.file ∧ b.position < b'.position ∧ b'.position ≤ b'.file.length := by
  induction fuel generalizing result bitsRead b with
  | zero =>
    rw [BinaryReader.Read7BitEncodedInt.loop, Method.fail_apply] at h
    cases (Prod.mk.inj h).1
  | succ fuel ih =>
    rw [BinaryReader.Read7BitEncodedInt.loop] at h
    obtain ⟨value, s1, h1, h2⟩ := (Method.bind_eq_ok _ _ _ _ _).1 h
    obtain ⟨hf, hp, hl, _⟩ := BinaryReader.ReadByte_eq_ok _ _ _ h1
    rw [Method.ite_apply] at h2
    split at h2
    · rw [Method.fail_apply] at h2
      cases (Prod.mk.inj h2).1
    · rw [Method.ite_apply] at h2
      split at h2
      · obtain ⟨hf', hp', hl'⟩ := ih _ _ _ h2
        exact ⟨hf'.trans hf, by omega, hl'⟩
      · rw [Method.pure_apply] at h2
        have hb : s1 = b' := (Prod.mk.inj h2).2
        subst hb
        exact ⟨hf, by omega, by rw [hf]; omega⟩

theorem BinaryReader.ReadString_loop_step (endOfString fuel : Nat) (result : wstring)
    (b : BinaryReader) :
    BinaryReader.ReadString.loop endOfString (fuel + 1) result b =
      if b.FilePosition < endOfString then
        (BinaryReader.ReadChar >>= fun c =>
          BinaryReader.ReadString.loop endOfString fuel (result ++ [c])) b
      else (.ok result, b) := by
  rw [BinaryReader.ReadString.loop,
    Method.bind_ok (rfl : Method.get b = (.ok b, b)), Method.ite_apply]
  rfl

theorem BinaryReader.ReadString_loop_eq_ok (endOfString fuel : Nat) (result s : wstring)
    (b b' : BinaryReader)
    (h : BinaryReader.ReadString.loop endOfString fuel result b = (.ok s, b'))
    (hlen : b.file.length < 2 ^ 32) (hp : b.position ≤ b.file.length) :
    b'.file = b.file ∧ endOfString ≤ b'.position ∧
      (b' = b ∨ (b.position < endOfString ∧ b'.position ≤ endOfString + 7)) := by
  induction fuel generalizing result b with
  | zero =>
    rw [BinaryReader.ReadString.loop, Method.fail_apply] at h
    cases (Prod.mk.inj h).1
  | succ fuel ih =>
    rw [BinaryReader.ReadString_loop_step] at h
    have hfp : b.FilePosition = b.position := Nat.mod_eq_of_lt (by omega)
    rw [hfp] at h
    split at h
    · rename_i hlt
      obtain ⟨c, s1, h1, h2⟩ := (Method.bind_eq_ok _ _ _ _ _).1 h
      obtain ⟨hf, hlo, hhi, hl⟩ := BinaryReader.ReadChar_eq_ok _ _ _ h1
      obtain ⟨hf', hend, hcase⟩ := ih _ _ h2 (by rw [hf]; exact hlen) hl
      refine ⟨hf'.trans hf, hend, Or.inr ⟨hlt, ?_⟩⟩
      rcases hcase with hb | ⟨_, hb⟩
      · subst hb
        omega
      · exact hb
    · rename_i hge
      have hb : b = b' := (Prod.mk.inj h).2
      subst hb
      exact ⟨rfl, by omega, Or.inl rfl⟩

theorem length_utf8String (cs : List Nat) : cs.length ≤ (utf8String cs).length := by
  induction cs with
  | nil => exact Nat.le_refl _
  | cons c cs ih =>
    have := (length_utf8 c).1
    simp only [utf8String, List.length_append, List.length_cons]
    omega

theorem BinaryReader.ReadString_loop_utf8 (cs : List Nat) (pre rest : List Nat)
    (result : wstring) (fuel : Nat) (hcs : ∀ c ∈ cs, c < 0x110000) (hfuel : cs.length < fuel)
    (hlen : (pre ++ (utf8String cs ++ rest)).length < 2 ^ 32) :
    BinaryReader.ReadString.loop (pre.length + (utf8String cs).length) fuel result
        ⟨pre ++ (utf8String cs ++ rest), pre.length⟩ =
      (.ok (result ++ cs.map fun c => c % 2 ^ 16),
        ⟨pre ++ (utf8String cs ++ rest), pre.length + (utf8String cs).length⟩) := by
  induction cs generalizing pre result fuel with
  | nil =>
    obtain ⟨fuel, rfl⟩ : ∃ k, fuel = k + 1 := ⟨fuel - 1, by simp at hfuel; omega⟩
    rw [BinaryReader.ReadString_loop_step, if_neg]
    · simp [utf8String]
    · have : pre.length < 2 ^ 32 := by
        simp only [List.length_append] at hlen
        omega
      simp only [utf8String, BinaryReader.FilePosition, List.length_nil, Nat.add_zero,
        Nat.mod_eq_of_lt this, Nat.lt_irrefl, not_false_eq_true]
  | cons c cs ih =>
    obtain ⟨fuel, rfl⟩ : ∃ k, fuel = k + 1 := ⟨fuel - 1, by simp at hfuel; omega⟩
    have hc : c < 0x110000 := hcs c (List.mem_cons_self _ _)
    have hpos := (length_utf8 c).1
    have hfile : pre ++ (utf8String (c :: cs) ++ rest) =
        pre ++ (utf8 c ++ (utf8String cs ++ rest)) := by
      simp only [utf8String, List.append_assoc]
    have hfile' : pre ++ (utf8 c ++ (utf8String cs ++ rest)) =
        (pre ++ utf8 c) ++ (utf8String cs ++ rest) := by
      simp only [List.append_assoc]
    have hlen1 : pre.length + (utf8String (c :: cs)).length ≤
        (pre ++ (utf8String (c :: cs) ++ rest)).length := by
      simp only [List.length_append]
      omega
    have hfp : BinaryReader.FilePosition ⟨pre ++ (utf8String (c :: cs) ++ rest), pre.length⟩ =
        pre.length := Nat.mod_eq_of_lt (by simp only; omega)
    have hend : pre.length + (utf8String (c :: cs)).length =
        (pre ++ utf8 c).length + (utf8String cs).length := by
      simp only [utf8String, List.length_append]
      omega
    rw [BinaryReader.ReadString_loop_step, hfp, if_pos (by
      simp only [utf8String, List.length_append]; omega)]
    rw [hfile, Method.bind_ok (BinaryReader.ReadChar_utf8 pre _ c hc)]
    have hp : pre.length + (utf8 c).length = (pre ++ utf8 c).length := by
      simp only [List.length_append]
    rw [← hfile, hend, hfile, hfile', hp]
    rw [ih (pre ++ utf8 c) (result ++ [c % 2 ^ 16]) fuel
      (fun x hx => hcs x (List.mem_cons_of_mem _ hx))
      (by simp only [List.length_cons] at hfuel; omega)
      (by rw [← hfile', ← hfile]; exact hlen)]
    simp only [List.map_cons, List.append_assoc, List.singleton_append]

/-- `ReadString` on a string laid out as its length prefix and the UTF-8 encoding
of its code points. -/
theorem BinaryReader.ReadString_utf8String (pre rest cs : List Nat)
    (hcs : ∀ c ∈ cs, c < 0x110000)
    (hlen : (pre ++ encode7Bit (utf8String cs).length ++ utf8String cs ++ rest).length <
      2 ^ 32) :
    BinaryReader.ReadString
        ⟨pre ++ encode7Bit (utf8String cs).length ++ utf8String cs ++ rest, pre.length⟩ =
      (.ok (cs.map fun c => c % 2 ^ 16),
        ⟨pre ++ encode7Bit (utf8String cs).length ++ utf8String cs ++ rest,
          pre.length + (encode7Bit (utf8String cs).length).length +
            (utf8String cs).length⟩) := by
  simp only [List.append_assoc] at hlen ⊢
  have hL : (utf8String cs).length < 2 ^ 32 := by
    simp only [List.length_append] at hlen
    omega
  have h1 := BinaryReader.Read7BitEncodedInt_loop_encode 6 0 0 (utf8String cs).length pre
    (utf8String cs ++ rest) rfl (by omega) (by decide) (by omega)
  simp only [Nat.mul_zero, Nat.pow_zero, Nat.one_mul, Nat.zero_add] at h1
  rw [BinaryReader.ReadString, BinaryReader.Read7BitEncodedInt, Method.bind_ok h1,
    Method.bind_ok (rfl : Method.get _ = (.ok _, _))]
  dsimp only
  have hfile : pre ++ (encode7Bit (utf8String cs).length ++ (utf8String cs ++ rest)) =
      (pre ++ encode7Bit (utf8String cs).length) ++ (utf8String cs ++ rest) := by
    simp only [List.append_assoc]
  have hp : pre.length + (encode7Bit (utf8String cs).length).length =
      (pre ++ encode7Bit (utf8String cs).length).length := by
    simp only [List.length_append]
  have hlen' : ((pre ++ encode7Bit (utf8String cs).length) ++
      (utf8String cs ++ rest)).length < 2 ^ 32 := by
    rw [← hfile]
    exact hlen
  have hfp : BinaryReader.FilePosition
      ⟨(pre ++ encode7Bit (utf8String cs).length) ++ (utf8String cs ++ rest),
        (pre ++ encode7Bit (utf8String cs).length).length⟩ =
      (pre ++ encode7Bit (utf8String cs).length).length :=
    Nat.mod_eq_of_lt (by
      simp only [List.length_append] at hlen' ⊢
      omega)
  have hmod : ((pre ++ encode7Bit (utf8String cs).length).length +
      (utf8String cs).length) % 2 ^ 32 =
      (pre ++ encode7Bit (utf8String cs).length).length + (utf8String cs).length :=
    Nat.mod_eq_of_lt (by
      simp only [List.length_append] at hlen' ⊢
      omega)
  rw [hfile, hp, hfp, hmod]
  have hloop := BinaryReader.ReadString_loop_utf8 cs
    (pre ++ encode7Bit (utf8String cs).length) rest []
    (((pre ++ encode7Bit (utf8String cs).length) ++ (utf8String cs ++ rest)).length -
      (pre ++ encode7Bit (utf8String cs).length).length + 1) hcs
    (by
      have := length_utf8String cs
      simp only [List.length_append]
      omega) hlen'
  rw [hloop]
  rfl

/-! ## C26: the bytes consumed by `ReadString` -/

/-- C26, counterexample: with the declared length 1 and the payload `C3 A9`,
`ReadString` returns the one character U+00E9 and has consumed 2 bytes after the
prefix, the loop reading whole characters; and with the declared length
`2^32 - 1` read at offset 0 to 5 the end position wraps around to 4 as a
`uint32_t`, so `ReadString` returns the empty string with no byte consumed after
the prefix. -/
theorem ReadString_consumed_counterexample :
    BinaryReader.Read7BitEncodedInt ⟨[1, 0xC3, 0xA9], 0⟩ = (.ok 1, ⟨[1, 0xC3, 0xA9], 1⟩) ∧
    BinaryReader.ReadString ⟨[1, 0xC3, 0xA9], 0⟩ = (.ok [0xE9], ⟨[1, 0xC3, 0xA9], 3⟩) ∧
    BinaryReader.Read7BitEncodedInt ⟨[255, 255, 255, 255, 15, 65], 0⟩ =
      (.ok 4294967295, ⟨[255, 255, 255, 255, 15, 65], 5⟩) ∧
    BinaryReader.ReadString ⟨[255, 255, 255, 255, 15, 65], 0⟩ =
      (.ok [], ⟨[255, 255, 255, 255, 15, 65], 5⟩) := by
  decide

/-- C26: on a file of less than 4 GiB on which `ReadString` returns normally,
with `L` the decoded length and the position after the prefix plus `L` below
`2^32`, the number of bytes consumed after the prefix is at least `L` and at most
`L + 7` (the loop reads whole characters while the position is before the end, so
only the last character can run past it), and it is 0 when `L` is 0.  It is
exactly `L` when the payload is the UTF-8 encoding of a string of code points, for
every such string: `ReadString` then returns the code points (as 16-bit
`wchar_t`) at the position after the prefix plus `L`. -/
theorem ReadString_consumed :
    (∀ (b b1 b' : BinaryReader) (L : Nat) (s : wstring),
      BinaryReader.Read7BitEncodedInt b = (.ok L, b1) →
      BinaryReader.ReadString b = (.ok s, b') →
      b.file.length < 2 ^ 32 → b1.position + L < 2 ^ 32 →
        b1.position + L ≤ b'.position ∧ b'.position ≤ b1.position + L + 7 ∧
          (L = 0 → b'.position = b1.position)) ∧
    (∀ (pre rest cs : List Nat), (∀ c ∈ cs, c < 0x110000) →
      (pre ++ encode7Bit (utf8String cs).length ++ utf8String cs ++ rest).length < 2 ^ 32 →
        BinaryReader.ReadString
            ⟨pre ++ encode7Bit (utf8String cs).length ++ utf8String cs ++ rest, pre.length⟩ =
          (.ok (cs.map fun c => c % 2 ^ 16),
            ⟨pre ++ encode7Bit (utf8String cs).length ++ utf8String cs ++ rest,
              pre.length + (encode7Bit (utf8String cs).length).length +
                (utf8String cs).length⟩)) := by
  constructor
  · intro b b1 b' L s h1 h hlen hend
    rw [BinaryReader.ReadString, Method.bind_ok h1,
      Method.bind_ok (rfl : Method.get b1 = (.ok b1, b1))] at h
    obtain ⟨hf1, hp1, hl1⟩ := BinaryReader.Read7BitEncodedInt_loop_eq_ok _ _ _ _ _ _ h1
    have hfp : b1.FilePosition = b1.position := Nat.mod_eq_of_lt (by rw [hf1] at hl1; omega)
    have hmod : (b1.FilePosition + L) % 2 ^ 32 = b1.position + L := by
      rw [hfp]
      exact Nat.mod_eq_of_lt hend
    rw [hmod] at h
    obtain ⟨_, hge, hcase⟩ :=
      BinaryReader.ReadString_loop_eq_ok _ _ _ _ _ _ h (by rw [hf1]; exact hlen) hl1
    rcases hcase with hb | ⟨hlt, hle⟩
    · subst hb
      exact ⟨hge, by omega, fun _ => rfl⟩
    · exact ⟨hge, hle, fun h0 => by omega⟩
  · exact fun pre rest cs hcs hlen =>
      BinaryReader.ReadString_utf8String pre rest cs hcs hlen

set_option maxRecDepth 100000 in
/-- C26, witness: the declared length 3 over the payload `41 C3 A9 42`, where the
3 bytes of `A` and U+00E9 are consumed; and the string of `A`, U+00E9 and U+20AC,
whose 6 bytes are consumed after the prefix. -/
theorem ReadString_consumed_witness :
    (1 + 3 ≤ (BinaryReader.ReadString ⟨[3, 0x41, 0xC3, 0xA9, 0x42], 0⟩).2.position ∧
      (BinaryReader.ReadString ⟨[3, 0x41, 0xC3, 0xA9, 0x42], 0⟩).2.position ≤ 1 + 3 + 7 ∧
      ((3 : Nat) = 0 →
        (BinaryReader.ReadString ⟨[3, 0x41, 0xC3, 0xA9, 0x42], 0⟩).2.position = 1)) ∧
    BinaryReader.ReadString
        ⟨[7] ++ encode7Bit (utf8String [0x41, 0xE9, 0x20AC]).length ++
          utf8String [0x41, 0xE9, 0x20AC] ++ [9], 1⟩ =
      (.ok ([0x41, 0xE9, 0x20AC].map fun c => c % 2 ^ 16),
        ⟨[7] ++ encode7Bit (utf8String [0x41, 0xE9, 0x20AC]).length ++
          utf8String [0x41, 0xE9, 0x20AC] ++ [9],
          1 + (encode7Bit (utf8String [0x41, 0xE9, 0x20AC]).length).length +
            (utf8String [0x41, 0xE9, 0x20AC]).length⟩) :=
  ⟨ReadString_consumed.1 ⟨[3, 0x41, 0xC3, 0xA9, 0x42], 0⟩ ⟨[3, 0x41, 0xC3, 0xA9, 0x42], 1⟩
      (BinaryReader.ReadString ⟨[3, 0x41, 0xC3, 0xA9, 0x42], 0⟩).2 3
      [0x41, 0xE9] (by decide) (by decide) (by decide) (by decide),
    ReadString_consumed.2 [7] [9] [0x41, 0xE9, 0x20AC] (by decide) (by decide)⟩

/-! ## C23: `ValidateTypeId` -/

theorem ContentReader.TargetType_state (reader : Nat) (r : ContentReader) :
    (ContentReader.TargetType reader r).2 = r := by
  simp only [ContentReader.TargetType, Method.bind_apply, Method.get_apply,
    Method.ofExcept_apply]
  cases r.typeReaderManager.deref reader with
  | error e => rfl
  | ok object => cases object.TargetType <;> rfl

theorem ContentReader.TargetType_congr (reader : Nat) (r r' : ContentReader)
    (h : r.typeReaderManager = r'.typeReaderManager) :
    (ContentReader.TargetType reader r).1 = (ContentReader.TargetType reader r').1 := by
  simp only [ContentReader.TargetType, Method.bind_apply, Method.get_apply,
    Method.ofExcept_apply, h]
  cases r'.typeReaderManager.deref reader with
  | error e => rfl
  | ok object => cases object.TargetType <;> rfl

theorem ContentReader.ValidateTypeId_apply (expectedType : wstring) (r r1 : ContentReader)
    (t : Nat) (h : ContentReader.Read7BitEncodedInt r = (.ok t, r1)) :
    ContentReader.ValidateTypeId expectedType r =
      if t = 0 then (.error .unexpectedTypeId, r1)
      else if r.typeReaders.length < t then (.error .typeIdOutOfRange, r1)
      else
        match r.typeReaders.get? (t - 1) with
        | none => (.error .unexpectedTypeId, r1)
        | some reader =>
          match (ContentReader.TargetType reader r).1 with
          | .error e => (.error e, r1)
          | .ok targetType =>
            if targetType ≠ expectedType then (.error .unexpectedTypeId, r1) else (.ok (), r1) := by
  have hr1 : r1 = { r with toBinaryReader := r1.toBinaryReader } := by
    simp only [ContentReader.Read7BitEncodedInt, ContentReader.base_apply] at h
    rw [← (Prod.mk.inj h).2]
  have htab : r1.typeReaders = r.typeReaders := by rw [hr1]
  have hman : r.typeReaderManager = r1.typeReaderManager := by rw [hr1]
  by_cases h0 : t = 0
  · subst h0
    simp [ContentReader.ValidateTypeId, ContentReader.ReadTypeId, h]
  · rw [if_neg h0]
    have hpos : t > 0 := by omega
    by_cases hlen : r.typeReaders.length < t
    · rw [if_pos hlen]
      have hge : r.typeReaders.length ≤ t - 1 := by omega
      simp [ContentReader.ValidateTypeId, ContentReader.ReadTypeId, h, hpos, htab, hge]
    · rw [if_neg hlen]
      have hlt : t - 1 < r.typeReaders.length := by omega
      have hget : r.typeReaders.get? (t - 1) = some r.typeReaders[t - 1] := by simp [hlt]
      rw [hget]
      have hread : ContentReader.ReadTypeId r = (.ok (some r.typeReaders[t - 1]), r1) := by
        simp [ContentReader.ReadTypeId, h, hpos, htab, hlt]
      rw [ContentReader.ValidateTypeId, Method.bind_ok hread]
      dsimp only
      rw [ContentReader.TargetType_congr _ r r1 hman]
      have hstate := ContentReader.TargetType_state r.typeReaders[t - 1] r1
      cases hT : ContentReader.TargetType r.typeReaders[t - 1] r1 with
      | mk result state =>
        rw [hT] at hstate
        simp only at hstate
        subst hstate
        cases result with
        | error e => rw [Method.bind_error hT]
        | ok targetType =>
          rw [Method.bind_ok hT, Method.ite_apply]
          rfl

/-- C23: `ValidateTypeId(expected)` consumes exactly one 7-bit encoded tag `t`
(whatever the outcome, the state is the one after the tag) and returns normally
if and only if `1 <= t <= len(table)` and `table[t-1]->TargetType()` is
`expected`; it fails with the unexpected-typeId error when `t == 0` and when the
target type of the selected reader differs, and with the typeId-out-of-range
error when `t > len(table)`. -/
theorem ValidateTypeId_spec (expectedType : wstring) (r r1 : ContentReader) (t : Nat)
    (h : ContentReader.Read7BitEncodedInt r = (.ok t, r1)) :
    (ContentReader.ValidateTypeId expectedType r).2 = r1 ∧
    ((ContentReader.ValidateTypeId expectedType r).1 = .ok () ↔
      1 ≤ t ∧ t ≤ r.typeReaders.length ∧
        ∃ reader, r.typeReaders.get? (t - 1) = some reader ∧
          (ContentReader.TargetType reader r).1 = .ok expectedType) ∧
    (t = 0 → (ContentReader.ValidateTypeId expectedType r).1 = .error .unexpectedTypeId) ∧
    (r.typeReaders.length < t →
      (ContentReader.ValidateTypeId expectedType r).1 = .error .typeIdOutOfRange) ∧
    (∀ reader targetType, 1 ≤ t → r.typeReaders.get? (t - 1) = some reader →
      (ContentReader.TargetType reader r).1 = .ok targetType → targetType ≠ expectedType →
        (ContentReader.ValidateTypeId expectedType r).1 = .error .unexpectedTypeId) := by
  rw [ContentReader.ValidateTypeId_apply expectedType r r1 t h]
  by_cases h0 : t = 0
  · rw [if_pos h0]
    refine ⟨rfl, iff_of_false (fun hc => by cases hc) (fun hc => by omega), fun _ => rfl,
      fun hc => by omega, fun _ _ hc => by omega⟩
  rw [if_neg h0]
  by_cases hlen : r.typeReaders.length < t
  · rw [if_pos hlen]
    refine ⟨rfl, iff_of_false (fun hc => by cases hc) (fun hc => by omega), fun hc => by omega,
      fun _ => rfl, fun reader _ _ hget => ?_⟩
    rw [List.get?_eq_getElem?, List.getElem?_eq_none (by omega)] at hget
    cases hget
  rw [if_neg hlen]
  have hlt : t - 1 < r.typeReaders.length := by omega
  have hget : r.typeReaders.get? (t - 1) = some r.typeReaders[t - 1] := by simp [hlt]
  rw [hget]
  dsimp only
  cases hT : (ContentReader.TargetType r.typeReaders[t - 1] r).1 with
  | error e =>
    dsimp only
    refine ⟨rfl, iff_of_false (fun hc => by cases hc) ?_, fun hc => absurd hc h0,
      fun hc => absurd hc hlen, fun reader targetType _ hreader htarget => ?_⟩
    · rintro ⟨_, _, reader, hreader, htarget⟩
      cases hreader
      rw [hT] at htarget
      cases htarget
    · cases hreader
      rw [hT] at htarget
      cases htarget
  | ok targetType =>
    dsimp only
    by_cases heq : targetType = expectedType
    · subst heq
      rw [if_neg (fun hne : targetType ≠ targetType => hne rfl)]
      refine ⟨rfl, iff_of_true rfl ⟨by omega, by omega, _, rfl, hT⟩, fun hc => absurd hc h0,
        fun hc => absurd hc hlen, fun reader other _ hreader htarget hne => ?_⟩
      cases hreader
      rw [hT] at htarget
      cases htarget
      exact absurd rfl hne
    · rw [if_pos (show targetType ≠ expectedType from heq)]
      refine ⟨rfl, iff_of_false (fun hc => by cases hc) ?_, fun hc => absurd hc h0,
        fun hc => absurd hc hlen, fun _ _ _ _ _ _ => rfl⟩
      rintro ⟨_, _, reader, hreader, htarget⟩
      cases hreader
      rw [hT] at htarget
      cases htarget
      exact heq rfl

set_option maxRecDepth 100000 in
/-- C23, witness: a table that holds `Int32Reader` (reader 4 of the standard
registry) and the tag byte 1: `System.Int32` is accepted and `System.String` is
refused, the tag being consumed in both cases. -/
theorem ValidateTypeId_spec_witness :
    ((ContentReader.ValidateTypeId (L "System.Int32")
        { ContentReader.new [1] standardManager with typeReaders := [4] }).1 = .ok () ↔
      1 ≤ 1 ∧ 1 ≤ [4].length ∧
        ∃ reader, [4].get? (1 - 1) = some reader ∧
          (ContentReader.TargetType reader
            { ContentReader.new [1] standardManager with typeReaders := [4] }).1 =
              .ok (L "System.Int32")) ∧
    (ContentReader.ValidateTypeId (L "System.Int32")
      { ContentReader.new [1] standardManager with typeReaders := [4] }).1 = .ok () ∧
    (ContentReader.ValidateTypeId (L "System.String")
      { ContentReader.new [1] standardManager with typeReaders := [4] }).1 =
        .error .unexpectedTypeId ∧
    (ContentReader.ValidateTypeId (L "System.String")
      { ContentReader.new [1] standardManager with typeReaders := [4] }).2.position = 1 :=
  ⟨(ValidateTypeId_spec (L "System.Int32")
      { ContentReader.new [1] standardManager with typeReaders := [4] }
      { ContentReader.new [1] standardManager with typeReaders := [4], position := 1 }
      1 (by decide)).2.1, by decide, by decide, by decide⟩

/-! ## Lemmas: readers of a fixed number of bytes -/

theorem ContentReader.Consumes.eq_ok {α : Type} {k : Nat} {x : Method ContentReader α}
    (hx : ContentReader.Consumes k x) {r r' : ContentReader} {a : α}
    (hp : r.position ≤ r.file.length) (h : x r = (.ok a, r')) :
    r.position + k ≤ r.file.length ∧ r'.file = r.file ∧ r'.position = r.position + k ∧
      r'.typeReaderManager = r.typeReaderManager ∧ r'.typeReaders = r.typeReaders := by
  obtain ⟨⟨file, position⟩, log, m, table⟩ := r
  obtain ⟨hok, herr⟩ := hx file position log m table hp
  by_cases hfit : position + k ≤ file.length
  · obtain ⟨a', log', h'⟩ := hok hfit
    rw [h] at h'
    have := (Prod.mk.inj h').2
    subst this
    exact ⟨hfit, rfl, rfl, rfl, rfl⟩
  · obtain ⟨e, r'', h'⟩ := herr (by omega)
    rw [h] at h'
    cases (Prod.mk.inj h').1

theorem ContentReader.consumes_pure {α : Type} (a : α) :
    ContentReader.Consumes 0 (pure a : Method ContentReader α) :=
  fun _ _ log _ _ _ => ⟨fun _ => ⟨a, log, rfl⟩, fun h => by omega⟩

theorem ContentReader.consumes_log (f : Logger → Logger) :
    ContentReader.Consumes 0 (ContentReader.log f) :=
  fun _ _ log _ _ _ => ⟨fun _ => ⟨(), f log, rfl⟩, fun h => by omega⟩

theorem ContentReader.consumes_bind {α β : Type} {k j : Nat} {x : Method ContentReader α}
    {f : α → Method ContentReader β} (hx : ContentReader.Consumes k x)
    (hf : ∀ a, ContentReader.Consumes j (f a)) : ContentReader.Consumes (k + j) (x >>= f) := by
  intro file position log m table hp
  obtain ⟨hok, herr⟩ := hx file position log m table hp
  constructor
  · intro hfit
    obtain ⟨a, log', h⟩ := hok (by omega)
    obtain ⟨b, log'', h'⟩ := (hf a file (position + k) log' m table (by omega)).1 (by omega)
    exact ⟨b, log'', by rw [Method.bind_ok h, h', Nat.add_assoc]⟩
  · intro hfit
    by_cases hk : position + k ≤ file.length
    · obtain ⟨a, log', h⟩ := hok hk
      obtain ⟨e, r', h'⟩ := (hf a file (position + k) log' m table hk).2 (by omega)
      exact ⟨e, r', by rw [Method.bind_ok h, h']⟩
    · obtain ⟨e, r', h⟩ := herr (by omega)
      exact ⟨e, r', Method.bind_error h⟩

theorem ContentReader.consumes_forLoop_go {j : Nat} {body : Nat → Method ContentReader Unit}
    (hbody : ∀ i, ContentReader.Consumes j (body i)) (count i : Nat) :
    ContentReader.Consumes (j * count) (forLoop.go body count i) := by
  induction count generalizing i with
  | zero => exact ContentReader.consumes_pure ()
  | succ count ih =>
    have := ContentReader.consumes_bind (hbody i) fun _ => ih (i + 1)
    rw [Nat.mul_succ, Nat.add_comm]
    exact this

theorem ContentReader.consumes_forLoop {j : Nat} {body : Nat → Method ContentReader Unit}
    (hbody : ∀ i, ContentReader.Consumes j (body i)) (count : Nat) :
    ContentReader.Consumes (j * count) (forLoop count body) :=
  ContentReader.consumes_forLoop_go hbody count 0

theorem ContentReader.consumes_of_uint32 {α : Type} (f : Nat → α) :
    ContentReader.Consumes 4
      (ContentReader.base (BinaryReader.ReadUInt32 >>= fun v => pure (f v))) := by
  intro file position log m table hp
  rw [ContentReader.base_apply]
  simp only [Method.bind_apply, BinaryReader.ReadUInt32_apply file position hp]
  constructor
  · intro hfit
    rw [if_pos hfit]
    exact ⟨_, log, rfl⟩
  · intro hfit
    rw [if_neg (by omega)]
    exact ⟨_, _, rfl⟩

theorem ContentReader.consumes_ReadInt32 : ContentReader.Consumes 4 ContentReader.ReadInt32 :=
  ContentReader.consumes_of_uint32 _

theorem ContentReader.consumes_ReadSingle :
    ContentReader.Consumes 4 ContentReader.ReadSingle :=
  ContentReader.consumes_of_uint32 _

theorem ContentReader.consumes_ReadUInt32 :
    ContentReader.Consumes 4 ContentReader.ReadUInt32 := by
  intro file position log m table hp
  rw [ContentReader.ReadUInt32, ContentReader.base_apply,
    BinaryReader.ReadUInt32_apply file position hp]
  constructor
  · intro hfit
    rw [if_pos hfit]
    exact ⟨_, log, rfl⟩
  · intro hfit
    rw [if_neg (by omega)]
    exact ⟨_, _, rfl⟩

/-- The loop of `CurveReader::Read` over the keys. -/
theorem CurveReader.consumes_keys (keyCount : Nat) :
    ContentReader.Consumes (20 * keyCount) (do
      ContentReader.WriteLine "Key count: %u" [.nat keyCount]
      forLoop keyCount fun i => do
        ContentReader.WriteLine "Key %u:" [.nat i]
        ContentReader.Indent
        ContentReader.WriteLine "Position: %g" [.single (← ContentReader.ReadSingle)]
        ContentReader.WriteLine "Value: %g" [.single (← ContentReader.ReadSingle)]
        ContentReader.WriteLine "Tangent in: %g" [.single (← ContentReader.ReadSingle)]
        ContentReader.WriteLine "Tangent out: %g" [.single (← ContentReader.ReadSingle)]
        ContentReader.WriteEnum "Continuity" (← ContentReader.ReadInt32) ContinuityEnumValues
        ContentReader.Unindent) := by
  have hbody : ∀ i : Nat, ContentReader.Consumes 20 (do
      ContentReader.WriteLine "Key %u:" [.nat i]
      ContentReader.Indent
      ContentReader.WriteLine "Position: %g" [.single (← ContentReader.ReadSingle)]
      ContentReader.WriteLine "Value: %g" [.single (← ContentReader.ReadSingle)]
      ContentReader.WriteLine "Tangent in: %g" [.single (← ContentReader.ReadSingle)]
      ContentReader.WriteLine "Tangent out: %g" [.single (← ContentReader.ReadSingle)]
      ContentReader.WriteEnum "Continuity" (← ContentReader.ReadInt32) ContinuityEnumValues
      ContentReader.Unindent) := by
    intro i
    have h : ContentReader.Consumes _ (do
        ContentReader.WriteLine "Key %u:" [.nat i]
        ContentReader.Indent
        ContentReader.WriteLine "Position: %g" [.single (← ContentReader.ReadSingle)]
        ContentReader.WriteLine "Value: %g" [.single (← ContentReader.ReadSingle)]
        ContentReader.WriteLine "Tangent in: %g" [.single (← ContentReader.ReadSingle)]
        ContentReader.WriteLine "Tangent out: %g" [.single (← ContentReader.ReadSingle)]
        ContentReader.WriteEnum "Continuity" (← ContentReader.ReadInt32) ContinuityEnumValues
        ContentReader.Unindent) :=
      ContentReader.consumes_bind (ContentReader.consumes_log _) fun _ =>
      ContentReader.consumes_bind (ContentReader.consumes_log _) fun _ =>
      ContentReader.consumes_bind ContentReader.consumes_ReadSingle fun _ =>
      ContentReader.consumes_bind (ContentReader.consumes_log _) fun _ =>
      ContentReader.consumes_bind ContentReader.consumes_ReadSingle fun _ =>
      ContentReader.consumes_bind (ContentReader.consumes_log _) fun _ =>
      ContentReader.consumes_bind ContentReader.consumes_ReadSingle fun _ =>
      ContentReader.consumes_bind (ContentReader.consumes_log _) fun _ =>
      ContentReader.consumes_bind ContentReader.consumes_ReadSingle fun _ =>
      ContentReader.consumes_bind (ContentReader.consumes_log _) fun _ =>
      ContentReader.consumes_bind ContentReader.consumes_ReadInt32 fun _ =>
      ContentReader.consumes_bind (ContentReader.consumes_log _) fun _ =>
        ContentReader.consumes_log _
    exact h
  have := ContentReader.consumes_bind
    (ContentReader.consumes_log fun l => l.WriteLine "Key count: %u" [.nat keyCount])
    fun _ => ContentReader.consumes_forLoop hbody keyCount
  rw [Nat.zero_add] at this
  exact this

/-- The start of `CurveReader::Read`: the two loop enums and the key count. -/
theorem CurveReader.Read_start (file : List Nat) (position : Nat) (log : Logger)
    (m : TypeReaderManager) (table : List Nat) (h : position + 12 ≤ file.length) :
    ∃ log', CurveReader.Read ⟨⟨file, position⟩, log, m, table⟩ =
      (do
        ContentReader.WriteLine "Key count: %u" [.nat (uint32At file (position + 8))]
        forLoop (uint32At file (position + 8)) fun i => do
          ContentReader.WriteLine "Key %u:" [.nat i]
          ContentReader.Indent
          ContentReader.WriteLine "Position: %g" [.single (← ContentReader.ReadSingle)]
          ContentReader.WriteLine "Value: %g" [.single (← ContentReader.ReadSingle)]
          ContentReader.WriteLine "Tangent in: %g" [.single (← ContentReader.ReadSingle)]
          ContentReader.WriteLine "Tangent out: %g" [.single (← ContentReader.ReadSingle)]
          ContentReader.WriteEnum "Continuity" (← ContentReader.ReadInt32) ContinuityEnumValues
          ContentReader.Unindent) ⟨⟨file, position + 12⟩, log', m, table⟩ := by
  unfold CurveReader.Read
  obtain ⟨a, log1, h1⟩ :=
    (ContentReader.consumes_ReadInt32 file position log m table (by omega)).1 (by omega)
  rw [Method.bind_ok h1]
  rw [Method.bind_ok (rfl : ContentReader.WriteEnum "Pre loop" a LoopEnumValues
    ⟨⟨file, position + 4⟩, log1, m, table⟩ = (.ok (), ⟨⟨file, position + 4⟩, _, m, table⟩))]
  obtain ⟨b, log2, h2⟩ :=
    (ContentReader.consumes_ReadInt32 file (position + 4)
      (log1.WriteEnum "Pre loop" a LoopEnumValues) m table (by omega)).1 (by omega)
  rw [Method.bind_ok h2]
  rw [Method.bind_ok (rfl : ContentReader.WriteEnum "Post loop" b LoopEnumValues
    ⟨⟨file, position + 4 + 4⟩, log2, m, table⟩ =
      (.ok (), ⟨⟨file, position + 4 + 4⟩, _, m, table⟩))]
  rw [ContentReader.ReadUInt32_bind_ok _ _ _ _ _ _ (by omega)]
  exact ⟨_, rfl⟩

theorem ContentReader.ReadInt32_eq_ok (r r' : ContentReader) (v : Int)
    (h : ContentReader.ReadInt32 r = (.ok v, r')) :
    r'.file = r.file ∧ r'.position = r.position + 4 ∧ r.position + 4 ≤ r.file.length := by
  have hb := ((ContentReader.base_eq_ok _ _ _ _).1 h).1
  rw [BinaryReader.ReadInt32] at hb
  obtain ⟨u, b1, h1, h2⟩ := (Method.bind_eq_ok _ _ _ _ _).1 hb
  obtain ⟨hf, hp, hl, _⟩ := BinaryReader.ReadUInt32_eq_ok _ _ _ h1
  rw [Method.pure_apply] at h2
  have : b1 = r'.toBinaryReader := (Prod.mk.inj h2).2
  rw [← this]
  exact ⟨hf, hp, hl⟩

theorem ContentReader.log_eq (f : Logger → Logger) (r r' : ContentReader)
    (result : Except Error Unit) (h : ContentReader.log f r = (result, r')) :
    r'.toBinaryReader = r.toBinaryReader := by
  rw [ContentReader.log_apply] at h
  rw [← (Prod.mk.inj h).2]

theorem CurveReader.Read_eq_ok (r r' : ContentReader)
    (h : CurveReader.Read r = (.ok (), r')) : r.position + 12 ≤ r.file.length := by
  unfold CurveReader.Read at h
  obtain ⟨a, s1, h1, h⟩ := (Method.bind_eq_ok _ _ _ _ _).1 h
  obtain ⟨u2, s2, h2, h⟩ := (Method.bind_eq_ok _ _ _ _ _).1 h
  obtain ⟨b, s3, h3, h⟩ := (Method.bind_eq_ok _ _ _ _ _).1 h
  obtain ⟨u4, s4, h4, h⟩ := (Method.bind_eq_ok _ _ _ _ _).1 h
  obtain ⟨keyCount, s5, h5, h⟩ := (Method.bind_eq_ok _ _ _ _ _).1 h
  obtain ⟨f1, p1, _⟩ := ContentReader.ReadInt32_eq_ok _ _ _ h1
  have e2 := ContentReader.log_eq _ _ _ _ h2
  obtain ⟨f3, p3, _⟩ := ContentReader.ReadInt32_eq_ok _ _ _ h3
  have e4 := ContentReader.log_eq _ _ _ _ h4
  obtain ⟨_, _, l5, _⟩ := ContentReader.readUInt32_inherited_eq_ok _ _ _ h5
  have q2 : s2.position = s1.position := congrArg BinaryReader.position e2
  have g2 : s2.file = s1.file := congrArg BinaryReader.file e2
  have q4 : s4.position = s3.position := congrArg BinaryReader.position e4
  have g4 : s4.file = s3.file := congrArg BinaryReader.file e4
  rw [g4, f3, g2, f1, q4, p3, q2, p1] at l5
  omega

/-! ## C30: the key count of `CurveReader::Read` -/

set_option maxRecDepth 100000 in
/-- C30, counterexample: on the 32 bytes of `exampleCurve` (key count `01 00 00
00`) `CurveReader::Read` returns at offset 32, the end of the data, having read
the count from four bytes and one key record; with the count read as a 7-bit
encoded integer (one byte) the key record would start at offset 9 and the read
would end at offset 29. -/
theorem CurveReader_Read_counterexample :
    exampleCurve.length = 32 ∧
    (CurveReader.Read (ContentReader.new exampleCurve standardManager)).1 = .ok () ∧
    (CurveReader.Read (ContentReader.new exampleCurve standardManager)).2.position = 32 ∧
    (CurveReader.specifiedRead (ContentReader.new exampleCurve standardManager)).1 = .ok () ∧
    (CurveReader.specifiedRead (ContentReader.new exampleCurve standardManager)).2.position =
      29 ∧
    (CurveReader.Read (ContentReader.new exampleCurve standardManager)).2.Log ≠
      (CurveReader.specifiedRead (ContentReader.new exampleCurve standardManager)).2.Log := by
  decide!

/-- C30: `CurveReader::Read` reads the key count as a 32-bit little-endian
unsigned integer (`ReadUInt32`, four bytes) after the two 32-bit loop enums, then
that many key records of 20 bytes (four floats and a 32-bit continuity enum): it
returns exactly when the 12 bytes and the `20 * keyCount` bytes of the records
are there, `keyCount` being the 32-bit number at offset 8, and it then has
consumed exactly these bytes. -/
theorem CurveReader_Read_layout (r : ContentReader) :
    ((∃ r', CurveReader.Read r = (.ok (), r')) ↔
      r.position + 12 + 20 * uint32At r.file (r.position + 8) ≤ r.file.length) ∧
    (∀ r', CurveReader.Read r = (.ok (), r') →
      r'.file = r.file ∧
        r'.position = r.position + 12 + 20 * uint32At r.file (r.position + 8)) := by
  by_cases h12 : r.position + 12 ≤ r.file.length
  · obtain ⟨⟨file, position⟩, log, m, table⟩ := r
    simp only at h12 ⊢
    obtain ⟨log', hstart⟩ := CurveReader.Read_start file position log m table h12
    rw [hstart]
    obtain ⟨hok, herr⟩ := CurveReader.consumes_keys (uint32At file (position + 8)) file
      (position + 12) log' m table h12
    constructor
    · constructor
      · rintro ⟨r', h⟩
        by_contra hc
        obtain ⟨e, r'', h'⟩ := herr (by omega)
        rw [h] at h'
        cases (Prod.mk.inj h').1
      · intro hfit
        obtain ⟨_, log'', h⟩ := hok hfit
        exact ⟨_, h⟩
    · intro r' h
      by_cases hfit : position + 12 + 20 * uint32At file (position + 8) ≤ file.length
      · obtain ⟨_, log'', h'⟩ := hok hfit
        rw [h] at h'
        have := (Prod.mk.inj h').2
        subst this
        exact ⟨rfl, rfl⟩
      · obtain ⟨e, r'', h'⟩ := herr (by omega)
        rw [h] at h'
        cases (Prod.mk.inj h').1
  · constructor
    · exact iff_of_false (fun ⟨r', h⟩ => h12 (CurveReader.Read_eq_ok r r' h)) (fun h => by omega)
    · intro r' h
      exact absurd (CurveReader.Read_eq_ok r r' h) h12

set_option maxRecDepth 100000 in
/-- C30, witness: the curve of one key, 12 + 20 bytes. -/
theorem CurveReader_Read_layout_witness :
    uint32At exampleCurve 8 = 1 ∧
    (∃ r', CurveReader.Read (ContentReader.new exampleCurve standardManager) = (.ok (), r')) ∧
    (CurveReader.Read (ContentReader.new exampleCurve standardManager)).2.position =
      0 + 12 + 20 * uint32At exampleCurve (0 + 8) :=
  ⟨by decide,
    (CurveReader_Read_layout (ContentReader.new exampleCurve standardManager)).1.2 (by decide),
    ((CurveReader_Read_layout (ContentReader.new exampleCurve standardManager)).2 _
      (Method.eq_ok_of_fst (by decide!))).2⟩

/-! ## C28: the calls of `Initialize` -/

theorem Method.bind_assoc {σ α β γ : Type} (x : Method σ α) (f : α → Method σ β)
    (g : β → Method σ γ) : (x >>= f) >>= g = x >>= fun a => f a >>= g := by
  funext s
  simp only [Method.bind_apply]
  cases x s with
  | mk result s1 =>
    cases result with
    | error e => rfl
    | ok a => rfl

theorem ReadTypeManifest_eq_passes (r : ContentReader) :
    ContentReader.ReadTypeManifest r =
      (ContentReader.ReadTypeManifest.firstPass >>= fun _ =>
        ContentReader.ReadTypeManifest.secondPass) r := by
  unfold ContentReader.ReadTypeManifest ContentReader.ReadTypeManifest.firstPass
    ContentReader.ReadTypeManifest.secondPass
  simp only [Method.bind_assoc]

theorem forEach.calls_of_ok {σ α : Type} (body : α → Method σ Unit) (xs : List α) (s s' : σ)
    (h : forEach body xs s = (.ok (), s')) : forEach.calls body xs s = xs := by
  induction xs generalizing s with
  | nil => rfl
  | cons x xs ih =>
    rw [forEach] at h
    obtain ⟨u, s1, h1, h2⟩ := (Method.bind_eq_ok _ _ _ _ _).1 h
    rw [forEach.calls, h1]
    exact congrArg (List.cons x) (ih s1 h2)

set_option maxRecDepth 100000 in
/-- C28, counterexample: a manifest that lists `Int32Reader` twice is loaded
without an error; the table holds reader 4 twice, and the second loop calls
`Initialize` on reader 4 twice, once for each entry of the table. -/
theorem ReadTypeManifest_initialize_counterexample :
    (ContentReader.ReadTypeManifest
      (ContentReader.new repeatedManifest standardManager)).1 = .ok () ∧
    (ContentReader.ReadTypeManifest
      (ContentReader.new repeatedManifest standardManager)).2.typeReaders = [4, 4] ∧
    forEach.calls (fun reader => ContentReader.manager (TypeReaderManager.Initialize reader))
        (ContentReader.ReadTypeManifest.firstPass
          (ContentReader.new repeatedManifest standardManager)).2.typeReaders
        (ContentReader.ReadTypeManifest.firstPass
          (ContentReader.new repeatedManifest standardManager)).2 = [4, 4] ∧
    (forEach.calls (fun reader => ContentReader.manager (TypeReaderManager.Initialize reader))
        (ContentReader.ReadTypeManifest.firstPass
          (ContentReader.new repeatedManifest standardManager)).2.typeReaders
        (ContentReader.ReadTypeManifest.firstPass
          (ContentReader.new repeatedManifest standardManager)).2).count 4 = 2 := by
  decide!

/-- C28: for every manifest on which `ReadTypeManifest` succeeds, the call is the
first pass followed by the second; the calls of `Initialize` are those of the
second pass, which starts when the last manifest entry has been read, resolved and
appended (the table and the file position are already the final ones), and they
are made on the entries of the per-file table in table order: a reader is
initialized as many times as it occurs in the table, so exactly once when the
table holds no reader twice. -/
theorem ReadTypeManifest_initialize_calls (r r' : ContentReader)
    (h : ContentReader.ReadTypeManifest r = (.ok (), r')) :
    ∃ s, ContentReader.ReadTypeManifest.firstPass r = (.ok (), s) ∧
      ContentReader.ReadTypeManifest.secondPass s = (.ok (), r') ∧
      s.typeReaders = r'.typeReaders ∧ s.toBinaryReader = r'.toBinaryReader ∧
      forEach.calls (fun reader => ContentReader.manager (TypeReaderManager.Initialize reader))
        s.typeReaders s = r'.typeReaders ∧
      (∀ reader,
        (forEach.calls
          (fun reader => ContentReader.manager (TypeReaderManager.Initialize reader))
          s.typeReaders s).count reader = r'.typeReaders.count reader) ∧
      (r'.typeReaders.Nodup → ∀ reader ∈ r'.typeReaders,
        (forEach.calls
          (fun reader => ContentReader.manager (TypeReaderManager.Initialize reader))
          s.typeReaders s).count reader = 1) := by
  rw [ReadTypeManifest_eq_passes] at h
  obtain ⟨u, s, h1, h2⟩ := (Method.bind_eq_ok _ _ _ _ _).1 h
  have h2' := h2
  rw [ContentReader.ReadTypeManifest.secondPass,
    Method.bind_ok (rfl : Method.get s = (.ok s, s))] at h2'
  obtain ⟨u3, s3, h3, h4⟩ := (Method.bind_eq_ok _ _ _ _ _).1 h2'
  have hcalls := forEach.calls_of_ok _ _ _ _ h3
  rw [forEach_manager] at h3
  have hs3 := (Prod.mk.inj h3).2
  rw [ContentReader.Unindent, ContentReader.log_apply] at h4
  have hr' := (Prod.mk.inj h4).2
  have htable : s.typeReaders = r'.typeReaders := by rw [← hr', ← hs3]
  have hbinary : s.toBinaryReader = r'.toBinaryReader := by rw [← hr', ← hs3]
  refine ⟨s, h1, h2, htable, hbinary, hcalls.trans htable, fun reader => ?_,
    fun hnodup reader hmem => ?_⟩
  · rw [hcalls, htable]
  · rw [hcalls, htable]
    exact List.count_eq_one_of_mem hnodup hmem

set_option maxRecDepth 100000 in
/-- C28, witness: the example manifest of `Int32Reader` and a `ListReader`. -/
theorem ReadTypeManifest_initialize_calls_witness :
    (ContentReader.ReadTypeManifest (ContentReader.new exampleManifest standardManager)).1 =
      .ok () ∧
    ∃ s, ContentReader.ReadTypeManifest.firstPass
        (ContentReader.new exampleManifest standardManager) = (.ok (), s) ∧
      ContentReader.ReadTypeManifest.secondPass s =
        (.ok (), (ContentReader.ReadTypeManifest
          (ContentReader.new exampleManifest standardManager)).2) ∧
      s.typeReaders = (ContentReader.ReadTypeManifest
        (ContentReader.new exampleManifest standardManager)).2.typeReaders ∧
      s.toBinaryReader = (ContentReader.ReadTypeManifest
        (ContentReader.new exampleManifest standardManager)).2.toBinaryReader ∧
      forEach.calls (fun reader => ContentReader.manager (TypeReaderManager.Initialize reader))
        s.typeReaders s = (ContentReader.ReadTypeManifest
          (ContentReader.new exampleManifest standardManager)).2.typeReaders ∧
      (∀ reader,
        (forEach.calls
          (fun reader => ContentReader.manager (TypeReaderManager.Initialize reader))
          s.typeReaders s).count reader = (ContentReader.ReadTypeManifest
            (ContentReader.new exampleManifest standardManager)).2.typeReaders.count reader) ∧
      ((ContentReader.ReadTypeManifest
          (ContentReader.new exampleManifest standardManager)).2.typeReaders.Nodup →
        ∀ reader ∈ (ContentReader.ReadTypeManifest
            (ContentReader.new exampleManifest standardManager)).2.typeReaders,
          (forEach.calls
            (fun reader => ContentReader.manager (TypeReaderManager.Initialize reader))
            s.typeReaders s).count reader = 1) :=
  have h : (ContentReader.ReadTypeManifest
      (ContentReader.new exampleManifest standardManager)).1 = .ok () := by decide!
  ⟨h, ReadTypeManifest_initialize_calls _ _ (Method.eq_ok_of_fst h)⟩

/-! ## Lemmas: `ReflectiveReader` -/

theorem reflectiveReaderName_eq (T : wstring) :
    reflectiveReaderName T =
      GenericReaderClass.ReflectiveReader.GenericReaderName ++ [96] ++
        decimal [T].length ++ L "[[" ++ (L "],[").intercalate [T] ++ L "]]" := by
  have h : L "Microsoft.Xna.Framework.Content.ReflectiveReader`1[[" =
      GenericReaderClass.ReflectiveReader.GenericReaderName ++ [96] ++ decimal 1 ++ L "[[" := by
    decide
  rw [reflectiveReaderName, h, intercalate_singleton]
  rfl

theorem reflectiveReaderName_created (T : wstring) :
    (GenericReaderClass.ReflectiveReader.CreateTypeReader [T]).readerName =
      reflectiveReaderName T := by
  rw [reflectiveReaderName_eq]
  simp only [GenericReaderClass.CreateTypeReader, appendGenericArguments_eq,
    List.append_assoc]

theorem reflectiveReaderName_strip (T : wstring) (hT : 44 ∉ T) :
    StripAssemblyVersion (reflectiveReaderName T) = reflectiveReaderName T := by
  apply StripAssemblyVersion_of_no_comma
  have h1 : 44 ∉ L "Microsoft.Xna.Framework.Content.ReflectiveReader`1[[" := by decide
  have h2 : 44 ∉ L "]]" := by decide
  simp only [reflectiveReaderName, List.mem_append, not_or]
  exact ⟨⟨h1, hT⟩, h2⟩

/-- `GetByReaderName` on the name of a `ReflectiveReader` that is not registered
yet. -/
theorem GetByReaderName_reflective (m : TypeReaderManager) (T : wstring)
    (hne : T ≠ []) (h91 : T.head? ≠ some 91) (h93 : T.head? ≠ some 93)
    (hbalanced : isBalanced T) (hcomma : 44 ∉ T)
    (hfactory : findFactory GenericReaderClass.ReflectiveReader.GenericReaderName
      m.genericReaders = some .ReflectiveReader)
    (hnew : findByReaderName (reflectiveReaderName T) m.typeReaders 0 = none) :
    TypeReaderManager.GetByReaderName (reflectiveReaderName T) m =
      (.ok m.typeReaders.length,
        { m with typeReaders := m.typeReaders ++
          [.generic (GenericReaderClass.ReflectiveReader.CreateTypeReader [T])] }) := by
  have hstrip := reflectiveReaderName_strip T hcomma
  have hsplit : SplitGenericTypeName (StripAssemblyVersion (reflectiveReaderName T)) =
      some (GenericReaderClass.ReflectiveReader.GenericReaderName, [T]) := by
    rw [hstrip, reflectiveReaderName_eq]
    exact SplitGenericTypeName_construction _ [T] (by decide) (by simp)
      (fun a ha => by
        rw [List.mem_singleton] at ha
        subst ha
        exact ⟨hne, h91, h93, hbalanced⟩)
  exact GetByReaderName_created m _ _ [T] .ReflectiveReader (by rw [hstrip]; exact hnew) hsplit
    hfactory (by rw [hstrip]; exact reflectiveReaderName_created T)

theorem Initialize_reflective (m : TypeReaderManager) (reader : Nat) (g : GenericTypeReader)
    (hreader : m.deref reader = .ok (.generic g)) (hcls : g.cls = .ReflectiveReader) :
    TypeReaderManager.Initialize reader m = (.ok (), m) := by
  unfold TypeReaderManager.Initialize
  rw [Method.bind_ok (rfl : Method.get m = (.ok m, m)), hreader,
    Method.bind_ok (rfl : Method.ofExcept (Except.ok (TypeReader.generic g)) m = (.ok _, m))]
  simp only [hcls]
  rfl

theorem Read_reflective (fuel reader : Nat) (r : ContentReader) (g : GenericTypeReader)
    (hreader : r.typeReaderManager.deref reader = .ok (.generic g))
    (hcls : g.cls = .ReflectiveReader) :
    TypeReader.Read (fuel + 1) reader r = (.error .reflectiveReader, r) := by
  unfold TypeReader.Read
  rw [Method.bind_ok (rfl : Method.get r = (.ok r, r)), hreader,
    Method.bind_ok (rfl : Method.ofExcept (Except.ok (TypeReader.generic g)) r = (.ok _, r))]
  simp only [GenericTypeReader.Read, hcls]
  rfl

/-! ## Lemmas: the frame of a list of integers -/

/-- `ReadHeader` on a Windows header of format version 5 with no flag. -/
theorem ReadHeader_windows (file : List Nat) (log : Logger) (m : TypeReaderManager)
    (table : List Nat) (hlen : 10 ≤ file.length)
    (hmagic : byteAt file 0 = 88 ∧ byteAt file 1 = 78 ∧ byteAt file 2 = 66)
    (h3 : byteAt file 3 = 119) (h4 : byteAt file 4 = 5) (h5 : byteAt file 5 = 0)
    (hsize : declaredSize file 0 ≤ file.length % 2 ^ 32) :
    ContentReader.ReadHeader ⟨⟨file, 0⟩, log, m, table⟩ =
      (.ok (declaredSize file 0),
        ⟨⟨file, 10⟩,
          (log.WriteLine "Target platform: Windows" []).WriteLine "Graphics profile: Reach" [],
          m, table⟩) := by
  unfold ContentReader.ReadHeader
  rw [Method.bind_ok (rfl : Method.get (⟨⟨file, 0⟩, log, m, table⟩ : ContentReader) = _)]
  dsimp only
  rw [ContentReader.ReadByte_bind_ok _ _ _ _ _ _ (by omega),
    ContentReader.ReadByte_bind_ok _ _ _ _ _ _ (by omega),
    ContentReader.ReadByte_bind_ok _ _ _ _ _ _ (by omega)]
  simp only [Nat.zero_add, Nat.reduceAdd]
  rw [Method.ite_apply, if_neg (by simp [hmagic.1, hmagic.2.1, hmagic.2.2]),
    ContentReader.ReadByte_bind_ok _ _ _ _ _ _ (by omega)]
  rw [h3, if_pos rfl]
  rw [Method.bind_ok (rfl : ContentReader.WriteLine "Target platform: Windows" []
    ⟨⟨file, 3 + 1⟩, log, m, table⟩ = (.ok (), ⟨⟨file, 3 + 1⟩, _, m, table⟩))]
  rw [ContentReader.ReadByte_bind_ok _ _ _ _ _ _ (by omega)]
  simp only [Nat.reduceAdd]
  rw [h4, if_neg (by simp)]
  rw [Method.bind_ok (rfl : (pure () : Method ContentReader Unit)
    ⟨⟨file, 5⟩, log.WriteLine "Target platform: Windows" [], m, table⟩ = (.ok (), _))]
  rw [ContentReader.ReadByte_bind_ok _ _ _ _ _ _ (by omega)]
  simp only [Nat.reduceAdd]
  rw [h5]
  rw [if_neg (by decide)]
  rw [Method.bind_ok (rfl : ContentReader.WriteLine "Graphics profile: Reach" []
    ⟨⟨file, 6⟩, log.WriteLine "Target platform: Windows" [], m, table⟩ =
      (.ok (), ⟨⟨file, 6⟩, _, m, table⟩))]
  rw [ContentReader.ReadUInt32_bind_ok _ _ _ _ _ _ (by omega)]
  rw [Method.bind_ok (rfl : Method.get (⟨⟨file, 6 + 4⟩,
    (log.WriteLine "Target platform: Windows" []).WriteLine "Graphics profile: Reach" [],
    m, table⟩ : ContentReader) = _)]
  have hsz : byteAt file 6 + 256 * byteAt file (6 + 1) + 65536 * byteAt file (6 + 2) +
      16777216 * byteAt file (6 + 3) = declaredSize file 0 := rfl
  rw [hsz]
  have hlt : declaredSize file 0 < 2 ^ 32 := by
    have b6 := byteAt_lt file (0 + 6)
    have b7 := byteAt_lt file (0 + 7)
    have b8 := byteAt_lt file (0 + 8)
    have b9 := byteAt_lt file (0 + 9)
    unfold declaredSize
    omega
  have hstart : (BinaryReader.FilePosition ⟨file, 0⟩ + declaredSize file 0) % 2 ^ 32 =
      declaredSize file 0 := by
    show (0 % 2 ^ 32 + declaredSize file 0) % 2 ^ 32 = _
    rw [Nat.zero_mod, Nat.zero_add, Nat.mod_eq_of_lt hlt]
  have hfs : ∀ l : Logger, (⟨⟨file, 6 + 4⟩, l, m, table⟩ : ContentReader).FileSize =
      file.length % 2 ^ 32 := fun _ => rfl
  rw [hstart, Method.ite_apply, hfs, if_neg (by omega)]
  rw [Method.ite_apply, if_neg (by decide)]
  rfl

/-- `ReadTypeManifest` on a manifest of two entries. -/
theorem ReadTypeManifest_two (b0 b1 b2 b3 b4 b5 : BinaryReader) (log : Logger)
    (m m1 m2 m3 m4 : TypeReaderManager) (table : List Nat) (n1 n2 : wstring) (v1 v2 : Int)
    (r1 r2 : Nat)
    (hc : BinaryReader.Read7BitEncodedInt b0 = (.ok 2, b1))
    (hs1 : BinaryReader.ReadString b1 = (.ok n1, b2))
    (hv1 : BinaryReader.ReadInt32 b2 = (.ok v1, b3))
    (hs2 : BinaryReader.ReadString b3 = (.ok n2, b4))
    (hv2 : BinaryReader.ReadInt32 b4 = (.ok v2, b5))
    (hg1 : TypeReaderManager.GetByReaderName n1 m = (.ok r1, m1))
    (hg2 : TypeReaderManager.GetByReaderName n2 m1 = (.ok r2, m2))
    (hi1 : TypeReaderManager.Initialize r1 m2 = (.ok (), m3))
    (hi2 : TypeReaderManager.Initialize r2 m3 = (.ok (), m4)) :
    ContentReader.ReadTypeManifest ⟨b0, log, m, table⟩ =
      (.ok (), ⟨b5,
        ((((log.WriteLine "Type readers:" []).Indent).WriteLine "%S (version %d)"
          [.wstr n1, .int v1]).WriteLine "%S (version %d)" [.wstr n2, .int v2]).Unindent,
        m4, [r1, r2]⟩) := by
  unfold ContentReader.ReadTypeManifest
  simp only [Method.bind_apply, ContentReader.WriteLine, ContentReader.Indent,
    ContentReader.Unindent, ContentReader.log_apply, ContentReader.Read7BitEncodedInt,
    ContentReader.base_apply, hc, Method.modify_apply, forLoop, forLoop.go,
    ContentReader.ReadTypeManifest.entry, ContentReader.ReadString, ContentReader.ReadInt32,
    hs1, hv1, hs2, hv2, ContentReader.manager_apply, hg1, hg2, Method.get_apply,
    Method.pure_apply, List.nil_append, List.cons_append, forEach, hi1, hi2]

/-- A file whose bytes from position `p` on start with `X`. -/
theorem exists_prefix_of_drop (file : List Nat) (p : Nat) (X rest : List Nat)
    (hX : X ≠ []) (h : file.drop p = X ++ rest) :
    ∃ pre, file = pre ++ (X ++ rest) ∧ pre.length = p := by
  refine ⟨file.take p, ?_, ?_⟩
  · rw [← h, List.take_append_drop]
  · have hlen := congrArg List.length h
    have hpos : 0 < X.length := List.length_pos.2 hX
    rw [List.length_drop, List.length_append] at hlen
    rw [List.length_take]
    omega

theorem drop_add_of_drop (file : List Nat) (p : Nat) (X rest : List Nat)
    (h : file.drop p = X ++ rest) : file.drop (p + X.length) = rest := by
  rw [← List.drop_drop, h, List.drop_left]

/-- `Read7BitEncodedInt` on a one-byte count. -/
theorem BinaryReader.Read7BitEncodedInt_at (file : List Nat) (p n : Nat) (rest : List Nat)
    (hn : n < 128) (h : file.drop p = [n] ++ rest) :
    BinaryReader.Read7BitEncodedInt ⟨file, p⟩ = (.ok n, ⟨file, p + 1⟩) := by
  obtain ⟨pre, hfile, hp⟩ := exists_prefix_of_drop file p [n] rest (by simp) h
  subst hfile hp
  have := BinaryReader.Read7BitEncodedInt_loop_encode 6 0 0 n pre rest rfl (by omega)
    (by decide) (by omega)
  simp only [Nat.mul_zero, Nat.pow_zero, Nat.one_mul, Nat.zero_add, encode7Bit_small n hn,
    List.length_singleton] at this
  exact this

theorem utf8String_ascii (cs : List Nat) (h : ∀ c ∈ cs, c < 128) :
    utf8String cs = cs ∧ (cs.map fun c => c % 2 ^ 16) = cs := by
  induction cs with
  | nil => exact ⟨rfl, rfl⟩
  | cons c cs ih =>
    have hc : c < 128 := h c (List.mem_cons_self _ _)
    obtain ⟨h1, h2⟩ := ih fun x hx => h x (List.mem_cons_of_mem _ hx)
    have hutf : utf8 c = [c] := by
      unfold utf8
      rw [if_pos hc]
    have hmod : c % 2 ^ 16 = c := by omega
    exact ⟨by rw [utf8String, hutf, h1]; rfl, by rw [List.map_cons, h2, hmod]⟩

/-- `ReadString` on a string of fewer than 128 ASCII characters. -/
theorem BinaryReader.ReadString_at (file : List Nat) (p : Nat) (cs rest : List Nat)
    (hcs : ∀ c ∈ cs, c < 128) (hshort : cs.length < 128) (hlen : file.length < 2 ^ 32)
    (h : file.drop p = ([cs.length] ++ cs) ++ rest) :
    BinaryReader.ReadString ⟨file, p⟩ = (.ok cs, ⟨file, p + ([cs.length] ++ cs).length⟩) := by
  obtain ⟨pre, hfile, hp⟩ := exists_prefix_of_drop file p _ rest (by simp) h
  subst hfile hp
  obtain ⟨hutf, hmap⟩ := utf8String_ascii cs hcs
  have hfile : pre ++ encode7Bit (utf8String cs).length ++ utf8String cs ++ rest =
      pre ++ (([cs.length] ++ cs) ++ rest) := by
    rw [hutf, encode7Bit_small _ hshort]
    simp only [List.append_assoc]
  have := BinaryReader.ReadString_utf8String pre rest cs
    (fun c hc => by have := hcs c hc; omega) (by rw [hfile]; exact hlen)
  rw [hfile, hmap, hutf, encode7Bit_small _ hshort, Nat.add_assoc,
    ← List.length_append] at this
  exact this

/-- `ReadUInt32` on the four little-endian bytes of `n`. -/
theorem BinaryReader.ReadUInt32_at (file : List Nat) (p n : Nat) (rest : List Nat)
    (hn : n < 2 ^ 32) (h : file.drop p = littleEndian 4 n ++ rest) :
    BinaryReader.ReadUInt32 ⟨file, p⟩ = (.ok n, ⟨file, p + 4⟩) := by
  obtain ⟨pre, hfile, hp⟩ := exists_prefix_of_drop file p _ rest
    (by simp [littleEndian]) h
  subst hfile hp
  exact BinaryReader.ReadUInt32_littleEndian pre rest n hn

/-- `ReadInt32` on the four little-endian bytes of `n`. -/
theorem BinaryReader.ReadInt32_at (file : List Nat) (p n : Nat) (rest : List Nat)
    (hn : n < 2 ^ 32) (h : file.drop p = littleEndian 4 n ++ rest) :
    BinaryReader.ReadInt32 ⟨file, p⟩ = (.ok (BinaryReader.toSigned 32 n), ⟨file, p + 4⟩) := by
  unfold BinaryReader.ReadInt32
  rw [Method.bind_ok (BinaryReader.ReadUInt32_at file p n rest hn h)]
  rfl

theorem toSigned_int32 (v : Int) (hlo : -2 ^ 31 ≤ v) (hhi : v < 2 ^ 31) :
    BinaryReader.toSigned 32 (v % 2 ^ 32).toNat = v := by
  unfold BinaryReader.toSigned
  have h0 : 0 ≤ v % 2 ^ 32 := Int.emod_nonneg _ (by decide)
  have hcast : (((v % 2 ^ 32).toNat : Nat) : Int) = v % 2 ^ 32 := Int.toNat_of_nonneg h0
  split
  · rename_i hlt
    have : ((v % 2 ^ 32).toNat : Int) < 2 ^ 31 := by exact_mod_cast hlt
    rw [hcast] at this ⊢
    omega
  · rename_i hge
    have : ¬ ((v % 2 ^ 32).toNat : Int) < 2 ^ 31 := by
      intro h
      exact hge (by exact_mod_cast h)
    rw [hcast] at this ⊢
    omega

theorem int32Bytes_lt (v : Int) : (v % 2 ^ 32).toNat < 2 ^ 32 := by
  have h0 : 0 ≤ v % 2 ^ 32 := Int.emod_nonneg _ (by decide)
  have h1 : v % 2 ^ 32 < 2 ^ 32 := Int.emod_lt_of_pos _ (by decide)
  omega

theorem length_int32Bytes (v : Int) : (int32Bytes v).length = 4 := length_littleEndian 4 _

theorem length_int32ListPayload (values : List Int) :
    (int32ListPayload values).length = 4 * values.length := by
  induction values with
  | nil => rfl
  | cons v vs ih =>
    simp only [int32ListPayload, List.length_append, length_int32Bytes, ih, List.length_cons]
    omega

/-- One iteration of the loop of `ListReader::Read` over a list of `Int32`. -/
theorem ListReader.element_int32 (fuel i : Nat) (v : Int) (file : List Nat) (p : Nat)
    (rest : List Nat) (log : Logger) (m : TypeReaderManager) (table : List Nat)
    (hlo : -2 ^ 31 ≤ v) (hhi : v < 2 ^ 31)
    (h4 : m.deref 4 = .ok (.plain .Int32Reader))
    (h : file.drop p = int32Bytes v ++ rest) :
    (do
      ContentReader.WriteLine "Element %u:" [.nat i]
      ContentReader.ReadValueOrObject (TypeReader.Read (fuel + 1)) (some 4))
        ⟨⟨file, p⟩, log, m, table⟩ =
      (.ok (), ⟨⟨file, p + 4⟩,
        (((log.WriteLine "Element %u:" [.nat i]).Indent).WriteLine "%d" [.int v]).Unindent,
        m, table⟩) := by
  have hread := BinaryReader.ReadInt32_at file p _ rest (int32Bytes_lt v) h
  rw [toSigned_int32 v hlo hhi] at hread
  simp only [Method.bind_apply, ContentReader.WriteLine, ContentReader.log_apply,
    ContentReader.ReadValueOrObject, ContentReader.IsValueType, Method.get_apply,
    Method.ofExcept_apply, h4, Method.pure_apply, TypeReader.IsValueType,
    ReaderClass.IsValueType, if_true, ContentReader.Indent, ContentReader.Unindent,
    TypeReader.Read, ReaderClass.Read, Int32Reader.Read, ContentReader.ReadInt32,
    ContentReader.base_apply, hread]

/-- The loop of `ListReader::Read` over a list of `Int32`. -/
theorem ListReader.elements_int32 (fuel : Nat) (values : List Int) (i : Nat)
    (file : List Nat) (p : Nat) (rest : List Nat) (log : Logger) (m : TypeReaderManager)
    (table : List Nat) (hrange : ∀ v ∈ values, -2 ^ 31 ≤ v ∧ v < 2 ^ 31)
    (h4 : m.deref 4 = .ok (.plain .Int32Reader))
    (h : file.drop p = int32ListPayload values ++ rest) :
    forLoop.go (fun i => do
        ContentReader.WriteLine "Element %u:" [.nat i]
        ContentReader.ReadValueOrObject (TypeReader.Read (fuel + 1)) (some 4))
        values.length i ⟨⟨file, p⟩, log, m, table⟩ =
      (.ok (), ⟨⟨file, p + 4 * values.length⟩, int32ElementsLog i values log, m, table⟩) := by
  induction values generalizing i p log with
  | nil => rfl
  | cons v vs ih =>
    obtain ⟨hlo, hhi⟩ := hrange v (List.mem_cons_self _ _)
    have h' : file.drop p = int32Bytes v ++ (int32ListPayload vs ++ rest) := by
      rw [h, int32ListPayload, List.append_assoc]
    have hnext := drop_add_of_drop file p _ _ h'
    rw [length_int32Bytes] at hnext
    have hpos : p + 4 + 4 * vs.length = p + 4 * (v :: vs).length := by
      rw [List.length_cons]
      omega
    rw [List.length_cons, forLoop.go,
      Method.bind_ok (ListReader.element_int32 fuel i v file p _ log m table hlo hhi h4 h'),
      ih (i + 1) (p + 4) _ (fun x hx => hrange x (List.mem_cons_of_mem _ hx)) hnext, hpos]
    rfl

/-- The virtual call on a reader of a generic class. -/
theorem TypeReader.Read_generic (fuel typeReader : Nat) (self : GenericTypeReader)
    (r : ContentReader)
    (h : r.typeReaderManager.deref typeReader = .ok (.generic self)) :
    TypeReader.Read (fuel + 1) typeReader r = self.Read (TypeReader.Read fuel) r := by
  rw [TypeReader.Read]
  simp only [Method.bind_apply, Method.get_apply, Method.ofExcept_apply, h]

/-- `ListReader::Read` on a 32-bit count and the values of a list of `Int32`. -/
theorem ListReader.Read_int32 (fuel : Nat) (values : List Int) (file : List Nat) (p : Nat)
    (rest : List Nat) (log : Logger) (m : TypeReaderManager) (table : List Nat)
    (self : GenericTypeReader)
    (hrange : ∀ v ∈ values, -2 ^ 31 ≤ v ∧ v < 2 ^ 31) (hcount : values.length < 2 ^ 32)
    (h4 : m.deref 4 = .ok (.plain .Int32Reader))
    (helement : self.elementReader = some 4)
    (h : file.drop p = littleEndian 4 values.length ++ (int32ListPayload values ++ rest)) :
    ListReader.Read (TypeReader.Read (fuel + 1)) self ⟨⟨file, p⟩, log, m, table⟩ =
      (.ok (), ⟨⟨file, p + 4 + 4 * values.length⟩,
        int32ElementsLog 0 values (log.WriteLine "Element count: %u" [.nat values.length]),
        m, table⟩) := by
  have hcountRead := BinaryReader.ReadUInt32_at file p values.length _ hcount h
  have h2 := drop_add_of_drop file p _ _ h
  rw [length_littleEndian] at h2
  have hloop := ListReader.elements_int32 fuel values 0 file (p + 4) rest
    (log.WriteLine "Element count: %u" [.nat values.length]) m table hrange h4 h2
  unfold ListReader.Read
  rw [helement]
  simp only [Method.bind_apply, ContentReader.ReadUInt32, ContentReader.base_apply, hcountRead,
    ContentReader.WriteLine, ContentReader.log_apply, forLoop]
  exact hloop

/-- `ReadObject` on the tag 2, a 32-bit count and the values of a list of
`Int32`, with the `ListReader` of `Int32` as the second reader of the table. -/
theorem ReadObject_int32List (fuel : Nat) (values : List Int) (file : List Nat) (p : Nat)
    (rest : List Nat) (log : Logger) (m : TypeReaderManager) (first : Nat)
    (self : GenericTypeReader) (target : wstring)
    (hrange : ∀ v ∈ values, -2 ^ 31 ≤ v ∧ v < 2 ^ 31) (hcount : values.length < 2 ^ 32)
    (h4 : m.deref 4 = .ok (.plain .Int32Reader))
    (h51 : m.deref 51 = .ok (.generic self)) (hcls : self.cls = .ListReader)
    (helement : self.elementReader = some 4)
    (htarget : (TypeReader.generic self).TargetType = .ok target)
    (h : file.drop p =
      [2] ++ (littleEndian 4 values.length ++ (int32ListPayload values ++ rest))) :
    ContentReader.ReadObject (TypeReader.Read (fuel + 2))
        ⟨⟨file, p⟩, log, m, [first, 51]⟩ =
      (.ok (), ⟨⟨file, p + 1 + 4 + 4 * values.length⟩,
        (int32ElementsLog 0 values
          (((log.Indent).WriteLine "Type: %S" [.wstr target]).WriteLine "Element count: %u"
            [.nat values.length])).Unindent, m, [first, 51]⟩) := by
  have htag := BinaryReader.Read7BitEncodedInt_at file p 2 _ (by decide) h
  have h1 := drop_add_of_drop file p _ _ h
  rw [List.length_singleton] at h1
  have hid : ContentReader.ReadTypeId ⟨⟨file, p⟩, log.Indent, m, [first, 51]⟩ =
      (.ok (some 51), ⟨⟨file, p + 1⟩, log.Indent, m, [first, 51]⟩) := by
    simp only [ContentReader.ReadTypeId, Method.bind_apply, ContentReader.Read7BitEncodedInt,
      ContentReader.base_apply, htag]
    rfl
  have htype : ContentReader.TargetType 51 ⟨⟨file, p + 1⟩, log.Indent, m, [first, 51]⟩ =
      (.ok target, ⟨⟨file, p + 1⟩, log.Indent, m, [first, 51]⟩) := by
    simp only [ContentReader.TargetType, Method.bind_apply, Method.get_apply,
      Method.ofExcept_apply, h51, htarget]
  have hread : TypeReader.Read (fuel + 2) 51
      ⟨⟨file, p + 1⟩, (log.Indent).WriteLine "Type: %S" [.wstr target], m, [first, 51]⟩ =
      (.ok (), ⟨⟨file, p + 1 + 4 + 4 * values.length⟩,
        int32ElementsLog 0 values
          (((log.Indent).WriteLine "Type: %S" [.wstr target]).WriteLine "Element count: %u"
            [.nat values.length]), m, [first, 51]⟩) := by
    rw [TypeReader.Read_generic (fuel + 1) 51 self _ h51, GenericTypeReader.Read, hcls]
    exact ListReader.Read_int32 fuel values file (p + 1) rest _ m _ self hrange hcount h4
      helement h1
  simp only [ContentReader.ReadObject, Method.bind_apply, ContentReader.Indent,
    ContentReader.log_apply, hid, htype, ContentReader.WriteLine, hread,
    ContentReader.Unindent]

theorem int32ElementsLog_eq (values : List Int) (i : Nat) (log : Logger)
    (hnew : log.isNewLine = true) (hind : log.indentation = 1) :
    int32ElementsLog i values log =
      ⟨1, true, log.output ++ int32ElementsOutput i values⟩ := by
  induction values generalizing i log with
  | nil =>
    obtain ⟨indentation, isNewLine, output⟩ := log
    simp only at hnew hind
    subst hnew hind
    simp [int32ElementsLog, int32ElementsOutput]
  | cons v vs ih =>
    obtain ⟨indentation, isNewLine, output⟩ := log
    simp only at hnew hind
    subst hnew hind
    rw [int32ElementsLog, ih _ _ rfl rfl]
    simp [int32ElementsOutput, Logger.WriteLine, Logger.Write, Logger.WriteOutput,
      Logger.Indent, Logger.Unindent]

set_option maxRecDepth 100000 in
/-- What the two names of the manifest of a list of `Int32` do to the standard
registry. -/
theorem int32List_registry :
    ∃ (m2 m3 m4 : TypeReaderManager) (self : GenericTypeReader),
      TypeReaderManager.GetByReaderName (L "Microsoft.Xna.Framework.Content.Int32Reader")
        standardManager = (.ok 4, standardManager) ∧
      TypeReaderManager.GetByReaderName
        (L "Microsoft.Xna.Framework.Content.ListReader`1[[System.Int32]]") standardManager =
          (.ok 51, m2) ∧
      TypeReaderManager.Initialize 4 m2 = (.ok (), m3) ∧
      TypeReaderManager.Initialize 51 m3 = (.ok (), m4) ∧
      m4.deref 4 = .ok (.plain .Int32Reader) ∧
      m4.deref 51 = .ok (.generic self) ∧
      self.cls = .ListReader ∧ self.elementReader = some 4 ∧
      (TypeReader.generic self).TargetType =
        .ok (L "System.Collections.Generic.List`1[[System.Int32]]") :=
  ⟨_, _, _,
    { cls := .ListReader
      targetType := L "System.Collections.Generic.List`1[[System.Int32]]"
      readerName := L "Microsoft.Xna.Framework.Content.ListReader`1[[System.Int32]]"
      genericArguments := [L "System.Int32"]
      elementReader := some 4
      keyReader := none
      valueReader := none },
    by decide!, Method.eq_ok_of_fst (by decide!), Method.eq_ok_of_fst (by decide!),
    Method.eq_ok_of_fst (by decide!), by decide!, by decide!, rfl, rfl, by decide!⟩

theorem length_int32ListBody (values : List Int) :
    (int32ListBody values).length = 120 + 4 * values.length := by
  have h1 : (asciiString "Microsoft.Xna.Framework.Content.Int32Reader").length = 44 := by decide
  have h2 : (asciiString
      "Microsoft.Xna.Framework.Content.ListReader`1[[System.Int32]]").length = 61 := by decide
  simp only [int32ListBody, List.length_append, h1, h2, length_littleEndian,
    length_int32ListPayload, List.length_cons, List.length_nil]

theorem length_int32ListFrame (values : List Int) :
    (int32ListFrame values).length = 130 + 4 * values.length := by
  simp only [int32ListFrame, List.length_append, length_littleEndian, length_int32ListBody,
    List.length_cons, List.length_nil]
  omega

theorem declaredSize_int32ListFrame (values : List Int)
    (hlen : (int32ListFrame values).length < 2 ^ 32) :
    declaredSize (int32ListFrame values) 0 = (int32ListFrame values).length := by
  have hbody := length_int32ListBody values
  have hframe := length_int32ListFrame values
  obtain ⟨e0, e1, e2, e3⟩ := byteAt_littleEndian_four (10 + (int32ListBody values).length)
    (int32ListBody values)
  have hat : ∀ i, byteAt (int32ListFrame values) (6 + i) =
      byteAt (littleEndian 4 (10 + (int32ListBody values).length) ++ int32ListBody values)
        i := fun i => by
    have := byteAt_append_add [88, 78, 66, 119, 5, 0]
      (littleEndian 4 (10 + (int32ListBody values).length) ++ int32ListBody values) i
    rw [← this, int32ListFrame, List.append_assoc]
    rfl
  unfold declaredSize
  rw [Nat.zero_add, hat 1, hat 2, hat 3, ← Nat.add_zero 6, hat 0, e0, e1, e2, e3]
  omega

theorem asciiString_eq (s : String) : asciiString s = [(L s).length] ++ L s := by
  unfold asciiString L
  rw [List.length_map]
  rfl

theorem int32ListFrame_drop (values : List Int) :
    (int32ListFrame values).drop 10 =
      [2] ++ (([(L "Microsoft.Xna.Framework.Content.Int32Reader").length] ++
          L "Microsoft.Xna.Framework.Content.Int32Reader") ++
        (littleEndian 4 0 ++
          (([(L "Microsoft.Xna.Framework.Content.ListReader`1[[System.Int32]]").length] ++
              L "Microsoft.Xna.Framework.Content.ListReader`1[[System.Int32]]") ++
            (littleEndian 4 0 ++ ([0] ++ ([2] ++ (littleEndian 4 values.length ++
              (int32ListPayload values ++ [])))))))) := by
  have hsplit : int32ListFrame values =
      ([88, 78, 66, 119, 5, 0] ++ littleEndian 4 (10 + (int32ListBody values).length)) ++
        int32ListBody values := rfl
  rw [hsplit, List.drop_left' (by rw [List.length_append, length_littleEndian]; rfl),
    int32ListBody, asciiString_eq, asciiString_eq]
  simp only [List.append_assoc, List.append_nil]
  rfl

set_option maxRecDepth 100000 in
/-- The run of `ReadXnb` on the frame of a list of 32-bit integers. -/
theorem ReadXnb_int32ListFrame (fuel : Nat) (values : List Int)
    (hrange : ∀ v ∈ values, -2 ^ 31 ≤ v ∧ v < 2 ^ 31)
    (hlen : (int32ListFrame values).length < 2 ^ 32) :
    ∃ m4 : TypeReaderManager,
      ContentReader.ReadXnb (fuel + 2)
          (ContentReader.new (int32ListFrame values) standardManager) =
        (.ok (), ⟨⟨int32ListFrame values, 125 + 1 + 4 + 4 * values.length⟩,
          ⟨0, true, int32ListOutput values⟩, m4, [4, 51]⟩) := by
  obtain ⟨m2, m3, m4, self, hg1, hg2, hi1, hi2, h4, h51, hcls, helement, htarget⟩ :=
    int32List_registry
  refine ⟨m4, ?_⟩
  have hframe := length_int32ListFrame values
  have hsize := declaredSize_int32ListFrame values hlen
  have hheader := ReadHeader_windows (int32ListFrame values) Logger.new standardManager []
    (by omega) ⟨rfl, rfl, rfl⟩ rfl rfl rfl
    (by rw [hsize, Nat.mod_eq_of_lt hlen])
  have d10 := int32ListFrame_drop values
  have hc : BinaryReader.Read7BitEncodedInt ⟨int32ListFrame values, 10⟩ =
      (.ok 2, ⟨int32ListFrame values, 11⟩) :=
    BinaryReader.Read7BitEncodedInt_at _ 10 2 _ (by decide) d10
  have d11 : (int32ListFrame values).drop 11 = _ := drop_add_of_drop _ 10 _ _ d10
  have hs1 : BinaryReader.ReadString ⟨int32ListFrame values, 11⟩ =
      (.ok (L "Microsoft.Xna.Framework.Content.Int32Reader"), ⟨int32ListFrame values, 55⟩) :=
    BinaryReader.ReadString_at _ 11 _ _ (by decide) (by decide) hlen d11
  have d55 : (int32ListFrame values).drop 55 = _ := drop_add_of_drop _ 11 _ _ d11
  have hv1 : BinaryReader.ReadInt32 ⟨int32ListFrame values, 55⟩ =
      (.ok 0, ⟨int32ListFrame values, 59⟩) :=
    BinaryReader.ReadInt32_at _ 55 0 _ (by decide) d55
  have d59 : (int32ListFrame values).drop 59 = _ := drop_add_of_drop _ 55 _ _ d55
  have hs2 : BinaryReader.ReadString ⟨int32ListFrame values, 59⟩ =
      (.ok (L "Microsoft.Xna.Framework.Content.ListReader`1[[System.Int32]]"),
        ⟨int32ListFrame values, 120⟩) :=
    BinaryReader.ReadString_at _ 59 _ _ (by decide) (by decide) hlen d59
  have d120 : (int32ListFrame values).drop 120 = _ := drop_add_of_drop _ 59 _ _ d59
  have hv2 : BinaryReader.ReadInt32 ⟨int32ListFrame values, 120⟩ =
      (.ok 0, ⟨int32ListFrame values, 124⟩) :=
    BinaryReader.ReadInt32_at _ 120 0 _ (by decide) d120
  have d124 : (int32ListFrame values).drop 124 = _ := drop_add_of_drop _ 120 _ _ d120
  have hmanifest := fun log => ReadTypeManifest_two _ _ _ _ _ _ log _ _ _ _ _ [] _ _ _ _ _ _
    hc hs1 hv1 hs2 hv2 hg1 hg2 hi1 hi2
  have hshared : BinaryReader.Read7BitEncodedInt ⟨int32ListFrame values, 124⟩ =
      (.ok 0, ⟨int32ListFrame values, 125⟩) :=
    BinaryReader.Read7BitEncodedInt_at _ 124 0 _ (by decide) d124
  have d125 : (int32ListFrame values).drop 125 = _ := drop_add_of_drop _ 124 _ _ d124
  have hobj := fun log => ReadObject_int32List fuel values _ 125 [] log m4 4 self _ hrange
    (by omega) h4 h51 hcls helement htarget d125
  have hfinal : BinaryReader.FilePosition
      ⟨int32ListFrame values, 125 + 1 + 4 + 4 * values.length⟩ =
      declaredSize (int32ListFrame values) 0 := by
    rw [hsize, hframe]
    show (125 + 1 + 4 + 4 * values.length) % 2 ^ 32 = _
    omega
  unfold ContentReader.ReadXnb ContentReader.new
  simp only [Method.bind_apply, hheader, hmanifest, ContentReader.Read7BitEncodedInt,
    ContentReader.base_apply, hshared, ContentReader.WriteLine, ContentReader.log_apply, hobj,
    forLoop, forLoop.go, Method.get_apply, Method.pure_apply, Method.ite_apply]
  rw [if_neg (fun h => h hfinal), int32ElementsLog_eq _ _ _ rfl rfl]
  rfl

/-- C22: for every list of 32-bit integers whose frame is shorter than 4 GiB, the
frame made of the Windows header with the total length as the declared size, the
manifest of `Int32Reader` and the `ListReader` of `Int32`, the shared count 0,
the tag 2, the 32-bit count and the values as four little-endian bytes each, is
parsed by `ReadXnb` with the standard registry without an error, for every fuel
of at least 2: the whole file is consumed, the table is the two readers, and
the output reports the target type, the element count and the values in
order. -/
theorem ReadXnb_int32List (fuel : Nat) (values : List Int)
    (hrange : ∀ v ∈ values, -2 ^ 31 ≤ v ∧ v < 2 ^ 31)
    (hlen : (int32ListFrame values).length < 2 ^ 32) :
    ∃ r', ContentReader.ReadXnb (fuel + 2)
          (ContentReader.new (int32ListFrame values) standardManager) = (.ok (), r') ∧
      r'.file = int32ListFrame values ∧
      r'.position = (int32ListFrame values).length ∧
      r'.typeReaders = [4, 51] ∧
      r'.Log.output = int32ListOutput values := by
  obtain ⟨m4, h⟩ := ReadXnb_int32ListFrame fuel values hrange hlen
  refine ⟨_, h, rfl, ?_, rfl, rfl⟩
  rw [length_int32ListFrame]

set_option maxRecDepth 100000 in
/-- The list 1, 2, 3: the frame of 142 bytes ends with the payload
`03 00 00 00 01 00 00 00 02 00 00 00 03 00 00 00`, and the output ends with the
element count 3 and the values 1, 2, 3. -/
theorem ReadXnb_int32List_witness :
    ((∀ v ∈ [1, 2, 3], -2 ^ 31 ≤ v ∧ v < 2 ^ 31) ∧
      (int32ListFrame [1, 2, 3]).length < 2 ^ 32) ∧
    ((int32ListFrame [1, 2, 3]).length = 142 ∧
      (int32ListFrame [1, 2, 3]).drop 126 =
        [3, 0, 0, 0, 1, 0, 0, 0, 2, 0, 0, 0, 3, 0, 0, 0] ∧
      (int32ListOutput [1, 2, 3]).drop 17 =
        [.printf "    " [], .printf "Element count: %u" [.int 3], .printf "\n" [],
         .printf "    " [], .printf "Element %u:" [.int 0], .printf "\n" [],
         .printf "    " [], .printf "    " [], .printf "%d" [.int 1], .printf "\n" [],
         .printf "    " [], .printf "Element %u:" [.int 1], .printf "\n" [],
         .printf "    " [], .printf "    " [], .printf "%d" [.int 2], .printf "\n" [],
         .printf "    " [], .printf "Element %u:" [.int 2], .printf "\n" [],
         .printf "    " [], .printf "    " [], .printf "%d" [.int 3], .printf "\n" []]) ∧
    ∃ r', ContentReader.ReadXnb 2
          (ContentReader.new (int32ListFrame [1, 2, 3]) standardManager) = (.ok (), r') ∧
      r'.file = int32ListFrame [1, 2, 3] ∧
      r'.position = (int32ListFrame [1, 2, 3]).length ∧
      r'.typeReaders = [4, 51] ∧
      r'.Log.output = int32ListOutput [1, 2, 3] :=
  ⟨⟨by decide, by decide⟩, ⟨by decide, by decide, by decide⟩,
    ReadXnb_int32List 0 [1, 2, 3] (by decide) (by decide)⟩

/-! ## C40: `StripAssemblyVersion` only deletes characters -/

theorem stripFrom_sublist (skipping : Bool) (s : wstring) :
    (stripFrom skipping s).Sublist s := by
  induction s generalizing skipping with
  | nil => cases skipping <;> exact List.Sublist.slnil
  | cons c rest ih =>
    cases skipping with
    | true =>
      simp only [stripFrom]
      split
      · exact (ih false).cons₂ c
      · exact (ih true).cons c
    | false =>
      simp only [stripFrom]
      split
      · split
        · exact (ih false).cons₂ c
        · exact (ih true).cons c
      · exact (ih false).cons₂ c

theorem stripFrom_count_close (skipping : Bool) (s : wstring) :
    (stripFrom skipping s).count 93 = s.count 93 := by
  induction s generalizing skipping with
  | nil => cases skipping <;> rfl
  | cons c rest ih =>
    cases skipping with
    | true =>
      simp only [stripFrom]
      split
      · rw [List.count_cons, List.count_cons, ih false]
      · rename_i hc
        rw [List.count_cons, ih true, if_neg (by simpa using hc), Nat.add_zero]
    | false =>
      simp only [stripFrom]
      split
      · rename_i hc
        subst hc
        split
        · rw [List.count_cons, List.count_cons, ih false]
        · rw [List.count_cons, ih true, if_neg (by decide), Nat.add_zero]
      · rw [List.count_cons, List.count_cons, ih false]

/-- C40: `StripAssemblyVersion` only deletes characters and never deletes a `]`:
for every string `s` the result is a subsequence of `s` (some of its characters,
in their order) and holds exactly as many `]` as `s`; and the result is `s`
itself when `s` holds no comma. -/
theorem StripAssemblyVersion_deletes_only (s : wstring) :
    (StripAssemblyVersion s).Sublist s ∧
    (StripAssemblyVersion s).count 93 = s.count 93 ∧
    (44 ∉ s → StripAssemblyVersion s = s) := by
  rw [StripAssemblyVersion_eq]
  refine ⟨stripFrom_sublist false s, stripFrom_count_close false s, fun h => ?_⟩
  rw [← StripAssemblyVersion_eq]
  exact StripAssemblyVersion_of_no_comma s h

/-- C40, witness: a name with assembly metadata at two levels loses the metadata
and keeps its two `]`; a name without a comma is returned as it is. -/
theorem StripAssemblyVersion_deletes_only_witness :
    StripAssemblyVersion (L "List`1[[Int32, mscorlib, Version=4.0.0.0]], Xna") =
      L "List`1[[Int32]]" ∧
    (StripAssemblyVersion (L "List`1[[Int32, mscorlib, Version=4.0.0.0]], Xna")).Sublist
      (L "List`1[[Int32, mscorlib, Version=4.0.0.0]], Xna") ∧
    (StripAssemblyVersion (L "List`1[[Int32, mscorlib, Version=4.0.0.0]], Xna")).count 93 =
      (L "List`1[[Int32, mscorlib, Version=4.0.0.0]], Xna").count 93 ∧
    44 ∉ L "List`1[[Int32]]" ∧
    StripAssemblyVersion (L "List`1[[Int32]]") = L "List`1[[Int32]]" :=
  ⟨by decide, (StripAssemblyVersion_deletes_only _).1, (StripAssemblyVersion_deletes_only _).2.1,
    by decide, (StripAssemblyVersion_deletes_only _).2.2 (by decide)⟩

/-! ## C32: the kind and the ticks of `DateTimeReader::Read` -/

theorem BinaryReader.ReadUInt64_eq_ok (b b' : BinaryReader) (v : Nat)
    (h : BinaryReader.ReadUInt64 b = (.ok v, b')) :
    b'.file = b.file ∧ b'.position = b.position + 8 ∧ b.position + 8 ≤ b.file.length ∧
      v < 2 ^ 64 := by
  obtain ⟨file, position⟩ := b
  by_cases hlen : position + 8 ≤ file.length
  · rw [BinaryReader.ReadUInt64_ok file position hlen] at h
    have hv := (Except.ok.inj (Prod.mk.inj h).1)
    have hb := (Prod.mk.inj h).2
    subst hb
    refine ⟨rfl, rfl, hlen, ?_⟩
    have b0 := byteAt_lt file position
    have b1 := byteAt_lt file (position + 1)
    have b2 := byteAt_lt file (position + 2)
    have b3 := byteAt_lt file (position + 3)
    have b4 := byteAt_lt file (position + 4)
    have b5 := byteAt_lt file (position + 5)
    have b6 := byteAt_lt file (position + 6)
    have b7 := byteAt_lt file (position + 7)
    omega
  · exfalso
    unfold BinaryReader.ReadUInt64 at h
    obtain ⟨v1, s1, h1, h⟩ := (Method.bind_eq_ok _ _ _ _ _).1 h
    obtain ⟨v2, s2, h2, h⟩ := (Method.bind_eq_ok _ _ _ _ _).1 h
    obtain ⟨v3, s3, h3, h⟩ := (Method.bind_eq_ok _ _ _ _ _).1 h
    obtain ⟨v4, s4, h4, h⟩ := (Method.bind_eq_ok _ _ _ _ _).1 h
    obtain ⟨v5, s5, h5, h⟩ := (Method.bind_eq_ok _ _ _ _ _).1 h
    obtain ⟨v6, s6, h6, h⟩ := (Method.bind_eq_ok _ _ _ _ _).1 h
    obtain ⟨v7, s7, h7, h⟩ := (Method.bind_eq_ok _ _ _ _ _).1 h
    obtain ⟨v8, s8, h8, h⟩ := (Method.bind_eq_ok _ _ _ _ _).1 h
    obtain ⟨f1, p1, l1, _⟩ := BinaryReader.ReadByte_eq_ok _ _ _ h1
    obtain ⟨f2, p2, l2, _⟩ := BinaryReader.ReadByte_eq_ok _ _ _ h2
    obtain ⟨f3, p3, l3, _⟩ := BinaryReader.ReadByte_eq_ok _ _ _ h3
    obtain ⟨f4, p4, l4, _⟩ := BinaryReader.ReadByte_eq_ok _ _ _ h4
    obtain ⟨f5, p5, l5, _⟩ := BinaryReader.ReadByte_eq_ok _ _ _ h5
    obtain ⟨f6, p6, l6, _⟩ := BinaryReader.ReadByte_eq_ok _ _ _ h6
    obtain ⟨f7, p7, l7, _⟩ := BinaryReader.ReadByte_eq_ok _ _ _ h7
    obtain ⟨f8, p8, l8, _⟩ := BinaryReader.ReadByte_eq_ok _ _ _ h8
    rw [f7, f6, f5, f4, f3, f2, f1] at l8
    simp only at p1 l8
    omega

/-- C32: for every 64-bit value `v` that `DateTimeReader::Read` reads, the call
returns having printed the kind `v >> 62`, which is the top two bits of `v`, an
integer from 0 to 3, and the ticks `v & ~(3 << 62)`, which are the low 62 bits
of `v`; so `v = kind * 2^62 + ticks` with `0 <= ticks < 2^62`. -/
theorem DateTimeReader_Read_split (r r1 : ContentReader) (v : Nat)
    (h : ContentReader.ReadUInt64 r = (.ok v, r1)) :
    DateTimeReader.Read r =
      (.ok (), { r1 with
        Log := (r1.Log.WriteLine "DateTimeKind: %d" [.nat (v / 2 ^ 62)]).WriteLine
          "Ticks: %llu" [.nat (v % 2 ^ 62)] }) ∧
    v / 2 ^ 62 ≤ 3 ∧ v % 2 ^ 62 < 2 ^ 62 ∧ v = v / 2 ^ 62 * 2 ^ 62 + v % 2 ^ 62 := by
  have hv : v < 2 ^ 64 :=
    (BinaryReader.ReadUInt64_eq_ok _ _ _ ((ContentReader.base_eq_ok _ _ _ _).1 h).1).2.2.2
  refine ⟨?_, by omega, by omega, by omega⟩
  unfold DateTimeReader.Read
  rw [Method.bind_ok h, Nat.shiftRight_eq_div_pow, Nat.and_pow_two_sub_one_eq_mod]
  rfl

/-- C32, witness: the value `0x4000000000000005` (bytes `05 00 00 00 00 00 00 40`)
has kind 1 and ticks 5. -/
theorem DateTimeReader_Read_split_witness :
    ContentReader.ReadUInt64 (ContentReader.new [5, 0, 0, 0, 0, 0, 0, 64] standardManager) =
      (.ok 0x4000000000000005,
        { ContentReader.new [5, 0, 0, 0, 0, 0, 0, 64] standardManager with position := 8 }) ∧
    (DateTimeReader.Read (ContentReader.new [5, 0, 0, 0, 0, 0, 0, 64] standardManager) =
      (.ok (), { ContentReader.new [5, 0, 0, 0, 0, 0, 0, 64] standardManager with
        position := 8
        Log := (Logger.new.WriteLine "DateTimeKind: %d" [.nat 1]).WriteLine
          "Ticks: %llu" [.nat 5] }) ∧
    0x4000000000000005 / 2 ^ 62 ≤ 3 ∧ 0x4000000000000005 % 2 ^ 62 < 2 ^ 62 ∧
      0x4000000000000005 =
        0x4000000000000005 / 2 ^ 62 * 2 ^ 62 + 0x4000000000000005 % 2 ^ 62) :=
  ⟨by decide,
    DateTimeReader_Read_split (ContentReader.new [5, 0, 0, 0, 0, 0, 0, 64] standardManager)
      { ContentReader.new [5, 0, 0, 0, 0, 0, 0, 64] standardManager with position := 8 }
      0x4000000000000005 (by decide)⟩

/-! ## C38: `Logger::WriteEnum` at the end of the table -/

theorem enumTable_take (enumValues : List String) (n : Nat) :
    none ∉ (enumValues.map some ++ [none]).take n ↔ n ≤ enumValues.length := by
  induction enumValues generalizing n with
  | nil =>
    cases n with
    | zero => simp
    | succ n => simp
  | cons x xs ih =>
    cases n with
    | zero => simp
    | succ n =>
      simp only [List.map_cons, List.cons_append, List.take_succ_cons, List.mem_cons, not_or,
        List.length_cons, Nat.add_le_add_iff_right]
      rw [ih n]
      exact ⟨fun h => h.2, fun h => ⟨by simp, h⟩⟩

theorem enumTable_get (enumValues : List String) (n : Nat) :
    ((enumValues.map some ++ [none]).get? n).join = enumValues.get? n := by
  induction enumValues generalizing n with
  | nil =>
    cases n with
    | zero => rfl
    | succ n => rfl
  | cons x xs ih =>
    cases n with
    | zero => rfl
    | succ n => exact ih n

/-- C38: for the table of the surface formats (`k` names followed by `nullptr`)
and the value `k`, `WriteEnum` does not print "unknown enum value": `find` scans
the `k` names, finds no `nullptr` among them, and `enumValues[k]`, the terminator
itself, is passed to `printf` as the string to print. -/
theorem WriteEnum_failure :
    Logger.new.WriteEnum "Format" SurfaceFormatEnumValues.length SurfaceFormatEnumValues =
      Logger.new.WriteLine "%s: %s" [.str (some "Format"), .str none] ∧
    Logger.new.WriteEnum "Format" SurfaceFormatEnumValues.length SurfaceFormatEnumValues ≠
      Logger.new.WriteLine "%s: unknown enum value %d"
        [.str (some "Format"), .int SurfaceFormatEnumValues.length] := by
  decide

/-- The three cases of `WriteEnum`: for a table of `k` names followed by
`nullptr`, it prints the name at index `value` when `0 <= value < k`, and
"unknown enum value" when `value` is negative or greater than `k`; for
`value == k` it takes the branch that prints a name and passes the terminator
`enumValues[k]`, a null pointer, to `printf` as the string. -/
theorem WriteEnum_spec (log : Logger) (name : String) (value : Int)
    (enumValues : List String) :
    (0 ≤ value → value < enumValues.length →
      ∃ text, enumValues.get? value.toNat = some text ∧
        log.WriteEnum name value enumValues =
          log.WriteLine "%s: %s" [.str (some name), .str (some text)]) ∧
    (value = enumValues.length →
      log.WriteEnum name value enumValues =
        log.WriteLine "%s: %s" [.str (some name), .str none]) ∧
    (value < 0 ∨ (enumValues.length : Int) < value →
      log.WriteEnum name value enumValues =
        log.WriteLine "%s: unknown enum value %d" [.str (some name), .int value]) := by
  unfold Logger.WriteEnum
  simp only [enumTable_take, enumTable_get]
  refine ⟨fun h0 hk => ?_, fun hk => ?_, fun h => ?_⟩
  · have hlt : value.toNat < enumValues.length := by omega
    refine ⟨enumValues[value.toNat], by simp [List.get?_eq_getElem?, hlt], ?_⟩
    rw [if_pos ⟨h0, by omega⟩]
    simp [List.get?_eq_getElem?, hlt]
  · subst hk
    rw [if_pos ⟨by omega, by simp⟩]
    simp
  · rw [if_neg (by omega)]

/-- An instance of the three cases: in the table of the loop types of a curve, of
five names, the value 1 prints `Cycle`, the value 5 passes the null terminator to
`printf`, and the values -1 and 6 print "unknown enum value". -/
theorem WriteEnum_spec_witness :
    LoopEnumValues.length = 5 ∧
    Logger.new.WriteEnum "Pre loop" 1 LoopEnumValues =
      Logger.new.WriteLine "%s: %s" [.str (some "Pre loop"), .str (some "Cycle")] ∧
    Logger.new.WriteEnum "Pre loop" 5 LoopEnumValues =
      Logger.new.WriteLine "%s: %s" [.str (some "Pre loop"), .str none] ∧
    Logger.new.WriteEnum "Pre loop" (-1) LoopEnumValues =
      Logger.new.WriteLine "%s: unknown enum value %d" [.str (some "Pre loop"), .int (-1)] ∧
    Logger.new.WriteEnum "Pre loop" 6 LoopEnumValues =
      Logger.new.WriteLine "%s: unknown enum value %d" [.str (some "Pre loop"), .int 6] :=
  ⟨rfl,
    by
      obtain ⟨text, htext, h⟩ :=
        (WriteEnum_spec Logger.new "Pre loop" 1 LoopEnumValues).1 (by decide) (by decide)
      have : text = "Cycle" := by
        have h1 : LoopEnumValues.get? (1 : Int).toNat = some "Cycle" := by decide
        rw [h1] at htext
        exact (Option.some.inj htext).symm
      rw [h, this],
    (WriteEnum_spec Logger.new "Pre loop" 5 LoopEnumValues).2.1 (by decide),
    (WriteEnum_spec Logger.new "Pre loop" (-1) LoopEnumValues).2.2 (Or.inl (by decide)),
    (WriteEnum_spec Logger.new "Pre loop" 6 LoopEnumValues).2.2 (Or.inr (by decide))⟩

/-! ## C39: the components that `TimeSpanReader::Read` prints -/

/-- C39: for the least 64-bit tick count `-2^63` (bytes
`00 00 00 00 00 00 00 80`) the negation `ticks = -ticks` overflows, which has no
defined behaviour; the value cannot be made non-negative in an `int64_t`, so no
components with `0 <= hours < 24` are printed for it. -/
theorem TimeSpanReader_Read_failure :
    ContentReader.ReadInt64 (ContentReader.new [0, 0, 0, 0, 0, 0, 0, 128] standardManager) =
      (.ok (-(2 ^ 63)),
        { ContentReader.new [0, 0, 0, 0, 0, 0, 0, 128] standardManager with position := 8 }) ∧
    (TimeSpanReader.Read (ContentReader.new [0, 0, 0, 0, 0, 0, 0, 128] standardManager)).1 =
      .error .undefinedBehavior := by
  decide

/-- The components of a time span: for every signed 64-bit tick count `t` other
than `-2^63` that `TimeSpanReader::Read` reads, the call returns; with `a` the
absolute value of `t`, it has printed `-` exactly when `t < 0`, then the days
`a / 864000000000` when they are not 0, then the hours, minutes and seconds, then
the fraction `a % 10000000` when it is not 0; and these components satisfy
`a = days*864000000000 + hours*36000000000 + minutes*600000000 +
seconds*10000000 + frac` with `0 <= hours < 24`, `0 <= minutes < 60`,
`0 <= seconds < 60`, `0 <= frac < 10000000` and `days >= 0`. -/
theorem TimeSpanReader_Read_components (r r1 : ContentReader) (t a : Int)
    (h : ContentReader.ReadInt64 r = (.ok t, r1)) (hmin : t ≠ -(2 ^ 63))
    (ha : a = if t < 0 then -t else t) :
    TimeSpanReader.Read r =
      (.ok (), { r1 with
        Log :=
          let log := if t < 0 then r1.Log.Write "-" [] else r1.Log
          let log := if a / 864000000000 ≠ 0 then
            log.Write "%lld." [.int (a / 864000000000)] else log
          let log := log.Write "%d:%d:%d"
            [.int (a % 864000000000 / 36000000000), .int (a % 36000000000 / 600000000),
              .int (a % 600000000 / 10000000)]
          let log := if a % 10000000 ≠ 0 then
            log.WriteOutput (.printfFraction (a % 10000000)) else log
          log.WriteLine "" [] }) ∧
    a = a / 864000000000 * 864000000000 + a % 864000000000 / 36000000000 * 36000000000 +
      a % 36000000000 / 600000000 * 600000000 + a % 600000000 / 10000000 * 10000000 +
      a % 10000000 ∧
    0 ≤ a / 864000000000 ∧
    0 ≤ a % 864000000000 / 36000000000 ∧ a % 864000000000 / 36000000000 < 24 ∧
    0 ≤ a % 36000000000 / 600000000 ∧ a % 36000000000 / 600000000 < 60 ∧
    0 ≤ a % 600000000 / 10000000 ∧ a % 600000000 / 10000000 < 60 ∧
    0 ≤ a % 10000000 ∧ a % 10000000 < 10000000 := by
  have ha0 : 0 ≤ a := by rw [ha]; split <;> omega
  refine ⟨?_, by omega, by omega, by omega, by omega, by omega, by omega, by omega, by omega,
    by omega, by omega⟩
  unfold TimeSpanReader.Read
  rw [Method.bind_ok h, Method.ite_apply, if_neg hmin]
  by_cases hneg : t < 0
  · rw [if_pos hneg] at ha
    subst ha
    simp only [Method.bind_apply, Method.ite_apply, if_pos hneg, ContentReader.Write,
      ContentReader.WriteLine, ContentReader.log_apply, Method.pure_apply]
    by_cases hd : -t / 864000000000 = 0 <;>
      by_cases hf : -t % 10000000 = 0 <;>
      simp [hd, hf, ContentReader.log_apply]
  · rw [if_neg hneg] at ha
    subst ha
    simp only [Method.bind_apply, Method.ite_apply, if_neg hneg, ContentReader.Write,
      ContentReader.WriteLine, ContentReader.log_apply, Method.pure_apply]
    by_cases hd : a / 864000000000 = 0 <;>
      by_cases hf : a % 10000000 = 0 <;>
      simp [hd, hf, ContentReader.log_apply]

/-- An instance of the components: the tick count `-900000000001` (minus one
day, one hour and one tick) is printed as `-`, `1.`, `1:0:0` and the fraction of
one tick. -/
theorem TimeSpanReader_Read_components_witness :
    (TimeSpanReader.Read
      (ContentReader.new (littleEndian 8 (2 ^ 64 - 900000000001)) standardManager)).2.Log =
        ((((Logger.new.Write "-" []).Write "%lld." [.int 1]).Write "%d:%d:%d"
          [.int 1, .int 0, .int 0]).WriteOutput (.printfFraction 1)).WriteLine "" [] ∧
    (900000000001 : Int) = 1 * 864000000000 + 1 * 36000000000 + 0 * 600000000 +
      0 * 10000000 + 1 :=
  have h := TimeSpanReader_Read_components
    (ContentReader.new (littleEndian 8 (2 ^ 64 - 900000000001)) standardManager)
    { ContentReader.new (littleEndian 8 (2 ^ 64 - 900000000001)) standardManager with
      position := 8 }
    (-900000000001) 900000000001 (by decide) (by decide) (by decide)
  ⟨by rw [h.1]; rfl, by decide⟩

/-! ## C31: the vertex data of `VertexBufferReader::Read` -/

theorem BinaryReader.ReadBytes_ok (n : Nat) (file : List Nat) (position : Nat)
    (h : position + n ≤ file.length) :
    ∃ bytes, BinaryReader.ReadBytes n ⟨file, position⟩ = (.ok bytes, ⟨file, position + n⟩) ∧
      bytes.length = n := by
  induction n generalizing position with
  | zero => exact ⟨[], rfl, rfl⟩
  | succ n ih =>
    obtain ⟨bytes, hbytes, hlen⟩ := ih (position + 1) (by omega)
    refine ⟨byteAt file position :: bytes, ?_, by rw [List.length_cons, hlen]⟩
    rw [BinaryReader.ReadBytes, BinaryReader.ReadByte_step_ok _ _ _ (by omega),
      Method.bind_ok hbytes, Nat.add_assoc, Nat.add_comm 1 n]
    rfl

theorem BinaryReader.ReadBytes_error (n : Nat) (file : List Nat) (position : Nat)
    (hp : position ≤ file.length) (h : file.length < position + n) :
    (BinaryReader.ReadBytes n ⟨file, position⟩).1 = .error .errorReadingFile := by
  induction n generalizing position with
  | zero => omega
  | succ n ih =>
    rw [BinaryReader.ReadBytes]
    by_cases hp : position < file.length
    · rw [BinaryReader.ReadByte_step_ok _ _ _ hp]
      have := ih (position + 1) (by omega) (by omega)
      simp only [Method.bind_apply]
      revert this
      cases BinaryReader.ReadBytes n ⟨file, position + 1⟩ with
      | mk result s =>
        intro this
        simp only at this
        subst this
        rfl
    · have hread : BinaryReader.ReadByte ⟨file, position⟩ =
          (.error .errorReadingFile, ⟨file, position⟩) := by
        rw [BinaryReader.ReadByte_apply, if_neg hp]
      rw [Method.bind_error hread]

set_option maxRecDepth 100000 in
/-- C31, counterexample: the twelve bytes of a declaration with stride 65536 and
no element, followed by the vertex count 65536.  The product is `2^32`, which is
0 as a `uint32_t`: `VertexBufferReader::Read` reads no vertex data and returns at
the end of the file, although none of the `2^32` bytes of the product is
there. -/
theorem VertexBufferReader_Read_counterexample :
    ContentReader.ReadUInt32
        (ContentReader.new [0, 0, 1, 0, 0, 0, 0, 0, 0, 0, 1, 0] standardManager) =
      (.ok 65536,
        { ContentReader.new [0, 0, 1, 0, 0, 0, 0, 0, 0, 0, 1, 0] standardManager with
          position := 4 }) ∧
    ContentReader.ReadUInt32
        { ContentReader.new [0, 0, 1, 0, 0, 0, 0, 0, 0, 0, 1, 0] standardManager with
          position := 8 } =
      (.ok 65536,
        { ContentReader.new [0, 0, 1, 0, 0, 0, 0, 0, 0, 0, 1, 0] standardManager with
          position := 12 }) ∧
    (VertexBufferReader.Read
      (ContentReader.new [0, 0, 1, 0, 0, 0, 0, 0, 0, 0, 1, 0] standardManager)).1 = .ok () ∧
    (VertexBufferReader.Read
      (ContentReader.new [0, 0, 1, 0, 0, 0, 0, 0, 0, 0, 1, 0] standardManager)).2.position =
        12 := by
  decide!

/-- C31: for every vertex declaration with stride `s` and every 32-bit vertex
count `c`, `VertexBufferReader::Read` consumes, after the declaration and the
count, exactly `(c * s) mod 2^32` raw bytes, the product being computed as a
`uint32_t`, or fails with the read error if fewer remain; this is `c * s` bytes
when the product is below `2^32`. -/
theorem VertexBufferReader_Read_bytes (r r1 r2 : ContentReader) (s c : Nat)
    (hdecl : ReadVertexDeclaration
      { r with Log := (r.Log.WriteLine "Vertex declaration:" []).Indent } = (.ok s, r1))
    (hcount : ContentReader.ReadUInt32 { r1 with Log := r1.Log.Unindent } = (.ok c, r2)) :
    (r2.position + c * s % 2 ^ 32 ≤ r2.file.length →
      ∃ r', VertexBufferReader.Read r = (.ok (), r') ∧ r'.file = r2.file ∧
        r'.position = r2.position + c * s % 2 ^ 32) ∧
    (r2.file.length < r2.position + c * s % 2 ^ 32 →
      (VertexBufferReader.Read r).1 = .error .errorReadingFile) ∧
    (c * s < 2 ^ 32 → c * s % 2 ^ 32 = c * s) := by
  have hstart : VertexBufferReader.Read r =
      (do
        ContentReader.WriteBytes "Vertex data" (← ContentReader.ReadBytes (c * s % 2 ^ 32)))
        { r2 with Log := r2.Log.WriteLine "Vertex count: %u" [.nat c] } := by
    unfold VertexBufferReader.Read
    rw [Method.bind_ok (rfl : ContentReader.WriteLine "Vertex declaration:" [] r = (.ok (), _)),
      Method.bind_ok (rfl : ContentReader.Indent _ = (.ok (), _)),
      Method.bind_ok hdecl,
      Method.bind_ok (rfl : ContentReader.Unindent r1 = (.ok (), _)),
      Method.bind_ok hcount,
      Method.bind_ok (rfl : ContentReader.WriteLine "Vertex count: %u" [.nat c] r2 =
        (.ok (), _))]
  refine ⟨fun h => ?_, fun h => ?_, fun h => Nat.mod_eq_of_lt h⟩
  · obtain ⟨bytes, hbytes, _⟩ := BinaryReader.ReadBytes_ok (c * s % 2 ^ 32) r2.file r2.position h
    rw [hstart]
    simp only [Method.bind_apply, ContentReader.ReadBytes, ContentReader.base_apply, hbytes,
      ContentReader.WriteBytes, ContentReader.log_apply]
    exact ⟨_, rfl, rfl, rfl⟩
  · have hpos : r2.position ≤ r2.file.length := by
      obtain ⟨hf, hp, hl, _⟩ :=
        BinaryReader.ReadUInt32_eq_ok _ _ _ ((ContentReader.base_eq_ok _ _ _ _).1 hcount).1
      rw [hf, hp]
      exact hl
    have hbytes := BinaryReader.ReadBytes_error (c * s % 2 ^ 32) r2.file r2.position hpos h
    rw [hstart]
    simp only [Method.bind_apply, ContentReader.ReadBytes, ContentReader.base_apply]
    revert hbytes
    cases BinaryReader.ReadBytes (c * s % 2 ^ 32) ⟨r2.file, r2.position⟩ with
    | mk result b =>
      intro hbytes
      simp only at hbytes
      subst hbytes
      rfl

set_option maxRecDepth 100000 in
/-- C31, witness: a declaration with stride 2 and no element, the vertex count 3
and six bytes of vertex data; the read ends after the six bytes, at offset 18. -/
theorem VertexBufferReader_Read_bytes_witness :
    ∃ r', VertexBufferReader.Read (ContentReader.new
        [2, 0, 0, 0, 0, 0, 0, 0, 3, 0, 0, 0, 1, 2, 3, 4, 5, 6] standardManager) = (.ok (), r') ∧
      r'.position = 12 + 3 * 2 :=
  have hdecl : (ReadVertexDeclaration
      { ContentReader.new [2, 0, 0, 0, 0, 0, 0, 0, 3, 0, 0, 0, 1, 2, 3, 4, 5, 6]
          standardManager with
        Log := (Logger.new.WriteLine "Vertex declaration:" []).Indent }).1 = .ok 2 := by
    decide!
  have hcount : (ContentReader.ReadUInt32
      { (ReadVertexDeclaration
          { ContentReader.new [2, 0, 0, 0, 0, 0, 0, 0, 3, 0, 0, 0, 1, 2, 3, 4, 5, 6]
              standardManager with
            Log := (Logger.new.WriteLine "Vertex declaration:" []).Indent }).2 with
        Log := (ReadVertexDeclaration
          { ContentReader.new [2, 0, 0, 0, 0, 0, 0, 0, 3, 0, 0, 0, 1, 2, 3, 4, 5, 6]
              standardManager with
            Log := (Logger.new.WriteLine "Vertex declaration:" []).Indent }).2.Log.Unindent }).1 =
      .ok 3 := by
    decide!
  (((VertexBufferReader_Read_bytes _ _ _ 2 3 (Method.eq_ok_of_fst hdecl)
    (Method.eq_ok_of_fst hcount)).1 (by decide!)).imp fun _ hr =>
      ⟨hr.1, hr.2.2.trans (by decide!)⟩)

/-! ## The width of a bone reference -/

theorem ReadBoneReference_apply (boneCount : Nat) (file : List Nat) (position : Nat)
    (log : Logger) (m : TypeReaderManager) (table : List Nat) (hp : position ≤ file.length) :
    ReadBoneReference boneCount ⟨⟨file, position⟩, log, m, table⟩ =
      if boneCount < 255 then
        if position < file.length then
          (.ok (), ⟨⟨file, position + 1⟩,
            if byteAt file position ≠ 0 then
              log.WriteLine "bone #%u" [.nat (byteAt file position - 1)]
            else log.WriteLine "null" [], m, table⟩)
        else (.error .errorReadingFile, ⟨⟨file, position⟩, log, m, table⟩)
      else
        if position + 4 ≤ file.length then
          (.ok (), ⟨⟨file, position + 4⟩,
            if uint32At file position ≠ 0 then
              log.WriteLine "bone #%u" [.nat (uint32At file position - 1)]
            else log.WriteLine "null" [], m, table⟩)
        else (.error .errorReadingFile, ⟨⟨file, file.length⟩, log, m, table⟩) := by
  unfold ReadBoneReference
  by_cases hb : boneCount < 255
  · rw [if_pos hb, if_pos hb]
    by_cases h1 : position < file.length
    · rw [if_pos h1, ContentReader.ReadByte_bind_ok _ _ _ _ _ _ h1, Method.ite_apply]
      split <;> rfl
    · rw [if_neg h1, ContentReader.ReadByte_bind_error _ _ _ _ _ _ h1]
  · rw [if_neg hb, if_neg hb]
    by_cases h4 : position + 4 ≤ file.length
    · rw [if_pos h4, ContentReader.ReadUInt32_bind_ok _ _ _ _ _ _ h4, Method.ite_apply]
      unfold uint32At
      split <;> rfl
    · rw [if_neg h4, ContentReader.ReadUInt32_bind_error _ _ _ _ _ _ hp h4]

/-- For every bone count `b`, `ReadBoneReference` reads exactly one byte when
`b < 255` and exactly four little-endian bytes when `b >= 255` (and fails when
they are not there); the value 0 is printed as null and a value `k > 0` as bone
`#(k-1)`. -/
theorem ReadBoneReference_width (boneCount : Nat) (r : ContentReader)
    (hp : r.position ≤ r.file.length) :
    (boneCount < 255 → r.position < r.file.length →
      ReadBoneReference boneCount r =
        (.ok (), { r with
          position := r.position + 1
          Log := if byteAt r.file r.position ≠ 0 then
              r.Log.WriteLine "bone #%u" [.nat (byteAt r.file r.position - 1)]
            else r.Log.WriteLine "null" [] })) ∧
    (boneCount < 255 → r.file.length ≤ r.position →
      ReadBoneReference boneCount r = (.error .errorReadingFile, r)) ∧
    (255 ≤ boneCount → r.position + 4 ≤ r.file.length →
      ReadBoneReference boneCount r =
        (.ok (), { r with
          position := r.position + 4
          Log := if uint32At r.file r.position ≠ 0 then
              r.Log.WriteLine "bone #%u" [.nat (uint32At r.file r.position - 1)]
            else r.Log.WriteLine "null" [] })) ∧
    (255 ≤ boneCount → r.file.length < r.position + 4 →
      (ReadBoneReference boneCount r).1 = .error .errorReadingFile) := by
  obtain ⟨⟨file, position⟩, log, m, table⟩ := r
  have h := ReadBoneReference_apply boneCount file position log m table hp
  refine ⟨fun hb h1 => ?_, fun hb h1 => ?_, fun hb h4 => ?_, fun hb h4 => ?_⟩
  · rw [h, if_pos hb, if_pos h1]
  · rw [h, if_pos hb, if_neg (by simp only at h1; omega)]
  · rw [h, if_neg (by omega), if_pos h4]
  · rw [h, if_neg (by omega), if_neg (by simp only at h4; omega)]

set_option maxRecDepth 100000 in
/-- In the example model, which has one bone, the child reference at offset 74 is
the one byte `01`, printed as bone #0; and `ModelReader::Read` reads the 104
bytes to the end, the parent as null and the child, the mesh parent and the
model root, one byte each, as bone #0. -/
theorem ReadBoneReference_width_example :
    ReadBoneReference 1 { ContentReader.new exampleModel standardManager with position := 74 } =
      (.ok (), { ContentReader.new exampleModel standardManager with
        position := 75
        Log := Logger.new.WriteLine "bone #%u" [.nat 0] }) ∧
    exampleModel.length = 104 ∧
    (ModelReader.Read (TypeReader.Read 0)
      (ContentReader.new exampleModel standardManager)).1 = .ok () ∧
    (ModelReader.Read (TypeReader.Read 0)
      (ContentReader.new exampleModel standardManager)).2.position = 104 ∧
    (ModelReader.Read (TypeReader.Read 0)
      (ContentReader.new exampleModel standardManager)).2.Log.output.count
        (.printf "bone #%u" [.nat 0]) = 3 :=
  ⟨((ReadBoneReference_width 1
      { ContentReader.new exampleModel standardManager with position := 74 }
      (by decide)).1 (by decide) (by decide)).trans (by decide!),
    by decide, by decide!, by decide!, by decide!⟩

/-! ## C34: `StripAssemblyVersion` and `SplitGenericTypeName` are total -/

theorem find_bounds (s : wstring) (c pos i : Nat) (h : find s c pos = some i) :
    pos ≤ i ∧ i < s.length ∧ charAt s i = c := by
  induction s generalizing pos i with
  | nil => simp [find] at h
  | cons x xs ih =>
    cases pos with
    | zero =>
      by_cases hx : x = c
      · simp only [find, if_pos hx, Option.some.injEq] at h
        subst h
        exact ⟨Nat.le_refl _, by simp, by simp [charAt, hx]⟩
      · simp only [find, if_neg hx, Option.map_eq_some'] at h
        obtain ⟨j, hj, hi⟩ := h
        obtain ⟨_, h2, h3⟩ := ih 0 j hj
        subst hi
        exact ⟨Nat.zero_le _, by simp only [List.length_cons]; omega, by
          simpa [charAt] using h3⟩
    | succ pos =>
      simp only [find, Option.map_eq_some'] at h
      obtain ⟨j, hj, hi⟩ := h
      obtain ⟨h1, h2, h3⟩ := ih pos j hj
      subst hi
      exact ⟨by omega, by simp only [List.length_cons]; omega, by simpa [charAt] using h3⟩

theorem findArgumentEnd_bounds (rest : wstring) (nesting endIndex : Nat) :
    endIndex ≤ findArgumentEnd rest nesting endIndex ∧
      findArgumentEnd rest nesting endIndex ≤ endIndex + rest.length := by
  induction rest generalizing nesting endIndex with
  | nil => exact ⟨Nat.le_refl _, Nat.le_refl _⟩
  | cons c rest ih =>
    simp only [findArgumentEnd, List.length_cons]
    split
    · have := ih (nesting + 1) (endIndex + 1); omega
    · split
      · split
        · have := ih (nesting - 1) (endIndex + 1); omega
        · omega
      · have := ih nesting (endIndex + 1); omega

theorem findArgumentEnd_pos (c : Nat) (rest : wstring) (endIndex : Nat) (hc : c ≠ 93) :
    endIndex + 1 ≤ findArgumentEnd (c :: rest) 0 endIndex := by
  simp only [findArgumentEnd, if_neg hc]
  split
  · exact (findArgumentEnd_bounds rest 1 (endIndex + 1)).1
  · exact (findArgumentEnd_bounds rest 0 (endIndex + 1)).1

theorem skipWhile_bounds (p : Nat → Bool) (typeName : wstring) (pos : Nat) :
    pos ≤ skipWhile p typeName pos ∧ skipWhile p typeName pos ≤ max pos typeName.length := by
  unfold skipWhile
  have h1 := (List.takeWhile_sublist p (l := typeName.drop pos)).length_le
  rw [List.length_drop] at h1
  omega

theorem charAt_eq_head_drop (s : wstring) (pos : Nat) (h : pos < s.length) :
    s.drop pos = charAt s pos :: s.drop (pos + 1) := by
  unfold charAt
  rw [List.getD_eq_getElem?_getD, List.getElem?_eq_getElem h]
  exact List.drop_eq_getElem_cons h

theorem SplitGenericTypeName.loop_total (typeName : wstring) (k : Nat) :
    ∀ (pos : Nat) (genericArguments : List wstring), pos ≤ typeName.length →
      typeName.length ≤ pos + k →
      ∃ result, ∀ fuel, typeName.length < pos + fuel →
        SplitGenericTypeName.loop fuel typeName pos genericArguments = some result := by
  induction k with
  | zero =>
    intro pos genericArguments hle hk
    refine ⟨genericArguments, fun fuel hfuel => ?_⟩
    cases fuel with
    | zero => omega
    | succ fuel =>
      exact SplitGenericTypeName.loop_stop fuel typeName pos _ (fun h => by have := h.1; omega)
  | succ k ih =>
    intro pos genericArguments hle hk
    by_cases hguard : pos < typeName.length ∧ charAt typeName pos ≠ 93
    · have hend := findArgumentEnd_bounds (typeName.drop pos) 0 pos
      rw [List.length_drop] at hend
      have hpos : pos + 1 ≤ findArgumentEnd (typeName.drop pos) 0 pos := by
        rw [charAt_eq_head_drop typeName pos hguard.1]
        exact findArgumentEnd_pos _ _ _ hguard.2
      obtain ⟨result, hresult⟩ := ih
        (let endIndex := findArgumentEnd (typeName.drop pos) 0 pos
         let pos := endIndex
         let pos := if pos < typeName.length ∧ charAt typeName pos = 93 then pos + 1 else pos
         let pos := if pos < typeName.length ∧ charAt typeName pos = 44 then pos + 1 else pos
         let pos := if pos < typeName.length ∧ charAt typeName pos = 91 then pos + 1 else pos
         pos)
        (genericArguments ++
          [substr typeName pos (findArgumentEnd (typeName.drop pos) 0 pos - pos)])
        (by
          dsimp only
          split <;> split <;> split <;> omega)
        (by
          dsimp only
          split <;> split <;> split <;> omega)
      refine ⟨result, fun fuel hfuel => ?_⟩
      cases fuel with
      | zero => omega
      | succ fuel =>
        rw [SplitGenericTypeName.loop, if_pos hguard]
        exact hresult fuel (by
          dsimp only
          split <;> split <;> split <;> omega)
    · refine ⟨genericArguments, fun fuel hfuel => ?_⟩
      cases fuel with
      | zero => omega
      | succ fuel => exact SplitGenericTypeName.loop_stop fuel typeName pos _ hguard

/-- C34: `StripAssemblyVersion` and `SplitGenericTypeName` are total.  For every
string, well formed or not: the loop of `StripAssemblyVersion` ends within
`size + 1` iterations with the result; `find` returns an index of the string, so
that `typeName[commaIndex + 1]`, the one access made without a test of the
index, is at most at `size()`, where `operator[]` yields the terminator;
`SplitGenericTypeName` returns false exactly when the string holds no backtick,
and otherwise returns true with the text before the backtick and the arguments
of its loop, which starts within the string and ends within `size + 1`
iterations; and the end of an argument lies between its start and the end of
the string, so that `substr` is called within the string. -/
theorem TypeNameParser_total (typeName : wstring) :
    (∀ fuel, typeName.length < fuel →
      StripAssemblyVersion.loop fuel typeName 0 = some (StripAssemblyVersion typeName)) ∧
    (∀ c pos i, find typeName c pos = some i →
      pos ≤ i ∧ i + 1 ≤ typeName.length ∧ charAt typeName i = c) ∧
    (SplitGenericTypeName typeName = none ↔ 96 ∉ typeName) ∧
    (∀ pos, find typeName 96 0 = some pos →
      skipWhile (fun c => decide (c = 91)) typeName (skipWhile iswdigit typeName (pos + 1)) ≤
        typeName.length ∧
      ∃ genericArguments,
        (∀ fuel, typeName.length <
            skipWhile (fun c => decide (c = 91)) typeName
              (skipWhile iswdigit typeName (pos + 1)) + fuel →
          SplitGenericTypeName.loop fuel typeName
            (skipWhile (fun c => decide (c = 91)) typeName
              (skipWhile iswdigit typeName (pos + 1))) [] = some genericArguments) ∧
        SplitGenericTypeName typeName = some (substr typeName 0 pos, genericArguments)) ∧
    (∀ pos, pos ≤ typeName.length →
      pos ≤ findArgumentEnd (typeName.drop pos) 0 pos ∧
        findArgumentEnd (typeName.drop pos) 0 pos ≤ typeName.length) := by
  refine ⟨fun fuel hfuel => ?_, fun c pos i h => ?_, ?_, fun pos hpos => ?_, fun pos hpos => ?_⟩
  · have := StripAssemblyVersion_loop_eq fuel [] typeName hfuel
    simp only [List.nil_append, List.length_nil] at this
    rw [this, StripAssemblyVersion_eq]
  · obtain ⟨h1, h2, h3⟩ := find_bounds typeName c pos i h
    exact ⟨h1, h2, h3⟩
  · unfold SplitGenericTypeName
    rcases find_split typeName 96 with ⟨hmem, hnone⟩ | ⟨a, b, hs, ha, hfind⟩
    · rw [hnone]
      exact ⟨fun _ => hmem, fun _ => rfl⟩
    · rw [hfind]
      refine ⟨fun h => (by cases h), fun h => absurd ?_ h⟩
      rw [hs]
      simp
  · have hlt := (find_bounds typeName 96 0 pos hpos).2.1
    have h1 := skipWhile_bounds iswdigit typeName (pos + 1)
    have h2 := skipWhile_bounds (fun c => decide (c = 91)) typeName
      (skipWhile iswdigit typeName (pos + 1))
    have hstart : skipWhile (fun c => decide (c = 91)) typeName
        (skipWhile iswdigit typeName (pos + 1)) ≤ typeName.length := by omega
    obtain ⟨genericArguments, hloop⟩ := SplitGenericTypeName.loop_total typeName
      typeName.length _ [] hstart (by omega)
    refine ⟨hstart, genericArguments, hloop, ?_⟩
    unfold SplitGenericTypeName
    rw [hpos]
    simp only [hloop (typeName.length + 1) (by omega), Option.getD_some]
  · have := findArgumentEnd_bounds (typeName.drop pos) 0 pos
    rw [List.length_drop] at this
    omega

/-- C34, witness: malformed names.  `A,` ends with a comma: `find` returns the
index 1 of a string of size 2 and the result is `A`.  The name ``Foo`[[Bar,[[x``
has no arity digit and unbalanced brackets: it is split into `Foo` and the one
argument `Bar,[[x`, which runs to the end of the string. -/
theorem TypeNameParser_total_witness :
    StripAssemblyVersion.loop 3 (L "A,") 0 = some (StripAssemblyVersion (L "A,")) ∧
    StripAssemblyVersion (L "A,") = L "A" ∧
    (0 ≤ 1 ∧ 1 + 1 ≤ (L "A,").length ∧ charAt (L "A,") 1 = 44) ∧
    SplitGenericTypeName (L "Foo`[[Bar,[[x") = some (L "Foo", [L "Bar,[[x"]) ∧
    (6 ≤ findArgumentEnd ((L "Foo`[[Bar,[[x").drop 6) 0 6 ∧
      findArgumentEnd ((L "Foo`[[Bar,[[x").drop 6) 0 6 ≤ (L "Foo`[[Bar,[[x").length) :=
  ⟨(TypeNameParser_total (L "A,")).1 3 (by decide), by decide,
    (TypeNameParser_total (L "A,")).2.1 44 0 1 (by decide), by decide,
    (TypeNameParser_total (L "Foo`[[Bar,[[x")).2.2.2.2 6 (by decide)⟩

/-! ## C35: the assertion of `GetByReaderName` -/

theorem CreateTypeReader_readerName (factory : GenericReaderClass)
    (genericArguments : List wstring) :
    (factory.CreateTypeReader genericArguments).readerName =
      factory.GenericReaderName ++ [96] ++ decimal genericArguments.length ++ L "[[" ++
        (L "],[").intercalate genericArguments ++ L "]]" := by
  simp only [GenericReaderClass.CreateTypeReader, appendGenericArguments_eq,
    List.append_assoc]

theorem GenericReaderName_no_backtick (factory : GenericReaderClass) :
    96 ∉ factory.GenericReaderName := by
  cases factory <;> decide

set_option maxRecDepth 100000 in
/-- C35: for the name ``ListReader`2[[System.Int32]]``, which says two arguments
and holds one, no reader of the standard registry matches, `SplitGenericTypeName`
succeeds and the `ListReader` factory matches the open name, but the reader
created is named ``ListReader`1[[System.Int32]]``: in a build that checks
`assert` the call ends in the failed assertion, and in a build with `NDEBUG` it
returns the new reader 51, whose name is not the name asked for. -/
theorem GetByReaderName_assertion_failure :
    findByReaderName
      (StripAssemblyVersion (L "Microsoft.Xna.Framework.Content.ListReader`2[[System.Int32]]"))
      standardManager.typeReaders 0 = none ∧
    SplitGenericTypeName
      (StripAssemblyVersion (L "Microsoft.Xna.Framework.Content.ListReader`2[[System.Int32]]")) =
      some (L "Microsoft.Xna.Framework.Content.ListReader", [L "System.Int32"]) ∧
    findFactory (L "Microsoft.Xna.Framework.Content.ListReader") standardManager.genericReaders =
      some .ListReader ∧
    (GenericReaderClass.ListReader.CreateTypeReader [L "System.Int32"]).readerName =
      L "Microsoft.Xna.Framework.Content.ListReader`1[[System.Int32]]" ∧
    TypeReaderManager.GetByReaderName
      (L "Microsoft.Xna.Framework.Content.ListReader`2[[System.Int32]]") standardManager =
      (.error .assertionFailed, standardManager) ∧
    (TypeReaderManager.GetByReaderName
      (L "Microsoft.Xna.Framework.Content.ListReader`2[[System.Int32]]") releaseManager).1 =
      .ok 51 ∧
    ((TypeReaderManager.GetByReaderName
      (L "Microsoft.Xna.Framework.Content.ListReader`2[[System.Int32]]")
      releaseManager).2.typeReaders.get? 51).map TypeReader.ReaderName =
        some (L "Microsoft.Xna.Framework.Content.ListReader`1[[System.Int32]]") := by
  decide!

/-- When the assertion of `GetByReaderName` holds: for every name for which no
existing reader matches, `SplitGenericTypeName` succeeds and a factory matches
the open name, the call ends in the failed assertion exactly when the build
checks `assert` and the normalized name is not the open name followed by the
backtick, the number of arguments found in decimal, `[[`, the arguments joined by
`],[`, and `]]`; for a name that is spelled so the new reader has this name.  It
is spelled so in particular when it is built in this way from the open name of a
factory and one or more arguments that are non-empty, bracket-balanced and do not
start with a bracket. -/
theorem GetByReaderName_assertion (m : TypeReaderManager) (name : wstring) :
    (∀ genericName genericArguments factory,
      findByReaderName (StripAssemblyVersion name) m.typeReaders 0 = none →
      SplitGenericTypeName (StripAssemblyVersion name) = some (genericName, genericArguments) →
      findFactory genericName m.genericReaders = some factory →
      ((TypeReaderManager.GetByReaderName name m).1 = .error .assertionFailed ↔
        m.NDEBUG = false ∧ StripAssemblyVersion name ≠
          genericName ++ [96] ++ decimal genericArguments.length ++ L "[[" ++
            (L "],[").intercalate genericArguments ++ L "]]") ∧
      (StripAssemblyVersion name =
          genericName ++ [96] ++ decimal genericArguments.length ++ L "[[" ++
            (L "],[").intercalate genericArguments ++ L "]]" →
        TypeReaderManager.GetByReaderName name m =
          (.ok m.typeReaders.length,
            { m with typeReaders :=
                m.typeReaders ++ [.generic (factory.CreateTypeReader genericArguments)] }) ∧
        (TypeReader.generic (factory.CreateTypeReader genericArguments)).ReaderName =
          StripAssemblyVersion name)) ∧
    (∀ (factory : GenericReaderClass) (arguments : List wstring),
      arguments ≠ [] →
      (∀ a ∈ arguments, a ≠ [] ∧ a.head? ≠ some 91 ∧ a.head? ≠ some 93 ∧ isBalanced a) →
      StripAssemblyVersion name =
        factory.GenericReaderName ++ [96] ++ decimal arguments.length ++ L "[[" ++
          (L "],[").intercalate arguments ++ L "]]" →
      findByReaderName (StripAssemblyVersion name) m.typeReaders 0 = none →
      findFactory factory.GenericReaderName m.genericReaders = some factory →
      TypeReaderManager.GetByReaderName name m =
        (.ok m.typeReaders.length,
          { m with typeReaders :=
              m.typeReaders ++ [.generic (factory.CreateTypeReader arguments)] }) ∧
      (TypeReader.generic (factory.CreateTypeReader arguments)).ReaderName =
        StripAssemblyVersion name) := by
  constructor
  · intro genericName genericArguments factory hfind hsplit hfactory
    have hname := (findFactory_eq_some _ _ _ hfactory).2
    have hcreated := CreateTypeReader_readerName factory genericArguments
    rw [hname] at hcreated
    constructor
    · constructor
      · intro hfail
        rcases GetByReaderName_factory m name _ _ factory hfind hsplit hfactory with
          ⟨hd, hne, -⟩ | ⟨-, hG⟩
        · exact ⟨hd, fun heq => hne (by rw [hcreated, heq])⟩
        · rw [hG] at hfail
          cases hfail
      · intro hne
        rw [GetByReaderName_assertionFailed m name _ _ factory hfind hsplit hfactory
          (by rw [hcreated]; exact fun h => hne.2 h.symm) hne.1]
    · intro heq
      exact ⟨GetByReaderName_created m name _ _ factory hfind hsplit hfactory
        (by rw [hcreated, heq]), by rw [TypeReader.ReaderName, hcreated, heq]⟩
  · intro factory arguments hne harg heq hfind hfactory
    have hsplit : SplitGenericTypeName (StripAssemblyVersion name) =
        some (factory.GenericReaderName, arguments) := by
      rw [heq]
      exact SplitGenericTypeName_construction _ arguments (GenericReaderName_no_backtick factory)
        hne harg
    have hcreated := CreateTypeReader_readerName factory arguments
    exact ⟨GetByReaderName_created m name _ _ factory hfind hsplit hfactory
      (by rw [hcreated, heq]), by rw [TypeReader.ReaderName, hcreated, heq]⟩

set_option maxRecDepth 100000 in
/-- An instance: the name ``ListReader`1[[System.Int32, mscorlib]]`` is
normalized to ``ListReader`1[[System.Int32]]``, for which the assertion holds:
reader 51 of that name is created in the standard registry. -/
theorem GetByReaderName_assertion_witness :
    StripAssemblyVersion
        (L "Microsoft.Xna.Framework.Content.ListReader`1[[System.Int32, mscorlib]]") =
      L "Microsoft.Xna.Framework.Content.ListReader`1[[System.Int32]]" ∧
    TypeReaderManager.GetByReaderName
        (L "Microsoft.Xna.Framework.Content.ListReader`1[[System.Int32, mscorlib]]")
        standardManager =
      (.ok standardManager.typeReaders.length,
        { standardManager with typeReaders := standardManager.typeReaders ++
          [.generic (GenericReaderClass.ListReader.CreateTypeReader [L "System.Int32"])] }) ∧
    (TypeReader.generic
        (GenericReaderClass.ListReader.CreateTypeReader [L "System.Int32"])).ReaderName =
      StripAssemblyVersion
        (L "Microsoft.Xna.Framework.Content.ListReader`1[[System.Int32, mscorlib]]") :=
  ⟨by decide,
    (GetByReaderName_assertion standardManager
      (L "Microsoft.Xna.Framework.Content.ListReader`1[[System.Int32, mscorlib]]")).2
      .ListReader [L "System.Int32"] (by decide)
      (fun a ha => by
        rw [List.mem_singleton] at ha
        subst ha
        exact ⟨by decide, by decide, by decide, by decide⟩)
      (by decide) (by decide!) (by decide)⟩

/-! ## C36: the range of `GenericArgument(i)` -/

set_option maxRecDepth 100000 in
/-- C36: the names ``EnumReader`0[[]]`` and ``DictionaryReader`1[[System.Int32]]``
satisfy the assertion of `GetByReaderName`, which creates reader 51 in the
standard registry.  The `EnumReader` stores no generic argument, so its
`TargetType()` reads `genericArguments[0]` out of range; the `DictionaryReader`
stores one, so its `Initialize` reads `genericArguments[1]` out of range. -/
theorem GenericArgument_failure :
    (TypeReaderManager.GetByReaderName (L "Microsoft.Xna.Framework.Content.EnumReader`0[[]]")
      standardManager).1 = .ok 51 ∧
    ((TypeReaderManager.GetByReaderName (L "Microsoft.Xna.Framework.Content.EnumReader`0[[]]")
      standardManager).2.typeReaders.get? 51).map TypeReader.TargetType =
        some (.error .undefinedBehavior) ∧
    (TypeReaderManager.GetByReaderName
      (L "Microsoft.Xna.Framework.Content.DictionaryReader`1[[System.Int32]]")
      standardManager).1 = .ok 51 ∧
    (TypeReaderManager.Initialize 51
      (TypeReaderManager.GetByReaderName
        (L "Microsoft.Xna.Framework.Content.DictionaryReader`1[[System.Int32]]")
        standardManager).2).1 = .error .undefinedBehavior := by
  decide!

/-- The range of `GenericArgument(i)`: a reader that `GetByReaderName` creates (no
existing reader matches, the name splits, a factory matches and the call does
not end in the assertion) stores the arguments that `SplitGenericTypeName` found,
and `GenericArgument(i)` is in range exactly for `i` below their number.  So the
access `i = 0` of `TargetType` of an `EnumReader`, `ArrayReader` or
`ReflectiveReader` and of `Initialize` of a `NullableReader`, `ArrayReader` or
`ListReader` is in range when the name holds at least one argument, and the
accesses `i = 0` and `i = 1` of `Initialize` of a `DictionaryReader` when it
holds at least two; with fewer arguments the access is out of range. -/
theorem GenericArgument_range (m : TypeReaderManager) (name genericName : wstring)
    (genericArguments : List wstring) (factory : GenericReaderClass)
    (hfind : findByReaderName (StripAssemblyVersion name) m.typeReaders 0 = none)
    (hsplit : SplitGenericTypeName (StripAssemblyVersion name) =
      some (genericName, genericArguments))
    (hfactory : findFactory genericName m.genericReaders = some factory)
    (hassert : (TypeReaderManager.GetByReaderName name m).1 ≠ .error .assertionFailed) :
    ∃ g, TypeReaderManager.GetByReaderName name m =
        (.ok m.typeReaders.length, { m with typeReaders := m.typeReaders ++ [.generic g] }) ∧
      g.cls = factory ∧ g.genericArguments = genericArguments ∧
      (∀ i, i < genericArguments.length ↔ ∃ a, g.GenericArgument i = .ok a) ∧
      (∀ i, genericArguments.length ≤ i ↔ g.GenericArgument i = .error .undefinedBehavior) ∧
      (1 ≤ genericArguments.length → ∃ t, (TypeReader.generic g).TargetType = .ok t) ∧
      (genericArguments = [] →
        factory = .EnumReader ∨ factory = .ArrayReader ∨ factory = .ReflectiveReader →
        (TypeReader.generic g).TargetType = .error .undefinedBehavior) := by
  have hcreated : TypeReaderManager.GetByReaderName name m =
      (.ok m.typeReaders.length,
        { m with typeReaders :=
            m.typeReaders ++ [.generic (factory.CreateTypeReader genericArguments)] }) := by
    rcases GetByReaderName_factory m name _ _ factory hfind hsplit hfactory with
      ⟨-, -, hG⟩ | ⟨-, hG⟩
    · exact absurd (by rw [hG]) hassert
    · exact hG
  have hget : ∀ i, i < genericArguments.length ↔
      ∃ a, (factory.CreateTypeReader genericArguments).GenericArgument i = .ok a := by
    intro i
    simp only [GenericTypeReader.GenericArgument, GenericReaderClass.CreateTypeReader]
    by_cases hi : i < genericArguments.length
    · simp [List.get?_eq_getElem?, hi]
    · simp [List.get?_eq_getElem?, hi, List.getElem?_eq_none (Nat.le_of_not_lt hi)]
  have hout : ∀ i, genericArguments.length ≤ i ↔
      (factory.CreateTypeReader genericArguments).GenericArgument i =
        .error .undefinedBehavior := by
    intro i
    simp only [GenericTypeReader.GenericArgument, GenericReaderClass.CreateTypeReader]
    by_cases hi : i < genericArguments.length
    · simp [List.get?_eq_getElem?, hi]
    · simp [List.get?_eq_getElem?, List.getElem?_eq_none (Nat.le_of_not_lt hi),
        Nat.le_of_not_lt hi]
  refine ⟨factory.CreateTypeReader genericArguments, hcreated, rfl, rfl, hget,
    hout, fun h1 => ?_, fun hnil hcls => ?_⟩
  · obtain ⟨a, ha⟩ := (hget 0).1 (by omega)
    have hcls : (factory.CreateTypeReader genericArguments).cls = factory := rfl
    cases factory <;> simp only [TypeReader.TargetType, hcls, ha] <;>
      first
        | exact ⟨_, rfl⟩
  · have h0 := (hout 0).1 (by rw [hnil]; exact Nat.le_refl _)
    have hc : (factory.CreateTypeReader genericArguments).cls = factory := rfl
    rcases hcls with rfl | rfl | rfl <;> (simp only [TypeReader.TargetType, hc, h0]; try rfl)

set_option maxRecDepth 100000 in
/-- An instance: the name ``DictionaryReader`2[[System.Int32],[System.String]]``
creates a reader that stores the two arguments, so that the accesses 0 and 1 of
its `Initialize` are in range. -/
theorem GenericArgument_range_witness :
    ∃ g, TypeReaderManager.GetByReaderName
          (L "Microsoft.Xna.Framework.Content.DictionaryReader`2[[System.Int32],[System.String]]")
          standardManager =
        (.ok standardManager.typeReaders.length,
          { standardManager with
            typeReaders := standardManager.typeReaders ++ [.generic g] }) ∧
      g.cls = .DictionaryReader ∧
      g.genericArguments = [L "System.Int32", L "System.String"] ∧
      (∀ i, i < [L "System.Int32", L "System.String"].length ↔
        ∃ a, g.GenericArgument i = .ok a) ∧
      (∀ i, [L "System.Int32", L "System.String"].length ≤ i ↔
        g.GenericArgument i = .error .undefinedBehavior) ∧
      (1 ≤ [L "System.Int32", L "System.String"].length →
        ∃ t, (TypeReader.generic g).TargetType = .ok t) ∧
      ([L "System.Int32", L "System.String"] = [] →
        GenericReaderClass.DictionaryReader = .EnumReader ∨
          GenericReaderClass.DictionaryReader = .ArrayReader ∨
          GenericReaderClass.DictionaryReader = .ReflectiveReader →
        (TypeReader.generic g).TargetType = .error .undefinedBehavior) :=
  GenericArgument_range standardManager
    (L "Microsoft.Xna.Framework.Content.DictionaryReader`2[[System.Int32],[System.String]]")
    (L "Microsoft.Xna.Framework.Content.DictionaryReader")
    [L "System.Int32", L "System.String"] .DictionaryReader
    (by decide!) (by decide!) (by decide) (by decide!)

/-! ## Lemmas: the fuel is never used up -/

theorem error_ne_outOfFuel {α β : Type} {e : Error}
    (h : (Except.error e : Except Error α) ≠ .error .outOfFuel) :
    (Except.error e : Except Error β) ≠ .error .outOfFuel :=
  fun h' => h (by cases h'; rfl)

theorem Method.fueled_pure {σ α : Type} (a : α) : Method.Fueled (pure a : Method σ α) :=
  fun _ h => by cases h

theorem Method.fueled_fail {σ α : Type} (e : Error) (h : e ≠ .outOfFuel) :
    Method.Fueled (Method.fail e : Method σ α) :=
  fun _ h' => h (Except.error.inj h')

theorem Method.fueled_get {σ : Type} : Method.Fueled (Method.get : Method σ σ) :=
  fun _ h => by cases h

theorem Method.fueled_modify {σ : Type} (f : σ → σ) : Method.Fueled (Method.modify f) :=
  fun _ h => by cases h

theorem Method.fueled_ofExcept {σ α : Type} (x : Except Error α) (h : x ≠ .error .outOfFuel) :
    Method.Fueled (Method.ofExcept x : Method σ α) :=
  fun _ h' => h h'

theorem Method.fueled_bind {σ α β : Type} {x : Method σ α} {f : α → Method σ β}
    (hx : Method.Fueled x) (hf : ∀ a, Method.Fueled (f a)) : Method.Fueled (x >>= f) := by
  intro s
  have h1 := hx s
  simp only [Method.bind_apply]
  cases hxs : x s with
  | mk result s' =>
    rw [hxs] at h1
    cases result with
    | ok a => exact hf a s'
    | error e => exact error_ne_outOfFuel h1

theorem Method.fueled_ite {σ α : Type} (c : Prop) [Decidable c] {x y : Method σ α}
    (hx : Method.Fueled x) (hy : Method.Fueled y) : Method.Fueled (if c then x else y) := by
  split
  · exact hx
  · exact hy

theorem Method.fueled_forLoop_go {σ : Type} {body : Nat → Method σ Unit}
    (hbody : ∀ i, Method.Fueled (body i)) (count i : Nat) :
    Method.Fueled (forLoop.go body count i) := by
  induction count generalizing i with
  | zero => exact Method.fueled_pure ()
  | succ count ih => exact Method.fueled_bind (hbody i) fun _ => ih (i + 1)

theorem Method.fueled_forLoop {σ : Type} {body : Nat → Method σ Unit}
    (hbody : ∀ i, Method.Fueled (body i)) (count : Nat) :
    Method.Fueled (forLoop count body) :=
  Method.fueled_forLoop_go hbody count 0

theorem Method.fueled_forEach {σ α : Type} {body : α → Method σ Unit}
    (hbody : ∀ a, Method.Fueled (body a)) (xs : List α) :
    Method.Fueled (forEach body xs) := by
  induction xs with
  | nil => exact Method.fueled_pure ()
  | cons x xs ih => exact Method.fueled_bind (hbody x) fun _ => ih

theorem Method.fueled_lift {σ τ α : Type} (get : σ → τ) (set : σ → τ → σ) {x : Method τ α}
    (hx : Method.Fueled x) : Method.Fueled (Method.lift get set x) :=
  fun s => hx (get s)

theorem BinaryReader.ReadByte_fueled : Method.Fueled BinaryReader.ReadByte := by
  intro b
  unfold BinaryReader.ReadByte
  split <;> exact fun h => by cases h

theorem BinaryReader.ReadUInt16_fueled : Method.Fueled BinaryReader.ReadUInt16 := by
  unfold BinaryReader.ReadUInt16
  exact Method.fueled_bind BinaryReader.ReadByte_fueled fun _ =>
    Method.fueled_bind BinaryReader.ReadByte_fueled fun _ => Method.fueled_pure _

theorem BinaryReader.ReadUInt32_fueled : Method.Fueled BinaryReader.ReadUInt32 := by
  unfold BinaryReader.ReadUInt32
  exact Method.fueled_bind BinaryReader.ReadByte_fueled fun _ =>
    Method.fueled_bind BinaryReader.ReadByte_fueled fun _ =>
    Method.fueled_bind BinaryReader.ReadByte_fueled fun _ =>
    Method.fueled_bind BinaryReader.ReadByte_fueled fun _ => Method.fueled_pure _

theorem BinaryReader.ReadUInt64_fueled : Method.Fueled BinaryReader.ReadUInt64 := by
  unfold BinaryReader.ReadUInt64
  exact Method.fueled_bind BinaryReader.ReadByte_fueled fun _ =>
    Method.fueled_bind BinaryReader.ReadByte_fueled fun _ =>
    Method.fueled_bind BinaryReader.ReadByte_fueled fun _ =>
    Method.fueled_bind BinaryReader.ReadByte_fueled fun _ =>
    Method.fueled_bind BinaryReader.ReadByte_fueled fun _ =>
    Method.fueled_bind BinaryReader.ReadByte_fueled fun _ =>
    Method.fueled_bind BinaryReader.ReadByte_fueled fun _ =>
    Method.fueled_bind BinaryReader.ReadByte_fueled fun _ => Method.fueled_pure _

theorem BinaryReader.ReadSByte_fueled : Method.Fueled BinaryReader.ReadSByte := by
  unfold BinaryReader.ReadSByte
  exact Method.fueled_bind BinaryReader.ReadByte_fueled fun _ => Method.fueled_pure _

theorem BinaryReader.ReadInt16_fueled : Method.Fueled BinaryReader.ReadInt16 := by
  unfold BinaryReader.ReadInt16
  exact Method.fueled_bind BinaryReader.ReadUInt16_fueled fun _ => Method.fueled_pure _

theorem BinaryReader.ReadInt32_fueled : Method.Fueled BinaryReader.ReadInt32 := by
  unfold BinaryReader.ReadInt32
  exact Method.fueled_bind BinaryReader.ReadUInt32_fueled fun _ => Method.fueled_pure _

theorem BinaryReader.ReadInt64_fueled : Method.Fueled BinaryReader.ReadInt64 := by
  unfold BinaryReader.ReadInt64
  exact Method.fueled_bind BinaryReader.ReadUInt64_fueled fun _ => Method.fueled_pure _

theorem BinaryReader.ReadSingle_fueled : Method.Fueled BinaryReader.ReadSingle := by
  unfold BinaryReader.ReadSingle
  exact Method.fueled_bind BinaryReader.ReadUInt32_fueled fun _ => Method.fueled_pure _

theorem BinaryReader.ReadDouble_fueled : Method.Fueled BinaryReader.ReadDouble := by
  unfold BinaryReader.ReadDouble
  exact Method.fueled_bind BinaryReader.ReadUInt64_fueled fun _ => Method.fueled_pure _

theorem BinaryReader.ReadBoolean_fueled : Method.Fueled BinaryReader.ReadBoolean := by
  unfold BinaryReader.ReadBoolean
  exact Method.fueled_bind BinaryReader.ReadByte_fueled fun _ => Method.fueled_pure _

theorem BinaryReader.ReadChar_continuation_fueled (n result : Nat) :
    Method.Fueled (BinaryReader.ReadChar.continuation n result) := by
  induction n generalizing result with
  | zero => exact Method.fueled_pure _
  | succ n ih =>
    unfold BinaryReader.ReadChar.continuation
    exact Method.fueled_bind BinaryReader.ReadByte_fueled fun _ => ih _

theorem BinaryReader.ReadChar_fueled : Method.Fueled BinaryReader.ReadChar := by
  unfold BinaryReader.ReadChar
  refine Method.fueled_bind BinaryReader.ReadByte_fueled fun result => ?_
  split
  · exact BinaryReader.ReadChar_continuation_fueled _ _
  · exact Method.fueled_pure _

theorem BinaryReader.Read7BitEncodedInt_loop_fueled (fuel result bitsRead : Nat)
    (hfuel : 1 ≤ fuel) (h : 39 ≤ bitsRead + 7 * fuel) :
    Method.Fueled (BinaryReader.Read7BitEncodedInt.loop fuel result bitsRead) := by
  induction fuel generalizing result bitsRead with
  | zero => omega
  | succ fuel ih =>
    unfold BinaryReader.Read7BitEncodedInt.loop
    refine Method.fueled_bind BinaryReader.ReadByte_fueled fun value => ?_
    split
    · exact Method.fueled_fail _ (by decide)
    · split
      · exact ih _ _ (by omega) (by omega)
      · exact Method.fueled_pure _

theorem BinaryReader.Read7BitEncodedInt_fueled :
    Method.Fueled BinaryReader.Read7BitEncodedInt :=
  BinaryReader.Read7BitEncodedInt_loop_fueled 6 0 0 (by decide) (by decide)

theorem BinaryReader.ReadBytes_fueled (count : Nat) :
    Method.Fueled (BinaryReader.ReadBytes count) := by
  induction count with
  | zero => exact Method.fueled_pure _
  | succ count ih =>
    unfold BinaryReader.ReadBytes
    exact Method.fueled_bind BinaryReader.ReadByte_fueled fun _ =>
      Method.fueled_bind ih fun _ => Method.fueled_pure _

theorem BinaryReader.ReadString_loop_fueled (endOfString fuel : Nat) (result : wstring)
    (b : BinaryReader) (h : b.file.length - b.position < fuel) :
    (BinaryReader.ReadString.loop endOfString fuel result b).1 ≠ .error .outOfFuel := by
  induction fuel generalizing result b with
  | zero => omega
  | succ fuel ih =>
    rw [BinaryReader.ReadString_loop_step]
    split
    · cases hread : BinaryReader.ReadChar b with
      | mk value b' =>
        cases value with
        | error e =>
          rw [Method.bind_error hread]
          have := BinaryReader.ReadChar_fueled b
          rw [hread] at this
          exact error_ne_outOfFuel this
        | ok c =>
          rw [Method.bind_ok hread]
          obtain ⟨hf, hp, -, hl⟩ := BinaryReader.ReadChar_eq_ok _ _ _ hread
          exact ih _ b' (by rw [hf] at hl ⊢; omega)
    · exact fun h => by cases h

theorem BinaryReader.ReadString_fueled : Method.Fueled BinaryReader.ReadString := by
  intro b
  unfold BinaryReader.ReadString
  simp only [Method.bind_apply]
  have h7 := BinaryReader.Read7BitEncodedInt_fueled b
  cases hread : BinaryReader.Read7BitEncodedInt b with
  | mk value b' =>
    rw [hread] at h7
    cases value with
    | error e => exact error_ne_outOfFuel h7
    | ok n =>
      simp only [Method.get_apply]
      exact BinaryReader.ReadString_loop_fueled _ _ _ b' (by omega)

theorem GenericArgument_ne_outOfFuel (g : GenericTypeReader) (i : Nat) :
    g.GenericArgument i ≠ .error .outOfFuel := by
  unfold GenericTypeReader.GenericArgument
  split <;> exact fun h => by cases h

theorem TargetType_ne_outOfFuel (reader : TypeReader) :
    reader.TargetType ≠ .error .outOfFuel := by
  cases reader with
  | plain cls => exact fun h => by cases h
  | generic g =>
    have h0 := GenericArgument_ne_outOfFuel g 0
    simp only [TypeReader.TargetType]
    cases hcls : g.cls <;> simp only
    · exact h0
    · exact fun h => by cases h
    · cases ha : g.GenericArgument 0 with
      | error e =>
        rw [ha] at h0
        exact fun h => h0 (by cases h; rfl)
      | ok a => exact fun h => by cases h
    · exact fun h => by cases h
    · exact fun h => by cases h
    · exact h0

theorem deref_ne_outOfFuel (m : TypeReaderManager) (reader : Nat) :
    m.deref reader ≠ .error .outOfFuel := by
  unfold TypeReaderManager.deref
  split <;> exact fun h => by cases h

theorem findByTargetType_ne_outOfFuel (wanted : wstring) (readers : List TypeReader)
    (index : Nat) : findByTargetType wanted readers index ≠ .error .outOfFuel := by
  induction readers generalizing index with
  | nil => exact fun h => by cases h
  | cons reader rest ih =>
    unfold findByTargetType
    have h0 := TargetType_ne_outOfFuel reader
    cases ht : reader.TargetType with
    | error e =>
      rw [ht] at h0
      exact fun h => h0 (by cases h; rfl)
    | ok targetType =>
      simp only
      split
      · exact fun h => by cases h
      · exact ih _

theorem GetByTargetType_fueled (targetType : wstring) :
    Method.Fueled (TypeReaderManager.GetByTargetType targetType) := by
  intro m
  unfold TypeReaderManager.GetByTargetType
  have h0 := findByTargetType_ne_outOfFuel (StripAssemblyVersion targetType) m.typeReaders 0
  simp only
  cases hf : findByTargetType (StripAssemblyVersion targetType) m.typeReaders 0 with
  | error e =>
    rw [hf] at h0
    exact fun h => h0 (by cases h; rfl)
  | ok found =>
    cases found with
    | none =>
      rcases fatalError_cases 35 2 (StripAssemblyVersion targetType)
        (.cantFindTargetType (StripAssemblyVersion targetType)) with ⟨-, he⟩ | ⟨-, he⟩ <;>
      · simp only [he]
        exact fun h => by cases h
    | some reader => exact fun h => by cases h

theorem GetByReaderName_fueled (readerName : wstring) :
    Method.Fueled (TypeReaderManager.GetByReaderName readerName) := by
  intro m
  rcases GetByReaderName_outcome m readerName with ⟨-, hG⟩ | ⟨-, ⟨reader, m', hG⟩ | hG⟩
  · rw [hG]
    rcases fatalError_cases 24 2 (StripAssemblyVersion readerName)
      (.cantFindTypeReader (StripAssemblyVersion readerName)) with ⟨-, he⟩ | ⟨-, he⟩ <;>
    · simp only [he]
      exact fun h => by cases h
  · rw [hG]
    exact fun h => by cases h
  · rw [hG]
    exact fun h => by cases h

theorem Initialize_fueled (reader : Nat) :
    Method.Fueled (TypeReaderManager.Initialize reader) := by
  unfold TypeReaderManager.Initialize
  refine Method.fueled_bind Method.fueled_get fun m => ?_
  refine Method.fueled_bind (Method.fueled_ofExcept _ (deref_ne_outOfFuel m reader))
    fun object => ?_
  cases object with
  | plain cls => exact Method.fueled_pure _
  | generic g =>
    have harg : ∀ i, Method.Fueled
        (Method.ofExcept (g.GenericArgument i) : Method TypeReaderManager wstring) :=
      fun i => Method.fueled_ofExcept _ (GenericArgument_ne_outOfFuel g i)
    have hassign : ∀ f, Method.Fueled (TypeReaderManager.assign reader f) :=
      fun f => Method.fueled_modify _
    simp only
    cases g.cls <;> simp only
    · exact Method.fueled_pure _
    · exact Method.fueled_bind (harg 0) fun _ =>
        Method.fueled_bind (GetByTargetType_fueled _) fun _ => hassign _
    · exact Method.fueled_bind (harg 0) fun _ =>
        Method.fueled_bind (GetByTargetType_fueled _) fun _ => hassign _
    · exact Method.fueled_bind (harg 0) fun _ =>
        Method.fueled_bind (GetByTargetType_fueled _) fun _ => hassign _
    · exact Method.fueled_bind (harg 0) fun _ =>
        Method.fueled_bind (GetByTargetType_fueled _) fun _ =>
        Method.fueled_bind (hassign _) fun _ =>
        Method.fueled_bind (harg 1) fun _ =>
        Method.fueled_bind (GetByTargetType_fueled _) fun _ => hassign _
    · exact Method.fueled_pure _

/-! ## The readers that call no other reader never use up the fuel -/

instance Fueled.pure {α : Type} (a : α) : Fueled (Pure.pure a : Method ContentReader α) :=
  ⟨Method.fueled_pure a⟩

theorem Fueled.of_fail {α : Type} (e : Error) (h : e ≠ .outOfFuel) :
    Fueled (Method.fail e : Method ContentReader α) :=
  ⟨Method.fueled_fail e h⟩

instance {α : Type} : Fueled (Method.fail .notAnXnbFile : Method ContentReader α) :=
  Fueled.of_fail _ (by decide)
instance {α : Type} : Fueled (Method.fail .truncated : Method ContentReader α) :=
  Fueled.of_fail _ (by decide)
instance {α : Type} : Fueled (Method.fail .compressedNotSupported : Method ContentReader α) :=
  Fueled.of_fail _ (by decide)
instance {α : Type} : Fueled (Method.fail .endPositionMismatch : Method ContentReader α) :=
  Fueled.of_fail _ (by decide)
instance {α : Type} : Fueled (Method.fail .typeIdOutOfRange : Method ContentReader α) :=
  Fueled.of_fail _ (by decide)
instance {α : Type} : Fueled (Method.fail .unexpectedTypeId : Method ContentReader α) :=
  Fueled.of_fail _ (by decide)
instance {α : Type} : Fueled (Method.fail .objectReaderInvoked : Method ContentReader α) :=
  Fueled.of_fail _ (by decide)
instance {α : Type} : Fueled (Method.fail .textureReaderInvoked : Method ContentReader α) :=
  Fueled.of_fail _ (by decide)
instance {α : Type} : Fueled (Method.fail .reflectiveReader : Method ContentReader α) :=
  Fueled.of_fail _ (by decide)
instance {α : Type} : Fueled (Method.fail .undefinedBehavior : Method ContentReader α) :=
  Fueled.of_fail _ (by decide)

instance Fueled.get : Fueled (Method.get : Method ContentReader ContentReader) :=
  ⟨Method.fueled_get⟩

instance Fueled.modify (f : ContentReader → ContentReader) : Fueled (Method.modify f) :=
  ⟨Method.fueled_modify f⟩

instance Fueled.deref (m : TypeReaderManager) (reader : Nat) :
    Fueled (Method.ofExcept (m.deref reader) : Method ContentReader TypeReader) :=
  ⟨Method.fueled_ofExcept _ (deref_ne_outOfFuel m reader)⟩

instance Fueled.targetType (object : TypeReader) :
    Fueled (Method.ofExcept object.TargetType : Method ContentReader wstring) :=
  ⟨Method.fueled_ofExcept _ (TargetType_ne_outOfFuel object)⟩

instance Fueled.bind {α β : Type} (x : Method ContentReader α)
    (f : α → Method ContentReader β) [hx : Fueled x] [hf : ∀ a, Fueled (f a)] :
    Fueled (x >>= f) :=
  ⟨Method.fueled_bind hx.out fun a => (hf a).out⟩

instance Fueled.ite {α : Type} (c : Prop) {h : Decidable c} (x y : Method ContentReader α)
    [hx : Fueled x] [hy : Fueled y] : Fueled (if c then x else y) := by
  split
  · exact hx
  · exact hy

instance Fueled.forLoop (count : Nat) (body : Nat → Method ContentReader Unit)
    [hbody : ∀ i, Fueled (body i)] : Fueled (forLoop count body) :=
  ⟨Method.fueled_forLoop (fun i => (hbody i).out) count⟩

instance Fueled.forEach {α : Type} (body : α → Method ContentReader Unit) (xs : List α)
    [hbody : ∀ a, Fueled (body a)] : Fueled (forEach body xs) :=
  ⟨Method.fueled_forEach (fun a => (hbody a).out) xs⟩

instance Fueled.log (f : Logger → Logger) : Fueled (ContentReader.log f) :=
  ⟨Method.fueled_modify _⟩

instance Fueled.getByReaderName (readerName : wstring) :
    Fueled (ContentReader.manager (TypeReaderManager.GetByReaderName readerName)) :=
  ⟨Method.fueled_lift _ _ (GetByReaderName_fueled readerName)⟩

instance Fueled.ofInitialize (reader : Nat) :
    Fueled (ContentReader.manager (TypeReaderManager.Initialize reader)) :=
  ⟨Method.fueled_lift _ _ (Initialize_fueled reader)⟩

theorem Fueled.fueled_base {α : Type} (x : Method BinaryReader α) (hx : Method.Fueled x) :
    Fueled (ContentReader.base x) :=
  ⟨Method.fueled_lift _ _ hx⟩

instance : Fueled ContentReader.ReadByte := Fueled.fueled_base _ BinaryReader.ReadByte_fueled
instance : Fueled ContentReader.ReadUInt16 := Fueled.fueled_base _ BinaryReader.ReadUInt16_fueled
instance : Fueled ContentReader.ReadUInt32 := Fueled.fueled_base _ BinaryReader.ReadUInt32_fueled
instance : Fueled ContentReader.ReadUInt64 := Fueled.fueled_base _ BinaryReader.ReadUInt64_fueled
instance : Fueled ContentReader.ReadSByte := Fueled.fueled_base _ BinaryReader.ReadSByte_fueled
instance : Fueled ContentReader.ReadInt16 := Fueled.fueled_base _ BinaryReader.ReadInt16_fueled
instance : Fueled ContentReader.ReadInt32 := Fueled.fueled_base _ BinaryReader.ReadInt32_fueled
instance : Fueled ContentReader.ReadInt64 := Fueled.fueled_base _ BinaryReader.ReadInt64_fueled
instance : Fueled ContentReader.ReadSingle := Fueled.fueled_base _ BinaryReader.ReadSingle_fueled
instance : Fueled ContentReader.ReadDouble := Fueled.fueled_base _ BinaryReader.ReadDouble_fueled
instance : Fueled ContentReader.ReadBoolean := Fueled.fueled_base _ BinaryReader.ReadBoolean_fueled
instance : Fueled ContentReader.ReadChar := Fueled.fueled_base _ BinaryReader.ReadChar_fueled
instance : Fueled ContentReader.ReadString := Fueled.fueled_base _ BinaryReader.ReadString_fueled
instance : Fueled ContentReader.Read7BitEncodedInt := Fueled.fueled_base _ BinaryReader.Read7BitEncodedInt_fueled
instance (count : Nat) : Fueled (ContentReader.ReadBytes count) :=
  Fueled.fueled_base _ (BinaryReader.ReadBytes_fueled count)

instance : Fueled ContentReader.Indent := Fueled.log _
instance : Fueled ContentReader.Unindent := Fueled.log _
instance (format : String) (args : List PrintfArg) :
    Fueled (ContentReader.Write format args) := Fueled.log _
instance (format : String) (args : List PrintfArg) :
    Fueled (ContentReader.WriteLine format args) := Fueled.log _
instance (name : String) (bytes : List Nat) :
    Fueled (ContentReader.WriteBytes name bytes) := Fueled.log _
instance (name : String) (value : Int) (enumValues : List String) :
    Fueled (ContentReader.WriteEnum name value enumValues) := Fueled.log _

instance (typeReader : Nat) : Fueled (ContentReader.TargetType typeReader) := by
  unfold ContentReader.TargetType; infer_instance

instance (typeReader : Nat) : Fueled (ContentReader.IsValueType typeReader) := by
  unfold ContentReader.IsValueType; infer_instance

instance : Fueled ContentReader.ReadHeader := by
  unfold ContentReader.ReadHeader; dsimp only; infer_instance

instance : Fueled ContentReader.ReadTypeManifest.entry := by
  unfold ContentReader.ReadTypeManifest.entry; infer_instance

instance : Fueled ContentReader.ReadTypeManifest := by
  unfold ContentReader.ReadTypeManifest; infer_instance

instance : Fueled ContentReader.ReadTypeId := by
  unfold ContentReader.ReadTypeId; infer_instance

instance (expectedType : wstring) : Fueled (ContentReader.ValidateTypeId expectedType) := by
  constructor
  unfold ContentReader.ValidateTypeId
  refine Method.fueled_bind Fueled.out fun typeReader => ?_
  cases typeReader with
  | none => exact Fueled.out
  | some typeReader => exact Fueled.out

instance (count : Nat) : Fueled (readSingles count) := by
  induction count with
  | zero => unfold readSingles; infer_instance
  | succ count ih => unfold readSingles; infer_instance

instance : Fueled ContentReader.ReadSharedResource := by
  unfold ContentReader.ReadSharedResource; infer_instance
instance : Fueled ByteReader.Read := by unfold ByteReader.Read; infer_instance
instance : Fueled SByteReader.Read := by unfold SByteReader.Read; infer_instance
instance : Fueled Int16Reader.Read := by unfold Int16Reader.Read; infer_instance
instance : Fueled UInt16Reader.Read := by unfold UInt16Reader.Read; infer_instance
instance : Fueled Int32Reader.Read := by unfold Int32Reader.Read; infer_instance
instance : Fueled UInt32Reader.Read := by unfold UInt32Reader.Read; infer_instance
instance : Fueled Int64Reader.Read := by unfold Int64Reader.Read; infer_instance
instance : Fueled UInt64Reader.Read := by unfold UInt64Reader.Read; infer_instance
instance : Fueled SingleReader.Read := by unfold SingleReader.Read; infer_instance
instance : Fueled DoubleReader.Read := by unfold DoubleReader.Read; infer_instance
instance : Fueled BooleanReader.Read := by unfold BooleanReader.Read; infer_instance
instance : Fueled CharReader.Read := by unfold CharReader.Read; infer_instance
instance : Fueled StringReader.Read := by unfold StringReader.Read; infer_instance
instance : Fueled ObjectReader.Read := by unfold ObjectReader.Read; infer_instance
instance : Fueled Vector2Reader.Read := by unfold Vector2Reader.Read; infer_instance
instance : Fueled Vector3Reader.Read := by unfold Vector3Reader.Read; infer_instance
instance : Fueled Vector4Reader.Read := by unfold Vector4Reader.Read; infer_instance
instance : Fueled MatrixReader.Read := by unfold MatrixReader.Read; infer_instance
instance : Fueled QuaternionReader.Read := by unfold QuaternionReader.Read; infer_instance
instance : Fueled ColorReader.Read := by unfold ColorReader.Read; infer_instance
instance : Fueled PlaneReader.Read := by unfold PlaneReader.Read; infer_instance
instance : Fueled PointReader.Read := by unfold PointReader.Read; infer_instance
instance : Fueled RectangleReader.Read := by unfold RectangleReader.Read; infer_instance
instance : Fueled BoundingBoxReader.Read := by unfold BoundingBoxReader.Read; infer_instance
instance : Fueled BoundingSphereReader.Read := by unfold BoundingSphereReader.Read; infer_instance
instance : Fueled BoundingFrustumReader.Read := by unfold BoundingFrustumReader.Read; infer_instance
instance : Fueled RayReader.Read := by unfold RayReader.Read; infer_instance
instance : Fueled CurveReader.Read := by unfold CurveReader.Read; infer_instance
instance : Fueled TextureReader.Read := by unfold TextureReader.Read; infer_instance
instance : Fueled Texture2DReader.Read := by unfold Texture2DReader.Read; infer_instance
instance : Fueled Texture3DReader.Read := by unfold Texture3DReader.Read; infer_instance
instance : Fueled TextureCubeReader.Read := by unfold TextureCubeReader.Read; infer_instance
instance : Fueled IndexBufferReader.Read := by unfold IndexBufferReader.Read; infer_instance
instance : Fueled ReadVertexDeclaration := by unfold ReadVertexDeclaration; infer_instance
instance : Fueled VertexBufferReader.Read := by unfold VertexBufferReader.Read; infer_instance
instance : Fueled VertexDeclarationReader.Read := by
  unfold VertexDeclarationReader.Read; infer_instance
instance : Fueled EffectReader.Read := by unfold EffectReader.Read; infer_instance
instance : Fueled BasicEffectReader.Read := by unfold BasicEffectReader.Read; infer_instance
instance : Fueled AlphaTestEffectReader.Read := by unfold AlphaTestEffectReader.Read; infer_instance
instance : Fueled DualTextureEffectReader.Read := by
  unfold DualTextureEffectReader.Read; infer_instance
instance : Fueled EnvironmentMapEffectReader.Read := by
  unfold EnvironmentMapEffectReader.Read; infer_instance
instance : Fueled SkinnedEffectReader.Read := by unfold SkinnedEffectReader.Read; infer_instance
instance (boneCount : Nat) : Fueled (ReadBoneReference boneCount) := by
  unfold ReadBoneReference; infer_instance
instance : Fueled SoundEffectReader.Read := by unfold SoundEffectReader.Read; infer_instance
instance : Fueled SongReader.Read := by unfold SongReader.Read; infer_instance
instance : Fueled VideoReader.Read := by unfold VideoReader.Read; infer_instance
instance : Fueled EnumReader.Read := by unfold EnumReader.Read; infer_instance
instance : Fueled TimeSpanReader.Read := by unfold TimeSpanReader.Read; infer_instance
instance : Fueled DateTimeReader.Read := by unfold DateTimeReader.Read; infer_instance
instance : Fueled DecimalReader.Read := by unfold DecimalReader.Read; infer_instance
instance : Fueled ExternalReferenceReader.Read := by
  unfold ExternalReferenceReader.Read; infer_instance
instance : Fueled ReflectiveReader.Read := by unfold ReflectiveReader.Read; infer_instance

/-! ## The readers read at least one byte -/

theorem Advancing.position_le {α : Type} {x : Method ContentReader α} [hx : Advancing x]
    {r r' : ContentReader} {result : Except Error α} (h : x r = (result, r')) :
    r.position ≤ r'.position :=
  (Advancing.of_eq h).2.1

theorem BinaryReader.strict_bind {α β : Type} {x : Method BinaryReader α}
    {f : α → Method BinaryReader β}
    (hx : ∀ b a b', x b = (.ok a, b') → b.position < b'.position)
    (hf : ∀ a, Method.Preserves BinaryReader.advances (f a)) :
    ∀ b c b', (x >>= f) b = (.ok c, b') → b.position < b'.position := by
  intro b c b' h
  obtain ⟨a, b1, h1, h2⟩ := (Method.bind_eq_ok _ _ _ _ _).1 h
  have hlt := hx b a b1 h1
  have hadv := hf a b1
  rw [h2] at hadv
  exact Nat.lt_of_lt_of_le hlt hadv.2.1

theorem BinaryReader.ReadByte_strict :
    ∀ b a b', BinaryReader.ReadByte b = (.ok a, b') → b.position < b'.position := by
  intro b a b' h
  obtain ⟨-, hp, -, -⟩ := BinaryReader.ReadByte_eq_ok _ _ _ h
  omega

theorem BinaryReader.ReadUInt16_strict :
    ∀ b a b', BinaryReader.ReadUInt16 b = (.ok a, b') → b.position < b'.position := by
  unfold BinaryReader.ReadUInt16
  exact BinaryReader.strict_bind BinaryReader.ReadByte_strict fun _ =>
    Method.Preserves.bind BinaryReader.advances_frame BinaryReader.ReadByte_advances fun _ =>
      Method.Preserves.pure BinaryReader.advances_frame _

theorem BinaryReader.ReadUInt32_strict :
    ∀ b a b', BinaryReader.ReadUInt32 b = (.ok a, b') → b.position < b'.position := by
  intro b a b' h
  obtain ⟨-, hp, -, -⟩ := BinaryReader.ReadUInt32_eq_ok _ _ _ h
  omega

theorem BinaryReader.ReadUInt64_strict :
    ∀ b a b', BinaryReader.ReadUInt64 b = (.ok a, b') → b.position < b'.position := by
  intro b a b' h
  obtain ⟨-, hp, -, -⟩ := BinaryReader.ReadUInt64_eq_ok _ _ _ h
  omega

theorem BinaryReader.ReadSByte_strict :
    ∀ b a b', BinaryReader.ReadSByte b = (.ok a, b') → b.position < b'.position := by
  unfold BinaryReader.ReadSByte
  exact BinaryReader.strict_bind BinaryReader.ReadByte_strict fun _ =>
    Method.Preserves.pure BinaryReader.advances_frame _

theorem BinaryReader.ReadInt16_strict :
    ∀ b a b', BinaryReader.ReadInt16 b = (.ok a, b') → b.position < b'.position := by
  unfold BinaryReader.ReadInt16
  exact BinaryReader.strict_bind BinaryReader.ReadUInt16_strict fun _ =>
    Method.Preserves.pure BinaryReader.advances_frame _

theorem BinaryReader.ReadInt32_strict :
    ∀ b a b', BinaryReader.ReadInt32 b = (.ok a, b') → b.position < b'.position := by
  unfold BinaryReader.ReadInt32
  exact BinaryReader.strict_bind BinaryReader.ReadUInt32_strict fun _ =>
    Method.Preserves.pure BinaryReader.advances_frame _

theorem BinaryReader.ReadInt64_strict :
    ∀ b a b', BinaryReader.ReadInt64 b = (.ok a, b') → b.position < b'.position := by
  unfold BinaryReader.ReadInt64
  exact BinaryReader.strict_bind BinaryReader.ReadUInt64_strict fun _ =>
    Method.Preserves.pure BinaryReader.advances_frame _

theorem BinaryReader.ReadSingle_strict :
    ∀ b a b', BinaryReader.ReadSingle b = (.ok a, b') → b.position < b'.position := by
  unfold BinaryReader.ReadSingle
  exact BinaryReader.strict_bind BinaryReader.ReadUInt32_strict fun _ =>
    Method.Preserves.pure BinaryReader.advances_frame _

theorem BinaryReader.ReadDouble_strict :
    ∀ b a b', BinaryReader.ReadDouble b = (.ok a, b') → b.position < b'.position := by
  unfold BinaryReader.ReadDouble
  exact BinaryReader.strict_bind BinaryReader.ReadUInt64_strict fun _ =>
    Method.Preserves.pure BinaryReader.advances_frame _

theorem BinaryReader.ReadBoolean_strict :
    ∀ b a b', BinaryReader.ReadBoolean b = (.ok a, b') → b.position < b'.position := by
  unfold BinaryReader.ReadBoolean
  exact BinaryReader.strict_bind BinaryReader.ReadByte_strict fun _ =>
    Method.Preserves.pure BinaryReader.advances_frame _

theorem BinaryReader.ReadChar_strict :
    ∀ b a b', BinaryReader.ReadChar b = (.ok a, b') → b.position < b'.position := by
  intro b a b' h
  obtain ⟨-, hp, -, -⟩ := BinaryReader.ReadChar_eq_ok _ _ _ h
  omega

theorem BinaryReader.Read7BitEncodedInt_strict :
    ∀ b a b', BinaryReader.Read7BitEncodedInt b = (.ok a, b') → b.position < b'.position :=
  fun b a b' h => (BinaryReader.Read7BitEncodedInt_loop_eq_ok 6 0 0 b b' a h).2.1

theorem BinaryReader.ReadString_strict :
    ∀ b a b', BinaryReader.ReadString b = (.ok a, b') → b.position < b'.position := by
  unfold BinaryReader.ReadString
  exact BinaryReader.strict_bind BinaryReader.Read7BitEncodedInt_strict fun _ =>
    Method.Preserves.bind BinaryReader.advances_frame
      (Method.Preserves.get BinaryReader.advances_frame) fun _ =>
        BinaryReader.ReadString_loop_advances _ _ _

theorem Strict.strict_base {α : Type} (x : Method BinaryReader α)
    (hx : ∀ b a b', x b = (.ok a, b') → b.position < b'.position) :
    Strict (ContentReader.base x) :=
  ⟨fun _ a _ h => hx _ a _ ((ContentReader.base_eq_ok _ _ _ _).1 h).1⟩

instance Strict.fail {α : Type} (e : Error) :
    Strict (Method.fail e : Method ContentReader α) :=
  ⟨fun _ _ _ h => by cases h⟩

instance Strict.bind_left {α β : Type} (x : Method ContentReader α)
    (f : α → Method ContentReader β) [hx : Strict x] [hf : ∀ a, Advancing (f a)] :
    Strict (x >>= f) := by
  constructor
  intro r b r' h
  obtain ⟨a, r1, h1, h2⟩ := (Method.bind_eq_ok _ _ _ _ _).1 h
  exact Nat.lt_of_lt_of_le (hx.out r a r1 h1) (Advancing.position_le h2)

instance Strict.bind_right {α β : Type} (x : Method ContentReader α)
    (f : α → Method ContentReader β) [hx : Advancing x] [hf : ∀ a, Strict (f a)] :
    Strict (x >>= f) := by
  constructor
  intro r b r' h
  obtain ⟨a, r1, h1, h2⟩ := (Method.bind_eq_ok _ _ _ _ _).1 h
  exact Nat.lt_of_le_of_lt (Advancing.position_le h1) ((hf a).out r1 b r' h2)

instance Strict.ite {α : Type} (c : Prop) {h : Decidable c} (x y : Method ContentReader α)
    [hx : Strict x] [hy : Strict y] : Strict (if c then x else y) := by
  split
  · exact hx
  · exact hy

instance : Strict ContentReader.ReadByte := Strict.strict_base _ BinaryReader.ReadByte_strict
instance : Strict ContentReader.ReadUInt16 := Strict.strict_base _ BinaryReader.ReadUInt16_strict
instance : Strict ContentReader.ReadUInt32 := Strict.strict_base _ BinaryReader.ReadUInt32_strict
instance : Strict ContentReader.ReadUInt64 := Strict.strict_base _ BinaryReader.ReadUInt64_strict
instance : Strict ContentReader.ReadSByte := Strict.strict_base _ BinaryReader.ReadSByte_strict
instance : Strict ContentReader.ReadInt16 := Strict.strict_base _ BinaryReader.ReadInt16_strict
instance : Strict ContentReader.ReadInt32 := Strict.strict_base _ BinaryReader.ReadInt32_strict
instance : Strict ContentReader.ReadInt64 := Strict.strict_base _ BinaryReader.ReadInt64_strict
instance : Strict ContentReader.ReadSingle := Strict.strict_base _ BinaryReader.ReadSingle_strict
instance : Strict ContentReader.ReadDouble := Strict.strict_base _ BinaryReader.ReadDouble_strict
instance : Strict ContentReader.ReadBoolean := Strict.strict_base _ BinaryReader.ReadBoolean_strict
instance : Strict ContentReader.ReadChar := Strict.strict_base _ BinaryReader.ReadChar_strict
instance : Strict ContentReader.ReadString := Strict.strict_base _ BinaryReader.ReadString_strict
instance : Strict ContentReader.Read7BitEncodedInt :=
  Strict.strict_base _ BinaryReader.Read7BitEncodedInt_strict

instance : Strict ContentReader.ReadTypeManifest.entry := by
  unfold ContentReader.ReadTypeManifest.entry
  have : ∀ reader : Nat, Advancing (Method.modify fun r : ContentReader =>
      { r with typeReaders := r.typeReaders ++ [reader] }) :=
    fun _ => ⟨fun r => BinaryReader.advances_frame.refl r.toBinaryReader⟩
  infer_instance

instance : Strict ContentReader.ReadTypeId := by
  unfold ContentReader.ReadTypeId; infer_instance

instance (count : Nat) : Strict (readSingles (count + 1)) := by
  unfold readSingles; infer_instance

instance : Strict ContentReader.ReadSharedResource := by
  unfold ContentReader.ReadSharedResource; infer_instance
instance : Strict ByteReader.Read := by unfold ByteReader.Read; infer_instance
instance : Strict SByteReader.Read := by unfold SByteReader.Read; infer_instance
instance : Strict Int16Reader.Read := by unfold Int16Reader.Read; infer_instance
instance : Strict UInt16Reader.Read := by unfold UInt16Reader.Read; infer_instance
instance : Strict Int32Reader.Read := by unfold Int32Reader.Read; infer_instance
instance : Strict UInt32Reader.Read := by unfold UInt32Reader.Read; infer_instance
instance : Strict Int64Reader.Read := by unfold Int64Reader.Read; infer_instance
instance : Strict UInt64Reader.Read := by unfold UInt64Reader.Read; infer_instance
instance : Strict SingleReader.Read := by unfold SingleReader.Read; infer_instance
instance : Strict DoubleReader.Read := by unfold DoubleReader.Read; infer_instance
instance : Strict BooleanReader.Read := by unfold BooleanReader.Read; infer_instance
instance : Strict CharReader.Read := by unfold CharReader.Read; infer_instance
instance : Strict StringReader.Read := by unfold StringReader.Read; infer_instance
instance : Strict ObjectReader.Read := by unfold ObjectReader.Read; infer_instance
instance : Strict Vector2Reader.Read := by unfold Vector2Reader.Read; infer_instance
instance : Strict Vector3Reader.Read := by unfold Vector3Reader.Read; infer_instance
instance : Strict Vector4Reader.Read := by unfold Vector4Reader.Read; infer_instance
instance : Strict MatrixReader.Read := by unfold MatrixReader.Read; infer_instance
instance : Strict QuaternionReader.Read := by unfold QuaternionReader.Read; infer_instance
instance : Strict ColorReader.Read := by unfold ColorReader.Read; infer_instance
instance : Strict PlaneReader.Read := by unfold PlaneReader.Read; infer_instance
instance : Strict PointReader.Read := by unfold PointReader.Read; infer_instance
instance : Strict RectangleReader.Read := by unfold RectangleReader.Read; infer_instance
instance : Strict BoundingBoxReader.Read := by unfold BoundingBoxReader.Read; infer_instance
instance : Strict BoundingSphereReader.Read := by unfold BoundingSphereReader.Read; infer_instance
instance : Strict BoundingFrustumReader.Read := by unfold BoundingFrustumReader.Read; infer_instance
instance : Strict RayReader.Read := by unfold RayReader.Read; infer_instance
instance : Strict CurveReader.Read := by unfold CurveReader.Read; infer_instance
instance : Strict TextureReader.Read := by unfold TextureReader.Read; infer_instance
instance : Strict Texture2DReader.Read := by unfold Texture2DReader.Read; infer_instance
instance : Strict Texture3DReader.Read := by unfold Texture3DReader.Read; infer_instance
instance : Strict TextureCubeReader.Read := by unfold TextureCubeReader.Read; infer_instance
instance : Strict IndexBufferReader.Read := by unfold IndexBufferReader.Read; infer_instance
instance : Strict ReadVertexDeclaration := by unfold ReadVertexDeclaration; infer_instance
instance : Strict VertexBufferReader.Read := by unfold VertexBufferReader.Read; infer_instance
instance : Strict VertexDeclarationReader.Read := by
  unfold VertexDeclarationReader.Read; infer_instance
instance : Strict EffectReader.Read := by unfold EffectReader.Read; infer_instance
instance : Strict BasicEffectReader.Read := by unfold BasicEffectReader.Read; infer_instance
instance : Strict AlphaTestEffectReader.Read := by unfold AlphaTestEffectReader.Read; infer_instance
instance : Strict DualTextureEffectReader.Read := by
  unfold DualTextureEffectReader.Read; infer_instance
instance : Strict EnvironmentMapEffectReader.Read := by
  unfold EnvironmentMapEffectReader.Read; infer_instance
instance : Strict SkinnedEffectReader.Read := by unfold SkinnedEffectReader.Read; infer_instance
instance (boneCount : Nat) : Strict (ReadBoneReference boneCount) := by
  unfold ReadBoneReference; infer_instance
instance : Strict SoundEffectReader.Read := by unfold SoundEffectReader.Read; infer_instance
instance : Strict SongReader.Read := by unfold SongReader.Read; infer_instance
instance : Strict VideoReader.Read := by unfold VideoReader.Read; infer_instance
instance : Strict EnumReader.Read := by unfold EnumReader.Read; infer_instance
instance : Strict TimeSpanReader.Read := by unfold TimeSpanReader.Read; infer_instance
instance : Strict DateTimeReader.Read := by unfold DateTimeReader.Read; infer_instance
instance : Strict DecimalReader.Read := by unfold DecimalReader.Read; infer_instance
instance : Strict ExternalReferenceReader.Read := by
  unfold ExternalReferenceReader.Read; infer_instance
instance : Strict ReflectiveReader.Read := by unfold ReflectiveReader.Read; infer_instance

/-! ## The readers that call other readers -/

theorem Advancing.of_preserves {α : Type} {x : Method ContentReader α}
    (hx : Method.Preserves ContentReader.advances x) {r r' : ContentReader}
    {result : Except Error α} (h : x r = (result, r')) : ContentReader.advances r r' := by
  have := hx r
  rwa [h] at this

instance (Read : Nat → Method ContentReader Unit) [hRead : ∀ q, Advancing (Read q)] :
    Strict (ContentReader.ReadObject Read) := by
  constructor
  intro r b r' h
  unfold ContentReader.ReadObject at h
  obtain ⟨u, r1, h1, h⟩ := (Method.bind_eq_ok _ _ _ _ _).1 h
  obtain ⟨typeReader, r2, h2, h⟩ := (Method.bind_eq_ok _ _ _ _ _).1 h
  have p1 := Advancing.position_le h1
  have p2 := Strict.out _ _ _ h2
  have p3 : r2.position ≤ r'.position := by
    refine (Advancing.of_preserves (?_ : Method.Preserves ContentReader.advances _) h).2.1
    refine Method.Preserves.bind ContentReader.advances_isFrame ?_ fun _ => Advancing.out
    cases typeReader with
    | none => exact Advancing.out
    | some typeReader => exact Advancing.out
  omega

instance (Read : Nat → Method ContentReader Unit) [hRead : ∀ q, Advancing (Read q)]
    [hStrict : ∀ q, Strict (Read q)] (typeReader : Option Nat) :
    Strict (ContentReader.ReadValueOrObject Read typeReader) := by
  unfold ContentReader.ReadValueOrObject
  cases typeReader <;> infer_instance

instance (Read : Nat → Method ContentReader Unit) [∀ q, Advancing (Read q)] :
    Strict (EffectMaterialReader.Read Read) := by
  unfold EffectMaterialReader.Read; infer_instance

instance (Read : Nat → Method ContentReader Unit) [∀ q, Advancing (Read q)] :
    Strict (SpriteFontReader.Read Read) := by
  unfold SpriteFontReader.Read; infer_instance

instance (Read : Nat → Method ContentReader Unit) [∀ q, Advancing (Read q)] :
    Strict (ModelReader.Read Read) := by
  constructor
  intro r b r' h
  unfold ModelReader.Read at h
  obtain ⟨boneCount, r1, h1, h⟩ := (Method.bind_eq_ok _ _ _ _ _).1 h
  have p1 := Strict.out _ _ _ h1
  have p2 : r1.position ≤ r'.position := by
    refine (Advancing.of_preserves (?_ : Method.Preserves ContentReader.advances _) h).2.1
    repeat
      first
      | (with_reducible
          refine Method.Preserves.bind ContentReader.advances_isFrame ?_ fun _ => ?_)
      | (with_reducible
          refine Method.Preserves.forLoop ContentReader.advances_isFrame (fun _ => ?_) _)
      | exact Advancing.out
  omega

instance (Read : Nat → Method ContentReader Unit) [∀ q, Advancing (Read q)]
    (self : GenericTypeReader) : Strict (NullableReader.Read Read self) := by
  unfold NullableReader.Read
  cases self.valueReader <;> infer_instance

instance (Read : Nat → Method ContentReader Unit) [∀ q, Advancing (Read q)]
    (self : GenericTypeReader) : Strict (ArrayReader.Read Read self) := by
  unfold ArrayReader.Read; infer_instance

instance (Read : Nat → Method ContentReader Unit) [∀ q, Advancing (Read q)]
    (self : GenericTypeReader) : Strict (ListReader.Read Read self) := by
  unfold ListReader.Read; infer_instance

instance (Read : Nat → Method ContentReader Unit) [∀ q, Advancing (Read q)]
    (self : GenericTypeReader) : Strict (DictionaryReader.Read Read self) := by
  unfold DictionaryReader.Read; infer_instance

instance (Read : Nat → Method ContentReader Unit) [∀ q, Advancing (Read q)]
    (cls : ReaderClass) : Strict (cls.Read Read) := by
  cases cls <;> unfold ReaderClass.Read <;> infer_instance

instance (Read : Nat → Method ContentReader Unit) [∀ q, Advancing (Read q)]
    (self : GenericTypeReader) : Strict (self.Read Read) := by
  unfold GenericTypeReader.Read
  cases self.cls <;> infer_instance

instance TypeReader.Read_strict (fuel typeReader : Nat) :
    Strict (TypeReader.Read fuel typeReader) := by
  cases fuel with
  | zero => unfold TypeReader.Read; infer_instance
  | succ fuel =>
    constructor
    intro r b r' h
    unfold TypeReader.Read at h
    obtain ⟨s, r1, h1, h⟩ := (Method.bind_eq_ok _ _ _ _ _).1 h
    obtain ⟨object, r2, h2, h⟩ := (Method.bind_eq_ok _ _ _ _ _).1 h
    have p1 := Advancing.position_le h1
    have p2 := Advancing.position_le h2
    cases object with
    | plain cls => have := Strict.out _ _ _ h; omega
    | generic self => have := Strict.out _ _ _ h; omega

/-! ## The depth of nested reads is bounded by the bytes that are left -/

theorem SafeFrom.mono {file : List Nat} {start start' : Nat} {α : Type}
    {x : Method ContentReader α} (h : start ≤ start') (hx : SafeFrom file start x) :
    SafeFrom file start' x :=
  ⟨fun r hfile hstart hlen => hx.out r hfile (Nat.le_trans h hstart) hlen⟩

instance SafeFrom.of_fueled (file : List Nat) (start : Nat) {α : Type}
    (x : Method ContentReader α) [hx : Fueled x] : SafeFrom file start x :=
  ⟨fun r _ _ _ => hx.out r⟩

theorem SafeFrom.bind_of {file : List Nat} {start start' : Nat} {α β : Type}
    {x : Method ContentReader α} {f : α → Method ContentReader β}
    (hx : SafeFrom file start x) (hadv : Advancing x)
    (hstep : ∀ r a r', x r = (.ok a, r') → start ≤ r.position → start' ≤ r'.position)
    (hf : ∀ a, SafeFrom file start' (f a)) : SafeFrom file start (x >>= f) := by
  constructor
  intro r hfile hstart hlen
  have h1 := hx.out r hfile hstart hlen
  simp only [Method.bind_apply]
  cases hxr : x r with
  | mk result r' =>
    rw [hxr] at h1
    cases result with
    | error e => exact error_ne_outOfFuel h1
    | ok a =>
      have h2 := Advancing.of_preserves hadv.out hxr
      refine (hf a).out r' (h2.1.trans hfile) (hstep r a r' hxr hstart) ?_
      have := h2.2.2 (by rw [hfile]; exact hlen)
      rw [h2.1, hfile] at this
      exact this

theorem SafeFrom.bind_same {file : List Nat} {start : Nat} {α β : Type}
    {x : Method ContentReader α} {f : α → Method ContentReader β}
    (hx : SafeFrom file start x) (hadv : Method.Preserves ContentReader.advances x)
    (hf : ∀ a, SafeFrom file start (f a)) : SafeFrom file start (x >>= f) :=
  SafeFrom.bind_of hx ⟨hadv⟩
    (fun _ _ _ h hstart => Nat.le_trans hstart (Advancing.of_preserves hadv h).2.1) hf

instance SafeFrom.bind (file : List Nat) (start : Nat) {α β : Type}
    (x : Method ContentReader α) (f : α → Method ContentReader β)
    [hx : SafeFrom file start x] [hadv : Advancing x] [hf : ∀ a, SafeFrom file start (f a)] :
    SafeFrom file start (x >>= f) :=
  SafeFrom.bind_of hx hadv
    (fun _ _ _ h hstart => Nat.le_trans hstart (Advancing.position_le h)) hf

/-- After a read that consumes at least one byte, what follows starts one byte
further. -/
theorem SafeFrom.bind_strict {file : List Nat} {start : Nat} {α β : Type}
    {x : Method ContentReader α} {f : α → Method ContentReader β}
    [hx : Fueled x] [hstrict : Strict x] [hadv : Advancing x]
    (hf : ∀ a, SafeFrom file (start + 1) (f a)) : SafeFrom file start (x >>= f) :=
  SafeFrom.bind_of (SafeFrom.of_fueled file start x) hadv
    (fun r a r' h hstart => by have := hstrict.out r a r' h; omega) hf

instance SafeFrom.ite (file : List Nat) (start : Nat) {α : Type} (c : Prop) [Decidable c]
    (x y : Method ContentReader α) [hx : SafeFrom file start x] [hy : SafeFrom file start y] :
    SafeFrom file start (if c then x else y) := by
  split
  · exact hx
  · exact hy

theorem SafeFrom.safe_forLoop_go {file : List Nat} {start : Nat}
    {body : Nat → Method ContentReader Unit} (hbody : ∀ i, SafeFrom file start (body i))
    (hadv : ∀ i, Advancing (body i)) {count i : Nat} :
    SafeFrom file start (forLoop.go body count i) := by
  induction count generalizing i with
  | zero => exact SafeFrom.of_fueled file start (pure ())
  | succ count ih =>
    exact SafeFrom.bind_of (hbody i) (hadv i)
      (fun _ _ _ h hstart => Nat.le_trans hstart (Advancing.position_le h)) fun _ => ih

theorem SafeFrom.forLoop_of {file : List Nat} {start : Nat}
    {body : Nat → Method ContentReader Unit} (hbody : ∀ i, SafeFrom file start (body i))
    (hadv : ∀ i, Advancing (body i)) {count : Nat} :
    SafeFrom file start (forLoop count body) :=
  SafeFrom.safe_forLoop_go hbody hadv

instance SafeFrom.forLoop (file : List Nat) (start : Nat) (count : Nat)
    (body : Nat → Method ContentReader Unit) [hbody : ∀ i, SafeFrom file start (body i)]
    [hadv : ∀ i, Advancing (body i)] : SafeFrom file start (forLoop count body) :=
  SafeFrom.safe_forLoop_go hbody hadv

/-- The call of `ReadObject` into a reader happens after the type id was read,
so the reader starts at least one byte further. -/
instance ContentReader.ReadObject_safeFrom (file : List Nat) (start : Nat)
    (Read : Nat → Method ContentReader Unit) [hadv : ∀ q, Advancing (Read q)]
    [hRead : ∀ q, SafeFrom file (start + 1) (Read q)] :
    SafeFrom file start (ContentReader.ReadObject Read) := by
  unfold ContentReader.ReadObject
  refine SafeFrom.bind_of (SafeFrom.of_fueled file start _) inferInstance
    (fun _ _ _ h hstart => Nat.le_trans hstart (Advancing.position_le h)) fun _ => ?_
  refine SafeFrom.bind_strict fun typeReader => ?_
  cases typeReader <;> infer_instance

theorem ContentReader.ReadObject_safeFrom_same {file : List Nat} {start : Nat}
    {Read : Nat → Method ContentReader Unit} (hadv : ∀ q, Advancing (Read q))
    (hRead : ∀ q, SafeFrom file start (Read q)) :
    SafeFrom file start (ContentReader.ReadObject Read) :=
  haveI : ∀ q, SafeFrom file (start + 1) (Read q) :=
    fun q => SafeFrom.mono (Nat.le_succ start) (hRead q)
  inferInstance

theorem ContentReader.ReadValueOrObject_safeFrom {file : List Nat} {start : Nat}
    {Read : Nat → Method ContentReader Unit} (hadv : ∀ q, Advancing (Read q))
    (hRead : ∀ q, SafeFrom file start (Read q)) (typeReader : Option Nat) :
    SafeFrom file start (ContentReader.ReadValueOrObject Read typeReader) := by
  haveI := ContentReader.ReadObject_safeFrom_same hadv hRead
  unfold ContentReader.ReadValueOrObject
  cases typeReader <;> infer_instance

instance EffectMaterialReader.Read_safeFrom
    (file : List Nat) (start : Nat) (Read : Nat → Method ContentReader Unit)
    [hadv : ∀ q, Advancing (Read q)] [hRead : ∀ q, SafeFrom file (start + 1) (Read q)] :
    SafeFrom file start (EffectMaterialReader.Read Read) := by
  unfold EffectMaterialReader.Read; infer_instance

instance SpriteFontReader.Read_safeFrom
    (file : List Nat) (start : Nat) (Read : Nat → Method ContentReader Unit)
    [hadv : ∀ q, Advancing (Read q)] [hRead : ∀ q, SafeFrom file (start + 1) (Read q)] :
    SafeFrom file start (SpriteFontReader.Read Read) := by
  unfold SpriteFontReader.Read; infer_instance

set_option maxRecDepth 100000 in
instance ModelReader.Read_safeFrom
    (file : List Nat) (start : Nat) (Read : Nat → Method ContentReader Unit)
    [hadv : ∀ q, Advancing (Read q)] [hRead : ∀ q, SafeFrom file (start + 1) (Read q)] :
    SafeFrom file start (ModelReader.Read Read) := by
  unfold ModelReader.Read
  repeat
    first
    | exact SafeFrom.of_fueled _ _ _
    | exact ContentReader.ReadObject_safeFrom _ _ _
    | exact Advancing.out
    | (with_reducible refine SafeFrom.bind_same ?_ ?_ fun _ => ?_)
    | (with_reducible refine SafeFrom.forLoop_of (fun _ => ?_) (fun _ => Advancing.mk ?_))
    | (with_reducible
        refine Method.Preserves.bind ContentReader.advances_isFrame ?_ fun _ => ?_)
    | (with_reducible
        refine Method.Preserves.forLoop ContentReader.advances_isFrame (fun _ => ?_) _)

instance NullableReader.Read_safeFrom
    (file : List Nat) (start : Nat) (Read : Nat → Method ContentReader Unit)
    [hRead : ∀ q, SafeFrom file (start + 1) (Read q)] (self : GenericTypeReader) :
    SafeFrom file start (NullableReader.Read Read self) := by
  unfold NullableReader.Read
  refine SafeFrom.bind_strict fun hasValue => ?_
  cases self.valueReader <;> cases hasValue <;> infer_instance

instance ArrayReader.Read_safeFrom
    (file : List Nat) (start : Nat) (Read : Nat → Method ContentReader Unit)
    [hadv : ∀ q, Advancing (Read q)] [hRead : ∀ q, SafeFrom file (start + 1) (Read q)]
    (self : GenericTypeReader) :
    SafeFrom file start (ArrayReader.Read Read self) := by
  unfold ArrayReader.Read
  refine SafeFrom.bind_strict fun elementCount => ?_
  haveI := ContentReader.ReadValueOrObject_safeFrom hadv hRead
  infer_instance

instance ListReader.Read_safeFrom
    (file : List Nat) (start : Nat) (Read : Nat → Method ContentReader Unit)
    [hadv : ∀ q, Advancing (Read q)] [hRead : ∀ q, SafeFrom file (start + 1) (Read q)]
    (self : GenericTypeReader) :
    SafeFrom file start (ListReader.Read Read self) := by
  unfold ListReader.Read
  refine SafeFrom.bind_strict fun elementCount => ?_
  haveI := ContentReader.ReadValueOrObject_safeFrom hadv hRead
  infer_instance

instance DictionaryReader.Read_safeFrom
    (file : List Nat) (start : Nat) (Read : Nat → Method ContentReader Unit)
    [hadv : ∀ q, Advancing (Read q)] [hRead : ∀ q, SafeFrom file (start + 1) (Read q)]
    (self : GenericTypeReader) :
    SafeFrom file start (DictionaryReader.Read Read self) := by
  unfold DictionaryReader.Read
  refine SafeFrom.bind_strict fun elementCount => ?_
  haveI := ContentReader.ReadValueOrObject_safeFrom hadv hRead
  infer_instance

instance ReaderClass.Read_safeFrom
    (file : List Nat) (start : Nat) (Read : Nat → Method ContentReader Unit)
    [hadv : ∀ q, Advancing (Read q)] [hRead : ∀ q, SafeFrom file (start + 1) (Read q)]
    (cls : ReaderClass) :
    SafeFrom file start (cls.Read Read) := by
  cases cls <;> unfold ReaderClass.Read <;> infer_instance

instance GenericTypeReader.Read_safeFrom
    (file : List Nat) (start : Nat) (Read : Nat → Method ContentReader Unit)
    [hadv : ∀ q, Advancing (Read q)] [hRead : ∀ q, SafeFrom file (start + 1) (Read q)]
    (self : GenericTypeReader) :
    SafeFrom file start (self.Read Read) := by
  unfold GenericTypeReader.Read
  cases self.cls <;> infer_instance

/-- A reader called with more fuel than there are bytes left from `start` on
never runs out of it: each nested call starts at least one byte further. -/
theorem TypeReader.Read_safeFrom (file : List Nat) (fuel : Nat) :
    ∀ start typeReader, file.length < start + fuel →
      SafeFrom file start (TypeReader.Read fuel typeReader) := by
  induction fuel with
  | zero =>
    intro start typeReader h
    constructor
    intro r hfile hstart hlen
    omega
  | succ fuel ih =>
    intro start typeReader h
    haveI : ∀ q, SafeFrom file (start + 1) (TypeReader.Read fuel q) :=
      fun q => ih (start + 1) q (by omega)
    constructor
    intro r hfile hstart hlen
    unfold TypeReader.Read
    simp only [Method.bind_apply, Method.get_apply]
    cases hd : r.typeReaderManager.deref typeReader with
    | error e =>
      have hne := deref_ne_outOfFuel r.typeReaderManager typeReader
      rw [hd] at hne
      simp only [Method.ofExcept]
      exact error_ne_outOfFuel hne
    | ok object =>
      cases object with
      | plain cls =>
        exact (ReaderClass.Read_safeFrom file start (TypeReader.Read fuel) cls).out r hfile
          hstart hlen
      | generic self =>
        exact (GenericTypeReader.Read_safeFrom file start (TypeReader.Read fuel) self).out r
          hfile hstart hlen

/-! ## More fuel does not change a result -/

theorem Method.Extends.refl_extends {σ α : Type} (x : Method σ α) : Method.Extends x x :=
  fun _ _ => rfl

theorem Method.Extends.bind_extends {σ α β : Type} {x x' : Method σ α} {f f' : α → Method σ β}
    (hx : Method.Extends x x') (hf : ∀ a, Method.Extends (f a) (f' a)) :
    Method.Extends (x >>= f) (x' >>= f') := by
  intro s h
  simp only [Method.bind_apply] at h ⊢
  cases hxs : x s with
  | mk result s1 =>
    rw [hxs] at h
    have h1 : (x s).1 ≠ .error .outOfFuel := by
      rw [hxs]
      cases result with
      | ok a => exact fun h' => by cases h'
      | error e => exact fun h' => h (by cases h'; rfl)
    rw [hx s h1, hxs]
    cases result with
    | ok a => exact hf a s1 h
    | error e => rfl

theorem Method.Extends.ite_extends {σ α : Type} (c : Prop) [Decidable c] {x x' y y' : Method σ α}
    (hx : Method.Extends x x') (hy : Method.Extends y y') :
    Method.Extends (if c then x else y) (if c then x' else y') := by
  split
  · exact hx
  · exact hy

theorem Method.Extends.forLoop_go_extends {σ : Type} {body body' : Nat → Method σ Unit}
    (hbody : ∀ i, Method.Extends (body i) (body' i)) {count i : Nat} :
    Method.Extends (forLoop.go body count i) (forLoop.go body' count i) := by
  induction count generalizing i with
  | zero => exact Method.Extends.refl_extends _
  | succ count ih => exact Method.Extends.bind_extends (hbody i) fun _ => ih

theorem Method.Extends.forLoop_extends {σ : Type} {body body' : Nat → Method σ Unit}
    (hbody : ∀ i, Method.Extends (body i) (body' i)) {count : Nat} :
    Method.Extends (forLoop count body) (forLoop count body') :=
  Method.Extends.forLoop_go_extends hbody

theorem ContentReader.ReadObject_extends {Read Read' : Nat → Method ContentReader Unit}
    (hRead : ∀ q, Method.Extends (Read q) (Read' q)) :
    Method.Extends (ContentReader.ReadObject Read) (ContentReader.ReadObject Read') := by
  unfold ContentReader.ReadObject
  refine Method.Extends.bind_extends (Method.Extends.refl_extends _) fun _ => ?_
  refine Method.Extends.bind_extends (Method.Extends.refl_extends _) fun typeReader => ?_
  refine Method.Extends.bind_extends ?_ fun _ => Method.Extends.refl_extends _
  cases typeReader with
  | none => exact Method.Extends.refl_extends _
  | some typeReader =>
    exact Method.Extends.bind_extends (Method.Extends.refl_extends _) fun _ =>
      Method.Extends.bind_extends (Method.Extends.refl_extends _) fun _ => hRead typeReader

theorem ContentReader.ReadValueOrObject_extends {Read Read' : Nat → Method ContentReader Unit}
    (hRead : ∀ q, Method.Extends (Read q) (Read' q)) (typeReader : Option Nat) :
    Method.Extends (ContentReader.ReadValueOrObject Read typeReader)
      (ContentReader.ReadValueOrObject Read' typeReader) := by
  unfold ContentReader.ReadValueOrObject
  cases typeReader with
  | none => exact Method.Extends.refl_extends _
  | some typeReader =>
    refine Method.Extends.bind_extends (Method.Extends.refl_extends _) fun _ => ?_
    refine Method.Extends.ite_extends _ ?_ (ContentReader.ReadObject_extends hRead)
    exact Method.Extends.bind_extends (Method.Extends.refl_extends _) fun _ =>
      Method.Extends.bind_extends (hRead typeReader) fun _ => Method.Extends.refl_extends _

theorem EffectMaterialReader_Read_extends {Read Read' : Nat → Method ContentReader Unit}
    (hRead : ∀ q, Method.Extends (Read q) (Read' q)) :
    Method.Extends (EffectMaterialReader.Read Read) (EffectMaterialReader.Read Read') := by
  unfold EffectMaterialReader.Read
  repeat
    first
    | exact ContentReader.ReadObject_extends hRead
    | (with_reducible exact Method.Extends.refl_extends _)
    | (with_reducible refine Method.Extends.bind_extends ?_ fun _ => ?_)
    | (with_reducible refine Method.Extends.forLoop_extends fun _ => ?_)

theorem SpriteFontReader_Read_extends {Read Read' : Nat → Method ContentReader Unit}
    (hRead : ∀ q, Method.Extends (Read q) (Read' q)) :
    Method.Extends (SpriteFontReader.Read Read) (SpriteFontReader.Read Read') := by
  unfold SpriteFontReader.Read
  repeat
    first
    | exact ContentReader.ReadObject_extends hRead
    | (with_reducible exact Method.Extends.refl_extends _)
    | (with_reducible refine Method.Extends.bind_extends ?_ fun _ => ?_)
    | (with_reducible refine Method.Extends.forLoop_extends fun _ => ?_)

set_option maxRecDepth 100000 in
theorem ModelReader_Read_extends {Read Read' : Nat → Method ContentReader Unit}
    (hRead : ∀ q, Method.Extends (Read q) (Read' q)) :
    Method.Extends (ModelReader.Read Read) (ModelReader.Read Read') := by
  unfold ModelReader.Read
  repeat
    first
    | exact ContentReader.ReadObject_extends hRead
    | (with_reducible exact Method.Extends.refl_extends _)
    | (with_reducible refine Method.Extends.bind_extends ?_ fun _ => ?_)
    | (with_reducible refine Method.Extends.forLoop_extends fun _ => ?_)

theorem NullableReader_Read_extends {Read Read' : Nat → Method ContentReader Unit}
    (hRead : ∀ q, Method.Extends (Read q) (Read' q)) (self : GenericTypeReader) :
    Method.Extends (NullableReader.Read Read self) (NullableReader.Read Read' self) := by
  unfold NullableReader.Read
  refine Method.Extends.bind_extends (Method.Extends.refl_extends _) fun _ => ?_
  refine Method.Extends.ite_extends _ ?_ (Method.Extends.refl_extends _)
  cases self.valueReader with
  | none => exact Method.Extends.refl_extends _
  | some valueReader => exact hRead valueReader

theorem ArrayReader_Read_extends {Read Read' : Nat → Method ContentReader Unit}
    (hRead : ∀ q, Method.Extends (Read q) (Read' q)) (self : GenericTypeReader) :
    Method.Extends (ArrayReader.Read Read self) (ArrayReader.Read Read' self) := by
  unfold ArrayReader.Read
  repeat
    first
    | exact ContentReader.ReadValueOrObject_extends hRead _
    | (with_reducible exact Method.Extends.refl_extends _)
    | (with_reducible refine Method.Extends.bind_extends ?_ fun _ => ?_)
    | (with_reducible refine Method.Extends.forLoop_extends fun _ => ?_)

theorem ListReader_Read_extends {Read Read' : Nat → Method ContentReader Unit}
    (hRead : ∀ q, Method.Extends (Read q) (Read' q)) (self : GenericTypeReader) :
    Method.Extends (ListReader.Read Read self) (ListReader.Read Read' self) := by
  unfold ListReader.Read
  repeat
    first
    | exact ContentReader.ReadValueOrObject_extends hRead _
    | (with_reducible exact Method.Extends.refl_extends _)
    | (with_reducible refine Method.Extends.bind_extends ?_ fun _ => ?_)
    | (with_reducible refine Method.Extends.forLoop_extends fun _ => ?_)

theorem DictionaryReader_Read_extends {Read Read' : Nat → Method ContentReader Unit}
    (hRead : ∀ q, Method.Extends (Read q) (Read' q)) (self : GenericTypeReader) :
    Method.Extends (DictionaryReader.Read Read self) (DictionaryReader.Read Read' self) := by
  unfold DictionaryReader.Read
  repeat
    first
    | exact ContentReader.ReadValueOrObject_extends hRead _
    | (with_reducible exact Method.Extends.refl_extends _)
    | (with_reducible refine Method.Extends.bind_extends ?_ fun _ => ?_)
    | (with_reducible refine Method.Extends.forLoop_extends fun _ => ?_)

theorem ReaderClass_Read_extends {Read Read' : Nat → Method ContentReader Unit}
    (hRead : ∀ q, Method.Extends (Read q) (Read' q)) (cls : ReaderClass) :
    Method.Extends (cls.Read Read) (cls.Read Read') := by
  cases cls <;> unfold ReaderClass.Read <;>
    first
    | exact Method.Extends.refl_extends _
    | exact EffectMaterialReader_Read_extends hRead
    | exact SpriteFontReader_Read_extends hRead
    | exact ModelReader_Read_extends hRead

theorem GenericTypeReader_Read_extends {Read Read' : Nat → Method ContentReader Unit}
    (hRead : ∀ q, Method.Extends (Read q) (Read' q)) (self : GenericTypeReader) :
    Method.Extends (self.Read Read) (self.Read Read') := by
  unfold GenericTypeReader.Read
  cases self.cls <;>
    first
    | exact Method.Extends.refl_extends _
    | exact NullableReader_Read_extends hRead self
    | exact ArrayReader_Read_extends hRead self
    | exact ListReader_Read_extends hRead self
    | exact DictionaryReader_Read_extends hRead self

/-- A `Read` call that does not run out of fuel returns the same with any larger
amount of fuel. -/
theorem TypeReader_Read_extends (fuel : Nat) :
    ∀ fuel' typeReader, fuel ≤ fuel' →
      Method.Extends (TypeReader.Read fuel typeReader) (TypeReader.Read fuel' typeReader) := by
  induction fuel with
  | zero =>
    intro fuel' typeReader _ s h
    exact absurd rfl h
  | succ fuel ih =>
    intro fuel' typeReader hle
    obtain ⟨fuel', rfl⟩ : ∃ k, fuel' = k + 1 := ⟨fuel' - 1, by omega⟩
    have hRead : ∀ q, Method.Extends (TypeReader.Read fuel q) (TypeReader.Read fuel' q) :=
      fun q => ih fuel' q (by omega)
    unfold TypeReader.Read
    refine Method.Extends.bind_extends (Method.Extends.refl_extends _) fun _ => ?_
    refine Method.Extends.bind_extends (Method.Extends.refl_extends _) fun object => ?_
    cases object with
    | plain cls => exact ReaderClass_Read_extends hRead cls
    | generic self => exact GenericTypeReader_Read_extends hRead self

theorem ContentReader.ReadXnb_extends {fuel fuel' : Nat} (h : fuel ≤ fuel') :
    Method.Extends (ContentReader.ReadXnb fuel) (ContentReader.ReadXnb fuel') := by
  have hRead : ∀ q, Method.Extends (TypeReader.Read fuel q) (TypeReader.Read fuel' q) :=
    fun q => TypeReader_Read_extends fuel fuel' q h
  unfold ContentReader.ReadXnb
  repeat
    first
    | exact ContentReader.ReadObject_extends hRead
    | (with_reducible exact Method.Extends.refl_extends _)
    | (with_reducible refine Method.Extends.bind_extends ?_ fun _ => ?_)
    | (with_reducible refine Method.Extends.forLoop_extends fun _ => ?_)

/-- With at least as much fuel as there are bytes after `start`, `ReadXnb` does
not run out of fuel from any position from `start` on. -/
theorem ContentReader.ReadXnb_safeFrom (file : List Nat) (start fuel : Nat)
    (h : file.length ≤ start + fuel) : SafeFrom file start (ContentReader.ReadXnb fuel) := by
  haveI : ∀ q, SafeFrom file (start + 1) (TypeReader.Read fuel q) :=
    fun q => TypeReader.Read_safeFrom file fuel (start + 1) q (by omega)
  unfold ContentReader.ReadXnb
  infer_instance

/-- A loop whose iterations each consume at least one byte ends, when it returns,
at least as many bytes further as it made iterations. -/
theorem Strict.forLoop_go_position {body : Nat → Method ContentReader Unit}
    (hbody : ∀ i, Strict (body i)) :
    ∀ (count i : Nat) (r r' : ContentReader), forLoop.go body count i r = (.ok (), r') →
      r.position + count ≤ r'.position := by
  intro count
  induction count with
  | zero =>
    intro i r r' h
    have := (Prod.mk.inj h).2
    rw [← this]
    exact Nat.le_refl _
  | succ count ih =>
    intro i r r' h
    rw [forLoop.go] at h
    obtain ⟨u, r1, h1, h2⟩ := (Method.bind_eq_ok _ _ _ _ _).1 h
    have p1 := (hbody i).out _ _ _ h1
    have p2 := ih _ _ _ h2
    omega

theorem Strict.forLoop_position {body : Nat → Method ContentReader Unit}
    (hbody : ∀ i, Strict (body i)) (count : Nat) (r r' : ContentReader)
    (h : forLoop count body r = (.ok (), r')) : r.position + count ≤ r'.position :=
  Strict.forLoop_go_position hbody count 0 r r' h

/-! ## The element loops of the containers -/

theorem ContentReader.ReadUInt32_value (r r1 : ContentReader) (count : Nat)
    (h : ContentReader.ReadUInt32 r = (.ok count, r1)) :
    r1.position = r.position + 4 ∧ count = uint32At r.file r.position := by
  have h1 := BinaryReader.ReadUInt32_eq_ok _ _ _ ((ContentReader.base_eq_ok _ _ _ _).1 h).1
  exact ⟨h1.2.1, h1.2.2.2⟩

theorem elementLoop_position {body : Nat → Method ContentReader Unit}
    (hbody : ∀ i, Strict (body i)) (r r' : ContentReader)
    (h : (ContentReader.ReadUInt32 >>= fun elementCount =>
      ContentReader.WriteLine "Element count: %u" [.nat elementCount] >>= fun _ =>
        forLoop elementCount body) r = (.ok (), r')) :
    r.position + 4 + uint32At r.file r.position ≤ r'.position := by
  obtain ⟨count, r1, h1, h⟩ := (Method.bind_eq_ok _ _ _ _ _).1 h
  obtain ⟨u, r2, h2, h⟩ := (Method.bind_eq_ok _ _ _ _ _).1 h
  obtain ⟨p1, hcount⟩ := ContentReader.ReadUInt32_value _ _ _ h1
  have p2 := Advancing.position_le h2
  have p3 := Strict.forLoop_position hbody _ _ _ h
  omega

theorem ArrayReader_Read_position
    (Read : Nat → Method ContentReader Unit) [hadv : ∀ q, Advancing (Read q)]
    [hstrict : ∀ q, Strict (Read q)] (self : GenericTypeReader) (r r' : ContentReader)
    (h : ArrayReader.Read Read self r = (.ok (), r')) :
    r.position + 4 + uint32At r.file r.position ≤ r'.position :=
  elementLoop_position (fun _ => inferInstance) r r' h

theorem ListReader_Read_position
    (Read : Nat → Method ContentReader Unit) [hadv : ∀ q, Advancing (Read q)]
    [hstrict : ∀ q, Strict (Read q)] (self : GenericTypeReader) (r r' : ContentReader)
    (h : ListReader.Read Read self r = (.ok (), r')) :
    r.position + 4 + uint32At r.file r.position ≤ r'.position :=
  elementLoop_position (fun _ => inferInstance) r r' h

theorem DictionaryReader_Read_position
    (Read : Nat → Method ContentReader Unit) [hadv : ∀ q, Advancing (Read q)]
    [hstrict : ∀ q, Strict (Read q)] (self : GenericTypeReader) (r r' : ContentReader)
    (h : DictionaryReader.Read Read self r = (.ok (), r')) :
    r.position + 4 + uint32At r.file r.position ≤ r'.position :=
  elementLoop_position (fun _ => inferInstance) r r' h

theorem Advancing.within {α : Type} {x : Method ContentReader α} [hx : Advancing x]
    {r r' : ContentReader} {result : Except Error α} (h : x r = (result, r'))
    (hp : r.position ≤ r.file.length) : r'.position ≤ r.file.length := by
  have h1 := Advancing.of_preserves hx.out h
  have h2 := h1.2.2 hp
  rw [h1.1] at h2
  exact h2

set_option maxRecDepth 100000 in
/-- C37, counterexample: on the example manifest the first pass of
`ReadTypeManifest` returns at the end of the file with the table `[4, 51]`; the
second loop then makes two iterations, `Initialize` on reader 4 and on reader 51,
both return, and neither reads a byte: the position is the same before and after
each, and after the whole of `ReadTypeManifest`. Likewise `TextureCubeReader::Read`
returns on a file of twelve bytes with a mip count of 0: the three fields take the
twelve bytes, and the six iterations of the loop over the faces read nothing. -/
theorem ReadXnb_iteration_counterexample :
    (ContentReader.ReadTypeManifest.firstPass
      (ContentReader.new exampleManifest standardManager)).1 = .ok () ∧
    (ContentReader.ReadTypeManifest.firstPass
      (ContentReader.new exampleManifest standardManager)).2.position =
        exampleManifest.length ∧
    forEach.calls (fun reader => ContentReader.manager (TypeReaderManager.Initialize reader))
      (ContentReader.ReadTypeManifest.firstPass
        (ContentReader.new exampleManifest standardManager)).2.typeReaders
      (ContentReader.ReadTypeManifest.firstPass
        (ContentReader.new exampleManifest standardManager)).2 = [4, 51] ∧
    (ContentReader.manager (TypeReaderManager.Initialize 4)
      (ContentReader.ReadTypeManifest.firstPass
        (ContentReader.new exampleManifest standardManager)).2).1 = .ok () ∧
    (ContentReader.manager (TypeReaderManager.Initialize 4)
      (ContentReader.ReadTypeManifest.firstPass
        (ContentReader.new exampleManifest standardManager)).2).2.position =
        exampleManifest.length ∧
    (ContentReader.manager (TypeReaderManager.Initialize 51)
      (ContentReader.manager (TypeReaderManager.Initialize 4)
        (ContentReader.ReadTypeManifest.firstPass
          (ContentReader.new exampleManifest standardManager)).2).2).1 = .ok () ∧
    (ContentReader.manager (TypeReaderManager.Initialize 51)
      (ContentReader.manager (TypeReaderManager.Initialize 4)
        (ContentReader.ReadTypeManifest.firstPass
          (ContentReader.new exampleManifest standardManager)).2).2).2.position =
        exampleManifest.length ∧
    (ContentReader.ReadTypeManifest
      (ContentReader.new exampleManifest standardManager)).1 = .ok () ∧
    (ContentReader.ReadTypeManifest
      (ContentReader.new exampleManifest standardManager)).2.position =
        exampleManifest.length ∧
    (TextureCubeReader.Read
      (ContentReader.new [0, 0, 0, 0, 1, 0, 0, 0, 0, 0, 0, 0] standardManager)).1 = .ok () ∧
    (TextureCubeReader.Read
      (ContentReader.new [0, 0, 0, 0, 1, 0, 0, 0, 0, 0, 0, 0] standardManager)).2.position =
        12 := by
  decide!

/-- C37: `ReadXnb` terminates on every finite file, with every registry. With at
least as much fuel for nested `Read` calls as the file has bytes, the parse does
not run out of fuel, and more fuel gives the same result. The measure is the
number of bytes left: every `ReadObject` and every reader `Read` call that
returns has consumed at least one byte, so a `Read` call from a position within
the file with more fuel than bytes left never runs out of it; and the element
loops of `ArrayReader`, `ListReader` and `DictionaryReader` consume at least one
byte in each iteration, so that they return only if the element count is at most
the number of bytes left after it. Not every loop iteration consumes a byte: the
second loop of `ReadTypeManifest` calls `Initialize`, which never touches the
stream; it is bounded by the length of the table. -/
theorem ReadXnb_terminates (file : List Nat) (m : TypeReaderManager) (fuel : Nat) :
    (file.length ≤ fuel →
      (ContentReader.ReadXnb fuel (ContentReader.new file m)).1 ≠ .error .outOfFuel ∧
      ∀ fuel', fuel ≤ fuel' →
        ContentReader.ReadXnb fuel' (ContentReader.new file m) =
          ContentReader.ReadXnb fuel (ContentReader.new file m)) ∧
    (∀ r r', ContentReader.ReadObject (TypeReader.Read fuel) r = (.ok (), r') →
      r.position < r'.position) ∧
    (∀ typeReader r r', TypeReader.Read fuel typeReader r = (.ok (), r') →
      r.position < r'.position) ∧
    (∀ typeReader r, r.position ≤ r.file.length → r.file.length < r.position + fuel →
      (TypeReader.Read fuel typeReader r).1 ≠ .error .outOfFuel) ∧
    (∀ self r r', r.position ≤ r.file.length →
      ArrayReader.Read (TypeReader.Read fuel) self r = (.ok (), r') ∨
        ListReader.Read (TypeReader.Read fuel) self r = (.ok (), r') ∨
        DictionaryReader.Read (TypeReader.Read fuel) self r = (.ok (), r') →
      r.position + 4 + uint32At r.file r.position ≤ r'.position ∧
        r'.position ≤ r.file.length) ∧
    (∀ reader r,
      (ContentReader.manager (TypeReaderManager.Initialize reader) r).2.toBinaryReader =
        r.toBinaryReader) := by
  refine ⟨fun hfuel => ⟨?_, fun fuel' hle => ?_⟩, fun r r' h => Strict.out _ _ _ h,
    fun typeReader r r' h => Strict.out _ _ _ h, fun typeReader r hp hfuel => ?_,
    fun self r r' hp h => ?_, fun reader r => rfl⟩
  · exact (ContentReader.ReadXnb_safeFrom file 0 fuel (by omega)).out
      (ContentReader.new file m) rfl (Nat.le_refl 0) (Nat.zero_le _)
  · exact ContentReader.ReadXnb_extends hle _
      ((ContentReader.ReadXnb_safeFrom file 0 fuel (by omega)).out
        (ContentReader.new file m) rfl (Nat.le_refl 0) (Nat.zero_le _))
  · exact (TypeReader.Read_safeFrom r.file fuel r.position typeReader hfuel).out r rfl
      (Nat.le_refl _) hp
  · rcases h with h | h | h
    · exact ⟨ArrayReader_Read_position _ _ _ _ h, Advancing.within h hp⟩
    · exact ⟨ListReader_Read_position _ _ _ _ h, Advancing.within h hp⟩
    · exact ⟨DictionaryReader_Read_position _ _ _ _ h, Advancing.within h hp⟩

set_option maxRecDepth 100000 in
/-- C37, witness: the example file of 65 bytes with 65 units of fuel; an `Int32`
object read by `ReadObject` and by `Int32Reader`; a list of two `Int32`. -/
theorem ReadXnb_terminates_witness :
    exampleXnb.length ≤ 65 ∧
    (ContentReader.ReadXnb 65 (ContentReader.new exampleXnb standardManager)).1 = .ok () ∧
    ContentReader.ReadXnb 1000 (ContentReader.new exampleXnb standardManager) =
      ContentReader.ReadXnb 65 (ContentReader.new exampleXnb standardManager) ∧
    (ContentReader.ReadObject (TypeReader.Read 65)
      { ContentReader.new [1, 42, 0, 0, 0] standardManager with typeReaders := [4] }).1 =
        .ok () ∧
    0 < (ContentReader.ReadObject (TypeReader.Read 65)
      { ContentReader.new [1, 42, 0, 0, 0] standardManager with
        typeReaders := [4] }).2.position ∧
    0 < (TypeReader.Read 65 4 (ContentReader.new [42, 0, 0, 0] standardManager)).2.position ∧
    (TypeReader.Read 65 51 (ContentReader.new [42, 0, 0, 0] standardManager)).1 ≠
      .error .outOfFuel ∧
    0 + 4 + uint32At [2, 0, 0, 0, 7, 0, 0, 0, 9, 0, 0, 0] 0 ≤
      (ListReader.Read (TypeReader.Read 65) exampleListReader
        (ContentReader.new [2, 0, 0, 0, 7, 0, 0, 0, 9, 0, 0, 0] standardManager)).2.position ∧
    (ListReader.Read (TypeReader.Read 65) exampleListReader
      (ContentReader.new [2, 0, 0, 0, 7, 0, 0, 0, 9, 0, 0, 0] standardManager)).2.position ≤
        12 :=
  have h := ReadXnb_terminates exampleXnb standardManager 65
  have hlen : exampleXnb.length ≤ 65 := by decide
  have hlist := (ReadXnb_terminates [] standardManager 65).2.2.2.2.1 exampleListReader
    (ContentReader.new [2, 0, 0, 0, 7, 0, 0, 0, 9, 0, 0, 0] standardManager) _
    (by decide) (Or.inr (Or.inl (Method.eq_ok_of_fst (by decide!))))
  have hobject : (ContentReader.ReadObject (TypeReader.Read 65)
      { ContentReader.new [1, 42, 0, 0, 0] standardManager with typeReaders := [4] }).1 =
        .ok () := by decide!
  have hread : (TypeReader.Read 65 4
      (ContentReader.new [42, 0, 0, 0] standardManager)).1 = .ok () := by decide!
  ⟨hlen, by decide!, (h.1 hlen).2 1000 (by decide), hobject,
    h.2.1 _ _ (Method.eq_ok_of_fst hobject),
    h.2.2.1 4 _ _ (Method.eq_ok_of_fst hread),
    h.2.2.2.1 51 (ContentReader.new [42, 0, 0, 0] standardManager) (by decide) (by decide),
    hlist.1, hlist.2⟩

/-! ## Inputs on which the registry does not keep what it asserts -/

set_option maxRecDepth 100000 in
/-- C4: the manifest of the one entry ``ListReader`2[[System.Int32]]``.  In a
build with `NDEBUG`, `ReadTypeManifest` returns on it with the table `[51]`, and
reader 51 is named ``ListReader`1[[System.Int32]]``, which is not
`StripAssemblyVersion` of the manifest name; in a build that checks `assert` the
call ends in the failed assertion of `GetByReaderName`. -/
theorem ReadTypeManifest_table_failure :
    (readManifestNames 1 ⟨mismatchedManifest, 1⟩).1 = .ok
      [L "Microsoft.Xna.Framework.Content.ListReader`2[[System.Int32]]"] ∧
    (ContentReader.ReadTypeManifest
      (ContentReader.new mismatchedManifest releaseManager)).1 = .ok () ∧
    (ContentReader.ReadTypeManifest
      (ContentReader.new mismatchedManifest releaseManager)).2.typeReaders = [51] ∧
    (ContentReader.ReadTypeManifest (ContentReader.new mismatchedManifest
      releaseManager)).2.typeReaderManager.readerNames.get? 51 =
        some (L "Microsoft.Xna.Framework.Content.ListReader`1[[System.Int32]]") ∧
    StripAssemblyVersion (L "Microsoft.Xna.Framework.Content.ListReader`2[[System.Int32]]") =
      L "Microsoft.Xna.Framework.Content.ListReader`2[[System.Int32]]" ∧
    L "Microsoft.Xna.Framework.Content.ListReader`1[[System.Int32]]" ≠
      L "Microsoft.Xna.Framework.Content.ListReader`2[[System.Int32]]" ∧
    (ContentReader.ReadTypeManifest
      (ContentReader.new mismatchedManifest standardManager)).1 =
        .error .assertionFailed := by
  decide!

set_option maxRecDepth 100000 in
/-- C7: `GetByReaderName` of ``ListReader`1[[System.Int32]]`` and then of
``ListReader`2[[System.Int32]]`` on the registry made by `RegisterStandardTypes`.
In a build with `NDEBUG` the second call finds no reader of its name and adds
reader 52, which is named ``ListReader`1[[System.Int32]]`` like reader 51: two
readers of the list have the same `ReaderName()`.  In a build that checks
`assert` the second call ends in the failed assertion. -/
theorem registry_readerNames_failure :
    (runCalls
      [.GetByReaderName (L "Microsoft.Xna.Framework.Content.ListReader`1[[System.Int32]]"),
       .GetByReaderName (L "Microsoft.Xna.Framework.Content.ListReader`2[[System.Int32]]")]
      releaseManager).readerNames.get? 51 =
        some (L "Microsoft.Xna.Framework.Content.ListReader`1[[System.Int32]]") ∧
    (runCalls
      [.GetByReaderName (L "Microsoft.Xna.Framework.Content.ListReader`1[[System.Int32]]"),
       .GetByReaderName (L "Microsoft.Xna.Framework.Content.ListReader`2[[System.Int32]]")]
      releaseManager).readerNames.get? 52 =
        some (L "Microsoft.Xna.Framework.Content.ListReader`1[[System.Int32]]") ∧
    ¬ ((runCalls
      [.GetByReaderName (L "Microsoft.Xna.Framework.Content.ListReader`1[[System.Int32]]"),
       .GetByReaderName (L "Microsoft.Xna.Framework.Content.ListReader`2[[System.Int32]]")]
      releaseManager).typeReaders.map TypeReader.ReaderName).Nodup ∧
    (TypeReaderManager.GetByReaderName
      (L "Microsoft.Xna.Framework.Content.ListReader`2[[System.Int32]]")
      (runCalls
        [.GetByReaderName (L "Microsoft.Xna.Framework.Content.ListReader`1[[System.Int32]]")]
        standardManager)).1 = .error .assertionFailed := by
  decide!

set_option maxRecDepth 100000 in
/-- C9: a name of 230 letters `A`.  No reader of the standard registry has this
name and `SplitGenericTypeName` returns false for it, yet `GetByReaderName` does
not fail with the unknown-reader exception: the message of 257 characters with
its terminating null does not fit `char message[256]`, and `sprintf_s` ends the
program before the `throw`.  With 229 letters the message fits and the exception
is thrown. -/
theorem GetByReaderName_unknown_failure :
    StripAssemblyVersion (List.replicate 230 65) = List.replicate 230 65 ∧
    findByReaderName (List.replicate 230 65) standardManager.typeReaders 0 = none ∧
    SplitGenericTypeName (List.replicate 230 65) = none ∧
    sprintf_s 256 24 2 (List.replicate 230 65) = .error .invalidParameter ∧
    TypeReaderManager.GetByReaderName (List.replicate 230 65) standardManager =
      (.error .invalidParameter, standardManager) ∧
    TypeReaderManager.GetByReaderName (List.replicate 229 65) standardManager =
      (.error (.cantFindTypeReader (List.replicate 229 65)), standardManager) := by
  decide!

/-! ## Lemmas: the readers of a registry are as they were created -/

theorem stripFrom_append_close_eq (skipping : Bool) (u rest : wstring) :
    stripFrom skipping (u ++ 93 :: rest) = stripFrom skipping u ++ 93 :: stripFrom false rest := by
  induction u generalizing skipping with
  | nil => cases skipping <;> simp [stripFrom]
  | cons c u ih =>
    cases skipping with
    | true =>
      by_cases hc : c = 93
      · simp only [List.cons_append, stripFrom, hc, if_true, List.append_eq, ih false]
      · simp only [List.cons_append, stripFrom, hc, if_false, List.append_eq, ih true]
    | false =>
      by_cases hc : c = 44
      · have hhead : (u ++ 93 :: rest).head? = some 91 ↔ u.head? = some 91 := by
          cases u with
          | nil => simp
          | cons x xs => simp
        by_cases hu : u.head? = some 91
        · simp only [List.cons_append, stripFrom, hc, if_true, List.append_eq, hhead.2 hu, hu,
            ih false]
        · have hu' : ¬ (u ++ 93 :: rest).head? = some 91 := fun h => hu (hhead.1 h)
          simp only [List.cons_append, stripFrom, hc, if_true, List.append_eq, hu, hu',
            if_false, ih true]
      · simp only [List.cons_append, stripFrom, hc, if_false, List.append_eq, ih false]

/-- The name of a `ReflectiveReader` is normalized by normalizing the type name
in it. -/
theorem reflectiveReaderName_normalized (T : wstring) :
    StripAssemblyVersion (reflectiveReaderName T) =
      reflectiveReaderName (StripAssemblyVersion T) := by
  have h1 : 44 ∉ L "Microsoft.Xna.Framework.Content.ReflectiveReader`1[[" := by decide
  have h2 : L "]]" = [93, 93] := by decide
  have h3 : stripFrom false [93] = [93] := by decide
  rw [StripAssemblyVersion_eq, StripAssemblyVersion_eq, reflectiveReaderName,
    reflectiveReaderName, List.append_assoc, stripFrom_false_append _ _ h1, h2,
    stripFrom_append_close_eq, h3, List.append_assoc]

theorem append_cons_inj (c : Nat) (a b x y : wstring) (ha : c ∉ a) (hb : c ∉ b)
    (h : a ++ c :: x = b ++ c :: y) : a = b ∧ x = y := by
  induction a generalizing b with
  | nil =>
    cases b with
    | nil => exact ⟨rfl, (List.cons.inj h).2⟩
    | cons d b =>
      simp only [List.nil_append, List.cons_append, List.cons.injEq] at h
      exact absurd (List.mem_cons_self _ _) (h.1 ▸ hb)
  | cons d a ih =>
    cases b with
    | nil =>
      simp only [List.nil_append, List.cons_append, List.cons.injEq] at h
      exact absurd (List.mem_cons_self _ _) (h.1 ▸ ha)
    | cons e b =>
      simp only [List.cons_append, List.cons.injEq] at h
      obtain ⟨h1, h2⟩ := ih b (fun hm => ha (List.mem_cons_of_mem _ hm))
        (fun hm => hb (List.mem_cons_of_mem _ hm)) h.2
      exact ⟨by rw [h.1, h1], h2⟩

theorem toDigitsCore_length (fuel n : Nat) (ds : List Char) :
    ds.length + 1 ≤ (Nat.toDigitsCore 10 (fuel + 1) n ds).length := by
  induction fuel generalizing n ds with
  | zero =>
    unfold Nat.toDigitsCore
    simp only []
    split
    · simp
    · simp [Nat.toDigitsCore]
  | succ fuel ih =>
    unfold Nat.toDigitsCore
    simp only []
    split
    · simp
    · have := ih (n / 10) (Nat.digitChar (n % 10) :: ds)
      simp only [List.length_cons] at this
      omega

/-- Only the number 1 is printed as the one digit `1`. -/
theorem decimal_eq_one (n : Nat) (h : decimal n = [49]) : n = 1 := by
  by_cases hn : n < 10
  · interval_cases n <;> first | rfl | (exact absurd h (by decide))
  · exfalso
    have hlen : 2 ≤ (decimal n).length := by
      unfold decimal L
      rw [List.length_map]
      show 2 ≤ (Nat.toDigits 10 n).asString.toList.length
      have hrepr : (Nat.toDigits 10 n).asString.toList = Nat.toDigits 10 n := rfl
      rw [hrepr]
      unfold Nat.toDigits
      obtain ⟨k, rfl⟩ : ∃ k, n = k + 1 := ⟨n - 1, by omega⟩
      unfold Nat.toDigitsCore
      simp only []
      rw [if_neg (by omega)]
      have := toDigitsCore_length k ((k + 1) / 10) [Nat.digitChar ((k + 1) % 10)]
      simpa using this
    rw [h] at hlen
    simp at hlen

theorem ReaderClass.readerName_no_backtick (cls : ReaderClass) : 96 ∉ cls.ReaderName := by
  cases cls <;> decide

theorem GenericReaderName_injective (factory factory' : GenericReaderClass)
    (h : factory.GenericReaderName = factory'.GenericReaderName) : factory = factory' := by
  cases factory <;> cases factory' <;> first | rfl | (exact absurd h (by decide))

/-- A reader named as `CreateTypeReader` names it, with the name of the
`ReflectiveReader` of a type, is a `ReflectiveReader` with that type as its only
generic argument. -/
theorem created_reflective (g : GenericTypeReader) (T : wstring)
    (hcreated : g.readerName = (g.cls.CreateTypeReader g.genericArguments).readerName)
    (hname : g.readerName = reflectiveReaderName T) :
    g.cls = .ReflectiveReader ∧ g.genericArguments = [T] := by
  rw [hcreated, CreateTypeReader_readerName, reflectiveReaderName_eq] at hname
  have hopen : L "[[" = [91, 91] := by decide
  simp only [hopen, List.append_assoc, List.singleton_append, List.cons_append,
    List.nil_append] at hname
  obtain ⟨hG, hrest⟩ := append_cons_inj 96 _ _ _ _ (GenericReaderName_no_backtick _)
    (GenericReaderName_no_backtick _) hname
  have hcls := GenericReaderName_injective _ _ hG
  have hd : ∀ n, 91 ∉ decimal n := fun n h => by
    have := decimal_digits n 91 h
    omega
  obtain ⟨hdec, hargs⟩ := append_cons_inj 91 _ _ _ _ (hd _) (hd _) hrest
  have hone : decimal 1 = [49] := by decide
  rw [List.length_singleton, hone] at hdec
  have hlen : g.genericArguments.length = 1 := decimal_eq_one _ hdec
  refine ⟨hcls, ?_⟩
  have hinter := List.append_cancel_right (List.cons.inj hargs).2
  match hg : g.genericArguments, hlen, hinter with
  | [a], _, hinter =>
    rw [intercalate_singleton, intercalate_singleton] at hinter
    rw [hinter]

theorem TypeReader.created_of_static (reader reader' : TypeReader)
    (h : reader.static = reader'.static) (hc : reader.Created) : reader'.Created := by
  cases reader with
  | plain cls =>
    cases reader' with
    | plain cls' => trivial
    | generic g' => simp [TypeReader.static] at h
  | generic g =>
    cases reader' with
    | plain cls' => trivial
    | generic g' =>
      simp only [TypeReader.static, TypeReader.generic.injEq, GenericTypeReader.mk.injEq,
        and_true] at h
      obtain ⟨hcls, -, hname, hargs⟩ := h
      simp only [TypeReader.Created] at hc ⊢
      rw [← hname, ← hcls, ← hargs]
      exact hc

theorem created_of_sameStatics (m m' : TypeReaderManager) (h : sameStatics m m')
    (hc : ∀ reader ∈ m.typeReaders, reader.Created) :
    ∀ reader ∈ m'.typeReaders, reader.Created := by
  intro reader hmem
  have hs : reader.static ∈ m'.typeReaders.map TypeReader.static := List.mem_map_of_mem _ hmem
  rw [h] at hs
  obtain ⟨reader0, hmem0, h0⟩ := List.mem_map.1 hs
  exact TypeReader.created_of_static reader0 reader h0 (hc reader0 hmem0)

theorem GetByReaderName_readers (m : TypeReaderManager) (name : wstring) :
    (TypeReaderManager.GetByReaderName name m).2.genericReaders = m.genericReaders ∧
    ((TypeReaderManager.GetByReaderName name m).2.typeReaders = m.typeReaders ∨
      ∃ (factory : GenericReaderClass) (genericArguments : List wstring),
        (TypeReaderManager.GetByReaderName name m).2.typeReaders =
          m.typeReaders ++ [.generic (factory.CreateTypeReader genericArguments)]) := by
  cases hfind : findByReaderName (StripAssemblyVersion name) m.typeReaders 0 with
  | some reader =>
    rw [GetByReaderName_found m name reader hfind]
    exact ⟨rfl, Or.inl rfl⟩
  | none =>
    cases hsplit : SplitGenericTypeName (StripAssemblyVersion name) with
    | none =>
      rw [GetByReaderName_notGeneric m name hfind hsplit]
      exact ⟨rfl, Or.inl rfl⟩
    | some split =>
      obtain ⟨genericName, genericArguments⟩ := split
      cases hfac : findFactory genericName m.genericReaders with
      | none =>
        rw [GetByReaderName_noFactory m name _ _ hfind hsplit hfac]
        exact ⟨rfl, Or.inl rfl⟩
      | some factory =>
        rcases GetByReaderName_factory m name _ _ _ hfind hsplit hfac with
          ⟨-, -, hG⟩ | ⟨-, hG⟩
        · rw [hG]
          exact ⟨rfl, Or.inl rfl⟩
        · rw [hG]
          exact ⟨rfl, Or.inr ⟨factory, genericArguments, rfl⟩⟩

theorem Initialize_genericReaders (reader : Nat) :
    Method.Preserves (fun m m' : TypeReaderManager => m'.genericReaders = m.genericReaders)
      (TypeReaderManager.Initialize reader) := by
  have hframe : Method.Frame
      (fun m m' : TypeReaderManager => m'.genericReaders = m.genericReaders) :=
    ⟨fun _ => rfl, fun h1 h2 => h2.trans h1⟩
  have hassign : ∀ (reader : Nat) (f : GenericTypeReader → GenericTypeReader),
      Method.Preserves (fun m m' : TypeReaderManager => m'.genericReaders = m.genericReaders)
        (TypeReaderManager.assign reader f) := by
    intro reader f m
    unfold TypeReaderManager.assign
    simp only [Method.modify_apply]
    split <;> rfl
  have hget : ∀ targetType : wstring,
      Method.Preserves (fun m m' : TypeReaderManager => m'.genericReaders = m.genericReaders)
        (TypeReaderManager.GetByTargetType targetType) := by
    intro targetType m
    rw [GetByTargetType_manager]
  unfold TypeReaderManager.Initialize
  refine Method.Preserves.bind hframe (Method.Preserves.get hframe) fun m => ?_
  refine Method.Preserves.bind hframe (Method.Preserves.ofExcept hframe _) fun object => ?_
  cases object with
  | plain cls => exact Method.Preserves.pure hframe ()
  | generic g =>
    simp only []
    cases hc : g.cls <;> simp only [] <;>
    repeat' first
      | exact Method.Preserves.pure hframe _
      | exact Method.Preserves.ofExcept hframe _
      | exact hget _
      | exact hassign _ _
      | refine Method.Preserves.bind hframe ?_ fun _ => ?_

/-- What every call keeps of a registry: the factories, and that every reader is
named as `CreateTypeReader` names it. -/
theorem ManagerCall.run_created (call : ManagerCall) (m : TypeReaderManager)
    (hc : ∀ reader ∈ m.typeReaders, reader.Created) :
    (call.run m).genericReaders = m.genericReaders ∧
      ∀ reader ∈ (call.run m).typeReaders, reader.Created := by
  cases call with
  | GetByReaderName name =>
    obtain ⟨hfactories, hreaders⟩ := GetByReaderName_readers m name
    refine ⟨hfactories, fun reader hmem => ?_⟩
    simp only [ManagerCall.run] at hmem
    rcases hreaders with h | ⟨factory, genericArguments, h⟩
    · rw [h] at hmem
      exact hc reader hmem
    · rw [h] at hmem
      rcases List.mem_append.1 hmem with h1 | h1
      · exact hc reader h1
      · rw [List.mem_singleton] at h1
        subst h1
        cases factory <;> rfl
  | GetByTargetType name =>
    have hm : (ManagerCall.GetByTargetType name).run m = m := by
      simp only [ManagerCall.run, GetByTargetType_manager]
    rw [hm]
    exact ⟨rfl, hc⟩
  | Initialize reader =>
    exact ⟨Initialize_genericReaders reader m,
      created_of_sameStatics m _ (Initialize_sameStatics reader m) hc⟩

theorem runCalls_created (calls : List ManagerCall) (m : TypeReaderManager)
    (hc : ∀ reader ∈ m.typeReaders, reader.Created) :
    (runCalls calls m).genericReaders = m.genericReaders ∧
      ∀ reader ∈ (runCalls calls m).typeReaders, reader.Created := by
  induction calls generalizing m with
  | nil => exact ⟨rfl, hc⟩
  | cons call rest ih =>
    obtain ⟨h1, h2⟩ := call.run_created m hc
    obtain ⟨h3, h4⟩ := ih (call.run m) h2
    exact ⟨h3.trans h1, h4⟩

theorem standardManager_created : ∀ reader ∈ standardManager.typeReaders, reader.Created := by
  have h : standardManager.typeReaders.all
      (fun reader => match reader with | .plain _ => true | .generic _ => false) = true := by
    decide
  intro reader hmem
  have hr := List.all_eq_true.1 h reader hmem
  cases reader with
  | plain cls => trivial
  | generic g => simp at hr

/-- A bracket-balanced text does not start with `]`. -/
theorem isBalanced_head (a : wstring) (h : isBalanced a) : a.head? ≠ some 93 := by
  cases a with
  | nil => simp
  | cons c rest =>
    intro hc
    have hc' : c = 93 := by simpa using hc
    subst hc'
    simp [isBalanced, nestingDepth] at h

/-- A reader found under the name of the `ReflectiveReader` of a type, in a
registry whose readers are named as they were created, is a `ReflectiveReader`
of that type. -/
theorem findByReaderName_reflective (m : TypeReaderManager) (T : wstring) (reader : Nat)
    (hc : ∀ reader ∈ m.typeReaders, reader.Created)
    (h : findByReaderName (reflectiveReaderName T) m.typeReaders 0 = some reader) :
    ∃ g, m.deref reader = .ok (.generic g) ∧ g.cls = .ReflectiveReader ∧
      g.genericArguments = [T] ∧ g.readerName = reflectiveReaderName T := by
  obtain ⟨k, object, hk, hget, hname, -⟩ := findByReaderName_eq_some _ _ _ _ h
  have hk' : reader = k := by omega
  subst hk'
  have hcreated := hc object (List.get?_mem hget)
  cases object with
  | plain cls =>
    exfalso
    have hno := ReaderClass.readerName_no_backtick cls
    simp only [TypeReader.ReaderName] at hname
    rw [hname] at hno
    exact hno (by
      simp only [reflectiveReaderName, List.mem_append]
      exact Or.inl (Or.inl (by decide)))
  | generic g =>
    simp only [TypeReader.ReaderName] at hname
    obtain ⟨hcls, hargs⟩ := created_reflective g T hcreated hname
    exact ⟨g, by simp only [TypeReaderManager.deref, hget], hcls, hargs, hname⟩

/-- `GetByReaderName` on the name of the `ReflectiveReader` of a type, whether a
reader of that name is registered or not. -/
theorem GetByReaderName_reflective_any (m : TypeReaderManager) (T : wstring)
    (hne : StripAssemblyVersion T ≠ []) (h91 : (StripAssemblyVersion T).head? ≠ some 91)
    (h93 : (StripAssemblyVersion T).head? ≠ some 93)
    (hbalanced : isBalanced (StripAssemblyVersion T))
    (hfactory : findFactory GenericReaderClass.ReflectiveReader.GenericReaderName
      m.genericReaders = some .ReflectiveReader)
    (hc : ∀ reader ∈ m.typeReaders, reader.Created) :
    ∃ reader m' g,
      TypeReaderManager.GetByReaderName (reflectiveReaderName T) m = (.ok reader, m') ∧
      m'.deref reader = .ok (.generic g) ∧ g.cls = .ReflectiveReader ∧
      g.genericArguments = [StripAssemblyVersion T] ∧
      g.readerName = reflectiveReaderName (StripAssemblyVersion T) := by
  have hstrip := reflectiveReaderName_normalized T
  cases hfind : findByReaderName (reflectiveReaderName (StripAssemblyVersion T))
      m.typeReaders 0 with
  | some reader =>
    obtain ⟨g, hderef, hcls, hargs, hname⟩ :=
      findByReaderName_reflective m _ reader hc hfind
    exact ⟨reader, m, g, GetByReaderName_found m _ reader (by rw [hstrip]; exact hfind),
      hderef, hcls, hargs, hname⟩
  | none =>
    have hsplit : SplitGenericTypeName (StripAssemblyVersion (reflectiveReaderName T)) =
        some (GenericReaderClass.ReflectiveReader.GenericReaderName,
          [StripAssemblyVersion T]) := by
      rw [hstrip, reflectiveReaderName_eq]
      exact SplitGenericTypeName_construction _ [StripAssemblyVersion T] (by decide) (by simp)
        (fun a ha => by
          rw [List.mem_singleton] at ha
          subst ha
          exact ⟨hne, h91, h93, hbalanced⟩)
    refine ⟨m.typeReaders.length, _,
      GenericReaderClass.ReflectiveReader.CreateTypeReader [StripAssemblyVersion T],
      GetByReaderName_created m _ _ [StripAssemblyVersion T] .ReflectiveReader
        (by rw [hstrip]; exact hfind) hsplit hfactory
        (by rw [hstrip]; exact reflectiveReaderName_created _), ?_, rfl, rfl,
      reflectiveReaderName_created _⟩
    simp [TypeReaderManager.deref]

/-- `ReadObject` on a tag that selects a `ReflectiveReader`: it fails in `Read`,
having consumed the tag only. -/
theorem ReadObject_reflective (fuel t reader : Nat) (r r1 : ContentReader)
    (g : GenericTypeReader) (T : wstring)
    (hderef : r.typeReaderManager.deref reader = .ok (.generic g))
    (hcls : g.cls = .ReflectiveReader) (hargs : g.genericArguments = [T])
    (htag : ContentReader.Read7BitEncodedInt r = (.ok t, r1)) (ht : 1 ≤ t)
    (htable : r.typeReaders.get? (t - 1) = some reader) :
    (ContentReader.ReadObject (TypeReader.Read (fuel + 1)) r).1 = .error .reflectiveReader ∧
    (ContentReader.ReadObject (TypeReader.Read (fuel + 1)) r).2.toBinaryReader =
      r1.toBinaryReader := by
  have hb : BinaryReader.Read7BitEncodedInt r.toBinaryReader = (.ok t, r1.toBinaryReader) := by
    simp only [ContentReader.Read7BitEncodedInt, ContentReader.base_apply] at htag
    rw [← (Prod.mk.inj htag).2]
    exact Prod.ext (Prod.mk.inj htag).1 rfl
  have hlt : t - 1 < r.typeReaders.length := by
    rw [List.get?_eq_getElem?] at htable
    exact (List.getElem?_eq_some_iff.1 htable).1
  have helem : r.typeReaders[t - 1] = reader := by
    rw [List.get?_eq_getElem?] at htable
    exact (List.getElem?_eq_some_iff.1 htable).2
  have hpos : t > 0 := by omega
  have hread : ∀ s : ContentReader, s.typeReaderManager = r.typeReaderManager →
      TypeReader.Read (fuel + 1) reader s = (.error .reflectiveReader, s) :=
    fun s hs => Read_reflective fuel _ s _ (by rw [hs]; exact hderef) hcls
  have htarget : ∀ s : ContentReader, s.typeReaderManager = r.typeReaderManager →
      ContentReader.TargetType reader s = (.ok T, s) := by
    intro s hs
    simp only [ContentReader.TargetType, Method.bind_apply, Method.get_apply,
      Method.ofExcept_apply, hs, hderef, TypeReader.TargetType, hcls,
      GenericTypeReader.GenericArgument, hargs, List.get?_cons_zero]
  simp only [ContentReader.ReadObject, ContentReader.Indent, ContentReader.log_apply,
    ContentReader.ReadTypeId, ContentReader.Read7BitEncodedInt, ContentReader.base_apply,
    Method.bind_apply, hb, hpos, if_true, Method.ite_apply, Method.get_apply,
    ge_iff_le, Nat.not_le.2 hlt, if_false, Method.pure_apply, List.get?_eq_getElem?,
    List.getElem?_eq_getElem hlt, helem, ContentReader.WriteLine]
  rw [htarget ⟨r1.toBinaryReader, r.Log.Indent, r.typeReaderManager, r.typeReaders⟩ rfl]
  dsimp only
  rw [hread ⟨r1.toBinaryReader, r.Log.Indent.WriteLine "Type: %S" [PrintfArg.wstr T],
    r.typeReaderManager, r.typeReaders⟩ rfl]
  exact ⟨rfl, rfl⟩

/-! ## C29: the deferred failure of `ReflectiveReader` -/

set_option maxRecDepth 100000 in
/-- C29, counterexample: in a debug and in a release build the entry for the
assembly-qualified type name `MyGame.Thing, MyGame` is accepted by the standard
registry, but the target type of the reader is `MyGame.Thing`, the name without
the assembly, not the name in the entry.  For the empty type name, for `]A` and
`A[` (names that are not bracket-balanced) and for `[A]` (a name that starts
with an opening bracket) the debug build fails on the assertion of
`GetByReaderName`, and the release build returns a reader whose target type is
not the name in the entry: reading it is undefined for the empty name and for
`]A`, it is `A` for `[A]` and `A[]` for `A[`. -/
theorem ReflectiveReader_counterexample :
    ((TypeReaderManager.GetByReaderName (reflectiveReaderName (L "MyGame.Thing, MyGame"))
        standardManager).1 = .ok 51 ∧
      ((TypeReaderManager.GetByReaderName (reflectiveReaderName (L "MyGame.Thing, MyGame"))
        standardManager).2.typeReaders.get? 51).map TypeReader.TargetType =
          some (.ok (L "MyGame.Thing")) ∧
      ((TypeReaderManager.GetByReaderName (reflectiveReaderName (L "MyGame.Thing, MyGame"))
        releaseManager).2.typeReaders.get? 51).map TypeReader.TargetType =
          some (.ok (L "MyGame.Thing")) ∧
      L "MyGame.Thing" ≠ L "MyGame.Thing, MyGame") ∧
    ((TypeReaderManager.GetByReaderName (reflectiveReaderName (L "")) standardManager).1 =
        .error .assertionFailed ∧
      ((TypeReaderManager.GetByReaderName (reflectiveReaderName (L ""))
        releaseManager).2.typeReaders.get? 51).map TypeReader.TargetType =
          some (.error .undefinedBehavior)) ∧
    ((TypeReaderManager.GetByReaderName (reflectiveReaderName (L "]A")) standardManager).1 =
        .error .assertionFailed ∧
      ((TypeReaderManager.GetByReaderName (reflectiveReaderName (L "]A"))
        releaseManager).2.typeReaders.get? 51).map TypeReader.TargetType =
          some (.error .undefinedBehavior)) ∧
    ((TypeReaderManager.GetByReaderName (reflectiveReaderName (L "[A]")) standardManager).1 =
        .error .assertionFailed ∧
      ((TypeReaderManager.GetByReaderName (reflectiveReaderName (L "[A]"))
        releaseManager).2.typeReaders.get? 51).map TypeReader.TargetType =
          some (.ok (L "A"))) ∧
    ((TypeReaderManager.GetByReaderName (reflectiveReaderName (L "A[")) standardManager).1 =
        .error .assertionFailed ∧
      ((TypeReaderManager.GetByReaderName (reflectiveReaderName (L "A["))
        releaseManager).2.typeReaders.get? 51).map TypeReader.TargetType =
          some (.ok (L "A[]"))) := by
  decide!

/-- C29: for every registry the program can reach (the standard registry of a
debug or of a release build after any sequence of `GetByReaderName`,
`GetByTargetType` and `Initialize` calls, so also one that holds a reader of
that name already) and every type name `T` that, once `StripAssemblyVersion` has
removed its assembly metadata, is non-empty, does not start with `[` and is
bracket-balanced, the manifest entry
``Microsoft.Xna.Framework.Content.ReflectiveReader`1[[T]]`` is accepted at
manifest load: `GetByReaderName` returns a reader, a `ReflectiveReader` whose
target type is `StripAssemblyVersion T` (that is `T` itself when `T` holds no
comma), and `Initialize` of it returns with the registry unchanged.  The failure
is deferred: `Read` of this reader fails on every input without consuming a byte
(the reader state is the same), and `ReadObject` fails so when the tag selects
the reader, having consumed the tag only. -/
theorem ReflectiveReader_deferred (calls : List ManagerCall) (NDEBUG : Bool) (T : wstring)
    (hne : StripAssemblyVersion T ≠ [])
    (h91 : (StripAssemblyVersion T).head? ≠ some 91)
    (hbalanced : isBalanced (StripAssemblyVersion T)) :
    ∃ reader m' object,
      TypeReaderManager.GetByReaderName (reflectiveReaderName T)
        (runCalls calls { standardManager with NDEBUG := NDEBUG }) = (.ok reader, m') ∧
      m'.deref reader = .ok object ∧
      object.ReaderName = reflectiveReaderName (StripAssemblyVersion T) ∧
      object.TargetType = .ok (StripAssemblyVersion T) ∧
      (44 ∉ T → object.TargetType = .ok T) ∧
      TypeReaderManager.Initialize reader m' = (.ok (), m') ∧
      (∀ (fuel : Nat) (r : ContentReader), r.typeReaderManager = m' →
        TypeReader.Read (fuel + 1) reader r = (.error .reflectiveReader, r)) ∧
      (∀ (fuel t : Nat) (r r1 : ContentReader), r.typeReaderManager = m' →
        ContentReader.Read7BitEncodedInt r = (.ok t, r1) → 1 ≤ t →
        r.typeReaders.get? (t - 1) = some reader →
          (ContentReader.ReadObject (TypeReader.Read (fuel + 1)) r).1 =
            .error .reflectiveReader ∧
          (ContentReader.ReadObject (TypeReader.Read (fuel + 1)) r).2.toBinaryReader =
            r1.toBinaryReader) := by
  obtain ⟨hfactories, hcreated⟩ :=
    runCalls_created calls { standardManager with NDEBUG := NDEBUG } standardManager_created
  have hfactory : findFactory GenericReaderClass.ReflectiveReader.GenericReaderName
      (runCalls calls { standardManager with NDEBUG := NDEBUG }).genericReaders =
        some .ReflectiveReader := by
    rw [hfactories]
    show findFactory GenericReaderClass.ReflectiveReader.GenericReaderName
      standardManager.genericReaders = some .ReflectiveReader
    decide
  obtain ⟨reader, m', g, hget, hderef, hcls, hargs, hname⟩ :=
    GetByReaderName_reflective_any _ T hne h91 (isBalanced_head _ hbalanced) hbalanced hfactory
      hcreated
  have htarget : (TypeReader.generic g).TargetType = .ok (StripAssemblyVersion T) := by
    simp only [TypeReader.TargetType, hcls, GenericTypeReader.GenericArgument, hargs,
      List.get?_cons_zero]
  refine ⟨reader, m', .generic g, hget, hderef, hname, htarget, fun hcomma => ?_,
    Initialize_reflective _ _ _ hderef hcls, fun fuel r hr => ?_,
    fun fuel t r r1 hr htag ht htable => ?_⟩
  · rw [htarget, StripAssemblyVersion_of_no_comma T hcomma]
  · exact Read_reflective fuel _ r _ (by rw [hr]; exact hderef) hcls
  · exact ReadObject_reflective fuel t reader r r1 g _ (by rw [hr]; exact hderef) hcls hargs
      htag ht htable

set_option maxRecDepth 100000 in
/-- C29, witness: the release build after a first entry for `MyGame.Thing`, and
a second entry for the assembly-qualified name `MyGame.Thing, MyGame`: the
reader of the first entry, reader 51, is returned, its target type is
`MyGame.Thing`, and its `Read` fails without consuming a byte. -/
theorem ReflectiveReader_deferred_witness :
    ∃ m' object,
      TypeReaderManager.GetByReaderName (reflectiveReaderName (L "MyGame.Thing, MyGame"))
        (runCalls [.GetByReaderName (reflectiveReaderName (L "MyGame.Thing"))]
          { standardManager with NDEBUG := true }) = (.ok 51, m') ∧
      m'.typeReaders.length = 52 ∧
      m'.deref 51 = .ok object ∧
      object.TargetType = .ok (L "MyGame.Thing") ∧
      TypeReaderManager.Initialize 51 m' = (.ok (), m') ∧
      ∀ (fuel : Nat) (r : ContentReader), r.typeReaderManager = m' →
        TypeReader.Read (fuel + 1) 51 r = (.error .reflectiveReader, r) := by
  have hstrip : StripAssemblyVersion (L "MyGame.Thing, MyGame") = L "MyGame.Thing" := by
    decide
  obtain ⟨reader, m', object, h1, h2, _, h4, _, h5, h6, _⟩ :=
    ReflectiveReader_deferred [.GetByReaderName (reflectiveReaderName (L "MyGame.Thing"))]
      true (L "MyGame.Thing, MyGame") (by rw [hstrip]; decide) (by rw [hstrip]; decide)
      (by rw [hstrip]; decide)
  have h51 : (TypeReaderManager.GetByReaderName
      (reflectiveReaderName (L "MyGame.Thing, MyGame"))
      (runCalls [.GetByReaderName (reflectiveReaderName (L "MyGame.Thing"))]
        { standardManager with NDEBUG := true })).1 = .ok 51 := by decide!
  have hlen : (TypeReaderManager.GetByReaderName
      (reflectiveReaderName (L "MyGame.Thing, MyGame"))
      (runCalls [.GetByReaderName (reflectiveReaderName (L "MyGame.Thing"))]
        { standardManager with NDEBUG := true })).2.typeReaders.length = 52 := by decide!
  rw [h1] at h51 hlen
  have hreader : reader = 51 := Except.ok.inj h51
  subst hreader
  rw [hstrip] at h4
  exact ⟨m', object, h1, hlen, h2, h4, h5, h6⟩

/-! ## C33: the bone references of `ModelReader::Read` -/

theorem length_boneReference (boneCount k : Nat) :
    (boneReference boneCount k).length = boneReferenceWidth boneCount := by
  unfold boneReference boneReferenceWidth
  split
  · rfl
  · exact length_littleEndian 4 k

theorem length_childrenPayload (boneCount : Nat) (children : List Nat) :
    (childrenPayload boneCount children).length =
      boneReferenceWidth boneCount * children.length := by
  induction children with
  | nil => rfl
  | cons k ks ih =>
    rw [childrenPayload, List.length_append, length_boneReference, ih, List.length_cons,
      Nat.mul_succ]
    omega

theorem BinaryReader.ReadByte_at (file : List Nat) (p k : Nat) (rest : List Nat)
    (hk : k < 2 ^ 8) (h : file.drop p = [k] ++ rest) :
    BinaryReader.ReadByte ⟨file, p⟩ = (.ok k, ⟨file, p + 1⟩) := by
  obtain ⟨pre, hfile, hp⟩ := exists_prefix_of_drop file p [k] rest (by simp) h
  subst hfile hp
  have hlt : pre.length < (pre ++ ([k] ++ rest)).length := by simp
  rw [BinaryReader.ReadByte_apply, if_pos hlt]
  have : byteAt (pre ++ ([k] ++ rest)) pre.length = k := by
    unfold byteAt
    rw [List.getD_eq_getElem?_getD, List.getElem?_append_right (Nat.le_refl _), Nat.sub_self]
    simp only [List.singleton_append, List.getElem?_cons_zero, Option.getD_some]
    omega
  rw [this]

/-- `ReadBoneReference` on the bytes of a reference of value `k`: it consumes
them and prints the reference. -/
theorem ReadBoneReference_at (boneCount k : Nat) (file : List Nat) (p : Nat)
    (rest : List Nat) (log : Logger) (m : TypeReaderManager) (table : List Nat)
    (hk : k < boneReferenceBound boneCount)
    (h : file.drop p = boneReference boneCount k ++ rest) :
    ReadBoneReference boneCount ⟨⟨file, p⟩, log, m, table⟩ =
      (.ok (), ⟨⟨file, p + boneReferenceWidth boneCount⟩, boneReferenceLog k log, m, table⟩) := by
  unfold ReadBoneReference boneReferenceLog
  unfold boneReferenceBound at hk
  unfold boneReference at h
  unfold boneReferenceWidth
  by_cases hb : boneCount < 255
  · rw [if_pos hb] at hk h ⊢
    rw [if_pos hb]
    have hread := BinaryReader.ReadByte_at file p k rest hk h
    simp only [Method.bind_apply, ContentReader.ReadByte, ContentReader.base_apply, hread,
      Method.ite_apply, ContentReader.WriteLine, ContentReader.log_apply]
    split <;> rfl
  · rw [if_neg hb] at hk h ⊢
    rw [if_neg hb]
    have hread := BinaryReader.ReadUInt32_at file p k rest hk h
    simp only [Method.bind_apply, ContentReader.ReadUInt32, ContentReader.base_apply, hread,
      Method.ite_apply, ContentReader.WriteLine, ContentReader.log_apply]
    split <;> rfl

/-- `ReadObject` on the tag 0: a null object. -/
theorem ReadObject_null_at (Read : Nat → Method ContentReader Unit) (file : List Nat) (p : Nat)
    (rest : List Nat) (log : Logger) (m : TypeReaderManager) (table : List Nat)
    (h : file.drop p = [0] ++ rest) :
    ContentReader.ReadObject Read ⟨⟨file, p⟩, log, m, table⟩ =
      (.ok (), ⟨⟨file, p + 1⟩, nullObjectLog log, m, table⟩) := by
  have htag := BinaryReader.Read7BitEncodedInt_at file p 0 rest (by decide) h
  simp only [ContentReader.ReadObject, ContentReader.ReadTypeId, Method.bind_apply,
    ContentReader.Indent, ContentReader.Unindent, ContentReader.log_apply,
    ContentReader.Read7BitEncodedInt, ContentReader.base_apply, htag, Method.ite_apply,
    gt_iff_lt, Nat.lt_irrefl, if_false, Method.pure_apply, ContentReader.WriteLine]
  rfl

theorem ContentReader.ReadSingle_at (file : List Nat) (p n : Nat) (rest : List Nat)
    (log : Logger) (m : TypeReaderManager) (table : List Nat)
    (hn : n < 2 ^ 32) (h : file.drop p = littleEndian 4 n ++ rest) :
    ContentReader.ReadSingle ⟨⟨file, p⟩, log, m, table⟩ =
      (.ok ⟨n⟩, ⟨⟨file, p + 4⟩, log, m, table⟩) := by
  have hread := BinaryReader.ReadUInt32_at file p n rest hn h
  simp only [ContentReader.ReadSingle, ContentReader.base_apply, BinaryReader.ReadSingle,
    Method.bind_apply, hread, Method.pure_apply]

/-- The loop that reads `count` floats, on bytes that are all 0. -/
theorem readSingles_zero (count : Nat) (file : List Nat) (p : Nat) (rest : List Nat)
    (log : Logger) (m : TypeReaderManager) (table : List Nat)
    (h : file.drop p = List.replicate (4 * count) 0 ++ rest) :
    readSingles count ⟨⟨file, p⟩, log, m, table⟩ =
      (.ok (List.replicate count ⟨0⟩), ⟨⟨file, p + 4 * count⟩, log, m, table⟩) := by
  induction count generalizing p with
  | zero => rfl
  | succ count ih =>
    have h' : file.drop p = littleEndian 4 0 ++ (List.replicate (4 * count) 0 ++ rest) := by
      rw [h, ← List.append_assoc]
      congr 1
    have hnext := drop_add_of_drop file p _ _ h'
    rw [length_littleEndian] at hnext
    have hpos : p + 4 + 4 * count = p + 4 * (count + 1) := by omega
    rw [readSingles, Method.bind_ok (ContentReader.ReadSingle_at file p 0 _ log m table
      (by decide) h'), Method.bind_ok (ih (p + 4) hnext), hpos]
    rfl

/-- `MatrixReader::Read` on 64 bytes that are 0. -/
theorem MatrixReader_Read_zero (file : List Nat) (p : Nat) (rest : List Nat)
    (log : Logger) (m : TypeReaderManager) (table : List Nat)
    (h : file.drop p = List.replicate 64 0 ++ rest) :
    MatrixReader.Read ⟨⟨file, p⟩, log, m, table⟩ =
      (.ok (), ⟨⟨file, p + 64⟩, zeroMatrixLog log, m, table⟩) := by
  unfold MatrixReader.Read
  rw [Method.bind_ok (readSingles_zero 16 file p rest log m table h)]
  rfl

/-- `BoundingSphereReader::Read` on 16 bytes that are 0. -/
theorem BoundingSphereReader_Read_zero (file : List Nat) (p : Nat) (rest : List Nat)
    (log : Logger) (m : TypeReaderManager) (table : List Nat)
    (h : file.drop p = List.replicate 16 0 ++ rest) :
    BoundingSphereReader.Read ⟨⟨file, p⟩, log, m, table⟩ =
      (.ok (), ⟨⟨file, p + 16⟩, zeroSphereLog log, m, table⟩) := by
  have h0 : file.drop p = littleEndian 4 0 ++ (List.replicate 12 0 ++ rest) := h
  have h1 : file.drop (p + 4) = littleEndian 4 0 ++ (List.replicate 8 0 ++ rest) :=
    drop_add_of_drop file p (littleEndian 4 0) _ h0
  have h2 : file.drop (p + 4 + 4) = littleEndian 4 0 ++ (List.replicate 4 0 ++ rest) :=
    drop_add_of_drop file (p + 4) (littleEndian 4 0) _ h1
  have h3 : file.drop (p + 4 + 4 + 4) = littleEndian 4 0 ++ rest :=
    drop_add_of_drop file (p + 4 + 4) (littleEndian 4 0) _ h2
  have r0 := BinaryReader.ReadUInt32_at file p 0 _ (by decide) h0
  have r1 := BinaryReader.ReadUInt32_at file (p + 4) 0 _ (by decide) h1
  have r2 := BinaryReader.ReadUInt32_at file (p + 4 + 4) 0 _ (by decide) h2
  have r3 := BinaryReader.ReadUInt32_at file (p + 4 + 4 + 4) 0 _ (by decide) h3
  simp only [BoundingSphereReader.Read, Vector3Reader.Read, Method.bind_apply,
    ContentReader.Write, ContentReader.WriteLine, ContentReader.log_apply,
    ContentReader.ReadSingle, ContentReader.base_apply, BinaryReader.ReadSingle, r0, r1, r2, r3,
    Method.pure_apply]
  rfl

/-- One iteration of the first loop of `ModelReader::Read`, on a bone with a null
name and a transform of zeros. -/
theorem ModelReader.bone_zero (Read : Nat → Method ContentReader Unit) (i : Nat)
    (file : List Nat) (p : Nat) (rest : List Nat) (log : Logger) (m : TypeReaderManager)
    (table : List Nat) (h : file.drop p = [0] ++ (List.replicate 64 0 ++ rest)) :
    (do
      ContentReader.WriteLine "Bone %u:" [.nat i]
      ContentReader.Indent
      ContentReader.WriteLine "Name:" []
      ContentReader.ReadObject Read
      ContentReader.WriteLine "Transform:" []
      ContentReader.Indent
      MatrixReader.Read
      ContentReader.Unindent
      ContentReader.Unindent) ⟨⟨file, p⟩, log, m, table⟩ =
      (.ok (), ⟨⟨file, p + 1 + 64⟩,
        ((zeroMatrixLog
          ((nullObjectLog (((log.WriteLine "Bone %u:" [.nat i]).Indent).WriteLine "Name:" [])
            ).WriteLine "Transform:" []).Indent).Unindent).Unindent, m, table⟩) := by
  have h1 := drop_add_of_drop file p _ _ h
  rw [List.length_singleton] at h1
  have hobject := fun log => ReadObject_null_at Read file p _ log m table h
  have hmatrix := fun log => MatrixReader_Read_zero file (p + 1) rest log m table h1
  simp only [Method.bind_apply, ContentReader.WriteLine, ContentReader.Indent,
    ContentReader.Unindent, ContentReader.log_apply, hobject, hmatrix]

/-- The first loop of `ModelReader::Read` on bones with null names and
transforms of zeros. -/
theorem ModelReader.bones_zero (Read : Nat → Method ContentReader Unit) (count i : Nat)
    (file : List Nat) (p : Nat) (rest : List Nat) (log : Logger) (m : TypeReaderManager)
    (table : List Nat) (h : file.drop p = bonesPayload count ++ rest) :
    forLoop.go (fun i => do
      ContentReader.WriteLine "Bone %u:" [.nat i]
      ContentReader.Indent
      ContentReader.WriteLine "Name:" []
      ContentReader.ReadObject Read
      ContentReader.WriteLine "Transform:" []
      ContentReader.Indent
      MatrixReader.Read
      ContentReader.Unindent
      ContentReader.Unindent) count i ⟨⟨file, p⟩, log, m, table⟩ =
      (.ok (), ⟨⟨file, p + 65 * count⟩, bonesLog count i log, m, table⟩) := by
  induction count generalizing i p log with
  | zero => rfl
  | succ count ih =>
    have h' : file.drop p = [0] ++ (List.replicate 64 0 ++ (bonesPayload count ++ rest)) := by
      rw [h, bonesPayload]
      simp only [List.append_assoc]
    have hnext : file.drop (p + 1 + 64) = bonesPayload count ++ rest := by
      have h1 := drop_add_of_drop file p _ _ h'
      have h2 := drop_add_of_drop file _ _ _ h1
      rw [List.length_singleton, List.length_replicate] at h2
      exact h2
    have hpos : p + 1 + 64 + 65 * count = p + 65 * (count + 1) := by omega
    rw [forLoop.go, Method.bind_ok (ModelReader.bone_zero Read i file p _ log m table h'),
      ih (i + 1) (p + 1 + 64) _ hnext, hpos]
    rfl

/-- The loop over the child references of a bone. -/
theorem ModelReader.children_at (boneCount : Nat) (children : List Nat) (i : Nat)
    (file : List Nat) (p : Nat) (rest : List Nat) (log : Logger) (m : TypeReaderManager)
    (table : List Nat) (hk : ∀ k ∈ children, k < boneReferenceBound boneCount)
    (h : file.drop p = childrenPayload boneCount children ++ rest) :
    forLoop.go (fun _ => ReadBoneReference boneCount) children.length i
        ⟨⟨file, p⟩, log, m, table⟩ =
      (.ok (), ⟨⟨file, p + boneReferenceWidth boneCount * children.length⟩,
        childrenLog children log, m, table⟩) := by
  induction children generalizing i p log with
  | nil => rfl
  | cons k ks ih =>
    have h' : file.drop p =
        boneReference boneCount k ++ (childrenPayload boneCount ks ++ rest) := by
      rw [h, childrenPayload, List.append_assoc]
    have hnext := drop_add_of_drop file p _ _ h'
    rw [length_boneReference] at hnext
    have hpos : p + boneReferenceWidth boneCount + boneReferenceWidth boneCount * ks.length =
        p + boneReferenceWidth boneCount * (k :: ks).length := by
      rw [List.length_cons, Nat.mul_succ]
      omega
    rw [List.length_cons, forLoop.go,
      Method.bind_ok (ReadBoneReference_at boneCount k file p _ log m table
        (hk k (List.mem_cons_self _ _)) h'),
      ih (i + 1) _ _ (fun x hx => hk x (List.mem_cons_of_mem _ hx)) hnext, hpos]
    rfl

/-- One iteration of the second loop of `ModelReader::Read`: the parent
reference, the number of children and the child references of a bone. -/
theorem ModelReader.hierarchy_entry (boneCount i parent : Nat) (children : List Nat)
    (file : List Nat) (p : Nat) (rest : List Nat) (log : Logger) (m : TypeReaderManager)
    (table : List Nat) (hparent : parent < boneReferenceBound boneCount)
    (hk : ∀ k ∈ children, k < boneReferenceBound boneCount)
    (hcount : children.length < 2 ^ 32)
    (h : file.drop p = boneReference boneCount parent ++
      (littleEndian 4 children.length ++ (childrenPayload boneCount children ++ rest))) :
    (do
      ContentReader.WriteLine "Bone %u hierarchy:" [.nat i]
      ContentReader.Indent
      ContentReader.Write "Parent: " []
      ReadBoneReference boneCount
      let childCount ← ContentReader.ReadUInt32
      (if childCount ≠ 0 then do
         ContentReader.WriteLine "Children:" []
         ContentReader.Indent
         forLoop childCount fun _ => ReadBoneReference boneCount
         ContentReader.Unindent
       else pure ())
      ContentReader.Unindent) ⟨⟨file, p⟩, log, m, table⟩ =
      (.ok (), ⟨⟨file, p + boneReferenceWidth boneCount + 4 +
          boneReferenceWidth boneCount * children.length⟩,
        (if children.length ≠ 0 then
          (childrenLog children
            (((boneReferenceLog parent
              ((((log.WriteLine "Bone %u hierarchy:" [.nat i]).Indent).Write "Parent: " []))
              ).WriteLine "Children:" []).Indent)).Unindent
        else boneReferenceLog parent
          ((((log.WriteLine "Bone %u hierarchy:" [.nat i]).Indent).Write "Parent: " []))
          ).Unindent, m, table⟩) := by
  have h1 := drop_add_of_drop file p _ _ h
  rw [length_boneReference] at h1
  have h2 := drop_add_of_drop file _ _ _ h1
  rw [length_littleEndian] at h2
  have hparentRead := fun log => ReadBoneReference_at boneCount parent file p _ log m table
    hparent h
  have hcountRead := BinaryReader.ReadUInt32_at file _ children.length _ hcount h1
  have hloop := fun log => ModelReader.children_at boneCount children 0 file _ rest log m table
    hk h2
  by_cases hzero : children.length = 0
  · have hnil : children = [] := List.length_eq_zero.1 hzero
    subst hnil
    simp only [Method.bind_apply, ContentReader.WriteLine, ContentReader.Write,
      ContentReader.Indent, ContentReader.Unindent, ContentReader.log_apply, hparentRead,
      ContentReader.ReadUInt32, ContentReader.base_apply, hcountRead, List.length_nil,
      ne_eq, not_true_eq_false, if_false, Method.pure_apply, Nat.mul_zero, Nat.add_zero]
  · simp only [Method.bind_apply, ContentReader.WriteLine, ContentReader.Write,
      ContentReader.Indent, ContentReader.Unindent, ContentReader.log_apply, hparentRead,
      ContentReader.ReadUInt32, ContentReader.base_apply, hcountRead,
      ne_eq, hzero, not_false_eq_true, if_true, forLoop, hloop]

/-- The second loop of `ModelReader::Read` over the hierarchy of a model. -/
theorem ModelReader.hierarchy_at (boneCount : Nat) (hierarchy : List (Nat × List Nat))
    (i : Nat) (file : List Nat) (p : Nat) (rest : List Nat) (log : Logger)
    (m : TypeReaderManager) (table : List Nat)
    (hk : ∀ entry ∈ hierarchy, entry.1 < boneReferenceBound boneCount ∧
      (∀ k ∈ entry.2, k < boneReferenceBound boneCount) ∧ entry.2.length < 2 ^ 32)
    (h : file.drop p = hierarchyPayload boneCount hierarchy ++ rest) :
    forLoop.go (fun i => do
      ContentReader.WriteLine "Bone %u hierarchy:" [.nat i]
      ContentReader.Indent
      ContentReader.Write "Parent: " []
      ReadBoneReference boneCount
      let childCount ← ContentReader.ReadUInt32
      (if childCount ≠ 0 then do
         ContentReader.WriteLine "Children:" []
         ContentReader.Indent
         forLoop childCount fun _ => ReadBoneReference boneCount
         ContentReader.Unindent
       else pure ())
      ContentReader.Unindent) hierarchy.length i ⟨⟨file, p⟩, log, m, table⟩ =
      (.ok (), ⟨⟨file, p + hierarchySize boneCount hierarchy⟩,
        hierarchyLog hierarchy i log, m, table⟩) := by
  induction hierarchy generalizing i p log with
  | nil => rfl
  | cons entry entries ih =>
    obtain ⟨parent, children⟩ := entry
    obtain ⟨hparent, hchildren, hcount⟩ := hk (parent, children) (List.mem_cons_self _ _)
    have h' : file.drop p = boneReference boneCount parent ++
        (littleEndian 4 children.length ++ (childrenPayload boneCount children ++
          (hierarchyPayload boneCount entries ++ rest))) := by
      rw [h, hierarchyPayload]
      simp only [List.append_assoc]
    have hnext : file.drop (p + boneReferenceWidth boneCount + 4 +
        boneReferenceWidth boneCount * children.length) =
          hierarchyPayload boneCount entries ++ rest := by
      have h1 := drop_add_of_drop file p _ _ h'
      have h2 := drop_add_of_drop file _ _ _ h1
      have h3 := drop_add_of_drop file _ _ _ h2
      rw [length_boneReference, length_littleEndian, length_childrenPayload] at h3
      exact h3
    have hpos : p + boneReferenceWidth boneCount + 4 +
        boneReferenceWidth boneCount * children.length + hierarchySize boneCount entries =
        p + hierarchySize boneCount ((parent, children) :: entries) := by
      rw [hierarchySize]
      omega
    rw [List.length_cons, forLoop.go,
      Method.bind_ok (ModelReader.hierarchy_entry boneCount i parent children file p _ log m
        table hparent hchildren hcount h'),
      ih (i + 1) _ _ (fun x hx => hk x (List.mem_cons_of_mem _ hx)) hnext, hpos]
    rfl

theorem length_bonesPayload (count : Nat) : (bonesPayload count).length = 65 * count := by
  induction count with
  | zero => rfl
  | succ count ih =>
    rw [bonesPayload, List.length_append, ih]
    simp only [List.length_append, List.length_singleton, List.length_replicate]
    omega

theorem length_hierarchyPayload (boneCount : Nat) (hierarchy : List (Nat × List Nat)) :
    (hierarchyPayload boneCount hierarchy).length = hierarchySize boneCount hierarchy := by
  induction hierarchy with
  | nil => rfl
  | cons entry entries ih =>
    obtain ⟨parent, children⟩ := entry
    rw [hierarchyPayload, hierarchySize]
    simp only [List.length_append, length_boneReference, length_littleEndian,
      length_childrenPayload, ih]
    omega

theorem length_meshesPayload (boneCount : Nat) (meshParents : List Nat) :
    (meshesPayload boneCount meshParents).length =
      (22 + boneReferenceWidth boneCount) * meshParents.length := by
  induction meshParents with
  | nil => rfl
  | cons k ks ih =>
    rw [meshesPayload, List.length_cons, Nat.mul_succ]
    simp only [List.length_append, length_boneReference, length_littleEndian,
      List.length_singleton, List.length_replicate, ih]
    omega

theorem ContentReader.ReadUInt32_cursor (file : List Nat) (p n : Nat) (rest : List Nat)
    (log : Logger) (m : TypeReaderManager) (table : List Nat)
    (hn : n < 2 ^ 32) (h : file.drop p = littleEndian 4 n ++ rest) :
    ContentReader.ReadUInt32 ⟨⟨file, p⟩, log, m, table⟩ =
      (.ok n, ⟨⟨file, p + 4⟩, log, m, table⟩) := by
  have hread := BinaryReader.ReadUInt32_at file p n rest hn h
  simp only [ContentReader.ReadUInt32, ContentReader.base_apply, hread]

theorem ContentReader.WriteLine_at (format : String) (args : List PrintfArg) (file : List Nat)
    (p : Nat) (log : Logger) (m : TypeReaderManager) (table : List Nat) :
    ContentReader.WriteLine format args ⟨⟨file, p⟩, log, m, table⟩ =
      (.ok (), ⟨⟨file, p⟩, log.WriteLine format args, m, table⟩) := rfl

theorem ContentReader.Write_at (format : String) (args : List PrintfArg) (file : List Nat)
    (p : Nat) (log : Logger) (m : TypeReaderManager) (table : List Nat) :
    ContentReader.Write format args ⟨⟨file, p⟩, log, m, table⟩ =
      (.ok (), ⟨⟨file, p⟩, log.Write format args, m, table⟩) := rfl

/-- One iteration of the third loop of `ModelReader::Read`, on a mesh without
parts that has a null name, a bounding sphere of zeros and a null tag. -/
theorem ModelReader.mesh_at (Read : Nat → Method ContentReader Unit) (boneCount i k : Nat)
    (file : List Nat) (p : Nat) (rest : List Nat) (log : Logger) (m : TypeReaderManager)
    (table : List Nat) (hk : k < boneReferenceBound boneCount)
    (h : file.drop p = [0] ++ (boneReference boneCount k ++
      (List.replicate 16 0 ++ ([0] ++ (littleEndian 4 0 ++ rest))))) :
    (do
      ContentReader.WriteLine "Mesh %u" [.nat i]
      ContentReader.Indent
      ContentReader.WriteLine "Mesh name:" []
      ContentReader.ReadObject Read
      ContentReader.Write "Mesh parent: " []
      ReadBoneReference boneCount
      ContentReader.WriteLine "Mesh bounds:" []
      ContentReader.Indent
      BoundingSphereReader.Read
      ContentReader.Unindent
      ContentReader.WriteLine "Mesh tag:" []
      ContentReader.ReadObject Read
      -- Read the mesh part data.
      let partCount ← ContentReader.ReadUInt32
      ContentReader.WriteLine "Mesh part count: %u" [.nat partCount]
      forLoop partCount fun j => do
        ContentReader.WriteLine "Mesh part %u" [.nat j]
        ContentReader.Indent
        ContentReader.WriteLine "Vertex offset: %d" [.int (← ContentReader.ReadInt32)]
        ContentReader.WriteLine "Num vertices: %d" [.int (← ContentReader.ReadInt32)]
        ContentReader.WriteLine "Start index: %d" [.int (← ContentReader.ReadInt32)]
        ContentReader.WriteLine "Primitive count: %d" [.int (← ContentReader.ReadInt32)]
        ContentReader.WriteLine "Mesh part tag:" []
        ContentReader.ReadObject Read
        ContentReader.Write "Vertex buffer: " []
        ContentReader.ReadSharedResource
        ContentReader.Write "Index buffer: " []
        ContentReader.ReadSharedResource
        ContentReader.Write "Effect: " []
        ContentReader.ReadSharedResource
        ContentReader.Unindent
      ContentReader.Unindent) ⟨⟨file, p⟩, log, m, table⟩ =
      (.ok (), ⟨⟨file, p + 1 + boneReferenceWidth boneCount + 16 + 1 + 4⟩,
        (((nullObjectLog
          (((zeroSphereLog
            (((boneReferenceLog k
              ((nullObjectLog
                (((log.WriteLine "Mesh %u" [.nat i]).Indent).WriteLine "Mesh name:" [])
                ).Write "Mesh parent: " [])
              ).WriteLine "Mesh bounds:" []).Indent)).Unindent).WriteLine "Mesh tag:" [])
          ).WriteLine "Mesh part count: %u" [.nat 0]).Unindent), m, table⟩) := by
  have h1 := drop_add_of_drop file p _ _ h
  rw [List.length_singleton] at h1
  have h2 := drop_add_of_drop file _ _ _ h1
  rw [length_boneReference] at h2
  have h3 := drop_add_of_drop file _ _ _ h2
  rw [List.length_replicate] at h3
  have h4 := drop_add_of_drop file _ _ _ h3
  rw [List.length_singleton] at h4
  have hname := fun log => ReadObject_null_at Read file p _ log m table h
  have hparent := fun log => ReadBoneReference_at boneCount k file _ _ log m table hk h1
  have hsphere := fun log => BoundingSphereReader_Read_zero file _ _ log m table h2
  have htag := fun log => ReadObject_null_at Read file _ _ log m table h3
  have hcount := BinaryReader.ReadUInt32_at file _ 0 _ (by decide) h4
  simp only [Method.bind_apply, ContentReader.WriteLine, ContentReader.Write,
    ContentReader.Indent, ContentReader.Unindent, ContentReader.log_apply, hname, hparent,
    hsphere, htag, ContentReader.ReadUInt32, ContentReader.base_apply, hcount, forLoop,
    forLoop.go, Method.pure_apply]

/-- The third loop of `ModelReader::Read` over such meshes. -/
theorem ModelReader.meshes_at (Read : Nat → Method ContentReader Unit) (boneCount : Nat)
    (meshParents : List Nat) (i : Nat) (file : List Nat) (p : Nat) (rest : List Nat)
    (log : Logger) (m : TypeReaderManager) (table : List Nat)
    (hk : ∀ k ∈ meshParents, k < boneReferenceBound boneCount)
    (h : file.drop p = meshesPayload boneCount meshParents ++ rest) :
    forLoop.go (fun i => do
      ContentReader.WriteLine "Mesh %u" [.nat i]
      ContentReader.Indent
      ContentReader.WriteLine "Mesh name:" []
      ContentReader.ReadObject Read
      ContentReader.Write "Mesh parent: " []
      ReadBoneReference boneCount
      ContentReader.WriteLine "Mesh bounds:" []
      ContentReader.Indent
      BoundingSphereReader.Read
      ContentReader.Unindent
      ContentReader.WriteLine "Mesh tag:" []
      ContentReader.ReadObject Read
      -- Read the mesh part data.
      let partCount ← ContentReader.ReadUInt32
      ContentReader.WriteLine "Mesh part count: %u" [.nat partCount]
      forLoop partCount fun j => do
        ContentReader.WriteLine "Mesh part %u" [.nat j]
        ContentReader.Indent
        ContentReader.WriteLine "Vertex offset: %d" [.int (← ContentReader.ReadInt32)]
        ContentReader.WriteLine "Num vertices: %d" [.int (← ContentReader.ReadInt32)]
        ContentReader.WriteLine "Start index: %d" [.int (← ContentReader.ReadInt32)]
        ContentReader.WriteLine "Primitive count: %d" [.int (← ContentReader.ReadInt32)]
        ContentReader.WriteLine "Mesh part tag:" []
        ContentReader.ReadObject Read
        ContentReader.Write "Vertex buffer: " []
        ContentReader.ReadSharedResource
        ContentReader.Write "Index buffer: " []
        ContentReader.ReadSharedResource
        ContentReader.Write "Effect: " []
        ContentReader.ReadSharedResource
        ContentReader.Unindent
      ContentReader.Unindent) meshParents.length i ⟨⟨file, p⟩, log, m, table⟩ =
      (.ok (), ⟨⟨file, p + (22 + boneReferenceWidth boneCount) * meshParents.length⟩,
        meshesLog meshParents i log, m, table⟩) := by
  induction meshParents generalizing i p log with
  | nil => rfl
  | cons k ks ih =>
    have h' : file.drop p = [0] ++ (boneReference boneCount k ++
        (List.replicate 16 0 ++ ([0] ++ (littleEndian 4 0 ++
          (meshesPayload boneCount ks ++ rest))))) := by
      rw [h, meshesPayload]
      simp only [List.append_assoc]
    have hnext : file.drop (p + 1 + boneReferenceWidth boneCount + 16 + 1 + 4) =
        meshesPayload boneCount ks ++ rest := by
      have h1 := drop_add_of_drop file p _ _ h'
      have h2 := drop_add_of_drop file _ _ _ h1
      have h3 := drop_add_of_drop file _ _ _ h2
      have h4 := drop_add_of_drop file _ _ _ h3
      have h5 := drop_add_of_drop file _ _ _ h4
      rw [List.length_singleton, length_boneReference, List.length_replicate,
        length_littleEndian] at h5
      exact h5
    have hpos : p + 1 + boneReferenceWidth boneCount + 16 + 1 + 4 +
        (22 + boneReferenceWidth boneCount) * ks.length =
        p + (22 + boneReferenceWidth boneCount) * (k :: ks).length := by
      rw [List.length_cons, Nat.mul_succ]
      omega
    rw [List.length_cons, forLoop.go,
      Method.bind_ok (ModelReader.mesh_at Read boneCount i k file p _ log m table
        (hk k (List.mem_cons_self _ _)) h'),
      ih (i + 1) _ _ (fun x hx => hk x (List.mem_cons_of_mem _ hx)) hnext, hpos]
    rfl

/-- `ModelReader::Read` on the bytes of a skeleton model, from any position of a
file. -/
theorem ModelReader.Read_at (Read : Nat → Method ContentReader Unit)
    (hierarchy : List (Nat × List Nat)) (meshParents : List Nat) (root : Nat)
    (file : List Nat) (p : Nat) (rest : List Nat) (log : Logger) (m : TypeReaderManager)
    (table : List Nat)
    (hbones : hierarchy.length < 2 ^ 32) (hmeshes : meshParents.length < 2 ^ 32)
    (hhierarchy : ∀ entry ∈ hierarchy, entry.1 < boneReferenceBound hierarchy.length ∧
      (∀ k ∈ entry.2, k < boneReferenceBound hierarchy.length) ∧ entry.2.length < 2 ^ 32)
    (hparents : ∀ k ∈ meshParents, k < boneReferenceBound hierarchy.length)
    (hroot : root < boneReferenceBound hierarchy.length)
    (h : file.drop p = skeletonModel hierarchy meshParents root ++ rest) :
    ModelReader.Read Read ⟨⟨file, p⟩, log, m, table⟩ =
      (.ok (), ⟨⟨file, p + (skeletonModel hierarchy meshParents root).length⟩,
        skeletonLog hierarchy meshParents root log, m, table⟩) := by
  have h0 : file.drop p = littleEndian 4 hierarchy.length ++
      (bonesPayload hierarchy.length ++
        (hierarchyPayload hierarchy.length hierarchy ++
          (littleEndian 4 meshParents.length ++
            (meshesPayload hierarchy.length meshParents ++
              (boneReference hierarchy.length root ++ ([0] ++ rest)))))) := by
    rw [h, skeletonModel]
    simp only [List.append_assoc]
  have h1 := drop_add_of_drop file p _ _ h0
  rw [length_littleEndian] at h1
  have h2 := drop_add_of_drop file _ _ _ h1
  rw [length_bonesPayload] at h2
  have h3 := drop_add_of_drop file _ _ _ h2
  rw [length_hierarchyPayload] at h3
  have h4 := drop_add_of_drop file _ _ _ h3
  rw [length_littleEndian] at h4
  have h5 := drop_add_of_drop file _ _ _ h4
  rw [length_meshesPayload] at h5
  have h6 := drop_add_of_drop file _ _ _ h5
  rw [length_boneReference] at h6
  have hlength : (skeletonModel hierarchy meshParents root).length =
      4 + 65 * hierarchy.length + hierarchySize hierarchy.length hierarchy + 4 +
        (22 + boneReferenceWidth hierarchy.length) * meshParents.length +
        boneReferenceWidth hierarchy.length + 1 := by
    rw [skeletonModel]
    simp only [List.length_append, length_littleEndian, length_bonesPayload,
      length_hierarchyPayload, length_meshesPayload, length_boneReference,
      List.length_singleton]
    omega
  have hpos : p + 4 + 65 * hierarchy.length + hierarchySize hierarchy.length hierarchy + 4 +
      (22 + boneReferenceWidth hierarchy.length) * meshParents.length +
      boneReferenceWidth hierarchy.length + 1 =
      p + (skeletonModel hierarchy meshParents root).length := by
    rw [hlength]
    omega
  unfold ModelReader.Read
  rw [Method.bind_ok (ContentReader.ReadUInt32_cursor file p _ _ log m table hbones h0),
    Method.bind_ok (ContentReader.WriteLine_at _ _ _ _ _ _ _),
    Method.bind_ok (show forLoop _ _ _ = _ from
      ModelReader.bones_zero Read hierarchy.length 0 file _ _ _ m table h1),
    Method.bind_ok (show forLoop _ _ _ = _ from
      ModelReader.hierarchy_at hierarchy.length hierarchy 0 file _ _ _ m table hhierarchy h2),
    Method.bind_ok (ContentReader.ReadUInt32_cursor file _ _ _ _ m table hmeshes h3),
    Method.bind_ok (ContentReader.WriteLine_at _ _ _ _ _ _ _),
    Method.bind_ok (show forLoop _ _ _ = _ from
      ModelReader.meshes_at Read hierarchy.length meshParents 0 file _ _ _ m table hparents h4),
    Method.bind_ok (ContentReader.Write_at _ _ _ _ _ _ _),
    Method.bind_ok (ReadBoneReference_at hierarchy.length root file _ _ _ m table hroot h5),
    Method.bind_ok (ContentReader.WriteLine_at _ _ _ _ _ _ _),
    ReadObject_null_at Read file _ rest _ m table h6, hpos]
  rfl

/-- C33: for every bone count `b` (the number of entries of `hierarchy`, below
255 or not) and all values of the bone references that fit their encoding,
`ModelReader::Read` reads a model whose parent, child, mesh parent and model root
references are each laid out as one byte when `b < 255` and as four little-endian
bytes when `b >= 255` (`boneReference`): it returns, it has consumed exactly the
bytes of the model whatever follows them, which are `boneReferenceWidth b` bytes
for each reference besides the bytes of the other fields, and it has printed each
reference of value 0 as null and each reference of value `k > 0` as bone
`#(k-1)` (`boneReferenceLog`, at its place in `skeletonLog`).  And in every
reader state `ReadBoneReference`, through which `ModelReader::Read` reads all
four kinds of reference, reads exactly one byte when `b < 255` and exactly four
little-endian bytes when `b >= 255`, fails when they are not there, and prints
the value 0 as null and a value `k > 0` as bone `#(k-1)`. -/
theorem ModelReader_Read_boneReferences (Read : Nat → Method ContentReader Unit)
    (hierarchy : List (Nat × List Nat)) (meshParents : List Nat) (root : Nat)
    (rest : List Nat) (m : TypeReaderManager)
    (hbones : hierarchy.length < 2 ^ 32) (hmeshes : meshParents.length < 2 ^ 32)
    (hhierarchy : ∀ entry ∈ hierarchy, entry.1 < boneReferenceBound hierarchy.length ∧
      (∀ k ∈ entry.2, k < boneReferenceBound hierarchy.length) ∧ entry.2.length < 2 ^ 32)
    (hparents : ∀ k ∈ meshParents, k < boneReferenceBound hierarchy.length)
    (hroot : root < boneReferenceBound hierarchy.length) :
    ModelReader.Read Read
        (ContentReader.new (skeletonModel hierarchy meshParents root ++ rest) m) =
      (.ok (), { ContentReader.new (skeletonModel hierarchy meshParents root ++ rest) m with
        position := (skeletonModel hierarchy meshParents root).length
        Log := skeletonLog hierarchy meshParents root Logger.new }) ∧
    (skeletonModel hierarchy meshParents root).length =
      4 + 65 * hierarchy.length + hierarchySize hierarchy.length hierarchy + 4 +
        (22 + boneReferenceWidth hierarchy.length) * meshParents.length +
        boneReferenceWidth hierarchy.length + 1 ∧
    (∀ (boneCount : Nat) (r : ContentReader), r.position ≤ r.file.length →
      (boneCount < 255 → r.position < r.file.length →
        ReadBoneReference boneCount r =
          (.ok (), { r with
            position := r.position + 1
            Log := if byteAt r.file r.position ≠ 0 then
                r.Log.WriteLine "bone #%u" [.nat (byteAt r.file r.position - 1)]
              else r.Log.WriteLine "null" [] })) ∧
      (boneCount < 255 → r.file.length ≤ r.position →
        ReadBoneReference boneCount r = (.error .errorReadingFile, r)) ∧
      (255 ≤ boneCount → r.position + 4 ≤ r.file.length →
        ReadBoneReference boneCount r =
          (.ok (), { r with
            position := r.position + 4
            Log := if uint32At r.file r.position ≠ 0 then
                r.Log.WriteLine "bone #%u" [.nat (uint32At r.file r.position - 1)]
              else r.Log.WriteLine "null" [] })) ∧
      (255 ≤ boneCount → r.file.length < r.position + 4 →
        (ReadBoneReference boneCount r).1 = .error .errorReadingFile)) := by
  refine ⟨?_, ?_, fun boneCount r hp => ReadBoneReference_width boneCount r hp⟩
  · have h := ModelReader.Read_at Read hierarchy meshParents root
      (skeletonModel hierarchy meshParents root ++ rest) 0 rest Logger.new m [] hbones hmeshes
      hhierarchy hparents hroot rfl
    rw [Nat.zero_add] at h
    exact h
  · rw [skeletonModel]
    simp only [List.length_append, length_littleEndian, length_bonesPayload,
      length_hierarchyPayload, length_meshesPayload, length_boneReference,
      List.length_singleton]
    omega

set_option maxRecDepth 100000 in
/-- C33, witness: a model of 255 bones, each with the parent reference 1 and the
child references 2 and 0, with one mesh whose parent reference is 255 and with
the model root 3, followed by one more byte: every reference takes four bytes,
and `ModelReader::Read` stops after the 20694 bytes of the model. -/
theorem ModelReader_Read_boneReferences_witness :
    (skeletonModel (List.replicate 255 (1, [2, 0])) [255] 3).length = 20694 ∧
    boneReference 255 3 = [3, 0, 0, 0] ∧
    ModelReader.Read (TypeReader.Read 0)
        (ContentReader.new (skeletonModel (List.replicate 255 (1, [2, 0])) [255] 3 ++ [7])
          standardManager) =
      (.ok (), { ContentReader.new
          (skeletonModel (List.replicate 255 (1, [2, 0])) [255] 3 ++ [7]) standardManager with
        position := 20694
        Log := skeletonLog (List.replicate 255 (1, [2, 0])) [255] 3 Logger.new }) := by
  have h := ModelReader_Read_boneReferences (TypeReader.Read 0) (List.replicate 255 (1, [2, 0]))
    [255] 3 [7] standardManager (by decide) (by decide)
    (fun entry hentry => by
      rw [List.eq_of_mem_replicate hentry]
      decide)
    (by decide) (by decide)
  have hlength : (skeletonModel (List.replicate 255 (1, [2, 0])) [255] 3).length = 20694 := by
    rw [h.2.1]
    decide
  refine ⟨hlength, by decide, ?_⟩
  rw [h.1, hlength]

end ParseXnb
